import Mathlib

/-!
# Fl_Group (src/src/Fl_Group.cxx): child management, focus bookkeeping, layout snapshot

A shallow embedding of the container widget of the toolkit.

* Objects live in a heap addressed by natural numbers.  Every object has the
  base-class part `Fl_Widget`; an object that is an `Fl_Group` additionally has
  the derived part `Fl_Group`.  A `Fl_Widget*` that may be null is an
  `Option Nat`; a reference `Fl_Widget&` is a `Nat`.
* `int` values are `Int`.  The child counts and indices handled here stay far
  below `2^31`, so no wrap-around is modelled for them.  The one product of
  two `int` in these sources, `dw * (X-IX)` in `layout()`, is taken in 32-bit
  arithmetic (`wrap32`): it leaves the range of `int` already for coordinates
  of five digits.
* `array_` is the allocated block of child pointers: the length of the list is
  the number of allocated slots.  Every access is bounds checked; an access
  outside the block (undefined behaviour in C++) makes the operation return
  `none`.  Slots that `malloc`/`realloc` leave uninitialised hold the filler
  value `0`; the code never reads them before writing them.
* Loops are structural recursions on an iteration budget that equals the
  number of iterations the C++ loop performs; the loop condition is still
  tested in the body.  The ancestor walks of `find` and `contains` and the
  navigation loop of `handle` have no a-priori bound and take an explicit
  `fuel`; running out of fuel gives `none`.
* Virtual calls into a child (`handle`, `take_focus`, `layout`, `resize`, the
  destructor) run code of the class of the child, not code of the group.  The
  answers of `handle` and `take_focus` are parameters (`Children`), `resize`
  of a child stores the geometry it is given, `layout` and the destructor
  leave the modelled state alone.
* Where a property is about the order of the calls into the children, the
  loop is given a second time with a record of these calls (`clear_trace`,
  `handle_take_focus_calls`, `nav_loop_calls`); dropping the record gives the
  plain function.
* The device types of `src/FL/Fl_Device.H` and the flag tests of
  `src/fltk3/MenuItem.h` are embedded at the end of the definitions.
* The widget base class and the header of the group are not part of the
  sources.  The accessors used from them (`parent()`, `x()`, `child(n)`,
  `ow()`, ...) read the field of the same name; every function that had to be
  modelled from the specification says so in its comment.

The definitions come first (data model, the member functions in the order of
the source file, the reachable heaps, the heaps used as concrete inputs); the
theorems follow.
-/

namespace Fltk

/-! ## Data model -/

/-- Base-class state (`Fl_Widget`) read or written by `Fl_Group.cxx`. -/
structure Fl_Widget where
  /-- `parent()`: the owning group, `none` for the null pointer. -/
  parent_ : Option Nat
  x_ : Int
  y_ : Int
  w_ : Int
  h_ : Int
  /-- `visible()`. -/
  visible_ : Bool
  /-- `takesevents()`. -/
  takesevents_ : Bool
  /-- `is_window()`. -/
  is_window_ : Bool

/-- Derived-class state of `Fl_Group` (the members initialised by its constructor). -/
structure Fl_Group where
  children_ : Int
  focus_ : Int
  /-- The allocated block of child pointers (`Fl_Widget** array_`). -/
  array_ : List Nat
  /-- `resizable()`, `none` for the null pointer. -/
  resizable_ : Option Nat
  /-- The cached `sizes_` array, `none` for the null pointer. -/
  sizes_ : Option (List Int)
  ox_ : Int
  oy_ : Int
  ow_ : Int
  oh_ : Int

/-- The object heap: base part and group part of every object. -/
structure Heap where
  widget : Nat → Fl_Widget
  group : Nat → Fl_Group

/-- Bounds-checked read `a[i]` of an allocated block. -/
def rd {α : Type} (a : List α) (i : Int) : Option α :=
  if 0 ≤ i then a[i.toNat]? else none

/-- Bounds-checked write `a[i] = v` into an allocated block. -/
def wr {α : Type} (a : List α) (i : Int) (v : α) : Option (List α) :=
  if 0 ≤ i ∧ i < (a.length : Int) then some (a.set i.toNat v) else none

/-- The setter `o->parent(p)`. -/
def Heap.set_parent (s : Heap) (o : Nat) (p : Option Nat) : Heap :=
  { s with widget := Function.update s.widget o { s.widget o with parent_ := p } }

/-- Replace the group part of object `g`. -/
def Heap.set_group (s : Heap) (g : Nat) (G : Fl_Group) : Heap :=
  { s with group := Function.update s.group g G }

/-- The accessor `child(n)` of the group header: `array_[n]`. -/
def Fl_Group.child (s : Heap) (this : Nat) (n : Int) : Option Nat :=
  rd (s.group this).array_ n

/-- The children of a group as a sequence: the first `children_` slots of `array_`. -/
def Fl_Group.kids (s : Heap) (this : Nat) : List Nat :=
  (s.group this).array_.take (s.group this).children_.toNat

/-! ## init_sizes -/

/-- Modelled from the spec: `set_old_size()` is declared in the group header, which is
not part of the sources; it records the current geometry of the group as the baseline
`original_bounds` (`ox_`, `oy_`, `ow_`, `oh_`). -/
def Fl_Group.set_old_size (s : Heap) (this : Nat) : Heap :=
  s.set_group this { s.group this with
    ox_ := (s.widget this).x_, oy_ := (s.widget this).y_,
    ow_ := (s.widget this).w_, oh_ := (s.widget this).h_ }

/-- Modelled from the spec: `relayout()` belongs to the widget base class, which is not
part of the sources; it only schedules a later layout pass (damage bits), which is no
part of the state modelled here. -/
def Fl_Widget.relayout (s : Heap) (_this : Nat) : Heap := s

/-- The member function `Fl_Group::init_sizes`: delete the snapshot, record the size, ask for a layout. -/
def Fl_Group.init_sizes (s : Heap) (this : Nat) : Heap :=
  let s1 := s.set_group this { s.group this with sizes_ := none }
  let s2 := Fl_Group.set_old_size s1 this
  Fl_Widget.relayout s2 this

/-! ## remove -/

/-- The loop `for (int i=index; i < children_; ++i) array_[i] = array_[i+1];` of
`Fl_Group::remove`; the first argument is the (already decremented) `children_`. -/
def Fl_Group.remove_loop (children_ : Int) : Nat → Int → List Nat → Option (List Nat)
  | 0, i, a => if i < children_ then none else some a
  | k + 1, i, a =>
    if i < children_ then
      (rd a (i + 1)).bind fun v =>
      (wr a i v).bind fun a1 =>
      Fl_Group.remove_loop children_ k (i + 1) a1
    else some a

/-- The member function `Fl_Group::remove(int index)`. -/
def Fl_Group.remove (s : Heap) (this : Nat) (index : Int) : Option Heap :=
  if index ≥ (s.group this).children_ then some s
  else
    (rd (s.group this).array_ index).bind fun o =>
    let s1 := s.set_parent o none
    let c := (s1.group this).children_ - 1
    (Fl_Group.remove_loop c (c - index).toNat index (s1.group this).array_).bind fun a =>
    let s2 := s1.set_group this { s1.group this with children_ := c, array_ := a }
    some (Fl_Group.init_sizes s2 this)

/-! ## find -/

/-- First loop of `Fl_Group::find`: walk up the parent chain until null or until the
widget at hand has `this` as parent.  `none`: the fuel ran out; `some none`: the walk
reached the null pointer (`return children_`); `some (some o)`: the `break` with `o`. -/
def Fl_Group.find_up (s : Heap) (this : Nat) : Nat → Option Nat → Option (Option Nat)
  | 0, _ => none
  | _ + 1, none => some none
  | fuel + 1, some o =>
    if (s.widget o).parent_ = some this then some (some o)
    else Fl_Group.find_up s this fuel (s.widget o).parent_

/-- Second loop of `Fl_Group::find`:
`for (int index = children_; index--;) if (array_[index] == o) return index;`
followed by `return children_`. -/
def Fl_Group.find_scan (a : List Nat) (o : Nat) (children_ : Int) : Nat → Int → Option Int
  | 0, index => if index ≠ 0 then none else some children_
  | k + 1, index =>
    if index ≠ 0 then
      (rd a (index - 1)).bind fun v =>
      if v = o then some (index - 1)
      else Fl_Group.find_scan a o children_ k (index - 1)
    else some children_

/-- The member function `Fl_Group::find(const Fl_Widget* o)`. -/
def Fl_Group.find (fuel : Nat) (s : Heap) (this : Nat) (o : Option Nat) : Option Int :=
  (Fl_Group.find_up s this fuel o).bind fun r =>
  match r with
  | none => some (s.group this).children_
  | some o1 =>
    Fl_Group.find_scan (s.group this).array_ o1 (s.group this).children_
      (s.group this).children_.toNat (s.group this).children_

/-! ## insert, add, replace -/

/-- A fresh block of `n` pointer slots (`malloc(n*sizeof(Fl_Widget*))`). -/
def malloc (n : Nat) : List Nat := List.replicate n 0

/-- The block resized to `n` pointer slots (`realloc`): the common prefix is kept. -/
def realloc (a : List Nat) (n : Nat) : List Nat :=
  a.take n ++ List.replicate (n - a.length) 0

/-- The loop `for (int j = children_; j > index; --j) array_[j] = array_[j-1];` of
`Fl_Group::insert`. -/
def Fl_Group.insert_loop (index : Int) : Nat → Int → List Nat → Option (List Nat)
  | 0, j, a => if j > index then none else some a
  | k + 1, j, a =>
    if j > index then
      (rd a (j - 1)).bind fun v =>
      (wr a j v).bind fun a1 =>
      Fl_Group.insert_loop index k (j - 1) a1
    else some a

/-- Lines 100-110 of `Fl_Group::insert`: the new contents of `array_` after the widget
`o` has been stored at `index` (allocation for the first child, doubling of the block
when `children_` is a power of two, shifting of the later entries). -/
def Fl_Group.insert_place (G : Fl_Group) (o : Nat) (index : Int) : Option (List Nat) :=
  if G.children_ = 0 then
    wr (malloc 1) 0 o
  else
    let a0 :=
      if Int.land G.children_ (G.children_ - 1) = 0 then
        realloc G.array_ (2 * G.children_).toNat
      else G.array_
    (Fl_Group.insert_loop index (G.children_ - index).toNat G.children_ a0).bind fun a1 =>
    wr a1 index o

/-- Lines 99-112 of `Fl_Group::insert`: take ownership, grow the array and place the
widget, count it, drop the snapshot. -/
def Fl_Group.insert_attach (s : Heap) (this o : Nat) (index : Int) : Option Heap :=
  let s1 := s.set_parent o (some this)
  (Fl_Group.insert_place (s1.group this) o index).bind fun a =>
  let s2 := s1.set_group this
    { s1.group this with array_ := a, children_ := (s1.group this).children_ + 1 }
  some (Fl_Group.init_sizes s2 this)

/-- The member function `Fl_Group::insert(Fl_Widget& o, int index)`. -/
def Fl_Group.insert (fuel : Nat) (s : Heap) (this o : Nat) (index : Int) : Option Heap :=
  match (s.widget o).parent_ with
  | none => Fl_Group.insert_attach s this o index
  | some p =>
    (Fl_Group.find fuel s p (some o)).bind fun n =>
    let index1 := if p = this ∧ index > n then index - 1 else index
    if p = this ∧ index1 = n then some s
    else
      (Fl_Group.remove s p n).bind fun s1 =>
      Fl_Group.insert_attach s1 this o index1

/-- The member function `Fl_Group::add(Fl_Widget& o)`. -/
def Fl_Group.add (fuel : Nat) (s : Heap) (this o : Nat) : Option Heap :=
  Fl_Group.insert fuel s this o (s.group this).children_

/-- The member function `Fl_Group::replace(int index, Fl_Widget& o)`. -/
def Fl_Group.replace (fuel : Nat) (s : Heap) (this : Nat) (index : Int) (o : Nat) :
    Option Heap :=
  if index ≥ (s.group this).children_ then Fl_Group.add fuel s this o
  else
    let s1 := s.set_parent o (some this)
    (rd (s1.group this).array_ index).bind fun old =>
    let s2 := s1.set_parent old none
    (wr (s2.group this).array_ index o).bind fun a =>
    let s3 := s2.set_group this { s2.group this with array_ := a }
    some (Fl_Group.init_sizes s3 this)

/-! ## Concrete heaps used to evaluate the operations -/

/-- A parentless widget at the origin with empty extent. -/
def plain_widget : Fl_Widget :=
  { parent_ := none, x_ := 0, y_ := 0, w_ := 0, h_ := 0,
    visible_ := true, takesevents_ := true, is_window_ := false }

/-- The group part right after the constructor `Fl_Group::Fl_Group(0,0,0,0)`. -/
def new_group : Fl_Group :=
  { children_ := 0, focus_ := 0, array_ := [], resizable_ := none, sizes_ := none,
    ox_ := 0, oy_ := 0, ow_ := 0, oh_ := 0 }

/-- Every object freshly constructed: no widget has a parent, every group is empty. -/
def fresh_heap : Heap :=
  { widget := fun _ => plain_widget, group := fun _ => new_group }

/-- Group `1` with the three children `2, 3, 4` in a block of four slots; all other
groups empty, all other widgets parentless. -/
def three_children : Heap :=
  { widget := fun n =>
      if n = 2 ∨ n = 3 ∨ n = 4 then { plain_widget with parent_ := some 1 } else plain_widget
    group := fun n =>
      if n = 1 then { new_group with children_ := 3, array_ := [2, 3, 4, 0] } else new_group }

/-- Memory safety condition of the child array of a group: the count is not negative,
the counted children fit into the allocated block, and a block that holds children has
a power of two as its number of slots (the sizes `malloc` and `realloc` produce). -/
def Fl_Group.cap_ok (G : Fl_Group) : Prop :=
  0 ≤ G.children_ ∧ G.children_ ≤ (G.array_.length : Int) ∧
    (0 < G.children_ → ∃ k : Nat, G.array_.length = 2 ^ k)

/-! ## Widget tree -/

/-- The pointer reached from `o` after `k` steps `o = o->parent()`; the null pointer
stays null. -/
def Heap.ancestor (s : Heap) : Nat → Option Nat → Option Nat
  | 0, o => o
  | k + 1, o => Heap.ancestor s k (o.bind fun w => (s.widget w).parent_)

/-- Widget `a` is `w` itself or an ancestor of `w`: it lies on the parent chain of `w`. -/
def Heap.on_chain (s : Heap) (w a : Nat) : Prop :=
  ∃ k, s.ancestor k (some w) = some a

/-- A well-formed widget tree: every widget listed in a child array has that group as
its parent reference, no widget occurs twice in a child array, and every parent chain
is finite. -/
structure Heap.tree_ok (s : Heap) : Prop where
  listed_parent : ∀ g j c, 0 ≤ j → j < (s.group g).children_ →
    Fl_Group.child s g j = some c → (s.widget c).parent_ = some g
  no_dup : ∀ g i j c, 0 ≤ i → i < (s.group g).children_ → 0 ≤ j →
    j < (s.group g).children_ → Fl_Group.child s g i = some c →
    Fl_Group.child s g j = some c → i = j
  finite_chain : ∀ w, ∃ k, s.ancestor k (some w) = none

/-! ## clear -/

/-- The loop `while (e > a) {Fl_Widget* o = *--e; o->parent(0); delete o;}` of
`Fl_Group::clear` over the saved block `a`; `e` is the offset of the pointer `e` from
`a`.  `delete o` runs the destructor of the class of the child, which is not code of
the group; the source notes that with a null parent it does not call `remove()`.  The
loop therefore only records, in destruction order, each destroyed child together with
the heap its destructor finds. -/
def Fl_Group.clear_loop (a : List Nat) :
    Nat → Int → Heap → List (Nat × Heap) → Option (Heap × List (Nat × Heap))
  | 0, e, s, seen => if e > 0 then none else some (s, seen)
  | k + 1, e, s, seen =>
    if e > 0 then
      (rd a (e - 1)).bind fun o =>
      let s1 := s.set_parent o none
      Fl_Group.clear_loop a k (e - 1) s1 (seen ++ [(o, s1)])
    else some (s, seen)

/-- Lines 75-77 of `Fl_Group::clear`: `children_ = 0; focus_ = 0;
if (resizable_) resizable_ = this;`. -/
def Fl_Group.clear_reset (s : Heap) (this : Nat) : Heap :=
  let s2 := s.set_group this { s.group this with children_ := 0, focus_ := 0 }
  if (s2.group this).resizable_ ≠ none then
    s2.set_group this { s2.group this with resizable_ := some this }
  else s2

/-- The member function `Fl_Group::clear()` together with the record of the destroyed children. -/
def Fl_Group.clear_trace (s : Heap) (this : Nat) : Option (Heap × List (Nat × Heap)) :=
  let s1 := Fl_Group.init_sizes s this
  if (s1.group this).children_ ≠ 0 then
    let a := (s1.group this).array_
    let e := (s1.group this).children_
    (Fl_Group.clear_loop a e.toNat e (Fl_Group.clear_reset s1 this) []).bind fun r =>
    -- free((void*)a): the block is gone
    some (r.1.set_group this { r.1.group this with array_ := [] }, r.2)
  else some (s1, [])

/-- The member function `Fl_Group::clear()`. -/
def Fl_Group.clear (s : Heap) (this : Nat) : Option Heap :=
  (Fl_Group.clear_trace s this).map Prod.fst

/-! ## sizes -/

/-- The loop `while (a < e) {Fl_Widget* o = *a++; *p++ = o->x(); *p++ = o->x()+o->w();
*p++ = o->y(); *p++ = o->y()+o->h();}` of `Fl_Group::sizes`; `a`, `e` are offsets into
`array_` and `p` is the offset into the buffer `buf`. -/
def Fl_Group.sizes_loop (s : Heap) (arr : List Nat) (e : Int) :
    Nat → Int → Int → List Int → Option (List Int)
  | 0, a, _, buf => if a < e then none else some buf
  | k + 1, a, p, buf =>
    if a < e then
      (rd arr a).bind fun o =>
      (wr buf p (s.widget o).x_).bind fun b1 =>
      (wr b1 (p + 1) ((s.widget o).x_ + (s.widget o).w_)).bind fun b2 =>
      (wr b2 (p + 2) (s.widget o).y_).bind fun b3 =>
      (wr b3 (p + 3) ((s.widget o).y_ + (s.widget o).h_)).bind fun b4 =>
      Fl_Group.sizes_loop s arr e k (a + 1) (p + 4) b4
    else some buf

/-- The part `if (r && r != this) {...}` of `Fl_Group::sizes`: clip the resizable to
the group. -/
def Fl_Group.sizes_clip (s : Heap) (this : Nat) (p : List Int) : Option (List Int) :=
  match (s.group this).resizable_ with
  | none => some p
  | some r =>
    if r ≠ this then
      (rd p 0).bind fun p0 =>
      let t := (s.widget r).x_
      (if t > p0 then wr p 4 t else some p).bind fun p =>
      (rd p 1).bind fun p1 =>
      let t := t + (s.widget r).w_
      (if t < p1 then wr p 5 t else some p).bind fun p =>
      (rd p 2).bind fun p2 =>
      let t := (s.widget r).y_
      (if t > p2 then wr p 6 t else some p).bind fun p =>
      (rd p 3).bind fun p3 =>
      let t := t + (s.widget r).h_
      (if t < p3 then wr p 7 t else some p)
    else some p

/-- The assignment `p[dst] = p[src] + d` on an `int` buffer. -/
def cp_add (p : List Int) (dst src : Int) (d : Int) : Option (List Int) :=
  (rd p src).bind fun v => wr p dst (v + d)

/-- The assignment `p[dst] = p[src]` on an `int` buffer. -/
def cp (p : List Int) (dst src : Int) : Option (List Int) :=
  (rd p src).bind fun v => wr p dst v

/-- Lines 362-363 of `Fl_Group::sizes`: `p[0] = p[2] = 0; p[1] = p[0]+ow();
p[3] = p[2]+oh();` (`ow()`, `oh()` are the accessors of `ow_`, `oh_`). -/
def Fl_Group.sizes_group_quad (G : Fl_Group) (p : List Int) : Option (List Int) :=
  (wr p 2 0).bind fun p =>
  (cp p 0 2).bind fun p =>
  (cp_add p 1 0 G.ow_).bind fun p =>
  cp_add p 3 2 G.oh_

/-- Lines 365-368 of `Fl_Group::sizes`: `p[4] = p[0]; p[5] = p[1]; p[6] = p[2];
p[7] = p[3];`. -/
def Fl_Group.sizes_resizable_quad (p : List Int) : Option (List Int) :=
  (cp p 4 0).bind fun p =>
  (cp p 5 1).bind fun p =>
  (cp p 6 2).bind fun p =>
  cp p 7 3

/-- The array built by `Fl_Group::sizes` when `sizes_` is null: `new int[4*(children_+2)]`
filled with the quad of the group, the quad of the resizable and the quads of the
children. -/
def Fl_Group.sizes_build (s : Heap) (this : Nat) : Option (List Int) :=
  let G := s.group this
  if 4 * (G.children_ + 2) < 0 then none
  else
    let p : List Int := List.replicate (4 * (G.children_ + 2)).toNat (0 : Int)
    (Fl_Group.sizes_group_quad G p).bind fun p =>
    (Fl_Group.sizes_resizable_quad p).bind fun p =>
    (Fl_Group.sizes_clip s this p).bind fun p =>
    Fl_Group.sizes_loop s G.array_ G.children_ G.children_.toNat 0 8 p

/-- The member function `Fl_Group::sizes()`: the snapshot, built and cached when absent. -/
def Fl_Group.sizes (s : Heap) (this : Nat) : Option (Heap × List Int) :=
  match (s.group this).sizes_ with
  | some p => some (s, p)
  | none =>
    (Fl_Group.sizes_build s this).bind fun p =>
    some (s.set_group this { s.group this with sizes_ := some p }, p)

/-! ## layout -/

/-- Modelled from the spec: the widget base class is not part of the sources.
`resize(x,y,w,h)` of a child stores the new geometry verbatim. -/
def Fl_Widget.resize (s : Heap) (o : Nat) (X Y W H : Int) : Heap :=
  { s with widget :=
      Function.update s.widget o { s.widget o with x_ := X, y_ := Y, w_ := W, h_ := H } }

/-- Modelled from the spec: the widget base class is not part of the sources.  A layout
pass of a widget (`Fl_Widget::layout()`, and the virtual call `o->layout()` on a child,
whose class is not known to the group) changes no geometry of the group or of its
children and none of the bookkeeping of the group ("pure cascade, no geometry
change"). -/
def Fl_Widget.layout (s : Heap) (_o : Nat) : Heap := s

/-- Modelled from the spec: `resize(x,y,w,h)` called on the group itself runs code of the
widget base class and of the group header, which are not part of the sources.  It
stores the new geometry, and the snapshot is "invalidated (cleared) whenever children
are added/removed/replaced or the group's own geometry changes; lazily recomputed on
next layout".  The recorded size (`original_bounds`) stays: it is the baseline that
`layout()` compares the size with and replaces when it is done. -/
def Fl_Group.resize (s : Heap) (this : Nat) (X Y W H : Int) : Heap :=
  let s1 := Fl_Widget.resize s this X Y W H
  if (s.widget this).x_ = X ∧ (s.widget this).y_ = Y ∧ (s.widget this).w_ = W ∧
      (s.widget this).h_ = H then s1
  else s1.set_group this { s1.group this with sizes_ := none }

/-- The range of the 32-bit type `int`: `-2^31 .. 2^31 - 1`. -/
def in_int (z : Int) : Prop := -2147483648 ≤ z ∧ z ≤ 2147483647

instance (z : Int) : Decidable (in_int z) := by
  unfold in_int
  infer_instance

/-- The value a product of two `int` leaves in a 32-bit register: the exact product
reduced modulo `2^32` into the range `-2^31 .. 2^31 - 1`. -/
def wrap32 (z : Int) : Int := (z + 2147483648) % 4294967296 - 2147483648

/-- One coordinate of the resize distribution in `Fl_Group::layout`:
`if (X >= IR) X += dw; else if (X > IX) X = X + dw * (X-IX)/(IR-IX);`
with the truncating division of C++; a division by zero gives `none`.  All operands
are of type `int`.  The product `dw * (X-IX)` is the one operation that leaves the range
of `int` for coordinates that are themselves far inside it (two factors of five digits
do), so it is taken in 32-bit arithmetic; sums and differences are exact. -/
def Fl_Group.remap (X IX IR dw : Int) : Option Int :=
  if X ≥ IR then some (X + dw)
  else if X > IX then
    if IR - IX = 0 then none
    else some (X + Int.tdiv (wrap32 (dw * (X - IX))) (IR - IX))
  else some X

/-- The arguments `(X, Y, R-X, B-Y)` of the call `o->resize(X, Y, R-X, B-Y)` for the
child whose quad starts at offset `p` of the snapshot. -/
def Fl_Group.layout_rect (sz : List Int) (p : Int) (dw dh IX IR IY IB : Int) :
    Option (Int × Int × Int × Int) :=
  (rd sz p).bind fun X0 =>
  (Fl_Group.remap X0 IX IR dw).bind fun X =>
  (rd sz (p + 1)).bind fun R0 =>
  (Fl_Group.remap R0 IX IR dw).bind fun R =>
  (rd sz (p + 2)).bind fun Y0 =>
  (Fl_Group.remap Y0 IY IB dh).bind fun Y =>
  (rd sz (p + 3)).bind fun B0 =>
  (Fl_Group.remap B0 IY IB dh).bind fun B =>
  some (X, Y, R - X, B - Y)

/-- The loop `while (a < e) {...; o->resize(X, Y, R-X, B-Y); o->layout();}` of the
resize branch of `Fl_Group::layout`. -/
def Fl_Group.layout_loop (arr : List Nat) (e : Int) (sz : List Int)
    (dw dh IX IR IY IB : Int) : Nat → Int → Int → Heap → Option Heap
  | 0, a, _, s => if a < e then none else some s
  | k + 1, a, p, s =>
    if a < e then
      (rd arr a).bind fun o =>
      (Fl_Group.layout_rect sz p dw dh IX IR IY IB).bind fun r =>
      let s1 := Fl_Widget.resize s o r.1 r.2.1 r.2.2.1 r.2.2.2
      let s2 := Fl_Widget.layout s1 o
      Fl_Group.layout_loop arr e sz dw dh IX IR IY IB k (a + 1) (p + 4) s2
    else some s

/-- The loop `while (a < e) (*a++)->layout();` of the first branch of
`Fl_Group::layout`. -/
def Fl_Group.layout_children (arr : List Nat) (e : Int) : Nat → Int → Heap → Option Heap
  | 0, a, s => if a < e then none else some s
  | k + 1, a, s =>
    if a < e then
      (rd arr a).bind fun o =>
      Fl_Group.layout_children arr e k (a + 1) (Fl_Widget.layout s o)
    else some s

/-- The member function `Fl_Group::layout()`. -/
def Fl_Group.layout (s : Heap) (this : Nat) : Option Heap :=
  let G := s.group this
  let W := s.widget this
  (if G.resizable_ = none ∨ (G.ow_ = W.w_ ∧ G.oh_ = W.h_) then
    if ¬ W.is_window_ then
      Fl_Group.layout_children G.array_ G.children_ G.children_.toNat 0 s
    else some s
  else if G.children_ ≠ 0 then
    (Fl_Group.sizes s this).bind fun sp =>
    let s1 := sp.1
    let p := sp.2
    (rd p 0).bind fun p0 =>
    (rd p 1).bind fun p1 =>
    (rd p 2).bind fun p2 =>
    (rd p 3).bind fun p3 =>
    let dw := (s1.widget this).w_ - (p1 - p0)
    let dh := (s1.widget this).h_ - (p3 - p2)
    (rd p 4).bind fun IX =>
    (rd p 5).bind fun IR =>
    (rd p 6).bind fun IY =>
    (rd p 7).bind fun IB =>
    Fl_Group.layout_loop (s1.group this).array_ (s1.group this).children_ p
      dw dh IX IR IY IB (s1.group this).children_.toNat 0 8 s1
  else some s).bind fun s2 =>
  some (Fl_Group.set_old_size (Fl_Widget.layout s2 this) this)

/-! ## Events -/

/-- The events of `FL/Enumerations.H` that `Fl_Group.cxx` names.  The header is not part
of the sources, so the event numbers are kept symbolic; `other` stands for every event
number the file does not name. -/
inductive Fl_Event where
  | FL_PUSH | FL_RELEASE | FL_ENTER | FL_LEAVE | FL_DRAG | FL_FOCUS | FL_UNFOCUS
  | FL_KEYBOARD | FL_MOVE | FL_SHORTCUT | FL_HIDE | FL_SHOW
  | FL_DND_ENTER | FL_DND_DRAG | FL_DND_LEAVE | FL_DND_RELEASE
  | other (n : Nat)
  deriving DecidableEq

/-- The key values `Fl_Group.cxx` distinguishes: `0` (`zero`), the five named keys of
`FL/Enumerations.H`, and any other key. -/
inductive Fl_Key where
  | zero | FL_Tab | FL_Left | FL_Up | FL_Right | FL_Down
  | other (n : Nat)
  deriving DecidableEq

/-- The static state of class `Fl` that `Fl_Group.cxx` reads or writes. -/
structure Fl where
  /-- `Fl::e_x`, also `Fl::event_x()`. -/
  e_x : Int
  /-- `Fl::e_y`, also `Fl::event_y()`. -/
  e_y : Int
  /-- `Fl::event_key()`. -/
  e_keysym : Fl_Key
  /-- `Fl::event_state(FL_CTRL)`. -/
  ctrl : Bool
  /-- `Fl::event_state(FL_SHIFT)`. -/
  shift : Bool
  /-- `Fl::focus()`. -/
  focus_ : Option Nat
  /-- `Fl::belowmouse()`. -/
  belowmouse_ : Option Nat
  /-- `Fl::pushed()`. -/
  pushed_ : Option Nat

/-- The behaviour of the children, which is code outside the group: the virtual
`handle(event)` of a child sees the static state and answers whether it used the event,
possibly changing the static state; `take_focus()` of a child is a yes/no answer. -/
structure Children where
  handle : Nat → Fl_Event → Fl → Bool × Fl
  take_focus : Nat → Bool

/-- Modelled from the spec: `contains()` belongs to the widget base class, which is not
part of the sources.  A widget contains the widget `o` when `o` is the widget itself or
has it as an ancestor ("contains the current focus holder"); the null pointer is not
contained.  The walk up the parent chain takes `fuel`. -/
def Fl_Widget.contains (s : Heap) (this : Nat) : Nat → Option Nat → Option Bool
  | 0, _ => none
  | _ + 1, none => some false
  | fuel + 1, some o =>
    if o = this then some true else Fl_Widget.contains s this fuel (s.widget o).parent_

/-! ## send -/

/-- Outcome of the first `switch` of `Fl_Group::send`: the value returned at once, or
the event that goes on to the child. -/
inductive Routed where
  | ret (r : Int)
  | deliver (event : Fl_Event)

/-- The first `switch (event)` of `Fl_Group::send` (lines 158-195). -/
def Fl_Group.send_route (fuel : Nat) (kids : Children) (s : Heap) (fl : Fl)
    (event : Fl_Event) (to_ : Nat) : Option Routed :=
  match event with
  | .FL_UNFOCUS | .FL_DRAG | .FL_RELEASE | .FL_LEAVE | .FL_DND_RELEASE | .FL_DND_LEAVE
  | .FL_KEYBOARD => some (.ret 1)
  | .FL_FOCUS => some (.ret (if kids.take_focus to_ then 1 else 0))
  | .FL_ENTER | .FL_MOVE =>
    (Fl_Widget.contains s to_ fuel fl.belowmouse_).bind fun c =>
    let ev := if c then Fl_Event.FL_MOVE else Fl_Event.FL_ENTER
    if ¬ (s.widget to_).visible_ then some (.ret 0) else some (.deliver ev)
  | .FL_SHOW | .FL_HIDE =>
    if ¬ (s.widget to_).visible_ then some (.ret 0) else some (.deliver event)
  | .FL_DND_ENTER | .FL_DND_DRAG =>
    (Fl_Widget.contains s to_ fuel fl.belowmouse_).bind fun c =>
    let ev := if c then Fl_Event.FL_DND_DRAG else Fl_Event.FL_DND_ENTER
    if ¬ (s.widget to_).takesevents_ then some (.ret 0) else some (.deliver ev)
  | _ => if ¬ (s.widget to_).takesevents_ then some (.ret 0) else some (.deliver event)

/-- Lines 199-203 of `Fl_Group::send`: translate the event position into the child,
call the handler of the child, restore the position. -/
def Fl_Group.send_deliver (kids : Children) (s : Heap) (fl : Fl) (event : Fl_Event)
    (to_ : Nat) : Bool × Fl :=
  let save_x := fl.e_x
  let fl1 := { fl with e_x := fl.e_x - (s.widget to_).x_ }
  let save_y := fl1.e_y
  let fl2 := { fl1 with e_y := fl1.e_y - (s.widget to_).y_ }
  let r := kids.handle to_ event fl2
  let fl3 := { r.2 with e_y := save_y }
  (r.1, { fl3 with e_x := save_x })

/-- The second `switch (event)` of `Fl_Group::send` (lines 206-222), reached after a
successful delivery.  `Fl::belowmouse(to)` and `Fl::pushed(to)` store the widget. -/
def Fl_Group.send_track (fuel : Nat) (s : Heap) (fl : Fl) (event : Fl_Event) (to_ : Nat) :
    Option Fl :=
  match event with
  | .FL_ENTER | .FL_DND_ENTER =>
    (Fl_Widget.contains s to_ fuel fl.belowmouse_).bind fun c =>
    if ¬ c then some { fl with belowmouse_ := some to_ } else some fl
  | .FL_PUSH =>
    if fl.pushed_ ≠ none then
      (Fl_Widget.contains s to_ fuel fl.pushed_).bind fun c =>
      if ¬ c then some { fl with pushed_ := some to_ } else some fl
    else some fl
  | _ => some fl

/-- The member function `Fl_Group::send(int event, Fl_Widget& to)`: the new static state and the result. -/
def Fl_Group.send (fuel : Nat) (kids : Children) (s : Heap) (fl : Fl) (event : Fl_Event)
    (to_ : Nat) : Option (Fl × Int) :=
  (Fl_Group.send_route fuel kids s fl event to_).bind fun route =>
  match route with
  | .ret r => some (fl, r)
  | .deliver ev =>
    let d := Fl_Group.send_deliver kids s fl ev to_
    if ¬ d.1 then some (d.2, 0)
    else (Fl_Group.send_track fuel s d.2 ev to_).bind fun fl1 => some (fl1, 1)

/-! ## handle -/

/-- The member function `Fl_Group::navigation_key()`. -/
def Fl_Group.navigation_key (fl : Fl) : Fl_Key :=
  if fl.e_keysym = Fl_Key.FL_Tab ∧ ¬ fl.ctrl then
    (if fl.shift then Fl_Key.FL_Left else Fl_Key.FL_Right)
  else fl.e_keysym

/-- The loop `for (i=0; i < numchildren; ++i) if (child(i)->take_focus()) return 1;`
followed by `break; ... return 0;`. -/
def Fl_Group.focus_forward (kids : Children) (arr : List Nat) (numchildren : Int) :
    Nat → Int → Option Int
  | 0, i => if i < numchildren then none else some 0
  | k + 1, i =>
    if i < numchildren then
      (rd arr i).bind fun o =>
      if kids.take_focus o then some 1
      else Fl_Group.focus_forward kids arr numchildren k (i + 1)
    else some 0

/-- The loop `for (i = numchildren; i--;) if (child(i)->take_focus()) return 1;`
followed by `break; ... return 0;`. -/
def Fl_Group.focus_backward (kids : Children) (arr : List Nat) : Nat → Int → Option Int
  | 0, i => if i ≠ 0 then none else some 0
  | k + 1, i =>
    if i ≠ 0 then
      (rd arr (i - 1)).bind fun o =>
      if kids.take_focus o then some 1
      else Fl_Group.focus_backward kids arr k (i - 1)
    else some 0

/-- Lines 247-264 of `Fl_Group::handle`: `FL_FOCUS` meant for the group itself. -/
def Fl_Group.handle_take_focus (kids : Children) (s : Heap) (fl : Fl) (this : Nat) :
    Option Int :=
  let G := s.group this
  let numchildren := G.children_
  match Fl_Group.navigation_key fl with
  | .FL_Right | .FL_Down =>
    Fl_Group.focus_forward kids G.array_ numchildren numchildren.toNat 0
  | .FL_Left | .FL_Up =>
    Fl_Group.focus_backward kids G.array_ numchildren.toNat numchildren
  | _ =>
    (if G.focus_ ≥ 0 ∧ G.focus_ < numchildren then
      (Fl_Group.child s this G.focus_).bind fun o => some (kids.take_focus o)
     else some false).bind fun taken =>
    if taken then some 1
    else Fl_Group.focus_forward kids G.array_ numchildren numchildren.toNat 0

/-- Lines 271-278 of `Fl_Group::handle`: the hit test from the last child to the first
for `FL_PUSH`, `FL_ENTER`, `FL_MOVE`, `FL_DND_ENTER`, `FL_DND_DRAG`. -/
def Fl_Group.pointer_loop (fuel : Nat) (kids : Children) (s : Heap) (this : Nat)
    (event : Fl_Event) : Nat → Int → Fl → Option (Fl × Int)
  | 0, i, fl => if i ≠ 0 then none else some (fl, 0)
  | k + 1, i, fl =>
    if i ≠ 0 then
      (Fl_Group.child s this (i - 1)).bind fun o =>
      let mx := fl.e_x - (s.widget o).x_
      let my := fl.e_y - (s.widget o).y_
      if mx ≥ 0 ∧ mx < (s.widget o).w_ ∧ my ≥ 0 ∧ my < (s.widget o).h_ then
        (Fl_Group.send fuel kids s fl event o).bind fun r =>
        if r.2 ≠ 0 then some (r.1, 1)
        else Fl_Group.pointer_loop fuel kids s this event k (i - 1) r.1
      else Fl_Group.pointer_loop fuel kids s this event k (i - 1) fl
    else some (fl, 0)

/-- Lines 284-289 of `Fl_Group::handle`: `for (int j = i;;) {if (send(event,
*child(j))) return 1; j++; if (j >= numchildren) j = 0; if (j == i) break;}`.  The
result `1` is the `return 1`, the result `0` is the `break`. -/
def Fl_Group.dispatch_loop (fuel : Nat) (kids : Children) (s : Heap) (this : Nat)
    (event : Fl_Event) (numchildren i : Int) : Nat → Int → Fl → Option (Fl × Int)
  | 0, _, _ => none
  | k + 1, j, fl =>
    (Fl_Group.child s this j).bind fun o =>
    (Fl_Group.send fuel kids s fl event o).bind fun r =>
    if r.2 ≠ 0 then some (r.1, 1)
    else
      let j1 := j + 1
      let j2 := if j1 ≥ numchildren then 0 else j1
      if j2 = i then some (r.1, 0)
      else Fl_Group.dispatch_loop fuel kids s this event numchildren i k j2 r.1

/-- The first `switch (key)` of the navigation loop (lines 304-323): the next value of
`i`, or `none` for `return 0`. -/
def Fl_Group.nav_next (s : Heap) (this : Nat) (key : Fl_Key) (i : Int) : Option Int :=
  match key with
  | .FL_Right | .FL_Down =>
    if i + 1 ≥ (s.group this).children_ then
      (if (s.widget this).parent_ ≠ none then none else some 0)
    else some (i + 1)
  | .FL_Left | .FL_Up =>
    if i ≠ 0 then some (i - 1)
    else (if (s.widget this).parent_ ≠ none then none else some ((s.group this).children_ - 1))
  | _ => none

/-- The navigation loop `for (;;) {...}` of `Fl_Group::handle` (lines 303-333); the
budget bounds the number of iterations. -/
def Fl_Group.nav_loop (kids : Children) (s : Heap) (this : Nat) (key : Fl_Key)
    (previous old_x old_r : Int) : Nat → Int → Option Int
  | 0, _ => none
  | k + 1, i =>
    match Fl_Group.nav_next s this key i with
    | none => some 0
    | some i1 =>
      if i1 = previous then some 0
      else
        (Fl_Group.child s this i1).bind fun o =>
        if (key = Fl_Key.FL_Down ∨ key = Fl_Key.FL_Up) ∧
            ((s.widget o).x_ ≥ old_r ∨ (s.widget o).x_ + (s.widget o).w_ ≤ old_x) then
          Fl_Group.nav_loop kids s this key previous old_x old_r k i1
        else if kids.take_focus o then some 1
        else Fl_Group.nav_loop kids s this key previous old_x old_r k i1

/-- Lines 292-334 of `Fl_Group::handle`, entered when the condition of the `if` holds:
keyboard navigation for an unused shortcut.  (`focused()` is `this == Fl::focus()`.) -/
def Fl_Group.handle_navigation (fuel : Nat) (kids : Children) (s : Heap) (fl : Fl)
    (this : Nat) : Option Int :=
  let key := Fl_Group.navigation_key fl
  if key = Fl_Key.zero then some 0
  else
    let previous := (s.group this).focus_
    (Fl_Group.child s this previous).bind fun o =>
    let old_x := (s.widget o).x_
    let old_r := (s.widget o).x_ + (s.widget o).w_
    Fl_Group.nav_loop kids s this key previous old_x old_r fuel previous

/-- Lines 282-290 of `Fl_Group::handle`: the start index `i` (`focus_`, or `0` when
`focus_` is no valid index) and the dispatch to the children from there.  The result
`1` is the `return 1` (a child used the event), the result `0` means that no child
used it. -/
def Fl_Group.handle_dispatch (fuel : Nat) (kids : Children) (s : Heap) (fl : Fl)
    (this : Nat) (event : Fl_Event) : Option (Fl × Int) :=
  let numchildren := (s.group this).children_
  let i := if (s.group this).focus_ < 0 ∨ (s.group this).focus_ ≥ numchildren then 0
    else (s.group this).focus_
  if numchildren ≠ 0 then
    Fl_Group.dispatch_loop fuel kids s this event numchildren i numchildren.toNat i fl
  else some (fl, 0)

/-- Lines 292-336 of `Fl_Group::handle`: the keyboard navigation for a shortcut that no
child used, and the final `return 0`. -/
def Fl_Group.handle_shortcut (fuel : Nat) (kids : Children) (s : Heap) (fl : Fl)
    (this : Nat) (event : Fl_Event) : Option (Fl × Int) :=
  if event = Fl_Event.FL_SHORTCUT ∧ ¬ (fl.focus_ = some this) then
    (Fl_Widget.contains s this fuel fl.focus_).bind fun c =>
    if c then
      (Fl_Group.handle_navigation fuel kids s fl this).bind fun res => some (fl, res)
    else some (fl, 0)
  else some (fl, 0)

/-- Lines 281-336 of `Fl_Group::handle`: all events but `FL_FOCUS` and the pointer
events. -/
def Fl_Group.handle_rest (fuel : Nat) (kids : Children) (s : Heap) (fl : Fl) (this : Nat)
    (event : Fl_Event) : Option (Fl × Int) :=
  (Fl_Group.handle_dispatch fuel kids s fl this event).bind fun r =>
  if r.2 ≠ 0 then some (r.1, 1)
  else Fl_Group.handle_shortcut fuel kids s r.1 this event

/-- The member function `Fl_Group::handle(int event)`: the new heap, the new static state and the result.
Only the branch of `FL_FOCUS` for a focus widget inside the group writes to the group
(`focus_ = find(Fl::focus())`). -/
def Fl_Group.handle (fuel : Nat) (kids : Children) (s : Heap) (fl : Fl) (this : Nat)
    (event : Fl_Event) : Option (Heap × Fl × Int) :=
  match event with
  | .FL_FOCUS =>
    (Fl_Widget.contains s this fuel fl.focus_).bind fun c =>
    if c then
      (Fl_Group.find fuel s this fl.focus_).bind fun n =>
      some (s.set_group this { s.group this with focus_ := n }, fl, 1)
    else
      (Fl_Group.handle_take_focus kids s fl this).bind fun r => some (s, fl, r)
  | .FL_PUSH | .FL_ENTER | .FL_MOVE | .FL_DND_ENTER | .FL_DND_DRAG =>
    (Fl_Group.pointer_loop fuel kids s this event (s.group this).children_.toNat
      (s.group this).children_ fl).bind fun r => some (s, r.1, r.2)
  | _ =>
    (Fl_Group.handle_rest fuel kids s fl this event).bind fun r => some (s, r.1, r.2)

/-! ## Reachable states -/

/-- The state of every group right after its constructor (lines 49-59): no children,
`focus_` zero, no array, no resizable, no snapshot. -/
def Heap.constructed (s : Heap) : Prop :=
  ∀ g, (s.group g).children_ = 0 ∧ (s.group g).focus_ = 0 ∧ (s.group g).array_ = [] ∧
    (s.group g).resizable_ = none ∧ (s.group g).sizes_ = none

/-- One call of a member function of some group, from heap `s` to heap `s1`. -/
inductive Fl_Group.step : Heap → Heap → Prop where
  | insert (fuel : Nat) (s s1 : Heap) (g o : Nat) (index : Int) :
      Fl_Group.insert fuel s g o index = some s1 → Fl_Group.step s s1
  | add (fuel : Nat) (s s1 : Heap) (g o : Nat) :
      Fl_Group.add fuel s g o = some s1 → Fl_Group.step s s1
  | remove (s s1 : Heap) (g : Nat) (index : Int) :
      Fl_Group.remove s g index = some s1 → Fl_Group.step s s1
  | replace (fuel : Nat) (s s1 : Heap) (g : Nat) (index : Int) (o : Nat) :
      Fl_Group.replace fuel s g index o = some s1 → Fl_Group.step s s1
  | clear (s s1 : Heap) (g : Nat) :
      Fl_Group.clear s g = some s1 → Fl_Group.step s s1
  | init_sizes (s : Heap) (g : Nat) : Fl_Group.step s (Fl_Group.init_sizes s g)
  | sizes (s s1 : Heap) (g : Nat) (p : List Int) :
      Fl_Group.sizes s g = some (s1, p) → Fl_Group.step s s1
  | layout (s s1 : Heap) (g : Nat) :
      Fl_Group.layout s g = some s1 → Fl_Group.step s s1
  | handle (fuel : Nat) (kids : Children) (s s1 : Heap) (fl fl1 : Fl) (g : Nat)
      (event : Fl_Event) (r : Int) :
      Fl_Group.handle fuel kids s fl g event = some (s1, fl1, r) → Fl_Group.step s s1

/-- The heaps reachable from freshly constructed groups by calls of `insert`, `add`,
`remove`, `replace`, `clear`, `init_sizes`, `sizes`, `layout` and `handle` on any
groups with any arguments. -/
inductive Heap.reachable : Heap → Prop where
  | init (s : Heap) : s.constructed → Heap.reachable s
  | next (s s1 : Heap) : Heap.reachable s → Fl_Group.step s s1 → Heap.reachable s1

/-! ## A run that leaves `focus_` beyond the child count -/

/-- Children that decline every event and every focus offer. -/
def quiet_children : Children :=
  { handle := fun _ _ fl => (false, fl), take_focus := fun _ => false }

/-- A static state in which widget `4` holds the keyboard focus. -/
def focus_on_4 : Fl :=
  { e_x := 0, e_y := 0, e_keysym := Fl_Key.zero, ctrl := false, shift := false,
    focus_ := some 4, belowmouse_ := none, pushed_ := none }

/-- The heap after `add(widget 2)` on the fresh group `1`. -/
def run_1 : Heap := (Fl_Group.add 1 fresh_heap 1 2).getD fresh_heap

/-- Then `add(widget 3)` on group `1`. -/
def run_2 : Heap := (Fl_Group.add 1 run_1 1 3).getD fresh_heap

/-- Then `add(widget 4)` on group `1`. -/
def run_3 : Heap := (Fl_Group.add 1 run_2 1 4).getD fresh_heap

/-- Then `handle(FL_FOCUS)` on group `1` while widget `4` holds the focus. -/
def run_4 : Heap :=
  ((Fl_Group.handle 2 quiet_children run_3 focus_on_4 1 Fl_Event.FL_FOCUS).map
    fun r => r.1).getD fresh_heap

/-- Then `remove(2)` on group `1`. -/
def run_5 : Heap := (Fl_Group.remove run_4 1 2).getD fresh_heap

/-- Then `sizes()` on group `1`. -/
def run_6 : Heap := ((Fl_Group.sizes run_5 1).map fun r => r.1).getD fresh_heap

/-- The heap after `remove(1)`, `remove(0)` on group `1` of `run_5`: the group is empty
again and `focus_` still is `2`. -/
def run_7 : Heap :=
  ((Fl_Group.remove run_5 1 1).bind fun s => Fl_Group.remove s 1 0).getD fresh_heap

/-- Per-group invariant of the reachable heaps: the child count and `focus_` are not
negative, and a cached snapshot holds exactly `4 * (children_ + 2)` integers. -/
def Fl_Group.inv (G : Fl_Group) : Prop :=
  0 ≤ G.children_ ∧ 0 ≤ G.focus_ ∧
    ∀ z, G.sizes_ = some z → (z.length : Int) = 4 * (G.children_ + 2)

/-! ## Fl_Device (src/FL/Fl_Device.H): device types -/

/-- The enumeration `Fl_Device::device_types`. -/
inductive device_types where
  | xlib_display | quartz_display | gdi_display
  | gdi_printer | quartz_printer | postscript_device
  deriving DecidableEq

/-- The integer value of an enumerator of `device_types`:
`xlib_display = 0, quartz_display, gdi_display, gdi_printer = 256, quartz_printer,
postscript_device`. -/
def device_types.value : device_types → Int
  | .xlib_display => 0
  | .quartz_display => 0 + 1
  | .gdi_display => 0 + 1 + 1
  | .gdi_printer => 256
  | .quartz_printer => 256 + 1
  | .postscript_device => 256 + 1 + 1

/-- The state of an `Fl_Device` that the type emulation uses: the member `type_`. -/
structure Fl_Device where
  type_ : Int

/-- The member function `Fl_Device::type()`. -/
def Fl_Device.type (d : Fl_Device) : Int := d.type_

/-- The constructor `Fl_Quartz_Display() { type_ = quartz_display; }`. -/
def Fl_Quartz_Display : Fl_Device := { type_ := device_types.quartz_display.value }

/-- The constructor `Fl_GDI_Display() { type_ = gdi_display; }`. -/
def Fl_GDI_Display : Fl_Device := { type_ := device_types.gdi_display.value }

/-- The constructor `Fl_Xlib_Display() { type_ = xlib_display; }`. -/
def Fl_Xlib_Display : Fl_Device := { type_ := device_types.xlib_display.value }

/-! ## Dispatch orders as the specification words them -/

/-- Specification of a dispatch order: the event is offered (`send`) to the widgets of
the list one after the other; the first offer that succeeds ends the dispatch with the
result `1`; the result is `0` when the list is used up. -/
def Fl_Group.offer_in_order (fuel : Nat) (kids : Children) (s : Heap) (event : Fl_Event) :
    List Nat → Fl → Option (Fl × Int)
  | [], fl => some (fl, 0)
  | o :: rest, fl =>
    (Fl_Group.send fuel kids s fl event o).bind fun r =>
    if r.2 ≠ 0 then some (r.1, 1)
    else Fl_Group.offer_in_order fuel kids s event rest r.1

/-- Specification of the hit test: the rectangle of widget `o` contains the position
`(ex, ey)`, that is `x ≤ ex < x+w` and `y ≤ ey < y+h`. -/
def Fl_Group.inside (s : Heap) (ex ey : Int) (o : Nat) : Bool :=
  decide ((s.widget o).x_ ≤ ex ∧ ex < (s.widget o).x_ + (s.widget o).w_ ∧
    (s.widget o).y_ ≤ ey ∧ ey < (s.widget o).y_ + (s.widget o).h_)

/-- Specification of the order of the pointer events: the children whose rectangle
contains the event position, from the last child to the first. -/
def Fl_Group.hit_order (s : Heap) (this : Nat) (fl : Fl) : List Nat :=
  (Fl_Group.kids s this).reverse.filter (Fl_Group.inside s fl.e_x fl.e_y)

/-- Specification of the start of the default dispatch: `focus_` when it is a valid
index, else `0`. -/
def Fl_Group.start_index (s : Heap) (this : Nat) : Int :=
  if 0 ≤ (s.group this).focus_ ∧ (s.group this).focus_ < (s.group this).children_ then
    (s.group this).focus_
  else 0

/-- Specification of the order of the default dispatch: the children in cyclic index
order from the start index, each of them once. -/
def Fl_Group.cyclic_order (s : Heap) (this : Nat) : List Nat :=
  (Fl_Group.kids s this).drop (Fl_Group.start_index s this).toNat ++
    (Fl_Group.kids s this).take (Fl_Group.start_index s this).toNat

/-- The coordinate map `f` of the resize distribution in the words of the
specification, the cases read in the order they are stated: `c + dw` for `c >= IR`,
`c` for `c <= IX`, and `c + (dw*(c-IX))/(IR-IX)` with truncating division for
`IX < c < IR`. -/
def Fl_Group.remap_spec (c IX IR dw : Int) : Int :=
  if c ≥ IR then c + dw
  else if c ≤ IX then c
  else c + Int.tdiv (dw * (c - IX)) (IR - IX)

/-- The coordinate map `f` with the product as 32-bit arithmetic leaves it: `c + dw`
for `c >= IR`, `c` for `c <= IX`, and `c + P/(IR-IX)` with truncating division for
`IX < c < IR`, where `P` is `dw*(c-IX)` reduced modulo `2^32` into the range of `int`
(the product itself whenever that lies in the range). -/
def Fl_Group.remap_value (c IX IR dw : Int) : Int :=
  if c ≥ IR then c + dw
  else if c ≤ IX then c
  else c + Int.tdiv (wrap32 (dw * (c - IX))) (IR - IX)

/-- A group of recorded size `100 x 50` that has been resized to `200 x 60`: child `2`
lies left of the resizable child `3`, child `4` right of it, and `3` spans the full
height of the group. -/
def resize_example : Heap :=
  { widget := fun o =>
      if o = 1 then { plain_widget with w_ := 200, h_ := 60 }
      else if o = 2 then { plain_widget with x_ := 0, y_ := 0, w_ := 10, h_ := 50, parent_ := some 1 }
      else if o = 3 then { plain_widget with x_ := 10, y_ := 0, w_ := 80, h_ := 50, parent_ := some 1 }
      else if o = 4 then { plain_widget with x_ := 90, y_ := 0, w_ := 10, h_ := 50, parent_ := some 1 }
      else plain_widget
    group := fun g =>
      if g = 1 then { new_group with children_ := 3, array_ := [2, 3, 4, 0], resizable_ := some 3, ow_ := 100, oh_ := 50 }
      else new_group }

/-! ## MenuItem (src/fltk3/MenuItem.h): flags -/

/-- The flag `fltk3::MENU_TOGGLE = 2`: item is a checkbox toggle. -/
def MENU_TOGGLE : Int := 2

/-- The flag `fltk3::MENU_VALUE = 4`: the on/off state of a checkbox or radio item. -/
def MENU_VALUE : Int := 4

/-- The flag `fltk3::MENU_RADIO = 8`: item is a radio button. -/
def MENU_RADIO : Int := 8

/-- The flag `fltk3::SUBMENU_POINTER = 0x20`. -/
def SUBMENU_POINTER : Int := 0x20

/-- The flag `fltk3::SUBMENU = 0x40`. -/
def SUBMENU : Int := 0x40

/-- The member `flags` of `struct MenuItem`, the only member the flag tests read. -/
structure MenuItem where
  flags : Int

/-- The member function `MenuItem::submenu()`:
`return flags&(fltk3::SUBMENU|fltk3::SUBMENU_POINTER);`. -/
def MenuItem.submenu (m : MenuItem) : Int := Int.land m.flags (Int.lor SUBMENU SUBMENU_POINTER)

/-- The member function `MenuItem::checkbox()`: `return flags&fltk3::MENU_TOGGLE;`. -/
def MenuItem.checkbox (m : MenuItem) : Int := Int.land m.flags MENU_TOGGLE

/-- The member function `MenuItem::radio()`: `return flags&fltk3::MENU_RADIO;`. -/
def MenuItem.radio (m : MenuItem) : Int := Int.land m.flags MENU_RADIO

/-! ## Sequences of insert and remove calls -/

/-- The heaps built from freshly constructed groups by `insert` calls with
`0 <= index <= children_` and `remove` calls with `0 <= index < children_`, on any
groups and widgets. -/
inductive Heap.built : Heap → Prop where
  | init (s : Heap) : s.constructed → Heap.built s
  | insert (fuel : Nat) (s s1 : Heap) (g o : Nat) (index : Int) :
      Heap.built s → 0 ≤ index → index ≤ (s.group g).children_ →
      Fl_Group.insert fuel s g o index = some s1 → Heap.built s1
  | remove (s s1 : Heap) (g : Nat) (index : Int) :
      Heap.built s → 0 ≤ index → index < (s.group g).children_ →
      Fl_Group.remove s g index = some s1 → Heap.built s1

/-- The capacity after `insert`, as the claim tracks it: one slot for the first child,
`2 * count` slots when the count is caught by the test `!(count & (count-1))`, else the
capacity as it is. -/
def Fl_Group.next_capacity (count : Int) (capacity : Nat) : Nat :=
  if count = 0 then 1
  else if Int.land count (count - 1) = 0 then (2 * count).toNat
  else capacity

/-! ## Focus offers with a record of the calls -/

/-- The loop of `Fl_Group.focus_forward` (`for (i=0; i < numchildren; ++i)
if (child(i)->take_focus()) return 1;`) together with the record of the indices `i`
at which `child(i)->take_focus()` is called, in the order of the calls. -/
def Fl_Group.focus_forward_calls (kids : Children) (arr : List Nat) (numchildren : Int) :
    Nat → Int → Option (List Int × Int)
  | 0, i => if i < numchildren then none else some ([], 0)
  | k + 1, i =>
    if i < numchildren then
      (rd arr i).bind fun o =>
      if kids.take_focus o then some ([i], 1)
      else (Fl_Group.focus_forward_calls kids arr numchildren k (i + 1)).map
        fun r => (i :: r.1, r.2)
    else some ([], 0)

/-- The loop of `Fl_Group.focus_backward` (`for (i = numchildren; i--;)
if (child(i)->take_focus()) return 1;`) together with the record of the indices at
which `take_focus()` is called. -/
def Fl_Group.focus_backward_calls (kids : Children) (arr : List Nat) :
    Nat → Int → Option (List Int × Int)
  | 0, i => if i ≠ 0 then none else some ([], 0)
  | k + 1, i =>
    if i ≠ 0 then
      (rd arr (i - 1)).bind fun o =>
      if kids.take_focus o then some ([i - 1], 1)
      else (Fl_Group.focus_backward_calls kids arr k (i - 1)).map
        fun r => ((i - 1) :: r.1, r.2)
    else some ([], 0)

/-- Lines 247-264 of `Fl_Group::handle` (`FL_FOCUS` meant for the group itself) together
with the record of the child indices at which `take_focus()` is called. -/
def Fl_Group.handle_take_focus_calls (kids : Children) (s : Heap) (fl : Fl) (this : Nat) :
    Option (List Int × Int) :=
  let G := s.group this
  let numchildren := G.children_
  match Fl_Group.navigation_key fl with
  | .FL_Right | .FL_Down =>
    Fl_Group.focus_forward_calls kids G.array_ numchildren numchildren.toNat 0
  | .FL_Left | .FL_Up =>
    Fl_Group.focus_backward_calls kids G.array_ numchildren.toNat numchildren
  | _ =>
    if G.focus_ ≥ 0 ∧ G.focus_ < numchildren then
      (Fl_Group.child s this G.focus_).bind fun o =>
      if kids.take_focus o then some ([G.focus_], 1)
      else (Fl_Group.focus_forward_calls kids G.array_ numchildren numchildren.toNat 0).map
        fun r => (G.focus_ :: r.1, r.2)
    else Fl_Group.focus_forward_calls kids G.array_ numchildren numchildren.toNat 0

/-- The `k` indices `i, i+1, ...` in ascending order. -/
def up_from (i : Int) : Nat → List Int
  | 0 => []
  | k + 1 => i :: up_from (i + 1) k

/-- The `k` indices `i, i-1, ...` in descending order. -/
def down_from (i : Int) : Nat → List Int
  | 0 => []
  | k + 1 => i :: down_from (i - 1) k

/-- Specification of offering the focus along a list of child indices: `take_focus()`
is asked of the children of the list one after the other; the first yes ends the
offers with the result `1`; the result is `0` when the list is used up.  The first
component is the list of the indices asked. -/
def Fl_Group.offer_focus (kids : Children) (s : Heap) (this : Nat) :
    List Int → Option (List Int × Int)
  | [] => some ([], 0)
  | i :: rest =>
    (Fl_Group.child s this i).bind fun o =>
    if kids.take_focus o then some ([i], 1)
    else (Fl_Group.offer_focus kids s this rest).map fun r => (i :: r.1, r.2)

/-- Specification of the order of the focus offers of `handle(FL_FOCUS)`: ascending for
the keys Right and Down (Tab without Ctrl and Shift counts as Right), descending for
Left and Up (Shift-Tab counts as Left); for every other key the child at `focus_`
first, when `focus_` is a valid index, and then all children in ascending order. -/
def Fl_Group.focus_order (s : Heap) (this : Nat) (fl : Fl) : List Int :=
  match Fl_Group.navigation_key fl with
  | .FL_Right | .FL_Down => up_from 0 (s.group this).children_.toNat
  | .FL_Left | .FL_Up => down_from ((s.group this).children_ - 1) (s.group this).children_.toNat
  | _ =>
    (if 0 ≤ (s.group this).focus_ ∧ (s.group this).focus_ < (s.group this).children_ then
      [(s.group this).focus_] else []) ++ up_from 0 (s.group this).children_.toNat

/-- Children that accept every focus offer and decline every event. -/
def eager_children : Children :=
  { handle := fun _ _ fl => (false, fl), take_focus := fun _ => true }

/-- The group of three children with `focus_ = 1`. -/
def three_children_focus_1 : Heap :=
  three_children.set_group 1 { three_children.group 1 with focus_ := 1 }

/-- A static state with the given key pressed, no modifier, no focus widget. -/
def key_state (key : Fl_Key) : Fl :=
  { e_x := 0, e_y := 0, e_keysym := key, ctrl := false, shift := false,
    focus_ := none, belowmouse_ := none, pushed_ := none }

/-! ## Shortcut navigation with a record of the candidates -/

/-- The navigation loop of `Fl_Group.nav_loop` together with the record of the
candidates it examines: every index `i` that passes `if (i == previous) return 0;`, in
the order of the walk, with the flag whether `child(i)->take_focus()` is called (it
is not for a candidate skipped by `continue`). -/
def Fl_Group.nav_loop_calls (kids : Children) (s : Heap) (this : Nat) (key : Fl_Key)
    (previous old_x old_r : Int) : Nat → Int → Option (List (Int × Bool) × Int)
  | 0, _ => none
  | k + 1, i =>
    match Fl_Group.nav_next s this key i with
    | none => some ([], 0)
    | some i1 =>
      if i1 = previous then some ([], 0)
      else
        (Fl_Group.child s this i1).bind fun o =>
        if (key = Fl_Key.FL_Down ∨ key = Fl_Key.FL_Up) ∧
            ((s.widget o).x_ ≥ old_r ∨ (s.widget o).x_ + (s.widget o).w_ ≤ old_x) then
          (Fl_Group.nav_loop_calls kids s this key previous old_x old_r k i1).map
            fun r => ((i1, false) :: r.1, r.2)
        else if kids.take_focus o then some ([(i1, true)], 1)
        else (Fl_Group.nav_loop_calls kids s this key previous old_x old_r k i1).map
          fun r => ((i1, true) :: r.1, r.2)

/-- Lines 292-334 of `Fl_Group::handle` (`Fl_Group.handle_navigation`) together with the
record of the candidates examined. -/
def Fl_Group.handle_navigation_calls (fuel : Nat) (kids : Children) (s : Heap) (fl : Fl)
    (this : Nat) : Option (List (Int × Bool) × Int) :=
  let key := Fl_Group.navigation_key fl
  if key = Fl_Key.zero then some ([], 0)
  else
    let previous := (s.group this).focus_
    (Fl_Group.child s this previous).bind fun o =>
    let old_x := (s.widget o).x_
    let old_r := (s.widget o).x_ + (s.widget o).w_
    Fl_Group.nav_loop_calls kids s this key previous old_x old_r fuel previous

/-- Specification of the overlap test of vertical navigation: the horizontal span
`[x, x+w)` of widget `o` meets the span `[old_x, old_r)` of the originally focused
child. -/
def Fl_Group.spans_overlap (s : Heap) (old_x old_r : Int) (o : Nat) : Bool :=
  decide ((s.widget o).x_ < old_r ∧ old_x < (s.widget o).x_ + (s.widget o).w_)

/-- Specification of the candidates of the shortcut navigation in a group of `n`
children, from the start index `previous`: in steps of `+1` for Right and Down, the
indices after `previous` up to the last child and then, only for a group without
parent, the indices from `0` up to the one before `previous`; in steps of `-1` for Left
and Up, the indices before `previous` down to `0` and then, only for a group without
parent, from the last child down to the one after `previous`; no candidate for any
other key. -/
def Fl_Group.nav_candidates (n previous : Int) (has_parent : Bool) (key : Fl_Key) :
    List Int :=
  match key with
  | .FL_Right | .FL_Down =>
    up_from (previous + 1) (n - 1 - previous).toNat ++
      (if has_parent then [] else up_from 0 previous.toNat)
  | .FL_Left | .FL_Up =>
    down_from (previous - 1) previous.toNat ++
      (if has_parent then [] else down_from (n - 1) (n - 1 - previous).toNat)
  | _ => []

/-- Specification of the walk over a list of candidates: each candidate is examined in
turn; for vertical navigation a candidate whose span does not overlap is passed over
without being asked; otherwise `take_focus()` is asked of it, and the first yes ends
the walk with `1`; the walk ends with `0` when the list is used up.  The first
component lists the candidates examined, with the flag whether they were asked. -/
def Fl_Group.offer_walk (kids : Children) (s : Heap) (this : Nat) (vertical : Bool)
    (old_x old_r : Int) : List Int → Option (List (Int × Bool) × Int)
  | [] => some ([], 0)
  | i :: rest =>
    (Fl_Group.child s this i).bind fun o =>
    if vertical = true ∧ Fl_Group.spans_overlap s old_x old_r o = false then
      (Fl_Group.offer_walk kids s this vertical old_x old_r rest).map
        fun r => ((i, false) :: r.1, r.2)
    else if kids.take_focus o then some ([(i, true)], 1)
    else (Fl_Group.offer_walk kids s this vertical old_x old_r rest).map
      fun r => ((i, true) :: r.1, r.2)

/-- A static state in which widget `3` holds the focus and the given key is pressed. -/
def focus_on_3 (key : Fl_Key) : Fl :=
  { e_x := 0, e_y := 0, e_keysym := key, ctrl := false, shift := false,
    focus_ := some 3, belowmouse_ := none, pushed_ := none }

/-- A group of recorded size `100000 x 50` that has been resized to `150000 x 50`: the
resizable child `2` spans the group, child `3` is one pixel wide at `x = 42949`. -/
def overflow_example : Heap :=
  { widget := fun o =>
      if o = 1 then { plain_widget with w_ := 150000, h_ := 50 }
      else if o = 2 then { plain_widget with x_ := 0, y_ := 0, w_ := 100000, h_ := 50, parent_ := some 1 }
      else if o = 3 then { plain_widget with x_ := 42949, y_ := 0, w_ := 1, h_ := 50, parent_ := some 1 }
      else plain_widget
    group := fun g =>
      if g = 1 then { new_group with children_ := 2, array_ := [2, 3], resizable_ := some 2, ow_ := 100000, oh_ := 50 }
      else new_group }

/-- The heap after `remove(0)` on group `1` of `run_4`: two children are left, widget
`4` (which holds the focus) is the child at index `1`, and `focus_` still is `2`. -/
def stale_focus_run : Heap := (Fl_Group.remove run_4 1 0).getD fresh_heap

/-- A static state in which widget `4` holds the keyboard focus and the key `Right` is
pressed. -/
def right_key_focus_on_4 : Fl :=
  { e_x := 0, e_y := 0, e_keysym := Fl_Key.FL_Right, ctrl := false, shift := false,
    focus_ := some 4, belowmouse_ := none, pushed_ := none }

/-- A static state in which the group `1` itself holds the keyboard focus. -/
def focus_on_1 : Fl :=
  { e_x := 0, e_y := 0, e_keysym := Fl_Key.zero, ctrl := false, shift := false,
    focus_ := some 1, belowmouse_ := none, pushed_ := none }

/-- Bookkeeping of the child arrays: every child array satisfies `cap_ok`, and every
widget whose parent reference names a group is listed among the children of that
group. -/
def Heap.listed (s : Heap) : Prop :=
  (∀ g, (s.group g).cap_ok) ∧
  ∀ a g, (s.widget a).parent_ = some g →
    ∃ j, 0 ≤ j ∧ j < (s.group g).children_ ∧ Fl_Group.child s g j = some a

/-- The heaps reached from freshly constructed objects (every group as its constructor
leaves it, no widget with a parent) by calls of `insert` with
`0 <= index <= children_`, `add`, `remove` and `replace` with `0 <= index`, `clear`,
`init_sizes`, `sizes`, `layout` and `handle`, on any groups and widgets. -/
inductive Heap.in_use : Heap → Prop where
  | init (s : Heap) : s.constructed → (∀ o, (s.widget o).parent_ = none) → Heap.in_use s
  | insert (fuel : Nat) (s s1 : Heap) (g o : Nat) (index : Int) :
      Heap.in_use s → 0 ≤ index → index ≤ (s.group g).children_ →
      Fl_Group.insert fuel s g o index = some s1 → Heap.in_use s1
  | add (fuel : Nat) (s s1 : Heap) (g o : Nat) :
      Heap.in_use s → Fl_Group.add fuel s g o = some s1 → Heap.in_use s1
  | remove (s s1 : Heap) (g : Nat) (index : Int) :
      Heap.in_use s → 0 ≤ index → Fl_Group.remove s g index = some s1 → Heap.in_use s1
  | replace (fuel : Nat) (s s1 : Heap) (g : Nat) (index : Int) (o : Nat) :
      Heap.in_use s → 0 ≤ index → Fl_Group.replace fuel s g index o = some s1 →
      Heap.in_use s1
  | clear (s s1 : Heap) (g : Nat) :
      Heap.in_use s → Fl_Group.clear s g = some s1 → Heap.in_use s1
  | init_sizes (s : Heap) (g : Nat) : Heap.in_use s → Heap.in_use (Fl_Group.init_sizes s g)
  | sizes (s s1 : Heap) (g : Nat) (p : List Int) :
      Heap.in_use s → Fl_Group.sizes s g = some (s1, p) → Heap.in_use s1
  | layout (s s1 : Heap) (g : Nat) :
      Heap.in_use s → Fl_Group.layout s g = some s1 → Heap.in_use s1
  | handle (fuel : Nat) (kids : Children) (s s1 : Heap) (fl fl1 : Fl) (g : Nat)
      (event : Fl_Event) (r : Int) :
      Heap.in_use s → Fl_Group.handle fuel kids s fl g event = some (s1, fl1, r) →
      Heap.in_use s1

/-! # Theorems -/

/-! ## Memory access -/

theorem rd_wr {α : Type} {a a1 : List α} {i : Int} {v : α} (h : wr a i v = some a1)
    (j : Int) : rd a1 j = if j = i then some v else rd a j := by
  unfold wr at h
  split at h
  · rename_i hi
    obtain ⟨h0, h1⟩ := hi
    cases h
    unfold rd
    by_cases hj : 0 ≤ j
    · simp only [hj, if_true]
      rw [List.getElem?_set]
      by_cases hji : j = i
      · subst hji
        have : j.toNat < a.length := by omega
        simp [this]
      · have : i.toNat ≠ j.toNat := by omega
        simp [this, hji]
    · have : j ≠ i := by omega
      simp [hj, this]
  · cases h

theorem wr_length {α : Type} {a a1 : List α} {i : Int} {v : α} (h : wr a i v = some a1) :
    a1.length = a.length := by
  unfold wr at h
  split at h
  · cases h; simp
  · cases h

theorem wr_ok {α : Type} (a : List α) (i : Int) (v : α) (h0 : 0 ≤ i)
    (h1 : i < (a.length : Int)) : wr a i v = some (a.set i.toNat v) := by
  unfold wr; simp [h0, h1]

theorem rd_ok {α : Type} (a : List α) (i : Int) (h0 : 0 ≤ i) (h1 : i < (a.length : Int)) :
    ∃ v, rd a i = some v := by
  unfold rd
  have : i.toNat < a.length := by omega
  exact ⟨a[i.toNat], by simp [h0, this]⟩

theorem rd_neg {α : Type} (a : List α) (i : Int) (h : i < 0) : rd a i = none := by
  unfold rd
  have : ¬ (0 ≤ i) := by omega
  simp [this]

/-! ## remove -/

theorem remove_loop_spec (c : Int) (k : Nat) : ∀ (i : Int) (a : List Nat),
    0 ≤ i → (k : Int) = c - i → c < (a.length : Int) →
    ∃ a1, Fl_Group.remove_loop c k i a = some a1 ∧ a1.length = a.length ∧
      (∀ j, j < i → rd a1 j = rd a j) ∧
      (∀ j, i ≤ j → j < c → rd a1 j = rd a (j + 1)) ∧
      (∀ j, c ≤ j → rd a1 j = rd a j) := by
  induction k with
  | zero =>
    intro i a _ hk _
    have : ¬ (i < c) := by omega
    refine ⟨a, by simp [Fl_Group.remove_loop, this], rfl, fun _ _ => rfl, ?_, fun _ _ => rfl⟩
    intro j h1 h2; omega
  | succ k ih =>
    intro i a h0 hk hc
    have hic : i < c := by omega
    obtain ⟨v, hv⟩ := rd_ok a (i + 1) (by omega) (by omega)
    have hw := wr_ok a i v h0 (by omega)
    have hlen : (a.set i.toNat v).length = a.length := by simp
    obtain ⟨a1, h1, h2, h3, h4, h5⟩ := ih (i + 1) (a.set i.toNat v) (by omega) (by omega)
      (by rw [hlen]; exact hc)
    refine ⟨a1, ?_, by rw [h2, hlen], ?_, ?_, ?_⟩
    · simp [Fl_Group.remove_loop, hic, hv, hw, h1]
    · intro j hj
      rw [h3 j (by omega), rd_wr hw j]
      have : j ≠ i := by omega
      simp [this]
    · intro j hj1 hj2
      by_cases hji : j = i
      · subst hji
        rw [h3 j (by omega), rd_wr hw j]
        simp [hv]
      · rw [h4 j (by omega) hj2, rd_wr hw (j + 1)]
        have : j + 1 ≠ i := by omega
        simp [this]
    · intro j hj
      rw [h5 j hj, rd_wr hw j]
      have : j ≠ i := by omega
      simp [this]

theorem remove_in_range (s : Heap) (this : Nat) (i : Int)
    (hcap : (s.group this).children_ ≤ ((s.group this).array_.length : Int))
    (h0 : 0 ≤ i) (hi : i < (s.group this).children_) :
    ∃ o a, rd (s.group this).array_ i = some o ∧
      Fl_Group.remove_loop ((s.group this).children_ - 1)
        ((s.group this).children_ - 1 - i).toNat i (s.group this).array_ = some a ∧
      Fl_Group.remove s this i = some (Fl_Group.init_sizes
        ((s.set_parent o none).set_group this
          { s.group this with children_ := (s.group this).children_ - 1, array_ := a })
        this) := by
  obtain ⟨o, ho⟩ := rd_ok (s.group this).array_ i h0 (by omega)
  obtain ⟨a, ha, _⟩ := remove_loop_spec ((s.group this).children_ - 1)
    ((s.group this).children_ - 1 - i).toNat i (s.group this).array_ h0 (by omega) (by omega)
  refine ⟨o, a, ho, ha, ?_⟩
  have hn : ¬ (i ≥ (s.group this).children_) := by omega
  simp only [Fl_Group.remove, hn, if_false, ho, Heap.set_parent]
  simp only [ha]
  rfl

@[simp] theorem init_sizes_widget (s : Heap) (g : Nat) :
    (Fl_Group.init_sizes s g).widget = s.widget := rfl

theorem init_sizes_group_self (s : Heap) (g : Nat) :
    (Fl_Group.init_sizes s g).group g =
      { s.group g with sizes_ := none, ox_ := (s.widget g).x_, oy_ := (s.widget g).y_,
                       ow_ := (s.widget g).w_, oh_ := (s.widget g).h_ } := by
  simp [Fl_Group.init_sizes, Fl_Widget.relayout, Fl_Group.set_old_size, Heap.set_group]

theorem init_sizes_group_other (s : Heap) (g g2 : Nat) (h : g2 ≠ g) :
    (Fl_Group.init_sizes s g).group g2 = s.group g2 := by
  simp [Fl_Group.init_sizes, Fl_Widget.relayout, Fl_Group.set_old_size, Heap.set_group, h]

/-- Effect of `remove` at a valid index, in the form used by `insert` and `add`: the
result heap, the removed widget, the count, the positions, the parent references and
the unchanged size of the block. -/
theorem remove_effect (s : Heap) (this : Nat) (i : Int)
    (hcap : (s.group this).children_ ≤ ((s.group this).array_.length : Int))
    (h0 : 0 ≤ i) (hi : i < (s.group this).children_) :
    ∃ s1 o, Fl_Group.remove s this i = some s1 ∧ Fl_Group.child s this i = some o ∧
      (s1.group this).children_ = (s.group this).children_ - 1 ∧
      (s1.group this).array_.length = (s.group this).array_.length ∧
      (∀ j, 0 ≤ j → j < i → Fl_Group.child s1 this j = Fl_Group.child s this j) ∧
      (∀ j, i < j → j < (s.group this).children_ →
        Fl_Group.child s1 this (j - 1) = Fl_Group.child s this j) ∧
      (s1.widget o).parent_ = none := by
  obtain ⟨o, a, ho, ha, hr⟩ := remove_in_range s this i hcap h0 hi
  obtain ⟨a1, ha1, hlen, hlo, hmid, _⟩ := remove_loop_spec ((s.group this).children_ - 1)
    ((s.group this).children_ - 1 - i).toNat i (s.group this).array_ h0 (by omega) (by omega)
  rw [ha] at ha1
  cases ha1
  refine ⟨_, o, hr, ho, ?_, ?_, ?_, ?_, ?_⟩
  · simp [init_sizes_group_self, Heap.set_group]
  · simp [init_sizes_group_self, Heap.set_group, hlen]
  · intro j _ hj
    simp only [Fl_Group.child, init_sizes_group_self, Heap.set_group, Function.update_same]
    exact hlo j hj
  · intro j hj1 hj2
    simp only [Fl_Group.child, init_sizes_group_self, Heap.set_group, Function.update_same]
    have h2 := hmid (j - 1) (by omega) (by omega)
    simpa using h2
  · simp [Heap.set_group, Heap.set_parent]

/-- C1: `remove(i)` with `0 ≤ i < children_` succeeds and leaves `children_ - 1` children;
the children before position `i` stay where they are, those after it move down by one
position, the removed widget has no parent afterwards and no other parent reference
changes. -/
theorem remove_valid_index (s : Heap) (this : Nat) (i : Int)
    (hcap : (s.group this).children_ ≤ ((s.group this).array_.length : Int))
    (h0 : 0 ≤ i) (hi : i < (s.group this).children_) :
    ∃ s1 o, Fl_Group.remove s this i = some s1 ∧ Fl_Group.child s this i = some o ∧
      (s1.group this).children_ = (s.group this).children_ - 1 ∧
      (∀ j, 0 ≤ j → j < i → Fl_Group.child s1 this j = Fl_Group.child s this j) ∧
      (∀ j, i < j → j < (s.group this).children_ →
        Fl_Group.child s1 this (j - 1) = Fl_Group.child s this j) ∧
      (s1.widget o).parent_ = none ∧
      (∀ w, w ≠ o → (s1.widget w).parent_ = (s.widget w).parent_) := by
  obtain ⟨o, a, ho, ha, hr⟩ := remove_in_range s this i hcap h0 hi
  obtain ⟨a1, ha1, _, hlo, hmid, _⟩ := remove_loop_spec ((s.group this).children_ - 1)
    ((s.group this).children_ - 1 - i).toNat i (s.group this).array_ h0 (by omega) (by omega)
  rw [ha] at ha1
  cases ha1
  refine ⟨_, o, hr, ho, ?_, ?_, ?_, ?_, ?_⟩
  · simp [init_sizes_group_self, Heap.set_group]
  · intro j _ hj
    simp only [Fl_Group.child, init_sizes_group_self, Heap.set_group, Function.update_same]
    exact hlo j hj
  · intro j hj1 hj2
    simp only [Fl_Group.child, init_sizes_group_self, Heap.set_group, Function.update_same]
    have := hmid (j - 1) (by omega) (by omega)
    simpa using this
  · simp [Heap.set_group, Heap.set_parent]
  · intro w hw
    simp [Heap.set_group, Heap.set_parent, hw]

/-- Witness of `remove_valid_index`: removing the middle child of group `1` in
`three_children`. -/
theorem remove_valid_index_witness :
    ∃ s1 o, Fl_Group.remove three_children 1 1 = some s1 ∧
      Fl_Group.child three_children 1 1 = some o ∧
      (s1.group 1).children_ = (three_children.group 1).children_ - 1 ∧
      (∀ j, 0 ≤ j → j < 1 → Fl_Group.child s1 1 j = Fl_Group.child three_children 1 j) ∧
      (∀ j, 1 < j → j < (three_children.group 1).children_ →
        Fl_Group.child s1 1 (j - 1) = Fl_Group.child three_children 1 j) ∧
      (s1.widget o).parent_ = none ∧
      (∀ w, w ≠ o → (s1.widget w).parent_ = (three_children.widget w).parent_) :=
  remove_valid_index three_children 1 1 (by decide) (by decide) (by decide)

/-- C8 (as stated, refuted): with the negative index `-1` on a group of three children
`remove` reads `array_[-1]`, outside the allocated block; the call is not a no-op. -/
theorem remove_negative_index_not_noop :
    (-1 : Int) < 0 ∧ Fl_Group.remove three_children 1 (-1) = none ∧
      ¬ (Fl_Group.remove three_children 1 (-1) = some three_children) := by
  have h : Fl_Group.remove three_children 1 (-1) = none := by
    simp [Fl_Group.remove, three_children, new_group, rd]
  refine ⟨by decide, h, ?_⟩
  rw [h]; simp

/-- C8 (amended): for every index at or beyond the child count, `remove(index)` returns
without an error and leaves the whole heap (child sequence, child count, every parent
reference, `focus_`, the snapshot) exactly as it was. -/
theorem remove_index_past_end_noop (s : Heap) (this : Nat) (index : Int)
    (h : (s.group this).children_ ≤ index) : Fl_Group.remove s this index = some s := by
  simp [Fl_Group.remove, h]

/-- Witness of `remove_index_past_end_noop`: index `3` on a group of three children. -/
theorem remove_index_past_end_noop_witness :
    (three_children.group 1).children_ ≤ 3 ∧
      Fl_Group.remove three_children 1 3 = some three_children :=
  ⟨by decide, remove_index_past_end_noop three_children 1 3 (by decide)⟩

/-- C9 (as stated, refuted): with the negative index `-1`, `replace(-1, w)` accesses
`array_[-1]` and fails, whereas `add(w)` succeeds and appends `w`. -/
theorem replace_negative_index_differs_from_add :
    (-1 : Int) < 0 ∧ Fl_Group.replace 1 three_children 1 (-1) 5 = none ∧
      ((Fl_Group.add 1 three_children 1 5).map fun s1 =>
        ((s1.group 1).children_, Fl_Group.child s1 1 3)) = some (4, some 5) := by
  refine ⟨by decide, ?_, ?_⟩
  · simp [Fl_Group.replace, three_children, new_group, rd, Heap.set_parent]
  · rfl

/-- C9 (amended): for every index at or beyond the child count, `replace(index, w)` is
the call `add(w)`: same result heap, hence the same effect on the group, on `w` and on
the former parent of `w`. -/
theorem replace_index_past_end_is_add (fuel : Nat) (s : Heap) (this : Nat) (index : Int)
    (o : Nat) (h : (s.group this).children_ ≤ index) :
    Fl_Group.replace fuel s this index o = Fl_Group.add fuel s this o := by
  simp [Fl_Group.replace, h]

/-- Witness of `replace_index_past_end_is_add`: index `7` on a group of three children. -/
theorem replace_index_past_end_is_add_witness :
    (three_children.group 1).children_ ≤ 7 ∧
      Fl_Group.replace 1 three_children 1 7 5 = Fl_Group.add 1 three_children 1 5 :=
  ⟨by decide, replace_index_past_end_is_add 1 three_children 1 7 5 (by decide)⟩

/-- C10 (failing input): replacing the child at position `1` by itself
(`replace(1, *child(1))`) keeps the widget in slot `1` of a group of still three
children but leaves its parent reference null: `o.parent(this)` is undone by the
following `array_[index]->parent(0)`. -/
theorem replace_child_by_itself_orphans :
    Fl_Group.child three_children 1 1 = some 3 ∧
      ((Fl_Group.replace 1 three_children 1 1 3).map fun s1 =>
        ((s1.group 1).children_, Fl_Group.child s1 1 1, (s1.widget 3).parent_))
        = some (3, some 3, none) := by
  constructor <;> rfl

/-! ## Heap updates -/

@[simp] theorem set_parent_group (s : Heap) (o : Nat) (p : Option Nat) :
    (s.set_parent o p).group = s.group := rfl

@[simp] theorem set_group_widget (s : Heap) (g : Nat) (G : Fl_Group) :
    (s.set_group g G).widget = s.widget := rfl

@[simp] theorem set_group_same (s : Heap) (g : Nat) (G : Fl_Group) :
    (s.set_group g G).group g = G := by
  simp [Heap.set_group]

theorem set_group_other (s : Heap) (g g2 : Nat) (G : Fl_Group) (h : g2 ≠ g) :
    (s.set_group g G).group g2 = s.group g2 := by
  simp [Heap.set_group, h]

@[simp] theorem set_parent_same (s : Heap) (o : Nat) (p : Option Nat) :
    ((s.set_parent o p).widget o).parent_ = p := by
  simp [Heap.set_parent]

theorem set_parent_other (s : Heap) (o o2 : Nat) (p : Option Nat) (h : o2 ≠ o) :
    (s.set_parent o p).widget o2 = s.widget o2 := by
  simp [Heap.set_parent, h]

/-! ## insert -/

theorem land_pow_two (k : Nat) : Int.land ((2 ^ k : Nat) : Int) (((2 ^ k : Nat) : Int) - 1) = 0 := by
  have h1 : ((2 ^ k : Nat) : Int) - 1 = ((2 ^ k - 1 : Nat) : Int) := by
    have := Nat.one_le_two_pow (n := k)
    omega
  rw [h1]
  show ((Nat.land (2 ^ k) (2 ^ k - 1) : Nat) : Int) = 0
  have h2 := Nat.and_pow_two_sub_one_eq_mod (2 ^ k) k
  simp only [HAnd.hAnd, AndOp.and] at h2
  rw [h2]; simp

theorem pow_two_of_land_pred :
    ∀ c : Nat, c ≠ 0 → c &&& (c - 1) = 0 → ∃ m : Nat, c = 2 ^ m := by
  intro c
  induction c using Nat.strong_induction_on with
  | _ c ih =>
    intro hc h
    have hd : c / 2 &&& (c - 1) / 2 = 0 := by rw [← Nat.and_div_two, h]
    rcases Nat.mod_two_eq_zero_or_one c with he | ho
    · have h1 : (c - 1) / 2 = c / 2 - 1 := by omega
      rw [h1] at hd
      obtain ⟨m, hm⟩ := ih (c / 2) (by omega) (by omega) hd
      exact ⟨m + 1, by rw [pow_succ, ← hm]; omega⟩
    · have h1 : (c - 1) / 2 = c / 2 := by omega
      rw [h1, Nat.and_self] at hd
      exact ⟨0, by simp; omega⟩

theorem cap_ok_room (G : Fl_Group) (h : G.cap_ok)
    (hb : Int.land G.children_ (G.children_ - 1) ≠ 0) :
    G.children_ < (G.array_.length : Int) := by
  obtain ⟨h0, h1, h2⟩ := h
  by_contra hlt
  have heq : G.children_ = (G.array_.length : Int) := by omega
  have hpos : 0 < G.children_ := by
    rcases (by omega : G.children_ = 0 ∨ 0 < G.children_) with h | h
    · exfalso; apply hb; rw [h]
      show Int.land (Int.ofNat 0) (Int.negSucc 0) = 0
      simp [Int.land, Nat.ldiff]
    · exact h
  obtain ⟨k, hk⟩ := h2 hpos
  apply hb
  rw [heq, hk]
  exact land_pow_two k

theorem realloc_length (a : List Nat) (n : Nat) : (realloc a n).length = n := by
  simp [realloc]; omega

theorem rd_realloc (a : List Nat) (n : Nat) (t : Int) (h1 : t < (a.length : Int))
    (h2 : t < (n : Int)) : rd (realloc a n) t = rd a t := by
  unfold rd
  by_cases h0 : 0 ≤ t
  · simp only [h0, if_true, realloc]
    have ht : t.toNat < (List.take n a).length := by simp; omega
    rw [List.getElem?_append_left ht, List.getElem?_take]
    have : t.toNat < n := by omega
    simp [this]
  · simp [h0]

theorem insert_loop_spec (index : Int) (k : Nat) : ∀ (j : Int) (a : List Nat),
    0 ≤ index → (k : Int) = j - index → j < (a.length : Int) →
    ∃ a1, Fl_Group.insert_loop index k j a = some a1 ∧ a1.length = a.length ∧
      (∀ t, t ≤ index → rd a1 t = rd a t) ∧
      (∀ t, index < t → t ≤ j → rd a1 t = rd a (t - 1)) ∧
      (∀ t, j < t → rd a1 t = rd a t) := by
  induction k with
  | zero =>
    intro j a _ hk _
    have : ¬ (j > index) := by omega
    refine ⟨a, by simp [Fl_Group.insert_loop, this], rfl, fun _ _ => rfl, ?_, fun _ _ => rfl⟩
    intro t h1 h2; omega
  | succ k ih =>
    intro j a h0 hk hlen
    have hji : j > index := by omega
    obtain ⟨v, hv⟩ := rd_ok a (j - 1) (by omega) (by omega)
    have hw := wr_ok a j v (by omega) hlen
    have hl : (a.set j.toNat v).length = a.length := by simp
    obtain ⟨a1, h1, h2, h3, h4, h5⟩ := ih (j - 1) (a.set j.toNat v) h0 (by omega)
      (by rw [hl]; omega)
    refine ⟨a1, ?_, by rw [h2, hl], ?_, ?_, ?_⟩
    · simp [Fl_Group.insert_loop, hji, hv, hw, h1]
    · intro t ht
      rw [h3 t ht, rd_wr hw t]
      have : t ≠ j := by omega
      simp [this]
    · intro t ht1 ht2
      by_cases htj : t = j
      · subst htj
        rw [h5 t (by omega), rd_wr hw t]
        simp [hv]
      · rw [h4 t ht1 (by omega), rd_wr hw (t - 1)]
        have : t - 1 ≠ j := by omega
        simp [this]
    · intro t ht
      rw [h5 t (by omega), rd_wr hw t]
      have : t ≠ j := by omega
      simp [this]

theorem insert_place_spec (G : Fl_Group) (o : Nat) (index : Int) (h : G.cap_ok)
    (h0 : 0 ≤ index) (h1 : index ≤ G.children_) :
    ∃ a, Fl_Group.insert_place G o index = some a ∧
      G.children_ + 1 ≤ (a.length : Int) ∧
      (0 < G.children_ + 1 → ∃ k : Nat, a.length = 2 ^ k) ∧
      rd a index = some o ∧
      (∀ t, 0 ≤ t → t < index → rd a t = rd G.array_ t) ∧
      (∀ t, index ≤ t → t < G.children_ → rd a (t + 1) = rd G.array_ t) := by
  by_cases hz : G.children_ = 0
  · have hi : index = 0 := by omega
    subst hi
    refine ⟨[o], by simp [Fl_Group.insert_place, hz, malloc, wr], by simp [hz],
      fun _ => ⟨0, by simp⟩, by simp [rd], ?_, ?_⟩
    · intro t h2 h3; omega
    · intro t h2 h3; omega
  · obtain ⟨hc0, hc1, hc2⟩ := h
    have hpos : 0 < G.children_ := by omega
    obtain ⟨a0, ha0, hlen0, hpow0, hrd0⟩ : ∃ a0 : List Nat,
        (if Int.land G.children_ (G.children_ - 1) = 0 then
          realloc G.array_ (2 * G.children_).toNat else G.array_) = a0 ∧
        G.children_ < (a0.length : Int) ∧ (∃ k : Nat, a0.length = 2 ^ k) ∧
        (∀ t, t < G.children_ → rd a0 t = rd G.array_ t) := by
      by_cases hb : Int.land G.children_ (G.children_ - 1) = 0
      · refine ⟨realloc G.array_ (2 * G.children_).toNat, if_pos hb, ?_, ?_, ?_⟩
        · rw [realloc_length]; omega
        · obtain ⟨k, hk⟩ := hc2 hpos
          obtain ⟨c, hc⟩ := Int.eq_ofNat_of_zero_le hc0
          rw [realloc_length]
          by_cases hfull : G.children_ = (G.array_.length : Int)
          · refine ⟨k + 1, ?_⟩
            rw [pow_succ, ← hk]; omega
          · -- the count is a power of two below the block size
            obtain ⟨m, hm⟩ : ∃ m : Nat, c = 2 ^ m := by
              have hc' : c ≠ 0 := by omega
              have hland : c &&& (c - 1) = 0 := by
                have h3 : ((c : Int)) - 1 = ((c - 1 : Nat) : Int) := by omega
                rw [hc, h3] at hb
                have : ((Nat.land c (c - 1) : Nat) : Int) = 0 := hb
                exact_mod_cast this
              exact pow_two_of_land_pred c hc' hland
            refine ⟨m + 1, ?_⟩
            rw [pow_succ, ← hm]; omega
        · intro t ht
          exact rd_realloc _ _ t (by omega) (by omega)
      · refine ⟨G.array_, if_neg hb, ?_, hc2 hpos, fun _ _ => rfl⟩
        exact cap_ok_room G ⟨hc0, hc1, hc2⟩ hb
    obtain ⟨a1, hl1, hl2, hl3, hl4, hl5⟩ := insert_loop_spec index (G.children_ - index).toNat
      G.children_ a0 h0 (by omega) hlen0
    have hw := wr_ok a1 index o h0 (by rw [hl2]; omega)
    refine ⟨a1.set index.toNat o, ?_, ?_, ?_, ?_, ?_, ?_⟩
    · simp only [Fl_Group.insert_place, hz, if_false, ha0, hl1, Option.bind, hw]
    · simp [hl2]; omega
    · intro _; simpa [hl2] using hpow0
    · rw [rd_wr hw]; simp
    · intro t ht0 ht1
      rw [rd_wr hw, hl3 t (by omega), hrd0 t (by omega)]
      have : t ≠ index := by omega
      simp [this]
    · intro t ht0 ht1
      rw [rd_wr hw, hl4 (t + 1) (by omega) (by omega)]
      have : t + 1 ≠ index := by omega
      simp [this]
      exact hrd0 t ht1

theorem insert_attach_eq (s : Heap) (this o : Nat) (index : Int) (a : List Nat)
    (h : Fl_Group.insert_place (s.group this) o index = some a) :
    Fl_Group.insert_attach s this o index = some (Fl_Group.init_sizes
      ((s.set_parent o (some this)).set_group this
        { s.group this with array_ := a, children_ := (s.group this).children_ + 1 }) this) := by
  simp only [Fl_Group.insert_attach, set_parent_group, h]
  rfl

theorem remove_group_other (s s1 : Heap) (this g2 : Nat) (index : Int)
    (h : Fl_Group.remove s this index = some s1) (hne : g2 ≠ this) :
    s1.group g2 = s.group g2 := by
  unfold Fl_Group.remove at h
  split at h
  · cases h; rfl
  · cases hrd : rd (s.group this).array_ index with
    | none => simp [hrd] at h
    | some o =>
      simp only [hrd, Option.bind, set_parent_group] at h
      split at h
      · cases h
      · cases h
        rw [init_sizes_group_other _ _ _ hne, set_group_other _ _ _ _ hne]
        rfl

/-! ## find -/

theorem find_scan_spec (a : List Nat) (o : Nat) (c : Int) (k : Nat) : ∀ idx : Int,
    (k : Int) = idx → idx ≤ (a.length : Int) →
    ∃ r, Fl_Group.find_scan a o c k idx = some r ∧
      ((0 ≤ r ∧ r < idx ∧ rd a r = some o ∧ ∀ j, r < j → j < idx → rd a j ≠ some o) ∨
       (r = c ∧ ∀ j, 0 ≤ j → j < idx → rd a j ≠ some o)) := by
  induction k with
  | zero =>
    intro idx hk _
    have : idx = 0 := by omega
    subst this
    refine ⟨c, by simp [Fl_Group.find_scan], Or.inr ⟨rfl, ?_⟩⟩
    intro j h1 h2; omega
  | succ k ih =>
    intro idx hk hlen
    have hne : idx ≠ 0 := by omega
    obtain ⟨v, hv⟩ := rd_ok a (idx - 1) (by omega) (by omega)
    by_cases hvo : v = o
    · refine ⟨idx - 1, by simp [Fl_Group.find_scan, hne, hv, hvo], Or.inl ⟨by omega, by omega, ?_, ?_⟩⟩
      · rw [hv, hvo]
      · intro j h1 h2; omega
    · obtain ⟨r, hr, hcase⟩ := ih (idx - 1) (by omega) (by omega)
      refine ⟨r, by simp [Fl_Group.find_scan, hne, hv, hvo, hr], ?_⟩
      have hlast : rd a (idx - 1) ≠ some o := by
        rw [hv]; intro h; exact hvo (Option.some.inj h)
      rcases hcase with ⟨h1, h2, h3, h4⟩ | ⟨h1, h2⟩
      · refine Or.inl ⟨h1, by omega, h3, ?_⟩
        intro j hj1 hj2
        by_cases hj : j = idx - 1
        · rw [hj]; exact hlast
        · exact h4 j hj1 (by omega)
      · refine Or.inr ⟨h1, ?_⟩
        intro j hj1 hj2
        by_cases hj : j = idx - 1
        · rw [hj]; exact hlast
        · exact h2 j hj1 (by omega)

theorem find_direct_child (fuel : Nat) (s : Heap) (this o : Nat) (k : Int) (hfuel : 0 < fuel)
    (hp : (s.widget o).parent_ = some this)
    (hlen : (s.group this).children_ ≤ ((s.group this).array_.length : Int))
    (hk0 : 0 ≤ k) (hk1 : k < (s.group this).children_)
    (hk : Fl_Group.child s this k = some o)
    (huniq : ∀ j, 0 ≤ j → j < (s.group this).children_ → Fl_Group.child s this j = some o → j = k) :
    Fl_Group.find fuel s this (some o) = some k := by
  obtain ⟨f, rfl⟩ : ∃ f, fuel = f + 1 := ⟨fuel - 1, by omega⟩
  obtain ⟨r, hr, hcase⟩ := find_scan_spec (s.group this).array_ o (s.group this).children_
    (s.group this).children_.toNat (s.group this).children_ (by omega) hlen
  simp only [Fl_Group.find, Fl_Group.find_up, hp, if_true, Option.bind, hr]
  rcases hcase with ⟨h1, h2, h3, _⟩ | ⟨_, h2⟩
  · rw [huniq r h1 h2 h3]
  · exact absurd hk (h2 k hk0 hk1)

/-- C2: inserting a widget `w` that is parentless or a child of another group `A` into
group `B` at an index in `0 .. children_` succeeds; `B` then has one child more with `w`
at `index`, its former children below `index` in place and the others one position up;
the parent of `w` is `B`; and when `w` came from `A`, `A` has one child fewer, the
children before the former position of `w` in place and those behind it one position
down. -/
theorem insert_into_other_group (fuel : Nat) (s : Heap) (B w : Nat) (index : Int)
    (hfuel : 0 < fuel) (hB : (s.group B).cap_ok)
    (h0 : 0 ≤ index) (h1 : index ≤ (s.group B).children_)
    (hsrc : ∀ A, (s.widget w).parent_ = some A → A ≠ B ∧ (s.group A).cap_ok ∧
      ∃ k, 0 ≤ k ∧ k < (s.group A).children_ ∧ Fl_Group.child s A k = some w ∧
        ∀ j, 0 ≤ j → j < (s.group A).children_ → Fl_Group.child s A j = some w → j = k) :
    ∃ s1, Fl_Group.insert fuel s B w index = some s1 ∧
      (s1.group B).children_ = (s.group B).children_ + 1 ∧
      Fl_Group.child s1 B index = some w ∧
      (∀ j, 0 ≤ j → j < index → Fl_Group.child s1 B j = Fl_Group.child s B j) ∧
      (∀ j, index ≤ j → j < (s.group B).children_ →
        Fl_Group.child s1 B (j + 1) = Fl_Group.child s B j) ∧
      (s1.widget w).parent_ = some B ∧
      (∀ A k, (s.widget w).parent_ = some A → Fl_Group.child s A k = some w →
        0 ≤ k → k < (s.group A).children_ →
        (s1.group A).children_ = (s.group A).children_ - 1 ∧
        (∀ j, 0 ≤ j → j < k → Fl_Group.child s1 A j = Fl_Group.child s A j) ∧
        (∀ j, k < j → j < (s.group A).children_ →
          Fl_Group.child s1 A (j - 1) = Fl_Group.child s A j)) := by
  cases hp : (s.widget w).parent_ with
  | none =>
    obtain ⟨a, ha, _, _, hat, hlo, hhi⟩ := insert_place_spec (s.group B) w index hB h0 h1
    have hins : Fl_Group.insert fuel s B w index = Fl_Group.insert_attach s B w index := by
      simp only [Fl_Group.insert, hp]
    refine ⟨_, hins.trans (insert_attach_eq s B w index a ha), ?_, ?_, ?_, ?_, ?_, ?_⟩
    · simp [init_sizes_group_self]
    · simpa [Fl_Group.child, init_sizes_group_self] using hat
    · intro j hj0 hj1
      simpa [Fl_Group.child, init_sizes_group_self] using hlo j hj0 hj1
    · intro j hj0 hj1
      simpa [Fl_Group.child, init_sizes_group_self] using hhi j hj0 hj1
    · simp
    · intro A k hA; cases hA
  | some A =>
    obtain ⟨hAB, hA, k, hk0, hk1, hk, huniq⟩ := hsrc A hp
    have hfind := find_direct_child fuel s A w k hfuel hp hA.2.1 hk0 hk1 hk huniq
    obtain ⟨s0, o, hrem, ho, hcnt, _, hrlo, hrhi, _⟩ := remove_effect s A k hA.2.1 hk0 hk1
    have hgB : s0.group B = s.group B := remove_group_other s s0 A B k hrem (Ne.symm hAB)
    obtain ⟨a, ha, _, _, hat, hlo, hhi⟩ := insert_place_spec (s.group B) w index hB h0 h1
    have hatt := insert_attach_eq s0 B w index a (by rw [hgB]; exact ha)
    have hidx : (if A = B ∧ index > k then index - 1 else index) = index := by
      simp [hAB]
    have hins : Fl_Group.insert fuel s B w index = Fl_Group.insert_attach s0 B w index := by
      simp only [Fl_Group.insert, hp, hfind, Option.bind, hrem, hidx]
      simp [hAB]
    refine ⟨_, hins.trans hatt, ?_, ?_, ?_, ?_, ?_, ?_⟩
    · simp [init_sizes_group_self, hgB]
    · simpa [Fl_Group.child, init_sizes_group_self] using hat
    · intro j hj0 hj1
      simpa [Fl_Group.child, init_sizes_group_self, hgB] using hlo j hj0 hj1
    · intro j hj0 hj1
      simpa [Fl_Group.child, init_sizes_group_self, hgB] using hhi j hj0 hj1
    · simp
    · intro A2 k2 hA2 hk2 hk20 hk21
      cases hA2
      have hkk : k2 = k := huniq k2 hk20 hk21 hk2
      subst hkk
      have hg : (Fl_Group.init_sizes ((s0.set_parent w (some B)).set_group B
          { s0.group B with array_ := a, children_ := (s0.group B).children_ + 1 }) B).group A
          = s0.group A := by
        rw [init_sizes_group_other _ _ _ hAB, set_group_other _ _ _ _ hAB]; rfl
      refine ⟨?_, ?_, ?_⟩
      · rw [hg]; exact hcnt
      · intro j hj0 hj1
        have := hrlo j hj0 hj1
        simpa [Fl_Group.child, hg] using this
      · intro j hj0 hj1
        have := hrhi j hj0 hj1
        simpa [Fl_Group.child, hg] using this

theorem remove_cap_ok (s s0 : Heap) (this : Nat) (i : Int) (hcap : (s.group this).cap_ok)
    (h0 : 0 ≤ i) (hi : i < (s.group this).children_)
    (h : Fl_Group.remove s this i = some s0) : (s0.group this).cap_ok := by
  obtain ⟨c0, c1, c2⟩ := hcap
  obtain ⟨s1, _, hrem, _, hcnt, hlen, _⟩ := remove_effect s this i c1 h0 hi
  rw [h] at hrem
  cases hrem
  refine ⟨by omega, by rw [hlen]; omega, ?_⟩
  intro _
  rw [hlen]
  exact c2 (by omega)

/-- Witness of `insert_into_other_group`: widget `3`, the middle child of group `1` in
`three_children`, is inserted at index `0` of the empty group `10`. -/
theorem insert_into_other_group_witness :
    ∃ s1, Fl_Group.insert 1 three_children 10 3 0 = some s1 ∧
      (s1.group 10).children_ = (three_children.group 10).children_ + 1 ∧
      Fl_Group.child s1 10 0 = some 3 ∧
      (∀ j, 0 ≤ j → j < 0 → Fl_Group.child s1 10 j = Fl_Group.child three_children 10 j) ∧
      (∀ j, 0 ≤ j → j < (three_children.group 10).children_ →
        Fl_Group.child s1 10 (j + 1) = Fl_Group.child three_children 10 j) ∧
      (s1.widget 3).parent_ = some 10 ∧
      (∀ A k, (three_children.widget 3).parent_ = some A →
        Fl_Group.child three_children A k = some 3 →
        0 ≤ k → k < (three_children.group A).children_ →
        (s1.group A).children_ = (three_children.group A).children_ - 1 ∧
        (∀ j, 0 ≤ j → j < k → Fl_Group.child s1 A j = Fl_Group.child three_children A j) ∧
        (∀ j, k < j → j < (three_children.group A).children_ →
          Fl_Group.child s1 A (j - 1) = Fl_Group.child three_children A j)) :=
  insert_into_other_group 1 three_children 10 3 0 (by decide)
    ⟨by decide, by decide, fun h => absurd h (by decide)⟩ (by decide) (by decide)
    (by
      intro A hA
      have hA1 : A = 1 := by
        have : (three_children.widget 3).parent_ = some 1 := rfl
        rw [this] at hA
        exact (Option.some.inj hA).symm
      subst hA1
      refine ⟨by decide, ⟨by decide, by decide, fun _ => ⟨2, rfl⟩⟩, 1, by decide, by decide,
        rfl, ?_⟩
      intro j hj0 hj1 hj
      have hj3 : j < 3 := hj1
      interval_cases j
      · exact absurd hj (by decide)
      · rfl
      · exact absurd hj (by decide))

/-- C3: `add(w)` succeeds and makes `w` the last child.  For a parentless `w` the child
count grows by one and every former child keeps its position.  For a `w` that already
is a child of this group (at position `k`) the count is unchanged, the children before
`k` keep their positions and those behind `k` move down by one, so the other children
keep their relative order; when `w` already was the last child the heap is unchanged. -/
theorem add_makes_last_child (fuel : Nat) (s : Heap) (this w : Nat)
    (hfuel : 0 < fuel) (hcap : (s.group this).cap_ok)
    (hw : (s.widget w).parent_ = none ∨ ((s.widget w).parent_ = some this ∧
      ∃ k, 0 ≤ k ∧ k < (s.group this).children_ ∧ Fl_Group.child s this k = some w ∧
        ∀ j, 0 ≤ j → j < (s.group this).children_ → Fl_Group.child s this j = some w → j = k)) :
    ∃ s1, Fl_Group.add fuel s this w = some s1 ∧
      Fl_Group.child s1 this ((s1.group this).children_ - 1) = some w ∧
      ((s.widget w).parent_ = none →
        (s1.group this).children_ = (s.group this).children_ + 1 ∧
        ∀ j, 0 ≤ j → j < (s.group this).children_ →
          Fl_Group.child s1 this j = Fl_Group.child s this j) ∧
      (∀ k, (s.widget w).parent_ = some this → Fl_Group.child s this k = some w →
        0 ≤ k → k < (s.group this).children_ →
        (s1.group this).children_ = (s.group this).children_ ∧
        (∀ j, 0 ≤ j → j < k → Fl_Group.child s1 this j = Fl_Group.child s this j) ∧
        (∀ j, k < j → j < (s.group this).children_ →
          Fl_Group.child s1 this (j - 1) = Fl_Group.child s this j) ∧
        (k = (s.group this).children_ - 1 → s1 = s)) := by
  rcases hw with hp | ⟨hp, k, hk0, hk1, hk, huniq⟩
  · obtain ⟨a, ha, _, _, hat, hlo, _⟩ := insert_place_spec (s.group this) w
      (s.group this).children_ hcap hcap.1 (le_refl _)
    have hins : Fl_Group.add fuel s this w
        = Fl_Group.insert_attach s this w (s.group this).children_ := by
      simp only [Fl_Group.add, Fl_Group.insert, hp]
    refine ⟨_, hins.trans (insert_attach_eq s this w _ a ha), ?_, ?_, ?_⟩
    · simpa [Fl_Group.child, init_sizes_group_self] using hat
    · intro _
      refine ⟨by simp [init_sizes_group_self], ?_⟩
      intro j hj0 hj1
      simpa [Fl_Group.child, init_sizes_group_self] using hlo j hj0 hj1
    · intro k2 hk2; rw [hp] at hk2; cases hk2
  · have hfind := find_direct_child fuel s this w k hfuel hp hcap.2.1 hk0 hk1 hk huniq
    by_cases hlast : k = (s.group this).children_ - 1
    · have hins : Fl_Group.add fuel s this w = some s := by
        simp only [Fl_Group.add, Fl_Group.insert, hp, hfind, Option.bind]
        have hgt : (s.group this).children_ > k := hk1
        simp [hgt, ← hlast]
      refine ⟨s, hins, ?_, ?_, ?_⟩
      · rw [← hlast]; exact hk
      · intro h; rw [hp] at h; cases h
      · intro k2 _ hk2 hk20 hk21
        have hkk : k2 = k := huniq k2 hk20 hk21 hk2
        subst hkk
        refine ⟨rfl, fun _ _ _ => rfl, ?_, fun _ => rfl⟩
        intro j hj0 hj1; omega
    · obtain ⟨s0, o, hrem, ho, hcnt, _, hrlo, hrhi, _⟩ :=
        remove_effect s this k hcap.2.1 hk0 hk1
      have hcap0 := remove_cap_ok s s0 this k hcap hk0 hk1 hrem
      obtain ⟨a, ha, _, _, hat, hlo, _⟩ := insert_place_spec (s0.group this) w
        ((s.group this).children_ - 1) hcap0 (by omega) (by omega)
      have hins : Fl_Group.add fuel s this w
          = Fl_Group.insert_attach s0 this w ((s.group this).children_ - 1) := by
        simp only [Fl_Group.add, Fl_Group.insert, hp, hfind, Option.bind, hrem]
        have hne : ¬ ((s.group this).children_ - 1 = k) := fun h => hlast h.symm
        simp [hne, hk1]
      refine ⟨_, hins.trans (insert_attach_eq s0 this w _ a ha), ?_, ?_, ?_⟩
      · simpa [Fl_Group.child, init_sizes_group_self, hcnt] using hat
      · intro h; rw [hp] at h; cases h
      · intro k2 _ hk2 hk20 hk21
        have hkk : k2 = k := huniq k2 hk20 hk21 hk2
        subst hkk
        refine ⟨by simp [init_sizes_group_self, hcnt], ?_, ?_, fun h => absurd h hlast⟩
        · intro j hj0 hj1
          have h1 := hlo j hj0 (by omega)
          have h2 := hrlo j hj0 hj1
          simp only [Fl_Group.child] at h2 ⊢
          simpa [init_sizes_group_self, h2] using h1
        · intro j hj0 hj1
          have h1 := hlo (j - 1) (by omega) (by omega)
          have h2 := hrhi j hj0 hj1
          simp only [Fl_Group.child] at h2 ⊢
          simpa [init_sizes_group_self, h2] using h1

/-! ## Parent chains -/

theorem ancestor_none (s : Heap) (k : Nat) : s.ancestor k none = none := by
  induction k with
  | zero => rfl
  | succ k ih => simpa [Heap.ancestor] using ih

theorem ancestor_add (s : Heap) (a b : Nat) (o : Option Nat) :
    s.ancestor (a + b) o = s.ancestor b (s.ancestor a o) := by
  induction a generalizing o with
  | zero => simp [Heap.ancestor]
  | succ a ih =>
    rw [Nat.succ_add]
    simp only [Heap.ancestor]
    exact ih _

theorem ancestor_succ (s : Heap) (k : Nat) (o : Option Nat) :
    s.ancestor (k + 1) o = (s.ancestor k o).bind fun w => (s.widget w).parent_ := by
  rw [ancestor_add]
  rfl

theorem ancestor_none_le (s : Heap) (a b : Nat) (o : Option Nat) (h : s.ancestor a o = none)
    (hab : a ≤ b) : s.ancestor b o = none := by
  obtain ⟨d, rfl⟩ := Nat.exists_eq_add_of_le hab
  rw [ancestor_add, h, ancestor_none]

theorem no_cycle (s : Heap) (g : Nat) (K : Nat) (hK : s.ancestor K (some g) = none)
    (d : Nat) (hd : 0 < d) : s.ancestor d (some g) ≠ some g := by
  intro h
  have hrep : ∀ t : Nat, s.ancestor (d * t) (some g) = some g := by
    intro t
    induction t with
    | zero => rfl
    | succ t ih =>
      rw [Nat.mul_succ, ancestor_add, ih, h]
  have h1 := hrep K
  have h2 := ancestor_none_le s K (d * K) (some g) hK (Nat.le_mul_of_pos_left K hd)
  rw [h2] at h1
  cases h1

theorem find_up_spec (s : Heap) (g : Nat) (K : Nat) : ∀ (o : Option Nat),
    s.ancestor K o = none → ∀ fuel, K < fuel →
    ∃ res, Fl_Group.find_up s g fuel o = some res ∧
      (∀ a, res = some a → (s.widget a).parent_ = some g ∧ ∃ k, s.ancestor k o = some a) ∧
      (res = none → ∀ k a, s.ancestor k o = some a → (s.widget a).parent_ ≠ some g) := by
  induction K with
  | zero =>
    intro o ho fuel hf
    obtain ⟨f, rfl⟩ : ∃ f, fuel = f + 1 := ⟨fuel - 1, by omega⟩
    simp only [Heap.ancestor] at ho
    subst ho
    refine ⟨none, rfl, (fun a h => by cases h), ?_⟩
    intro _ k a hk
    rw [ancestor_none] at hk
    cases hk
  | succ K ih =>
    intro o ho fuel hf
    obtain ⟨f, rfl⟩ : ∃ f, fuel = f + 1 := ⟨fuel - 1, by omega⟩
    cases o with
    | none =>
      refine ⟨none, rfl, (fun a h => by cases h), ?_⟩
      intro _ k a hk
      rw [ancestor_none] at hk
      cases hk
    | some w =>
      by_cases hp : (s.widget w).parent_ = some g
      · refine ⟨some w, by simp [Fl_Group.find_up, hp], ?_, fun h => by cases h⟩
        intro a ha
        cases ha
        exact ⟨hp, 0, rfl⟩
      · obtain ⟨res, hres, h1, h2⟩ := ih (s.widget w).parent_ ho f (by omega)
        refine ⟨res, by simp [Fl_Group.find_up, hp, hres], ?_, ?_⟩
        · intro a ha
          obtain ⟨hpa, k, hk⟩ := h1 a ha
          exact ⟨hpa, k + 1, hk⟩
        · intro hn k a hk
          cases k with
          | zero =>
            simp only [Heap.ancestor] at hk
            cases hk
            exact hp
          | succ k => exact h2 hn k a hk

/-- In a well-formed tree two widgets on the parent chain of `w` that both have `g` as
parent are the same widget. -/
theorem chain_child_unique (s : Heap) (hwf : s.tree_ok) (g w a b : Nat)
    (ha : s.on_chain w a) (hb : s.on_chain w b)
    (hpa : (s.widget a).parent_ = some g) (hpb : (s.widget b).parent_ = some g) : a = b := by
  obtain ⟨ka, hka⟩ := ha
  obtain ⟨kb, hkb⟩ := hb
  obtain ⟨K, hK⟩ := hwf.finite_chain g
  have hga : s.ancestor (ka + 1) (some w) = some g := by
    rw [ancestor_succ, hka]; exact hpa
  have hgb : s.ancestor (kb + 1) (some w) = some g := by
    rw [ancestor_succ, hkb]; exact hpb
  rcases Nat.lt_trichotomy ka kb with h | h | h
  · exfalso
    obtain ⟨d, hd⟩ : ∃ d, kb + 1 = (ka + 1) + d := ⟨kb - ka, by omega⟩
    rw [hd, ancestor_add, hga] at hgb
    exact no_cycle s g K hK d (by omega) hgb
  · subst h
    rw [hka] at hkb
    exact Option.some.inj hkb
  · exfalso
    obtain ⟨d, hd⟩ : ∃ d, ka + 1 = (kb + 1) + d := ⟨ka - kb, by omega⟩
    rw [hd, ancestor_add, hgb] at hga
    exact no_cycle s g K hK d (by omega) hga

/-- C4: in a well-formed widget tree `find(o)` on a group with `n` children returns (for
every sufficient fuel of the ancestor walk) the index `i < n` whenever child `i` is the
widget `o` itself or an ancestor of it, such an index being unique; it returns `n` when
`o` is null or when no widget on the parent chain of `o` is listed in the child array.
Widgets are compared by their identity (their address), never by their contents. -/
theorem find_returns_index_of_ancestor (s : Heap) (g : Nat) (o : Option Nat)
    (hwf : s.tree_ok) (hcap : (s.group g).cap_ok) :
    ∃ fuel0, ∀ fuel, fuel0 ≤ fuel → ∃ r, Fl_Group.find fuel s g o = some r ∧
      (∀ w i a, o = some w → 0 ≤ i → i < (s.group g).children_ →
        Fl_Group.child s g i = some a → s.on_chain w a →
        r = i ∧ ∀ j b, 0 ≤ j → j < (s.group g).children_ →
          Fl_Group.child s g j = some b → s.on_chain w b → j = i) ∧
      ((o = none ∨ ∀ w i a, o = some w → 0 ≤ i → i < (s.group g).children_ →
        Fl_Group.child s g i = some a → ¬ s.on_chain w a) → r = (s.group g).children_) := by
  obtain ⟨K, hK⟩ : ∃ K, s.ancestor K o = none := by
    cases o with
    | none => exact ⟨0, rfl⟩
    | some w => exact hwf.finite_chain w
  refine ⟨K + 1, ?_⟩
  intro fuel hfuel
  obtain ⟨res, hres, hsome, hnone⟩ := find_up_spec s g K o hK fuel (by omega)
  have huniq : ∀ w i a, o = some w → 0 ≤ i → i < (s.group g).children_ →
      Fl_Group.child s g i = some a → s.on_chain w a →
      ∀ j b, 0 ≤ j → j < (s.group g).children_ →
        Fl_Group.child s g j = some b → s.on_chain w b → j = i := by
    intro w i a _ hi0 hi1 hia hca j b hj0 hj1 hjb hcb
    have hab : b = a := chain_child_unique s hwf g w b a hcb hca
      (hwf.listed_parent g j b hj0 hj1 hjb) (hwf.listed_parent g i a hi0 hi1 hia)
    subst hab
    exact hwf.no_dup g j i b hj0 hj1 hi0 hi1 hjb hia
  cases res with
  | none =>
    refine ⟨(s.group g).children_, by simp [Fl_Group.find, hres], ?_, fun _ => rfl⟩
    intro w i a ho hi0 hi1 hia hca
    exfalso
    subst ho
    obtain ⟨k, hk⟩ := hca
    exact hnone rfl k a hk (hwf.listed_parent g i a hi0 hi1 hia)
  | some a1 =>
    obtain ⟨hpa1, k1, hk1⟩ := hsome a1 rfl
    obtain ⟨r, hr, hcase⟩ := find_scan_spec (s.group g).array_ a1 (s.group g).children_
      (s.group g).children_.toNat (s.group g).children_ (by have := hcap.1; omega) hcap.2.1
    have hfind : Fl_Group.find fuel s g o = some r := by
      simp [Fl_Group.find, hres, hr]
    refine ⟨r, hfind, ?_, ?_⟩
    · intro w i a ho hi0 hi1 hia hca
      refine ⟨?_, huniq w i a ho hi0 hi1 hia hca⟩
      subst ho
      have haa : a1 = a := chain_child_unique s hwf g w a1 a ⟨k1, hk1⟩ hca hpa1
        (hwf.listed_parent g i a hi0 hi1 hia)
      subst haa
      rcases hcase with ⟨h1, h2, h3, _⟩ | ⟨_, h2⟩
      · exact hwf.no_dup g r i a1 h1 h2 hi0 hi1 h3 hia
      · exact absurd hia (h2 i hi0 hi1)
    · intro hno
      rcases hcase with ⟨h1, h2, h3, _⟩ | ⟨h1, _⟩
      · exfalso
        rcases hno with ho | hno
        · subst ho
          rw [ancestor_none] at hk1
          cases hk1
        · cases o with
          | none => rw [ancestor_none] at hk1; cases hk1
          | some w => exact hno w r a1 rfl h1 h2 h3 ⟨k1, hk1⟩
      · exact h1

/-! ## The example heap `three_children` is well formed -/

theorem three_children_cap_ok : (three_children.group 1).cap_ok :=
  ⟨by decide, by decide, fun _ => ⟨2, rfl⟩⟩

theorem three_children_count (g : Nat) (hg : g ≠ 1) : (three_children.group g).children_ = 0 := by
  simp [three_children, hg, new_group]

theorem three_children_slot (j : Int) (c : Nat) (h0 : 0 ≤ j)
    (h1 : j < (three_children.group 1).children_)
    (hc : Fl_Group.child three_children 1 j = some c) :
    (j = 0 ∧ c = 2) ∨ (j = 1 ∧ c = 3) ∨ (j = 2 ∧ c = 4) := by
  have h3 : j < 3 := h1
  interval_cases j
  · left; exact ⟨rfl, (Option.some.inj hc).symm⟩
  · right; left; exact ⟨rfl, (Option.some.inj hc).symm⟩
  · right; right; exact ⟨rfl, (Option.some.inj hc).symm⟩

theorem three_children_tree_ok : three_children.tree_ok := by
  refine ⟨?_, ?_, ?_⟩
  · intro g j c h0 h1 hc
    by_cases hg : g = 1
    · subst hg
      rcases three_children_slot j c h0 h1 hc with ⟨_, rfl⟩ | ⟨_, rfl⟩ | ⟨_, rfl⟩ <;> rfl
    · rw [three_children_count g hg] at h1; omega
  · intro g i j c hi0 hi1 hj0 hj1 hic hjc
    by_cases hg : g = 1
    · subst hg
      rcases three_children_slot i c hi0 hi1 hic with ⟨hi, hci⟩ | ⟨hi, hci⟩ | ⟨hi, hci⟩ <;>
        rcases three_children_slot j c hj0 hj1 hjc with ⟨hj, hcj⟩ | ⟨hj, hcj⟩ | ⟨hj, hcj⟩ <;>
        omega
    · rw [three_children_count g hg] at hi1; omega
  · intro w
    refine ⟨2, ?_⟩
    by_cases hw : w = 2 ∨ w = 3 ∨ w = 4
    · simp [Heap.ancestor, three_children, hw, plain_widget]
    · simp [Heap.ancestor, three_children, hw, plain_widget]

/-- Witness of `add_makes_last_child`: `add` of widget `2`, the first child of group `1`
in `three_children`. -/
theorem add_makes_last_child_witness :
    ∃ s1, Fl_Group.add 1 three_children 1 2 = some s1 ∧
      Fl_Group.child s1 1 ((s1.group 1).children_ - 1) = some 2 ∧
      ((three_children.widget 2).parent_ = none →
        (s1.group 1).children_ = (three_children.group 1).children_ + 1 ∧
        ∀ j, 0 ≤ j → j < (three_children.group 1).children_ →
          Fl_Group.child s1 1 j = Fl_Group.child three_children 1 j) ∧
      (∀ k, (three_children.widget 2).parent_ = some 1 →
        Fl_Group.child three_children 1 k = some 2 →
        0 ≤ k → k < (three_children.group 1).children_ →
        (s1.group 1).children_ = (three_children.group 1).children_ ∧
        (∀ j, 0 ≤ j → j < k → Fl_Group.child s1 1 j = Fl_Group.child three_children 1 j) ∧
        (∀ j, k < j → j < (three_children.group 1).children_ →
          Fl_Group.child s1 1 (j - 1) = Fl_Group.child three_children 1 j) ∧
        (k = (three_children.group 1).children_ - 1 → s1 = three_children)) :=
  add_makes_last_child 1 three_children 1 2 (by decide) three_children_cap_ok
    (Or.inr ⟨rfl, 0, by decide, by decide, rfl, fun j hj0 hj1 hj =>
      three_children_tree_ok.no_dup 1 j 0 2 hj0 hj1 (by decide) (by decide) hj rfl⟩)

/-- Witness of `find_returns_index_of_ancestor`: `find` of widget `3` in group `1` of
`three_children`. -/
theorem find_returns_index_of_ancestor_witness :
    ∃ fuel0, ∀ fuel, fuel0 ≤ fuel → ∃ r, Fl_Group.find fuel three_children 1 (some 3) = some r ∧
      (∀ w i a, some 3 = some w → 0 ≤ i → i < (three_children.group 1).children_ →
        Fl_Group.child three_children 1 i = some a → three_children.on_chain w a →
        r = i ∧ ∀ j b, 0 ≤ j → j < (three_children.group 1).children_ →
          Fl_Group.child three_children 1 j = some b → three_children.on_chain w b → j = i) ∧
      ((some 3 = none ∨ ∀ w i a, some 3 = some w → 0 ≤ i →
        i < (three_children.group 1).children_ →
        Fl_Group.child three_children 1 i = some a → ¬ three_children.on_chain w a) →
        r = (three_children.group 1).children_) :=
  find_returns_index_of_ancestor three_children 1 (some 3) three_children_tree_ok
    three_children_cap_ok

/-- C5 (failing input): starting from freshly constructed objects, `add` widget `2` to
group `1` and widget `11` to group `10`, then `replace(0, widget 2)` on group `10`.
`replace` does not detach widget `2` from group `1`: afterwards it is listed both in
group `1` (slot `0`) and in group `10` (slot `0`), while its parent reference is
group `10`. -/
theorem replace_leaves_widget_in_two_groups :
    ((((Fl_Group.add 1 fresh_heap 1 2).bind fun s1 => Fl_Group.add 1 s1 10 11).bind
        fun s2 => Fl_Group.replace 1 s2 10 0 2).map fun s3 =>
      ((s3.group 1).children_, Fl_Group.child s3 1 0,
       (s3.group 10).children_, Fl_Group.child s3 10 0, (s3.widget 2).parent_))
      = some (1, some 2, 1, some 2, some 10) := by
  rfl

/-! ## Invariants of the reachable heaps -/

theorem group_inv_set_group (P : Fl_Group → Prop) (s : Heap) (g0 : Nat) (G : Fl_Group)
    (h : ∀ g, P (s.group g)) (hG : P G) : ∀ g, P ((s.set_group g0 G).group g) := by
  intro g
  by_cases hg : g = g0
  · subst hg; simpa using hG
  · rw [set_group_other _ _ _ _ hg]; exact h g

theorem find_scan_range (a : List Nat) (o : Nat) (c : Int) (k : Nat) : ∀ (idx r : Int),
    Fl_Group.find_scan a o c k idx = some r → 0 ≤ c → idx ≤ c → 0 ≤ r ∧ r ≤ c := by
  induction k with
  | zero =>
    intro idx r h hc _
    simp only [Fl_Group.find_scan] at h
    split at h
    · cases h
    · cases h; exact ⟨hc, le_refl _⟩
  | succ k ih =>
    intro idx r h hc hidx
    simp only [Fl_Group.find_scan] at h
    split at h
    · cases hv : rd a (idx - 1) with
      | none => simp [hv] at h
      | some v =>
        simp only [hv, Option.bind] at h
        have h0 : 0 ≤ idx - 1 := by
          by_contra hneg
          rw [rd_neg a (idx - 1) (by omega)] at hv
          cases hv
        split at h
        · cases h; exact ⟨h0, by omega⟩
        · exact ih (idx - 1) r h hc (by omega)
    · cases h; exact ⟨hc, le_refl _⟩

theorem find_range (fuel : Nat) (s : Heap) (g : Nat) (o : Option Nat) (n : Int)
    (h : Fl_Group.find fuel s g o = some n) (hc : 0 ≤ (s.group g).children_) :
    0 ≤ n ∧ n ≤ (s.group g).children_ := by
  unfold Fl_Group.find at h
  cases hu : Fl_Group.find_up s g fuel o with
  | none => simp [hu] at h
  | some res =>
    simp only [hu, Option.bind] at h
    cases res with
    | none => cases h; exact ⟨hc, le_refl _⟩
    | some o1 => exact find_scan_range _ _ _ _ _ _ h hc (le_refl _)

theorem inv_init_sizes (s : Heap) (g0 : Nat) (h : ∀ g, (s.group g).inv) :
    ∀ g, ((Fl_Group.init_sizes s g0).group g).inv := by
  intro g
  by_cases hg : g = g0
  · subst hg
    rw [init_sizes_group_self]
    obtain ⟨h1, h2, _⟩ := h g
    exact ⟨h1, h2, fun z hz => by cases hz⟩
  · rw [init_sizes_group_other _ _ _ hg]; exact h g

/-- A structural change of group `g0` followed by `init_sizes` keeps the invariant as
long as the new count is not negative and `focus_` is kept or reset. -/
theorem inv_change_then_init_sizes (s : Heap) (g0 : Nat) (G : Fl_Group)
    (h : ∀ g, (s.group g).inv) (hc : 0 ≤ G.children_) (hf : 0 ≤ G.focus_) :
    ∀ g, ((Fl_Group.init_sizes (s.set_group g0 G) g0).group g).inv := by
  intro g
  by_cases hg : g = g0
  · subst hg
    rw [init_sizes_group_self]
    simp only [set_group_same]
    exact ⟨hc, hf, fun z hz => by cases hz⟩
  · rw [init_sizes_group_other _ _ _ hg, set_group_other _ _ _ _ hg]; exact h g

theorem inv_remove (s s1 : Heap) (g0 : Nat) (index : Int)
    (hr : Fl_Group.remove s g0 index = some s1) (h : ∀ g, (s.group g).inv) :
    ∀ g, (s1.group g).inv := by
  unfold Fl_Group.remove at hr
  split at hr
  · cases hr; exact h
  · rename_i hlt
    obtain ⟨o, ho, hr⟩ := Option.bind_eq_some.mp hr
    obtain ⟨a, _, hr⟩ := Option.bind_eq_some.mp hr
    cases hr
    have h0 : 0 ≤ index := by
      by_contra hneg
      rw [rd_neg _ index (by omega)] at ho
      cases ho
    apply inv_change_then_init_sizes (s.set_parent o none) g0 _ h
    · show 0 ≤ (s.group g0).children_ - 1
      omega
    · exact (h g0).2.1

theorem inv_insert_attach (s s1 : Heap) (g0 o : Nat) (index : Int)
    (hr : Fl_Group.insert_attach s g0 o index = some s1) (h : ∀ g, (s.group g).inv) :
    ∀ g, (s1.group g).inv := by
  unfold Fl_Group.insert_attach at hr
  obtain ⟨a, _, hr⟩ := Option.bind_eq_some.mp hr
  cases hr
  apply inv_change_then_init_sizes (s.set_parent o (some g0)) g0 _ h
  · show 0 ≤ (s.group g0).children_ + 1
    have := (h g0).1
    omega
  · exact (h g0).2.1

theorem inv_insert (fuel : Nat) (s s1 : Heap) (g0 o : Nat) (index : Int)
    (hr : Fl_Group.insert fuel s g0 o index = some s1) (h : ∀ g, (s.group g).inv) :
    ∀ g, (s1.group g).inv := by
  cases hp : (s.widget o).parent_ with
  | none =>
    simp only [Fl_Group.insert, hp] at hr
    exact inv_insert_attach s s1 g0 o index hr h
  | some p =>
    simp only [Fl_Group.insert, hp] at hr
    obtain ⟨n, _, hr⟩ := Option.bind_eq_some.mp hr
    generalize (if p = g0 ∧ index > n then index - 1 else index) = index1 at hr
    split at hr
    · cases hr; exact h
    · obtain ⟨s0, h0, hr⟩ := Option.bind_eq_some.mp hr
      exact inv_insert_attach s0 s1 g0 o _ hr (inv_remove s s0 _ n h0 h)

theorem inv_replace (fuel : Nat) (s s1 : Heap) (g0 : Nat) (index : Int) (o : Nat)
    (hr : Fl_Group.replace fuel s g0 index o = some s1) (h : ∀ g, (s.group g).inv) :
    ∀ g, (s1.group g).inv := by
  unfold Fl_Group.replace at hr
  split at hr
  · exact inv_insert fuel s s1 g0 o _ hr h
  · obtain ⟨old, _, hr⟩ := Option.bind_eq_some.mp hr
    obtain ⟨a, _, hr⟩ := Option.bind_eq_some.mp hr
    cases hr
    apply inv_change_then_init_sizes ((s.set_parent o (some g0)).set_parent old none) g0 _ h
    · exact (h g0).1
    · exact (h g0).2.1

theorem clear_loop_group (a : List Nat) (k : Nat) : ∀ (e : Int) (s : Heap)
    (seen : List (Nat × Heap)) (r : Heap × List (Nat × Heap)),
    Fl_Group.clear_loop a k e s seen = some r → r.1.group = s.group := by
  induction k with
  | zero =>
    intro e s seen r h
    simp only [Fl_Group.clear_loop] at h
    split at h
    · cases h
    · cases h; rfl
  | succ k ih =>
    intro e s seen r h
    simp only [Fl_Group.clear_loop] at h
    split at h
    · obtain ⟨o, _, h⟩ := Option.bind_eq_some.mp h
      exact ih _ (s.set_parent o none) _ _ h
    · cases h; rfl

theorem clear_reset_group_self (s : Heap) (g : Nat) :
    ((Fl_Group.clear_reset s g).group g).children_ = 0 ∧
    ((Fl_Group.clear_reset s g).group g).focus_ = 0 ∧
    ((Fl_Group.clear_reset s g).group g).sizes_ = (s.group g).sizes_ := by
  unfold Fl_Group.clear_reset
  simp only [set_group_same]
  split <;> simp

theorem clear_reset_group_other (s : Heap) (g g2 : Nat) (h : g2 ≠ g) :
    (Fl_Group.clear_reset s g).group g2 = s.group g2 := by
  unfold Fl_Group.clear_reset
  simp only [set_group_same]
  split
  · rw [set_group_other _ _ _ _ h, set_group_other _ _ _ _ h]
  · rw [set_group_other _ _ _ _ h]

theorem inv_clear (s s1 : Heap) (g0 : Nat) (hr : Fl_Group.clear s g0 = some s1)
    (h : ∀ g, (s.group g).inv) : ∀ g, (s1.group g).inv := by
  obtain ⟨r, hr2, hr3⟩ := Option.map_eq_some'.mp hr
  subst hr3
  have hi := inv_init_sizes s g0 h
  simp only [Fl_Group.clear_trace] at hr2
  split at hr2
  · obtain ⟨r1, hloop, hr4⟩ := Option.bind_eq_some.mp hr2
    cases hr4
    have hg := clear_loop_group _ _ _ _ _ _ hloop
    have hsizes : ((Fl_Group.init_sizes s g0).group g0).sizes_ = none := by
      rw [init_sizes_group_self]
    obtain ⟨c1, c2, c3⟩ := clear_reset_group_self (Fl_Group.init_sizes s g0) g0
    intro g
    by_cases hgg : g = g0
    · subst hgg
      simp only [set_group_same, hg]
      refine ⟨by rw [c1], by rw [c2], ?_⟩
      intro z hz
      rw [c3, hsizes] at hz
      cases hz
    · simp only [set_group_other _ _ _ _ hgg, hg]
      rw [clear_reset_group_other _ _ _ hgg]
      exact hi g
  · cases hr2; exact hi

theorem cp_length (p p1 : List Int) (dst src : Int) (h : cp p dst src = some p1) :
    p1.length = p.length := by
  obtain ⟨v, _, h⟩ := Option.bind_eq_some.mp h
  exact wr_length h

theorem cp_add_length (p p1 : List Int) (dst src d : Int)
    (h : cp_add p dst src d = some p1) : p1.length = p.length := by
  obtain ⟨v, _, h⟩ := Option.bind_eq_some.mp h
  exact wr_length h

theorem sizes_group_quad_length (G : Fl_Group) (p p1 : List Int)
    (h : Fl_Group.sizes_group_quad G p = some p1) : p1.length = p.length := by
  obtain ⟨q1, h1, h⟩ := Option.bind_eq_some.mp h
  obtain ⟨q2, h2, h⟩ := Option.bind_eq_some.mp h
  obtain ⟨q3, h3, h⟩ := Option.bind_eq_some.mp h
  rw [cp_add_length _ _ _ _ _ h, cp_add_length _ _ _ _ _ h3, cp_length _ _ _ _ h2,
    wr_length h1]

theorem sizes_resizable_quad_length (p p1 : List Int)
    (h : Fl_Group.sizes_resizable_quad p = some p1) : p1.length = p.length := by
  obtain ⟨q1, h1, h⟩ := Option.bind_eq_some.mp h
  obtain ⟨q2, h2, h⟩ := Option.bind_eq_some.mp h
  obtain ⟨q3, h3, h⟩ := Option.bind_eq_some.mp h
  rw [cp_length _ _ _ _ h, cp_length _ _ _ _ h3, cp_length _ _ _ _ h2, cp_length _ _ _ _ h1]

theorem wr_if_length (c : Prop) [Decidable c] (p p1 : List Int) (i v : Int)
    (h : (if c then wr p i v else some p) = some p1) : p1.length = p.length := by
  split at h
  · exact wr_length h
  · cases h; rfl

theorem sizes_clip_length (s : Heap) (g : Nat) (p p1 : List Int)
    (h : Fl_Group.sizes_clip s g p = some p1) : p1.length = p.length := by
  unfold Fl_Group.sizes_clip at h
  split at h
  · cases h; rfl
  · split at h
    · obtain ⟨v0, _, h⟩ := Option.bind_eq_some.mp h
      obtain ⟨q1, h1, h⟩ := Option.bind_eq_some.mp h
      obtain ⟨v1, _, h⟩ := Option.bind_eq_some.mp h
      obtain ⟨q2, h2, h⟩ := Option.bind_eq_some.mp h
      obtain ⟨v2, _, h⟩ := Option.bind_eq_some.mp h
      obtain ⟨q3, h3, h⟩ := Option.bind_eq_some.mp h
      obtain ⟨v3, _, h⟩ := Option.bind_eq_some.mp h
      rw [wr_if_length _ _ _ _ _ h, wr_if_length _ _ _ _ _ h3, wr_if_length _ _ _ _ _ h2,
        wr_if_length _ _ _ _ _ h1]
    · cases h; rfl

theorem sizes_loop_length (s : Heap) (arr : List Nat) (e : Int) (k : Nat) :
    ∀ (a p : Int) (buf buf1 : List Int),
    Fl_Group.sizes_loop s arr e k a p buf = some buf1 → buf1.length = buf.length := by
  induction k with
  | zero =>
    intro a p buf buf1 h
    simp only [Fl_Group.sizes_loop] at h
    split at h
    · cases h
    · cases h; rfl
  | succ k ih =>
    intro a p buf buf1 h
    simp only [Fl_Group.sizes_loop] at h
    split at h
    · obtain ⟨o, _, h⟩ := Option.bind_eq_some.mp h
      obtain ⟨b1, h1, h⟩ := Option.bind_eq_some.mp h
      obtain ⟨b2, h2, h⟩ := Option.bind_eq_some.mp h
      obtain ⟨b3, h3, h⟩ := Option.bind_eq_some.mp h
      obtain ⟨b4, h4, h⟩ := Option.bind_eq_some.mp h
      rw [ih _ _ _ _ h, wr_length h4, wr_length h3, wr_length h2, wr_length h1]
    · cases h; rfl

theorem sizes_build_length (s : Heap) (g : Nat) (p : List Int)
    (h : Fl_Group.sizes_build s g = some p) :
    (p.length : Int) = 4 * ((s.group g).children_ + 2) := by
  unfold Fl_Group.sizes_build at h
  simp only at h
  split at h
  · cases h
  · rename_i hneg
    obtain ⟨q1, h1, h⟩ := Option.bind_eq_some.mp h
    obtain ⟨q2, h2, h⟩ := Option.bind_eq_some.mp h
    obtain ⟨q3, h3, h⟩ := Option.bind_eq_some.mp h
    rw [sizes_loop_length _ _ _ _ _ _ _ _ h, sizes_clip_length _ _ _ _ h3,
      sizes_resizable_quad_length _ _ h2, sizes_group_quad_length _ _ _ h1]
    simp only [List.length_replicate]
    omega

theorem inv_sizes (s s1 : Heap) (g0 : Nat) (p : List Int)
    (hr : Fl_Group.sizes s g0 = some (s1, p)) (h : ∀ g, (s.group g).inv) :
    ∀ g, (s1.group g).inv := by
  unfold Fl_Group.sizes at hr
  split at hr
  · cases hr; exact h
  · obtain ⟨q, hq, hr2⟩ := Option.bind_eq_some.mp hr
    cases hr2
    apply group_inv_set_group Fl_Group.inv s g0 _ h
    refine ⟨(h g0).1, (h g0).2.1, ?_⟩
    intro z hz
    cases hz
    exact sizes_build_length s g0 p hq

theorem layout_children_eq (arr : List Nat) (e : Int) (k : Nat) : ∀ (a : Int) (s s1 : Heap),
    Fl_Group.layout_children arr e k a s = some s1 → s1 = s := by
  induction k with
  | zero =>
    intro a s s1 h
    simp only [Fl_Group.layout_children] at h
    split at h
    · cases h
    · cases h; rfl
  | succ k ih =>
    intro a s s1 h
    simp only [Fl_Group.layout_children] at h
    split at h
    · obtain ⟨o, _, h⟩ := Option.bind_eq_some.mp h
      exact ih _ _ _ h
    · cases h; rfl

theorem layout_loop_group (arr : List Nat) (e : Int) (sz : List Int)
    (dw dh IX IR IY IB : Int) (k : Nat) : ∀ (a p : Int) (s s1 : Heap),
    Fl_Group.layout_loop arr e sz dw dh IX IR IY IB k a p s = some s1 →
    s1.group = s.group := by
  induction k with
  | zero =>
    intro a p s s1 h
    simp only [Fl_Group.layout_loop] at h
    split at h
    · cases h
    · cases h; rfl
  | succ k ih =>
    intro a p s s1 h
    simp only [Fl_Group.layout_loop] at h
    split at h
    · obtain ⟨o, _, h⟩ := Option.bind_eq_some.mp h
      obtain ⟨r, _, h⟩ := Option.bind_eq_some.mp h
      exact ih _ _ (Fl_Widget.layout (Fl_Widget.resize s o r.1 r.2.1 r.2.2.1 r.2.2.2) o) _ h
    · cases h; rfl

theorem inv_set_old_size (s : Heap) (g0 : Nat) (h : ∀ g, (s.group g).inv) :
    ∀ g, ((Fl_Group.set_old_size s g0).group g).inv := by
  unfold Fl_Group.set_old_size
  exact group_inv_set_group Fl_Group.inv s g0 _ h (h g0)

theorem inv_layout (s s1 : Heap) (g0 : Nat) (hr : Fl_Group.layout s g0 = some s1)
    (h : ∀ g, (s.group g).inv) : ∀ g, (s1.group g).inv := by
  unfold Fl_Group.layout at hr
  obtain ⟨s2, h2, hr2⟩ := Option.bind_eq_some.mp hr
  cases hr2
  apply inv_set_old_size
  show ∀ g, (s2.group g).inv
  split at h2
  · split at h2
    · rw [layout_children_eq _ _ _ _ _ _ h2]; exact h
    · cases h2; exact h
  · split at h2
    · obtain ⟨sp, hsz, h2⟩ := Option.bind_eq_some.mp h2
      obtain ⟨p0, _, h2⟩ := Option.bind_eq_some.mp h2
      obtain ⟨p1, _, h2⟩ := Option.bind_eq_some.mp h2
      obtain ⟨p2, _, h2⟩ := Option.bind_eq_some.mp h2
      obtain ⟨p3, _, h2⟩ := Option.bind_eq_some.mp h2
      obtain ⟨IX, _, h2⟩ := Option.bind_eq_some.mp h2
      obtain ⟨IR, _, h2⟩ := Option.bind_eq_some.mp h2
      obtain ⟨IY, _, h2⟩ := Option.bind_eq_some.mp h2
      obtain ⟨IB, _, h2⟩ := Option.bind_eq_some.mp h2
      have hg := layout_loop_group _ _ _ _ _ _ _ _ _ _ _ _ _ _ h2
      rw [hg]
      exact inv_sizes s sp.1 g0 sp.2 hsz h
    · cases h2; exact h

theorem handle_heap (fuel : Nat) (kids : Children) (s s1 : Heap) (fl fl1 : Fl) (g : Nat)
    (event : Fl_Event) (r : Int)
    (hr : Fl_Group.handle fuel kids s fl g event = some (s1, fl1, r)) :
    s1 = s ∨ (event = Fl_Event.FL_FOCUS ∧ r = 1 ∧ fl1 = fl ∧
      Fl_Widget.contains s g fuel fl.focus_ = some true ∧
      ∃ n, Fl_Group.find fuel s g fl.focus_ = some n ∧
        s1 = s.set_group g { s.group g with focus_ := n }) := by
  cases event
  case FL_FOCUS =>
    simp only [Fl_Group.handle] at hr
    obtain ⟨c, hc, hr⟩ := Option.bind_eq_some.mp hr
    cases c with
    | true =>
      simp only [if_true] at hr
      obtain ⟨n, hn, hr⟩ := Option.bind_eq_some.mp hr
      cases hr
      exact Or.inr ⟨rfl, rfl, rfl, hc, n, hn, rfl⟩
    | false =>
      simp only [Bool.false_eq_true, if_false] at hr
      obtain ⟨x, _, hr⟩ := Option.bind_eq_some.mp hr
      cases hr
      exact Or.inl rfl
  all_goals
    simp only [Fl_Group.handle] at hr
    obtain ⟨x, _, hr⟩ := Option.bind_eq_some.mp hr
    cases hr
    exact Or.inl rfl

theorem inv_handle (fuel : Nat) (kids : Children) (s s1 : Heap) (fl fl1 : Fl) (g0 : Nat)
    (event : Fl_Event) (r : Int)
    (hr : Fl_Group.handle fuel kids s fl g0 event = some (s1, fl1, r))
    (h : ∀ g, (s.group g).inv) : ∀ g, (s1.group g).inv := by
  rcases handle_heap fuel kids s s1 fl fl1 g0 event r hr with rfl | ⟨_, _, _, _, n, hn, rfl⟩
  · exact h
  · apply group_inv_set_group Fl_Group.inv s g0 _ h
    exact ⟨(h g0).1, (find_range fuel s g0 _ n hn (h g0).1).1, (h g0).2.2⟩

theorem inv_step (s s1 : Heap) (hs : Fl_Group.step s s1) (h : ∀ g, (s.group g).inv) :
    ∀ g, (s1.group g).inv := by
  cases hs with
  | insert fuel _ _ g o index hr => exact inv_insert fuel s s1 g o index hr h
  | add fuel _ _ g o hr => exact inv_insert fuel s s1 g o _ hr h
  | remove _ _ g index hr => exact inv_remove s s1 g index hr h
  | replace fuel _ _ g index o hr => exact inv_replace fuel s s1 g index o hr h
  | clear _ _ g hr => exact inv_clear s s1 g hr h
  | init_sizes _ g => exact inv_init_sizes s g h
  | sizes _ _ g p hr => exact inv_sizes s s1 g p hr h
  | layout _ _ g hr => exact inv_layout s s1 g hr h
  | handle fuel kids _ _ fl fl1 g event r hr => exact inv_handle fuel kids s s1 fl fl1 g event r hr h

theorem inv_reachable (s : Heap) (hs : s.reachable) : ∀ g, (s.group g).inv := by
  induction hs with
  | init s hc =>
    intro g
    obtain ⟨h1, h2, _, _, h5⟩ := hc g
    exact ⟨by rw [h1], by rw [h2], fun z hz => by rw [h5] at hz; cases hz⟩
  | next s s1 _ hstep ih => exact inv_step s s1 hstep ih

/-! ## Focus index and snapshot in the reachable heaps -/

theorem contains_of_chain (s : Heap) (g : Nat) (k : Nat) : ∀ (o : Option Nat),
    s.ancestor k o = some g → ∀ fuel, k < fuel →
    Fl_Widget.contains s g fuel o = some true := by
  induction k with
  | zero =>
    intro o ho fuel hf
    obtain ⟨f, rfl⟩ : ∃ f, fuel = f + 1 := ⟨fuel - 1, by omega⟩
    simp only [Heap.ancestor] at ho
    subst ho
    simp [Fl_Widget.contains]
  | succ k ih =>
    intro o ho fuel hf
    obtain ⟨f, rfl⟩ : ∃ f, fuel = f + 1 := ⟨fuel - 1, by omega⟩
    cases o with
    | none => rw [ancestor_none] at ho; cases ho
    | some w =>
      by_cases hw : w = g
      · simp [Fl_Widget.contains, hw]
      · simp only [Fl_Widget.contains, hw, if_false]
        exact ih _ ho f (by omega)

/-- In a well-formed tree `find(w)` returns the index of the listed child that is `w`
or an ancestor of `w`, for every sufficient fuel. -/
theorem find_listed_ancestor (s : Heap) (g w : Nat) (i : Int) (a : Nat)
    (hwf : s.tree_ok) (hcap : (s.group g).cap_ok)
    (hi0 : 0 ≤ i) (hi1 : i < (s.group g).children_)
    (hia : Fl_Group.child s g i = some a) (hca : s.on_chain w a) :
    ∃ fuel0, ∀ fuel, fuel0 ≤ fuel → Fl_Group.find fuel s g (some w) = some i := by
  obtain ⟨K, hK⟩ := hwf.finite_chain w
  refine ⟨K + 1, ?_⟩
  intro fuel hfuel
  obtain ⟨res, hres, hsome, hnone⟩ := find_up_spec s g K (some w) hK fuel (by omega)
  have hpa := hwf.listed_parent g i a hi0 hi1 hia
  cases res with
  | none =>
    exfalso
    obtain ⟨k, hk⟩ := hca
    exact hnone rfl k a hk hpa
  | some a1 =>
    obtain ⟨hpa1, k1, hk1⟩ := hsome a1 rfl
    have haa : a1 = a := chain_child_unique s hwf g w a1 a ⟨k1, hk1⟩ hca hpa1 hpa
    subst haa
    obtain ⟨r, hr, hcase⟩ := find_scan_spec (s.group g).array_ a1 (s.group g).children_
      (s.group g).children_.toNat (s.group g).children_ (by have := hcap.1; omega) hcap.2.1
    have hfind : Fl_Group.find fuel s g (some w) = some r := by
      simp [Fl_Group.find, hres, hr]
    rw [hfind]
    rcases hcase with ⟨h1, h2, h3, _⟩ | ⟨_, h2⟩
    · rw [hwf.no_dup g r i a1 h1 h2 hi0 hi1 h3 hia]
    · exact absurd hia (h2 i hi0 hi1)

theorem fresh_heap_constructed : fresh_heap.constructed :=
  fun _ => ⟨rfl, rfl, rfl, rfl, rfl⟩

theorem run_3_reachable : run_3.reachable :=
  Heap.reachable.next run_2 run_3
    (Heap.reachable.next run_1 run_2
      (Heap.reachable.next fresh_heap run_1
        (Heap.reachable.init fresh_heap fresh_heap_constructed)
        (Fl_Group.step.add 1 fresh_heap run_1 1 2 rfl))
      (Fl_Group.step.add 1 run_1 run_2 1 3 rfl))
    (Fl_Group.step.add 1 run_2 run_3 1 4 rfl)

theorem run_5_reachable : run_5.reachable :=
  Heap.reachable.next run_4 run_5
    (Heap.reachable.next run_3 run_4 run_3_reachable
      (Fl_Group.step.handle 2 quiet_children run_3 run_4 focus_on_4 focus_on_4 1
        Fl_Event.FL_FOCUS 1 rfl))
    (Fl_Group.step.remove run_4 run_5 1 2 rfl)

theorem run_6_reachable : run_6.reachable :=
  Heap.reachable.next run_5 run_6 run_5_reachable
    (Fl_Group.step.sizes run_5 run_6 1 (List.replicate 16 0) rfl)

/-- C6 (as stated, refuted), in two runs from fresh groups.  First: three `add` calls,
`handle(FL_FOCUS)` with the last child holding the focus (heap `run_4`, `focus_ = 2`)
and `remove(2)` reach `run_5`, where group `1` has two children and `focus_` is `2`,
which is neither the initial value nor an index below the child count.  Second: in
`run_3` (three `add` calls) the focus widget is the group `1` itself, which the group
contains; `handle(FL_FOCUS)` returns `1` and stores `3`, the child count, which is no
index below the child count. -/
theorem focus_index_dangles_after_remove :
    (run_5.reachable ∧ (run_4.group 1).focus_ = 2 ∧ (run_4.group 1).children_ = 3 ∧
      Fl_Group.remove run_4 1 2 = some run_5 ∧
      (run_5.group 1).children_ = 2 ∧ (run_5.group 1).focus_ = 2 ∧
      ¬ ((run_5.group 1).focus_ = 0 ∨
        (0 ≤ (run_5.group 1).focus_ ∧ (run_5.group 1).focus_ < (run_5.group 1).children_))) ∧
    (run_3.reachable ∧ (run_3.group 1).children_ = 3 ∧ focus_on_1.focus_ = some 1 ∧
      Fl_Widget.contains run_3 1 2 focus_on_1.focus_ = some true ∧
      Fl_Group.handle 2 quiet_children run_3 focus_on_1 1 Fl_Event.FL_FOCUS
        = some (run_3.set_group 1 { run_3.group 1 with focus_ := 3 }, focus_on_1, 1) ∧
      ((Fl_Group.handle 2 quiet_children run_3 focus_on_1 1 Fl_Event.FL_FOCUS).map fun r =>
        ((r.1.group 1).focus_, (r.1.group 1).children_)) = some (3, 3) ∧
      ¬ ((3 : Int) < 3)) :=
  ⟨⟨run_5_reachable, rfl, rfl, rfl, rfl, rfl, by decide⟩,
    ⟨run_3_reachable, rfl, rfl, rfl, rfl, rfl, by decide⟩⟩

theorem discard_after_change (s : Heap) (g0 : Nat) (G : Fl_Group) (g : Nat) :
    ((Fl_Group.init_sizes (s.set_group g0 G) g0).group g) = s.group g ∨
      ((Fl_Group.init_sizes (s.set_group g0 G) g0).group g).sizes_ = none := by
  by_cases hg : g = g0
  · subst hg
    right
    rw [init_sizes_group_self]
  · left
    rw [init_sizes_group_other _ _ _ hg, set_group_other _ _ _ _ hg]

theorem discard_trans (s s1 s2 : Heap)
    (h1 : ∀ g, s1.group g = s.group g ∨ (s1.group g).sizes_ = none)
    (h2 : ∀ g, s2.group g = s1.group g ∨ (s2.group g).sizes_ = none) :
    ∀ g, s2.group g = s.group g ∨ (s2.group g).sizes_ = none := by
  intro g
  rcases h2 g with h | h
  · rcases h1 g with h3 | h3
    · left; rw [h, h3]
    · right; rw [h, h3]
  · exact Or.inr h

theorem remove_discards (s s1 : Heap) (g0 : Nat) (index : Int)
    (hr : Fl_Group.remove s g0 index = some s1) :
    ∀ g, s1.group g = s.group g ∨ (s1.group g).sizes_ = none := by
  unfold Fl_Group.remove at hr
  split at hr
  · cases hr; exact fun _ => Or.inl rfl
  · obtain ⟨o, _, hr⟩ := Option.bind_eq_some.mp hr
    obtain ⟨a, _, hr⟩ := Option.bind_eq_some.mp hr
    cases hr
    exact discard_after_change (s.set_parent o none) g0 _

theorem insert_attach_discards (s s1 : Heap) (g0 o : Nat) (index : Int)
    (hr : Fl_Group.insert_attach s g0 o index = some s1) :
    ∀ g, s1.group g = s.group g ∨ (s1.group g).sizes_ = none := by
  unfold Fl_Group.insert_attach at hr
  obtain ⟨a, _, hr⟩ := Option.bind_eq_some.mp hr
  cases hr
  exact discard_after_change (s.set_parent o (some g0)) g0 _

theorem insert_discards (fuel : Nat) (s s1 : Heap) (g0 o : Nat) (index : Int)
    (hr : Fl_Group.insert fuel s g0 o index = some s1) :
    ∀ g, s1.group g = s.group g ∨ (s1.group g).sizes_ = none := by
  cases hp : (s.widget o).parent_ with
  | none =>
    simp only [Fl_Group.insert, hp] at hr
    exact insert_attach_discards s s1 g0 o index hr
  | some p =>
    simp only [Fl_Group.insert, hp] at hr
    obtain ⟨n, _, hr⟩ := Option.bind_eq_some.mp hr
    generalize (if p = g0 ∧ index > n then index - 1 else index) = index1 at hr
    split at hr
    · cases hr; exact fun _ => Or.inl rfl
    · obtain ⟨s0, h0, hr⟩ := Option.bind_eq_some.mp hr
      exact discard_trans s s0 s1 (remove_discards s s0 p n h0)
        (insert_attach_discards s0 s1 g0 o _ hr)

theorem replace_discards (fuel : Nat) (s s1 : Heap) (g0 : Nat) (index : Int) (o : Nat)
    (hr : Fl_Group.replace fuel s g0 index o = some s1) :
    ∀ g, s1.group g = s.group g ∨ (s1.group g).sizes_ = none := by
  unfold Fl_Group.replace at hr
  split at hr
  · exact insert_discards fuel s s1 g0 o _ hr
  · obtain ⟨old, _, hr⟩ := Option.bind_eq_some.mp hr
    obtain ⟨a, _, hr⟩ := Option.bind_eq_some.mp hr
    cases hr
    exact discard_after_change ((s.set_parent o (some g0)).set_parent old none) g0 _

theorem clear_discards (s s1 : Heap) (g0 : Nat) (hr : Fl_Group.clear s g0 = some s1) :
    ∀ g, s1.group g = s.group g ∨ (s1.group g).sizes_ = none := by
  obtain ⟨r, hr2, hr3⟩ := Option.map_eq_some'.mp hr
  subst hr3
  have hsizes : ((Fl_Group.init_sizes s g0).group g0).sizes_ = none := by
    rw [init_sizes_group_self]
  simp only [Fl_Group.clear_trace] at hr2
  split at hr2
  · obtain ⟨r1, hloop, hr4⟩ := Option.bind_eq_some.mp hr2
    cases hr4
    have hg := clear_loop_group _ _ _ _ _ _ hloop
    obtain ⟨_, _, c3⟩ := clear_reset_group_self (Fl_Group.init_sizes s g0) g0
    intro g
    by_cases hgg : g = g0
    · subst hgg
      right
      simp only [set_group_same, hg]
      rw [c3, hsizes]
    · left
      simp only [set_group_other _ _ _ _ hgg, hg]
      rw [clear_reset_group_other _ _ _ hgg, init_sizes_group_other _ _ _ hgg]
  · cases hr2
    intro g
    by_cases hgg : g = g0
    · subst hgg; exact Or.inr hsizes
    · exact Or.inl (init_sizes_group_other _ _ _ hgg)

/-- C7: in every heap reachable from freshly constructed groups by `insert`, `add`,
`remove`, `replace`, `clear`, `init_sizes`, `sizes`, `layout` (and `handle`) calls, a
cached snapshot of a group holds exactly `4 * (children_ + 2)` integers, that is
`children_ + 2` quads; and every call of `insert`, `add`, `remove`, `replace` or
`clear` returns with the snapshot absent in every group whose state (in particular
whose child array or child count) it changed. -/
theorem snapshot_length_reachable :
    (∀ (s : Heap), s.reachable → ∀ (g : Nat) (z : List Int),
      (s.group g).sizes_ = some z → (z.length : Int) = 4 * ((s.group g).children_ + 2)) ∧
    (∀ (fuel : Nat) (s s1 : Heap) (g o : Nat) (index : Int),
      Fl_Group.insert fuel s g o index = some s1 →
      ∀ g1, s1.group g1 = s.group g1 ∨ (s1.group g1).sizes_ = none) ∧
    (∀ (fuel : Nat) (s s1 : Heap) (g o : Nat), Fl_Group.add fuel s g o = some s1 →
      ∀ g1, s1.group g1 = s.group g1 ∨ (s1.group g1).sizes_ = none) ∧
    (∀ (s s1 : Heap) (g : Nat) (index : Int), Fl_Group.remove s g index = some s1 →
      ∀ g1, s1.group g1 = s.group g1 ∨ (s1.group g1).sizes_ = none) ∧
    (∀ (fuel : Nat) (s s1 : Heap) (g : Nat) (index : Int) (o : Nat),
      Fl_Group.replace fuel s g index o = some s1 →
      ∀ g1, s1.group g1 = s.group g1 ∨ (s1.group g1).sizes_ = none) ∧
    (∀ (s s1 : Heap) (g : Nat), Fl_Group.clear s g = some s1 →
      ∀ g1, s1.group g1 = s.group g1 ∨ (s1.group g1).sizes_ = none) := by
  refine ⟨?_, ?_, ?_, ?_, ?_, ?_⟩
  · intro s hs g z hz
    exact (inv_reachable s hs g).2.2 z hz
  · intro fuel s s1 g o index h
    exact insert_discards fuel s s1 g o index h
  · intro fuel s s1 g o h
    exact insert_discards fuel s s1 g o _ h
  · intro s s1 g index h
    exact remove_discards s s1 g index h
  · intro fuel s s1 g index o h
    exact replace_discards fuel s s1 g index o h
  · intro s s1 g h
    exact clear_discards s s1 g h

/-- Witness of `snapshot_length_reachable`: group `1` of the reachable heap `run_6` has
two children and a snapshot of sixteen integers; and `remove(2)` on group `1` of
`run_4` leaves group `1` without snapshot. -/
theorem snapshot_length_reachable_witness :
    ((run_6.group 1).sizes_ = some (List.replicate 16 0) ∧ (run_6.group 1).children_ = 2 ∧
      (((List.replicate 16 (0 : Int)).length : Nat) : Int)
        = 4 * ((run_6.group 1).children_ + 2)) ∧
    (Fl_Group.remove run_4 1 2 = some run_5 ∧
      (run_5.group 1 = run_4.group 1 ∨ (run_5.group 1).sizes_ = none)) :=
  ⟨⟨rfl, rfl, snapshot_length_reachable.1 run_6 run_6_reachable 1 (List.replicate 16 0) rfl⟩,
   ⟨rfl, snapshot_length_reachable.2.2.2.1 run_4 run_5 1 2 rfl 1⟩⟩

/-- Effect of `replace` at a valid index with a widget `w` different from the widget
`old` stored there: the count is unchanged, slot `index` holds `w`, all other slots are
unchanged, the parent of `w` is the group and `old` has no parent. -/
theorem replace_in_range_distinct (fuel : Nat) (s : Heap) (this : Nat) (index : Int)
    (w old : Nat)
    (hcap : (s.group this).children_ ≤ ((s.group this).array_.length : Int))
    (h0 : 0 ≤ index) (h1 : index < (s.group this).children_)
    (hold : Fl_Group.child s this index = some old) (hne : w ≠ old) :
    ∃ s1, Fl_Group.replace fuel s this index w = some s1 ∧
      (s1.group this).children_ = (s.group this).children_ ∧
      Fl_Group.child s1 this index = some w ∧
      (∀ j, j ≠ index → Fl_Group.child s1 this j = Fl_Group.child s this j) ∧
      (s1.widget w).parent_ = some this ∧ (s1.widget old).parent_ = none := by
  have hw := wr_ok (s.group this).array_ index w h0 (by omega)
  have hnot : ¬ (index ≥ (s.group this).children_) := by omega
  have hold2 : rd (s.group this).array_ index = some old := hold
  have hrep : Fl_Group.replace fuel s this index w = some (Fl_Group.init_sizes
      (((s.set_parent w (some this)).set_parent old none).set_group this
        { s.group this with array_ := (s.group this).array_.set index.toNat w }) this) := by
    simp only [Fl_Group.replace, hnot, if_false, set_parent_group, hold2, Option.bind, hw]
  refine ⟨_, hrep, ?_, ?_, ?_, ?_, ?_⟩
  · simp [init_sizes_group_self]
  · simp only [Fl_Group.child, init_sizes_group_self, set_group_same]
    rw [rd_wr hw]; simp
  · intro j hj
    simp only [Fl_Group.child, init_sizes_group_self, set_group_same]
    rw [rd_wr hw]; simp [hj]
  · simp only [init_sizes_widget, set_group_widget]
    rw [set_parent_other _ _ _ _ hne]
    simp
  · simp

/-! ## Device types -/

/-- C20: the three display classes of `Fl_Device.H` are constructed with a `type()` below
`256`, the three type constants of the printing and file devices are at or above `256`,
and an enumerator of `device_types` is below `256` exactly when it is one of the three
display types. -/
theorem display_types_below_256 :
    (Fl_Xlib_Display.type < 256 ∧ Fl_Quartz_Display.type < 256 ∧ Fl_GDI_Display.type < 256) ∧
    (256 ≤ device_types.gdi_printer.value ∧ 256 ≤ device_types.quartz_printer.value ∧
      256 ≤ device_types.postscript_device.value) ∧
    (∀ t : device_types, t.value < 256 ↔
      (t = device_types.xlib_display ∨ t = device_types.quartz_display ∨
        t = device_types.gdi_display)) := by
  refine ⟨⟨by decide, by decide, by decide⟩, ⟨by decide, by decide, by decide⟩, ?_⟩
  intro t
  cases t <;> decide

/-! ## clear -/

theorem clear_loop_total (a : List Nat) (k : Nat) : ∀ (e : Int) (s : Heap)
    (seen : List (Nat × Heap)), (k : Int) = e → e ≤ (a.length : Int) →
    ∃ r, Fl_Group.clear_loop a k e s seen = some r := by
  induction k with
  | zero =>
    intro e s seen hk _
    have hne : ¬ (e > 0) := by omega
    exact ⟨(s, seen), by simp [Fl_Group.clear_loop, hne]⟩
  | succ k ih =>
    intro e s seen hk hlen
    have hpos : e > 0 := by omega
    obtain ⟨o, ho⟩ := rd_ok a (e - 1) (by omega) (by omega)
    obtain ⟨r, hr⟩ := ih (e - 1) (s.set_parent o none) (seen ++ [(o, s.set_parent o none)])
      (by omega) (by omega)
    exact ⟨r, by simp [Fl_Group.clear_loop, hpos, ho, hr]⟩

/-- C11 (as stated, refuted): `clear()` on group `1` of `three_children`, which has three
children and no resizable, leaves the resizable reference null, not the group itself;
and `clear()` on the empty group `1` of `run_7`, whose `focus_` is `2`, leaves `focus_`
at `2`. -/
theorem clear_keeps_null_resizable :
    (three_children.group 1).resizable_ = none ∧
    ((Fl_Group.clear three_children 1).map fun s1 =>
      ((s1.group 1).children_, (s1.group 1).resizable_)) = some (0, none) ∧
    (run_7.group 1).children_ = 0 ∧
    ((Fl_Group.clear run_7 1).map fun s1 =>
      ((s1.group 1).children_, (s1.group 1).focus_)) = some (0, 2) := by
  refine ⟨rfl, rfl, rfl, rfl⟩

/-- C11 (amended): for every group whose children fit into the allocated block, `clear()`
succeeds and leaves the group with zero children and without snapshot.  If the group
had at least one child, `focus_` is reset to its initial value `0`, and the resizable
reference is the group itself when a resizable was designated and stays null when none
was.  If the group had no child, `focus_` and the resizable reference are unchanged. -/
theorem clear_resets_group (s : Heap) (g : Nat) (h0 : 0 ≤ (s.group g).children_)
    (hcap : (s.group g).children_ ≤ ((s.group g).array_.length : Int)) :
    ∃ s1, Fl_Group.clear s g = some s1 ∧
      (s1.group g).children_ = 0 ∧ (s1.group g).sizes_ = none ∧
      ((s.group g).children_ ≠ 0 →
        (s1.group g).focus_ = 0 ∧
        ((s.group g).resizable_ ≠ none → (s1.group g).resizable_ = some g) ∧
        ((s.group g).resizable_ = none → (s1.group g).resizable_ = none)) ∧
      ((s.group g).children_ = 0 →
        (s1.group g).focus_ = (s.group g).focus_ ∧
        (s1.group g).resizable_ = (s.group g).resizable_) := by
  have hi := init_sizes_group_self s g
  by_cases hz : (s.group g).children_ = 0
  · have hc : ((Fl_Group.init_sizes s g).group g).children_ = 0 := by rw [hi]; exact hz
    refine ⟨Fl_Group.init_sizes s g, ?_, hc, by rw [hi], fun h => absurd hz h, ?_⟩
    · simp [Fl_Group.clear, Fl_Group.clear_trace, hc]
    · intro _
      rw [hi]
      exact ⟨rfl, rfl⟩
  · have hc : ((Fl_Group.init_sizes s g).group g).children_ ≠ 0 := by rw [hi]; exact hz
    have hcn : ((Fl_Group.init_sizes s g).group g).children_ = (s.group g).children_ := by
      rw [hi]
    have hal : ((Fl_Group.init_sizes s g).group g).array_ = (s.group g).array_ := by rw [hi]
    obtain ⟨r, hr⟩ := clear_loop_total ((Fl_Group.init_sizes s g).group g).array_
      ((Fl_Group.init_sizes s g).group g).children_.toNat
      ((Fl_Group.init_sizes s g).group g).children_
      (Fl_Group.clear_reset (Fl_Group.init_sizes s g) g) []
      (by rw [hcn]; omega) (by rw [hcn, hal]; exact hcap)
    have hg := clear_loop_group _ _ _ _ _ _ hr
    refine ⟨r.1.set_group g { r.1.group g with array_ := [] }, ?_, ?_, ?_, ?_, fun h => absurd h hz⟩
    · simp [Fl_Group.clear, Fl_Group.clear_trace, hc, hr]
    · simp only [set_group_same, hg]
      exact (clear_reset_group_self _ g).1
    · simp only [set_group_same, hg]
      rw [(clear_reset_group_self _ g).2.2, hi]
    · intro _
      simp only [set_group_same, hg]
      refine ⟨(clear_reset_group_self _ g).2.1, ?_, ?_⟩
      · intro hres
        have hres1 : ((Fl_Group.init_sizes s g).group g).resizable_ ≠ none := by
          rw [hi]; exact hres
        simp [Fl_Group.clear_reset, hres1]
      · intro hres
        have hres1 : ((Fl_Group.init_sizes s g).group g).resizable_ = none := by
          rw [hi]; exact hres
        simp [Fl_Group.clear_reset, hres1]

/-- Witness of `clear_resets_group`: `clear()` on group `1` of `three_children`. -/
theorem clear_resets_group_witness :
    ∃ s1, Fl_Group.clear three_children 1 = some s1 ∧
      (s1.group 1).children_ = 0 ∧ (s1.group 1).sizes_ = none ∧
      ((three_children.group 1).children_ ≠ 0 →
        (s1.group 1).focus_ = 0 ∧
        ((three_children.group 1).resizable_ ≠ none → (s1.group 1).resizable_ = some 1) ∧
        ((three_children.group 1).resizable_ = none → (s1.group 1).resizable_ = none)) ∧
      ((three_children.group 1).children_ = 0 →
        (s1.group 1).focus_ = (three_children.group 1).focus_ ∧
        (s1.group 1).resizable_ = (three_children.group 1).resizable_) :=
  clear_resets_group three_children 1 (by decide) (by decide)

/-! ## Round trip of add and remove -/

theorem find_scan_last (a : List Nat) (o : Nat) (c : Int) (k : Nat) (idx : Int)
    (hidx : idx ≠ 0) (h : rd a (idx - 1) = some o) :
    Fl_Group.find_scan a o c (k + 1) idx = some (idx - 1) := by
  simp [Fl_Group.find_scan, hidx, h]

theorem kids_eq_of_slots (s1 s2 : Heap) (g : Nat)
    (hn : (s2.group g).children_ = (s1.group g).children_)
    (h : ∀ j, 0 ≤ j → j < (s1.group g).children_ →
      Fl_Group.child s2 g j = Fl_Group.child s1 g j) :
    Fl_Group.kids s2 g = Fl_Group.kids s1 g := by
  unfold Fl_Group.kids
  rw [hn]
  apply List.ext_getElem?
  intro i
  rw [List.getElem?_take, List.getElem?_take]
  by_cases hi : i < (s1.group g).children_.toNat
  · have h2 := h (i : Int) (by omega) (by omega)
    simp only [Fl_Group.child, rd] at h2
    simpa [hi] using h2
  · simp [hi]

/-- C12: for a parentless widget `w`, `add(w)` followed by `remove(find(w))` succeeds
and restores the child count and the child sequence of the group (same widgets in the
same slots), leaves the base part of every widget (geometry, parent reference) as it
was before the two calls, and leaves `w` without parent. -/
theorem add_then_remove_round_trip (fuel : Nat) (s : Heap) (g w : Nat) (hfuel : 0 < fuel)
    (hcap : (s.group g).cap_ok) (hp : (s.widget w).parent_ = none) :
    ∃ s1 s2 i, Fl_Group.add fuel s g w = some s1 ∧
      Fl_Group.find fuel s1 g (some w) = some i ∧ Fl_Group.remove s1 g i = some s2 ∧
      (s2.group g).children_ = (s.group g).children_ ∧
      Fl_Group.kids s2 g = Fl_Group.kids s g ∧
      (∀ j, 0 ≤ j → j < (s.group g).children_ →
        Fl_Group.child s2 g j = Fl_Group.child s g j) ∧
      (∀ o, s2.widget o = s.widget o) ∧ (s2.widget w).parent_ = none := by
  obtain ⟨f, rfl⟩ : ∃ f, fuel = f + 1 := ⟨fuel - 1, by omega⟩
  obtain ⟨a, ha, hlen, _, hat, hlo, _⟩ := insert_place_spec (s.group g) w
    (s.group g).children_ hcap hcap.1 (le_refl _)
  have hadd : Fl_Group.add (f + 1) s g w = some (Fl_Group.init_sizes
      ((s.set_parent w (some g)).set_group g
        { s.group g with array_ := a, children_ := (s.group g).children_ + 1 }) g) := by
    have h1 : Fl_Group.add (f + 1) s g w
        = Fl_Group.insert_attach s g w (s.group g).children_ := by
      simp only [Fl_Group.add, Fl_Group.insert, hp]
    exact h1.trans (insert_attach_eq s g w _ a ha)
  generalize hs1 : Fl_Group.init_sizes ((s.set_parent w (some g)).set_group g
    { s.group g with array_ := a, children_ := (s.group g).children_ + 1 }) g = s1 at hadd
  have hg1c : (s1.group g).children_ = (s.group g).children_ + 1 := by
    rw [← hs1, init_sizes_group_self]; simp
  have hg1a : (s1.group g).array_ = a := by
    rw [← hs1, init_sizes_group_self]; simp
  have hw1 : s1.widget = Function.update s.widget w { s.widget w with parent_ := some g } := by
    rw [← hs1]; rfl
  have hn0 := hcap.1
  have hfind : Fl_Group.find (f + 1) s1 g (some w) = some (s.group g).children_ := by
    have hpw : (s1.widget w).parent_ = some g := by rw [hw1]; simp
    have hsc := find_scan_last a w ((s.group g).children_ + 1) (s.group g).children_.toNat
      ((s.group g).children_ + 1) (by omega) (by simpa using hat)
    have hk : ((s.group g).children_ + 1).toNat = (s.group g).children_.toNat + 1 := by omega
    simp only [Fl_Group.find, Fl_Group.find_up, hpw, if_true, Option.bind, hg1c, hg1a, hk, hsc]
    simp
  have hrem : Fl_Group.remove s1 g (s.group g).children_ = some (Fl_Group.init_sizes
      ((s1.set_parent w none).set_group g
        { s1.group g with children_ := (s.group g).children_, array_ := a }) g) := by
    have hz : ((s.group g).children_ + 1 - 1 - (s.group g).children_).toNat = 0 := by omega
    have hloop : Fl_Group.remove_loop ((s.group g).children_ + 1 - 1) 0
        (s.group g).children_ a = some a := by
      simp [Fl_Group.remove_loop]
    simp only [Fl_Group.remove, Option.bind, set_parent_group, hg1c, hg1a, hz, hloop, hat]
    rw [if_neg (by omega)]
    simp
  refine ⟨s1, _, (s.group g).children_, hadd, hfind, hrem, ?_, ?_, ?_, ?_, ?_⟩
  · rw [init_sizes_group_self]; simp
  · apply kids_eq_of_slots
    · rw [init_sizes_group_self]; simp
    · intro j hj0 hj1
      simp only [Fl_Group.child, init_sizes_group_self, set_group_same]
      exact hlo j hj0 hj1
  · intro j hj0 hj1
    simp only [Fl_Group.child, init_sizes_group_self, set_group_same]
    exact hlo j hj0 hj1
  · intro o
    simp only [init_sizes_widget, set_group_widget, Heap.set_parent, hw1]
    by_cases ho : o = w
    · subst ho
      simp only [Function.update_same]
      rw [← hp]
    · simp [ho]
  · simp

/-- Witness of `add_then_remove_round_trip`: the parentless widget `5` and group `1` of
`three_children`. -/
theorem add_then_remove_round_trip_witness :
    ∃ s1 s2 i, Fl_Group.add 1 three_children 1 5 = some s1 ∧
      Fl_Group.find 1 s1 1 (some 5) = some i ∧ Fl_Group.remove s1 1 i = some s2 ∧
      (s2.group 1).children_ = (three_children.group 1).children_ ∧
      Fl_Group.kids s2 1 = Fl_Group.kids three_children 1 ∧
      (∀ j, 0 ≤ j → j < (three_children.group 1).children_ →
        Fl_Group.child s2 1 j = Fl_Group.child three_children 1 j) ∧
      (∀ o, s2.widget o = three_children.widget o) ∧ (s2.widget 5).parent_ = none :=
  add_then_remove_round_trip 1 three_children 1 5 (by decide) three_children_cap_ok rfl

/-! ## send -/

theorem send_track_coords (fuel : Nat) (s : Heap) (fl fl1 : Fl) (event : Fl_Event) (o : Nat)
    (h : Fl_Group.send_track fuel s fl event o = some fl1) :
    fl1.e_x = fl.e_x ∧ fl1.e_y = fl.e_y := by
  unfold Fl_Group.send_track at h
  split at h
  · obtain ⟨c, _, h⟩ := Option.bind_eq_some.mp h
    split at h <;> cases h <;> exact ⟨rfl, rfl⟩
  · obtain ⟨c, _, h⟩ := Option.bind_eq_some.mp h
    split at h <;> cases h <;> exact ⟨rfl, rfl⟩
  · split at h
    · obtain ⟨c, _, h⟩ := Option.bind_eq_some.mp h
      split at h <;> cases h <;> exact ⟨rfl, rfl⟩
    · cases h; exact ⟨rfl, rfl⟩
  · cases h; exact ⟨rfl, rfl⟩

theorem send_coords (fuel : Nat) (kids : Children) (s : Heap) (fl fl1 : Fl)
    (event : Fl_Event) (o : Nat) (r : Int)
    (h : Fl_Group.send fuel kids s fl event o = some (fl1, r)) :
    fl1.e_x = fl.e_x ∧ fl1.e_y = fl.e_y := by
  unfold Fl_Group.send at h
  obtain ⟨route, _, h⟩ := Option.bind_eq_some.mp h
  cases route with
  | ret r0 => cases h; exact ⟨rfl, rfl⟩
  | deliver ev =>
    simp only at h
    split at h
    · cases h; exact ⟨rfl, rfl⟩
    · obtain ⟨fl2, h2, h⟩ := Option.bind_eq_some.mp h
      cases h
      have h3 := send_track_coords fuel s _ _ ev o h2
      exact ⟨h3.1.trans rfl, h3.2.trans rfl⟩

theorem send_route_congr (fuel : Nat) (k1 k2 : Children) (s : Heap) (fl : Fl)
    (event : Fl_Event) (o : Nat) (h : k1.take_focus = k2.take_focus) :
    Fl_Group.send_route fuel k1 s fl event o = Fl_Group.send_route fuel k2 s fl event o := by
  cases event <;> simp [Fl_Group.send_route, h]

theorem contains_total (s : Heap) (g : Nat) (K : Nat) : ∀ (o : Option Nat),
    s.ancestor K o = none → ∀ fuel, K < fuel → ∃ b, Fl_Widget.contains s g fuel o = some b := by
  induction K with
  | zero =>
    intro o ho fuel hf
    obtain ⟨f, rfl⟩ : ∃ f, fuel = f + 1 := ⟨fuel - 1, by omega⟩
    simp only [Heap.ancestor] at ho
    subst ho
    exact ⟨false, rfl⟩
  | succ K ih =>
    intro o ho fuel hf
    obtain ⟨f, rfl⟩ : ∃ f, fuel = f + 1 := ⟨fuel - 1, by omega⟩
    cases o with
    | none => exact ⟨false, rfl⟩
    | some w =>
      by_cases hw : w = g
      · exact ⟨true, by simp [Fl_Widget.contains, hw]⟩
      · obtain ⟨b, hb⟩ := ih (s.widget w).parent_ ho f (by omega)
        exact ⟨b, by simp [Fl_Widget.contains, hw, hb]⟩

theorem contains_total_of_finite (s : Heap) (hfin : ∀ w, ∃ k, s.ancestor k (some w) = none)
    (g : Nat) (o : Option Nat) :
    ∃ fuel0, ∀ fuel, fuel0 ≤ fuel → ∃ b, Fl_Widget.contains s g fuel o = some b := by
  obtain ⟨K, hK⟩ : ∃ K, s.ancestor K o = none := by
    cases o with
    | none => exact ⟨0, rfl⟩
    | some w => exact hfin w
  exact ⟨K + 1, fun fuel hf => contains_total s g K o hK fuel (by omega)⟩

theorem send_total (kids : Children) (s : Heap)
    (hfin : ∀ w, ∃ k, s.ancestor k (some w) = none) (fl : Fl) (event : Fl_Event) (o : Nat) :
    ∃ fuel0, ∀ fuel, fuel0 ≤ fuel → ∃ r, Fl_Group.send fuel kids s fl event o = some r := by
  obtain ⟨f1, h1⟩ := contains_total_of_finite s hfin o fl.belowmouse_
  have hroute : ∀ fuel, f1 ≤ fuel → ∃ rt, Fl_Group.send_route fuel kids s fl event o = some rt := by
    intro fuel hf
    obtain ⟨b, hb⟩ := h1 fuel hf
    cases event <;> simp only [Fl_Group.send_route, hb, Option.bind] <;>
      first
        | exact ⟨_, rfl⟩
        | (split <;> exact ⟨_, rfl⟩)
  have htrack : ∀ (fl0 : Fl) (ev : Fl_Event), ∃ f2, ∀ fuel, f2 ≤ fuel →
      ∃ fl1, Fl_Group.send_track fuel s fl0 ev o = some fl1 := by
    intro fl0 ev
    obtain ⟨fa, ha⟩ := contains_total_of_finite s hfin o fl0.belowmouse_
    obtain ⟨fb, hb⟩ := contains_total_of_finite s hfin o fl0.pushed_
    refine ⟨max fa fb, ?_⟩
    intro fuel hf
    obtain ⟨ba, hba⟩ := ha fuel (by omega)
    obtain ⟨bb, hbb⟩ := hb fuel (by omega)
    cases ev <;> simp only [Fl_Group.send_track, hba, hbb, Option.bind] <;>
      first
        | exact ⟨_, rfl⟩
        | (split <;> exact ⟨_, rfl⟩)
        | (split <;> first | exact ⟨_, rfl⟩ | (split <;> exact ⟨_, rfl⟩))
  -- the event that is delivered depends on the fuel only through `contains`, whose
  -- answer is the same for every sufficient fuel; bound the fuel for both candidates
  obtain ⟨g1, hg1⟩ := htrack (Fl_Group.send_deliver kids s fl Fl_Event.FL_MOVE o).2
    Fl_Event.FL_MOVE
  obtain ⟨g2, hg2⟩ := htrack (Fl_Group.send_deliver kids s fl Fl_Event.FL_ENTER o).2
    Fl_Event.FL_ENTER
  obtain ⟨g3, hg3⟩ := htrack (Fl_Group.send_deliver kids s fl Fl_Event.FL_DND_DRAG o).2
    Fl_Event.FL_DND_DRAG
  obtain ⟨g4, hg4⟩ := htrack (Fl_Group.send_deliver kids s fl Fl_Event.FL_DND_ENTER o).2
    Fl_Event.FL_DND_ENTER
  obtain ⟨g5, hg5⟩ := htrack (Fl_Group.send_deliver kids s fl event o).2 event
  refine ⟨max f1 (max g1 (max g2 (max g3 (max g4 g5)))), ?_⟩
  intro fuel hf
  obtain ⟨rt, hrt⟩ := hroute fuel (by omega)
  have hev : ∀ ev, rt = Routed.deliver ev →
      ∃ fl1, Fl_Group.send_track fuel s (Fl_Group.send_deliver kids s fl ev o).2 ev o
        = some fl1 := by
    intro ev hrt2
    subst hrt2
    have hcases : ev = Fl_Event.FL_MOVE ∨ ev = Fl_Event.FL_ENTER ∨ ev = Fl_Event.FL_DND_DRAG ∨
        ev = Fl_Event.FL_DND_ENTER ∨ ev = event := by
      cases event <;> simp only [Fl_Group.send_route] at hrt <;>
        first
          | (cases hrt)
          | (split at hrt <;> cases hrt <;> simp)
          | (obtain ⟨c, _, hrt⟩ := Option.bind_eq_some.mp hrt
             split at hrt <;> cases hrt
             cases c <;> simp)
    rcases hcases with h | h | h | h | h <;> subst h
    · exact hg1 fuel (by omega)
    · exact hg2 fuel (by omega)
    · exact hg3 fuel (by omega)
    · exact hg4 fuel (by omega)
    · exact hg5 fuel (by omega)
  cases rt with
  | ret r0 => exact ⟨(fl, r0), by simp [Fl_Group.send, hrt]⟩
  | deliver ev =>
    obtain ⟨fl1, hfl1⟩ := hev ev rfl
    by_cases hd : (Fl_Group.send_deliver kids s fl ev o).1 = true
    · exact ⟨(fl1, 1), by simp [Fl_Group.send, hrt, hd, hfl1]⟩
    · exact ⟨((Fl_Group.send_deliver kids s fl ev o).2, 0), by simp [Fl_Group.send, hrt, hd]⟩

/-- C19: whenever `send(event, child)` returns, `Fl::e_x` and `Fl::e_y` have the values
they had before the call, whatever the handler of the child did to the static state
and whether the event was used, declined or not delivered; the handler of the child is
only ever called on the static state whose position is `(e_x - child.x, e_y - child.y)`
(two behaviours of the children that agree on these states give the same `send`); and
in a tree with finite parent chains `send` does return for every sufficient fuel. -/
theorem send_restores_event_position :
    (∀ (fuel : Nat) (kids : Children) (s : Heap) (fl fl1 : Fl) (event : Fl_Event) (o : Nat)
      (r : Int), Fl_Group.send fuel kids s fl event o = some (fl1, r) →
      fl1.e_x = fl.e_x ∧ fl1.e_y = fl.e_y) ∧
    (∀ (kids : Children) (s : Heap) (fl : Fl) (event : Fl_Event) (o : Nat),
      Fl_Group.send_deliver kids s fl event o =
        ((kids.handle o event
            { fl with e_x := fl.e_x - (s.widget o).x_, e_y := fl.e_y - (s.widget o).y_ }).1,
         { (kids.handle o event
            { fl with e_x := fl.e_x - (s.widget o).x_, e_y := fl.e_y - (s.widget o).y_ }).2
           with e_x := fl.e_x, e_y := fl.e_y })) ∧
    (∀ (fuel : Nat) (k1 k2 : Children) (s : Heap) (fl : Fl) (event : Fl_Event) (o : Nat),
      k1.take_focus = k2.take_focus →
      (∀ ev fl2, fl2.e_x = fl.e_x - (s.widget o).x_ → fl2.e_y = fl.e_y - (s.widget o).y_ →
        k1.handle o ev fl2 = k2.handle o ev fl2) →
      Fl_Group.send fuel k1 s fl event o = Fl_Group.send fuel k2 s fl event o) ∧
    (∀ (kids : Children) (s : Heap) (fl : Fl) (event : Fl_Event) (o : Nat),
      (∀ w, ∃ k, s.ancestor k (some w) = none) →
      ∃ fuel0, ∀ fuel, fuel0 ≤ fuel → ∃ r, Fl_Group.send fuel kids s fl event o = some r) := by
  refine ⟨?_, ?_, ?_, ?_⟩
  · intro fuel kids s fl fl1 event o r h
    exact send_coords fuel kids s fl fl1 event o r h
  · intro kids s fl event o
    rfl
  · intro fuel k1 k2 s fl event o htf hh
    have hd : ∀ ev, Fl_Group.send_deliver k1 s fl ev o = Fl_Group.send_deliver k2 s fl ev o := by
      intro ev
      simp only [Fl_Group.send_deliver]
      rw [hh ev _ rfl rfl]
    simp only [Fl_Group.send, send_route_congr fuel k1 k2 s fl event o htf, hd]
  · intro kids s fl event o hfin
    exact send_total kids s hfin fl event o

/-! ## handle: FL_FOCUS meant for the group -/

theorem focus_forward_spec (kids : Children) (arr : List Nat) (n : Int) (k : Nat) :
    ∀ (i : Int), 0 ≤ i → (k : Int) = n - i → n ≤ (arr.length : Int) →
    ∃ r, Fl_Group.focus_forward kids arr n k i = some r ∧ (r = 1 ∨ r = 0) ∧
      (r = 1 ↔ ∃ j o, i ≤ j ∧ j < n ∧ rd arr j = some o ∧ kids.take_focus o = true) := by
  induction k with
  | zero =>
    intro i _ hk _
    have hni : ¬ (i < n) := by omega
    refine ⟨0, by simp [Fl_Group.focus_forward, hni], Or.inr rfl, ?_⟩
    constructor
    · intro h; cases h
    · rintro ⟨j, o, h1, h2, _, _⟩; omega
  | succ k ih =>
    intro i h0 hk hlen
    have hin : i < n := by omega
    obtain ⟨o, ho⟩ := rd_ok arr i h0 (by omega)
    by_cases ht : kids.take_focus o = true
    · refine ⟨1, by simp [Fl_Group.focus_forward, hin, ho, ht], Or.inl rfl, ?_⟩
      exact ⟨fun _ => ⟨i, o, le_refl _, hin, ho, ht⟩, fun _ => rfl⟩
    · obtain ⟨r, hr, hr01, hiff⟩ := ih (i + 1) (by omega) (by omega) hlen
      refine ⟨r, by simp [Fl_Group.focus_forward, hin, ho, ht, hr], hr01, ?_⟩
      constructor
      · intro h1
        obtain ⟨j, o2, hj1, hj2, hj3, hj4⟩ := hiff.mp h1
        exact ⟨j, o2, by omega, hj2, hj3, hj4⟩
      · rintro ⟨j, o2, hj1, hj2, hj3, hj4⟩
        apply hiff.mpr
        by_cases hji : j = i
        · subst hji
          rw [ho] at hj3
          cases hj3
          exact absurd hj4 ht
        · exact ⟨j, o2, by omega, hj2, hj3, hj4⟩

theorem focus_backward_spec (kids : Children) (arr : List Nat) (k : Nat) :
    ∀ (i : Int), (k : Int) = i → i ≤ (arr.length : Int) →
    ∃ r, Fl_Group.focus_backward kids arr k i = some r ∧ (r = 1 ∨ r = 0) ∧
      (r = 1 ↔ ∃ j o, 0 ≤ j ∧ j < i ∧ rd arr j = some o ∧ kids.take_focus o = true) := by
  induction k with
  | zero =>
    intro i hk _
    have hi : i = 0 := by omega
    subst hi
    refine ⟨0, by simp [Fl_Group.focus_backward], Or.inr rfl, ?_⟩
    constructor
    · intro h; cases h
    · rintro ⟨j, o, h1, h2, _, _⟩; omega
  | succ k ih =>
    intro i hk hlen
    have hne : i ≠ 0 := by omega
    obtain ⟨o, ho⟩ := rd_ok arr (i - 1) (by omega) (by omega)
    by_cases ht : kids.take_focus o = true
    · refine ⟨1, by simp [Fl_Group.focus_backward, hne, ho, ht], Or.inl rfl, ?_⟩
      exact ⟨fun _ => ⟨i - 1, o, by omega, by omega, ho, ht⟩, fun _ => rfl⟩
    · obtain ⟨r, hr, hr01, hiff⟩ := ih (i - 1) (by omega) (by omega)
      refine ⟨r, by simp [Fl_Group.focus_backward, hne, ho, ht, hr], hr01, ?_⟩
      constructor
      · intro h1
        obtain ⟨j, o2, hj1, hj2, hj3, hj4⟩ := hiff.mp h1
        exact ⟨j, o2, hj1, by omega, hj3, hj4⟩
      · rintro ⟨j, o2, hj1, hj2, hj3, hj4⟩
        apply hiff.mpr
        by_cases hji : j = i - 1
        · subst hji
          rw [ho] at hj3
          cases hj3
          exact absurd hj4 ht
        · exact ⟨j, o2, hj1, by omega, hj3, hj4⟩

theorem handle_take_focus_spec (kids : Children) (s : Heap) (fl : Fl) (g : Nat)
    (h0 : 0 ≤ (s.group g).children_)
    (hcap : (s.group g).children_ ≤ ((s.group g).array_.length : Int)) :
    ∃ r, Fl_Group.handle_take_focus kids s fl g = some r ∧ (r = 1 ∨ r = 0) ∧
      (r = 1 ↔ ∃ j o, 0 ≤ j ∧ j < (s.group g).children_ ∧
        Fl_Group.child s g j = some o ∧ kids.take_focus o = true) := by
  obtain ⟨rf, hrf, hrf01, hfiff⟩ := focus_forward_spec kids (s.group g).array_
    (s.group g).children_ (s.group g).children_.toNat 0 (le_refl _) (by omega) hcap
  obtain ⟨rb, hrb, hrb01, hbiff⟩ := focus_backward_spec kids (s.group g).array_
    (s.group g).children_.toNat (s.group g).children_ (by omega) hcap
  have hfwd : ∃ r, Fl_Group.focus_forward kids (s.group g).array_ (s.group g).children_
      (s.group g).children_.toNat 0 = some r ∧ (r = 1 ∨ r = 0) ∧
      (r = 1 ↔ ∃ j o, 0 ≤ j ∧ j < (s.group g).children_ ∧
        Fl_Group.child s g j = some o ∧ kids.take_focus o = true) := ⟨rf, hrf, hrf01, hfiff⟩
  have hbwd : ∃ r, Fl_Group.focus_backward kids (s.group g).array_
      (s.group g).children_.toNat (s.group g).children_ = some r ∧ (r = 1 ∨ r = 0) ∧
      (r = 1 ↔ ∃ j o, 0 ≤ j ∧ j < (s.group g).children_ ∧
        Fl_Group.child s g j = some o ∧ kids.take_focus o = true) := ⟨rb, hrb, hrb01, hbiff⟩
  have hdef : ∃ r, ((if (s.group g).focus_ ≥ 0 ∧ (s.group g).focus_ < (s.group g).children_ then
        (Fl_Group.child s g (s.group g).focus_).bind fun o => some (kids.take_focus o)
       else some false).bind fun taken =>
      if taken then some 1
      else Fl_Group.focus_forward kids (s.group g).array_ (s.group g).children_
        (s.group g).children_.toNat 0) = some r ∧ (r = 1 ∨ r = 0) ∧
      (r = 1 ↔ ∃ j o, 0 ≤ j ∧ j < (s.group g).children_ ∧
        Fl_Group.child s g j = some o ∧ kids.take_focus o = true) := by
    by_cases hv : (s.group g).focus_ ≥ 0 ∧ (s.group g).focus_ < (s.group g).children_
    · obtain ⟨o, ho⟩ := rd_ok (s.group g).array_ (s.group g).focus_ hv.1 (by omega)
      have hch : Fl_Group.child s g (s.group g).focus_ = some o := ho
      by_cases ht : kids.take_focus o = true
      · refine ⟨1, by simp [hv, hch, ht], Or.inl rfl, ?_⟩
        exact ⟨fun _ => ⟨(s.group g).focus_, o, hv.1, hv.2, hch, ht⟩, fun _ => rfl⟩
      · refine ⟨rf, ?_, hrf01, hfiff⟩
        simp only [hv, and_self, if_true, hch, Option.bind]
        simp [ht, hrf]
    · refine ⟨rf, ?_, hrf01, hfiff⟩
      simp only [hv, if_false, Option.bind]
      simp [hrf]
  unfold Fl_Group.handle_take_focus
  cases Fl_Group.navigation_key fl <;> first | exact hfwd | exact hbwd | exact hdef

/-- C17: `handle(FL_FOCUS)` while the focus widget is not inside the group (the test
`contains(Fl::focus())` answers no), for every answer pattern of `take_focus()`, every
key and every `focus_`: the call returns with heap and static state unchanged, the
result is `1` or `0`, it is `1` exactly when some child accepts the focus, and it is
`0` for a group without children. -/
theorem handle_focus_accepts_iff (fuel : Nat) (kids : Children) (s : Heap) (fl : Fl)
    (g : Nat) (h0 : 0 ≤ (s.group g).children_)
    (hcap : (s.group g).children_ ≤ ((s.group g).array_.length : Int))
    (hout : Fl_Widget.contains s g fuel fl.focus_ = some false) :
    ∃ r, Fl_Group.handle fuel kids s fl g Fl_Event.FL_FOCUS = some (s, fl, r) ∧
      (r = 1 ∨ r = 0) ∧
      (r = 1 ↔ ∃ j o, 0 ≤ j ∧ j < (s.group g).children_ ∧
        Fl_Group.child s g j = some o ∧ kids.take_focus o = true) ∧
      ((s.group g).children_ = 0 → r = 0) := by
  obtain ⟨r, hr, hr01, hiff⟩ := handle_take_focus_spec kids s fl g h0 hcap
  refine ⟨r, by simp [Fl_Group.handle, hout, hr], hr01, hiff, ?_⟩
  intro hz
  rcases hr01 with h1 | h1
  · exfalso
    obtain ⟨j, _, hj0, hj1, _, _⟩ := hiff.mp h1
    omega
  · exact h1

/-! ## handle: pointer events -/

theorem inside_iff (s : Heap) (fl : Fl) (o : Nat) :
    (fl.e_x - (s.widget o).x_ ≥ 0 ∧ fl.e_x - (s.widget o).x_ < (s.widget o).w_ ∧
      fl.e_y - (s.widget o).y_ ≥ 0 ∧ fl.e_y - (s.widget o).y_ < (s.widget o).h_) ↔
    Fl_Group.inside s fl.e_x fl.e_y o = true := by
  simp only [Fl_Group.inside, decide_eq_true_eq]
  constructor
  · rintro ⟨h1, h2, h3, h4⟩
    exact ⟨by omega, by omega, by omega, by omega⟩
  · rintro ⟨h1, h2, h3, h4⟩
    exact ⟨by omega, by omega, by omega, by omega⟩

theorem pointer_loop_spec (fuel : Nat) (kids : Children) (s : Heap) (g : Nat)
    (event : Fl_Event) (k : Nat) : ∀ (idx : Int) (fl : Fl), (k : Int) = idx →
    idx ≤ ((s.group g).array_.length : Int) →
    Fl_Group.pointer_loop fuel kids s g event k idx fl =
      Fl_Group.offer_in_order fuel kids s event
        ((((s.group g).array_.take k).reverse).filter (Fl_Group.inside s fl.e_x fl.e_y)) fl := by
  induction k with
  | zero =>
    intro idx fl hk _
    have hi : idx = 0 := by omega
    subst hi
    simp [Fl_Group.pointer_loop, Fl_Group.offer_in_order]
  | succ k ih =>
    intro idx fl hk hlen
    have hne : idx ≠ 0 := by omega
    have hkl : k < (s.group g).array_.length := by omega
    have hch : Fl_Group.child s g (idx - 1) = some ((s.group g).array_[k]) := by
      have hkk : (idx - 1).toNat = k := by omega
      have h0 : 0 ≤ idx - 1 := by omega
      simp [Fl_Group.child, rd, h0, hkk, List.getElem?_eq_getElem hkl]
    have htake : (((s.group g).array_.take (k + 1)).reverse) =
        (s.group g).array_[k] :: ((s.group g).array_.take k).reverse := by
      rw [List.take_succ, List.getElem?_eq_getElem hkl]
      simp
    rw [htake, List.filter_cons]
    simp only [Fl_Group.pointer_loop, hne, ne_eq, not_false_eq_true, if_true, hch, Option.bind]
    by_cases hin : Fl_Group.inside s fl.e_x fl.e_y ((s.group g).array_[k]) = true
    · have hc := (inside_iff s fl ((s.group g).array_[k])).mpr hin
      simp only [hin, if_true, hc, and_self, Fl_Group.offer_in_order]
      cases hs : Fl_Group.send fuel kids s fl event ((s.group g).array_[k]) with
      | none => rfl
      | some r =>
        obtain ⟨hx, hy⟩ := send_coords fuel kids s fl r.1 event _ r.2 hs
        simp only [Option.bind]
        by_cases hr : r.2 ≠ 0
        · simp [hr]
        · simp only [hr, if_false]
          rw [ih (idx - 1) r.1 (by omega) (by omega), hx, hy]
    · have hc : ¬ (fl.e_x - (s.widget ((s.group g).array_[k])).x_ ≥ 0 ∧
          fl.e_x - (s.widget ((s.group g).array_[k])).x_ < (s.widget ((s.group g).array_[k])).w_ ∧
          fl.e_y - (s.widget ((s.group g).array_[k])).y_ ≥ 0 ∧
          fl.e_y - (s.widget ((s.group g).array_[k])).y_ < (s.widget ((s.group g).array_[k])).h_) :=
        fun h => hin ((inside_iff s fl _).mp h)
      simp only [hin, hc, if_false]
      exact ih (idx - 1) fl (by omega) (by omega)

theorem handle_pointer_eq (fuel : Nat) (kids : Children) (s : Heap) (fl : Fl) (g : Nat)
    (event : Fl_Event)
    (hev : event = Fl_Event.FL_PUSH ∨ event = Fl_Event.FL_ENTER ∨ event = Fl_Event.FL_MOVE ∨
      event = Fl_Event.FL_DND_ENTER ∨ event = Fl_Event.FL_DND_DRAG)
    (h0 : 0 ≤ (s.group g).children_)
    (hcap : (s.group g).children_ ≤ ((s.group g).array_.length : Int)) :
    Fl_Group.handle fuel kids s fl g event =
      (Fl_Group.offer_in_order fuel kids s event (Fl_Group.hit_order s g fl) fl).map
        fun r => (s, r.1, r.2) := by
  have hloop := pointer_loop_spec fuel kids s g event (s.group g).children_.toNat
    (s.group g).children_ fl (by omega) hcap
  have hh : Fl_Group.handle fuel kids s fl g event =
      (Fl_Group.pointer_loop fuel kids s g event (s.group g).children_.toNat
        (s.group g).children_ fl).bind fun r => some (s, r.1, r.2) := by
    rcases hev with h | h | h | h | h <;> subst h <;> rfl
  rw [hh, hloop]
  unfold Fl_Group.hit_order Fl_Group.kids
  cases Fl_Group.offer_in_order fuel kids s event _ fl <;> rfl

theorem pair_sublist_kids (l : List Nat) (i j : Nat) (ci cj : Nat) (hij : i < j)
    (hi : l[i]? = some ci) (hj : l[j]? = some cj) : List.Sublist [ci, cj] l := by
  have hjl : j < l.length := by
    by_contra h
    rw [List.getElem?_eq_none (by omega)] at hj
    cases hj
  have h1 : List.Sublist [ci] (l.take j) := by
    rw [List.singleton_sublist]
    apply List.mem_iff_getElem?.mpr
    refine ⟨i, ?_⟩
    rw [List.getElem?_take]
    simp [hij, hi]
  have h2 : List.Sublist [cj] (l.drop j) := by
    rw [List.singleton_sublist]
    apply List.mem_iff_getElem?.mpr
    refine ⟨0, ?_⟩
    rw [List.getElem?_drop]
    simpa using hj
  have h3 := List.Sublist.append h1 h2
  rw [List.take_append_drop] at h3
  simpa using h3

/-- C16: for `FL_PUSH`, `FL_ENTER`, `FL_MOVE`, `FL_DND_ENTER` and `FL_DND_DRAG`, `handle()`
offers the event (`send`) exactly to the children whose rectangle contains the event
position, from the last child to the first, stops with `1` at the first offer that
succeeds and returns `0` when none does, leaving the heap unchanged.  Hence, when one
child alone contains the position, `handle()` is the one `send` to that child; and of
two children that both contain the position the one with the larger index comes
first in the order of the offers. -/
theorem handle_pointer_hit_order (fuel : Nat) (kids : Children) (s : Heap) (fl : Fl)
    (g : Nat) (event : Fl_Event)
    (hev : event = Fl_Event.FL_PUSH ∨ event = Fl_Event.FL_ENTER ∨ event = Fl_Event.FL_MOVE ∨
      event = Fl_Event.FL_DND_ENTER ∨ event = Fl_Event.FL_DND_DRAG)
    (h0 : 0 ≤ (s.group g).children_)
    (hcap : (s.group g).children_ ≤ ((s.group g).array_.length : Int)) :
    Fl_Group.handle fuel kids s fl g event =
      ((Fl_Group.offer_in_order fuel kids s event (Fl_Group.hit_order s g fl) fl).map
        fun r => (s, r.1, r.2)) ∧
    (∀ c, Fl_Group.hit_order s g fl = [c] →
      Fl_Group.handle fuel kids s fl g event =
        (Fl_Group.send fuel kids s fl event c).map
          fun r => (s, r.1, if r.2 ≠ 0 then 1 else 0)) ∧
    (∀ (i j : Int) (ci cj : Nat), 0 ≤ i → i < j → j < (s.group g).children_ →
      Fl_Group.child s g i = some ci → Fl_Group.child s g j = some cj →
      Fl_Group.inside s fl.e_x fl.e_y ci = true → Fl_Group.inside s fl.e_x fl.e_y cj = true →
      List.Sublist [cj, ci] (Fl_Group.hit_order s g fl)) := by
  have hmain := handle_pointer_eq fuel kids s fl g event hev h0 hcap
  refine ⟨hmain, ?_, ?_⟩
  · intro c hc
    rw [hmain, hc]
    simp only [Fl_Group.offer_in_order]
    cases Fl_Group.send fuel kids s fl event c with
    | none => rfl
    | some r =>
      by_cases hr : r.2 = 0
      · simp [hr]
      · simp [hr]
  · intro i j ci cj hi0 hij hjn hci hcj hini hinj
    have hki : (Fl_Group.kids s g)[i.toNat]? = some ci := by
      unfold Fl_Group.kids
      rw [List.getElem?_take]
      have : i.toNat < (s.group g).children_.toNat := by omega
      simp only [this, if_true]
      simpa [Fl_Group.child, rd, hi0] using hci
    have hkj : (Fl_Group.kids s g)[j.toNat]? = some cj := by
      unfold Fl_Group.kids
      rw [List.getElem?_take]
      have : j.toNat < (s.group g).children_.toNat := by omega
      have hj0 : 0 ≤ j := by omega
      simp only [this, if_true]
      simpa [Fl_Group.child, rd, hj0] using hcj
    have hsub := pair_sublist_kids (Fl_Group.kids s g) i.toNat j.toNat ci cj (by omega) hki hkj
    have hrev : List.Sublist [cj, ci] (Fl_Group.kids s g).reverse := by
      have := List.Sublist.reverse hsub
      simpa using this
    have hfil := List.Sublist.filter (Fl_Group.inside s fl.e_x fl.e_y) hrev
    simpa [Fl_Group.hit_order, List.filter_cons, hini, hinj] using hfil

/-! ## handle: default dispatch -/

theorem kids_length (s : Heap) (g : Nat) (h0 : 0 ≤ (s.group g).children_)
    (hcap : (s.group g).children_ ≤ ((s.group g).array_.length : Int)) :
    ((Fl_Group.kids s g).length : Int) = (s.group g).children_ := by
  unfold Fl_Group.kids
  rw [List.length_take]
  omega

theorem kids_slot (s : Heap) (g : Nat) (j : Int) (h0 : 0 ≤ j)
    (hj : j < (s.group g).children_) :
    Fl_Group.child s g j = (Fl_Group.kids s g)[j.toNat]? := by
  unfold Fl_Group.kids Fl_Group.child rd
  rw [List.getElem?_take]
  have : j.toNat < (s.group g).children_.toNat := by omega
  simp [h0, this]

theorem dispatch_loop_wrapped (fuel : Nat) (kids : Children) (s : Heap) (g : Nat)
    (event : Fl_Event) (i : Int) (h0 : 0 ≤ (s.group g).children_)
    (hcap : (s.group g).children_ ≤ ((s.group g).array_.length : Int))
    (hin : i < (s.group g).children_) (k : Nat) :
    ∀ (j : Int) (fl : Fl), 0 ≤ j → j < i → (k : Int) = i - j →
    Fl_Group.dispatch_loop fuel kids s g event (s.group g).children_ i k j fl =
      Fl_Group.offer_in_order fuel kids s event
        (((Fl_Group.kids s g).take i.toNat).drop j.toNat) fl := by
  have hlen := kids_length s g h0 hcap
  induction k with
  | zero => intro j fl hj0 hji hk; omega
  | succ k ih =>
    intro j fl hj0 hji hk
    have hjl : j.toNat < (Fl_Group.kids s g).length := by omega
    have hjt : j.toNat < ((Fl_Group.kids s g).take i.toNat).length := by
      rw [List.length_take]; omega
    have hch : Fl_Group.child s g j = some ((Fl_Group.kids s g)[j.toNat]) := by
      rw [kids_slot s g j hj0 (by omega), List.getElem?_eq_getElem hjl]
    have hdrop : ((Fl_Group.kids s g).take i.toNat).drop j.toNat =
        (Fl_Group.kids s g)[j.toNat] :: ((Fl_Group.kids s g).take i.toNat).drop (j.toNat + 1) := by
      rw [List.drop_eq_getElem_cons hjt, List.getElem_take]
    rw [hdrop]
    simp only [Fl_Group.dispatch_loop, hch, Option.bind, Fl_Group.offer_in_order]
    cases hs : Fl_Group.send fuel kids s fl event ((Fl_Group.kids s g)[j.toNat]) with
    | none => rfl
    | some r =>
      simp only
      by_cases hr : r.2 ≠ 0
      · simp [hr]
      · have hnw : ¬ (j + 1 ≥ (s.group g).children_) := by omega
        simp only [hr, if_false, hnw]
        by_cases hji2 : j + 1 = i
        · have hnil : ((Fl_Group.kids s g).take i.toNat).drop (j.toNat + 1) = [] := by
            apply List.drop_eq_nil_of_le
            rw [List.length_take]; omega
          simp [hji2, hnil, Fl_Group.offer_in_order]
        · simp only [hji2, if_false]
          rw [ih (j + 1) r.1 (by omega) (by omega) (by omega)]
          have : (j + 1).toNat = j.toNat + 1 := by omega
          rw [this]

theorem dispatch_loop_forward (fuel : Nat) (kids : Children) (s : Heap) (g : Nat)
    (event : Fl_Event) (i : Int) (h0 : 0 ≤ (s.group g).children_)
    (hcap : (s.group g).children_ ≤ ((s.group g).array_.length : Int))
    (hi0 : 0 ≤ i) (hin : i < (s.group g).children_) (k : Nat) :
    ∀ (j : Int) (fl : Fl), i ≤ j → j < (s.group g).children_ →
    (k : Int) = (s.group g).children_ - j + i →
    Fl_Group.dispatch_loop fuel kids s g event (s.group g).children_ i k j fl =
      Fl_Group.offer_in_order fuel kids s event
        ((Fl_Group.kids s g).drop j.toNat ++ (Fl_Group.kids s g).take i.toNat) fl := by
  have hlen := kids_length s g h0 hcap
  induction k with
  | zero => intro j fl hij hjn hk; omega
  | succ k ih =>
    intro j fl hij hjn hk
    have hjl : j.toNat < (Fl_Group.kids s g).length := by omega
    have hch : Fl_Group.child s g j = some ((Fl_Group.kids s g)[j.toNat]) := by
      rw [kids_slot s g j (by omega) hjn, List.getElem?_eq_getElem hjl]
    rw [List.drop_eq_getElem_cons hjl, List.cons_append]
    simp only [Fl_Group.dispatch_loop, hch, Option.bind, Fl_Group.offer_in_order]
    cases hs : Fl_Group.send fuel kids s fl event ((Fl_Group.kids s g)[j.toNat]) with
    | none => rfl
    | some r =>
      simp only
      by_cases hr : r.2 ≠ 0
      · simp [hr]
      · simp only [hr, if_false]
        by_cases hw : j + 1 ≥ (s.group g).children_
        · have hnil : (Fl_Group.kids s g).drop (j.toNat + 1) = [] := by
            apply List.drop_eq_nil_of_le; omega
          simp only [hw, if_true, hnil, List.nil_append]
          by_cases hi : (0 : Int) = i
          · have hz : i.toNat = 0 := by omega
            simp [hi, hz, Fl_Group.offer_in_order]
          · simp only [hi, if_false]
            rw [dispatch_loop_wrapped fuel kids s g event i h0 hcap hin k 0 r.1 (le_refl _)
              (by omega) (by omega)]
            simp
        · have hne : ¬ (j + 1 = i) := by omega
          simp only [hw, if_false, hne]
          rw [ih (j + 1) r.1 (by omega) (by omega) (by omega)]
          have : (j + 1).toNat = j.toNat + 1 := by omega
          rw [this]

theorem start_index_eq (s : Heap) (g : Nat) :
    (if (s.group g).focus_ < 0 ∨ (s.group g).focus_ ≥ (s.group g).children_ then 0
      else (s.group g).focus_) = Fl_Group.start_index s g := by
  unfold Fl_Group.start_index
  by_cases h : (s.group g).focus_ < 0 ∨ (s.group g).focus_ ≥ (s.group g).children_
  · have h2 : ¬ (0 ≤ (s.group g).focus_ ∧ (s.group g).focus_ < (s.group g).children_) := by
      omega
    simp [h, h2]
  · have h2 : 0 ≤ (s.group g).focus_ ∧ (s.group g).focus_ < (s.group g).children_ := by
      omega
    simp [h, h2]

theorem start_index_range (s : Heap) (g : Nat) (hpos : 0 < (s.group g).children_) :
    0 ≤ Fl_Group.start_index s g ∧ Fl_Group.start_index s g < (s.group g).children_ := by
  unfold Fl_Group.start_index
  split
  · rename_i h; exact h
  · exact ⟨le_refl _, hpos⟩

theorem handle_dispatch_eq (fuel : Nat) (kids : Children) (s : Heap) (fl : Fl) (g : Nat)
    (event : Fl_Event) (h0 : 0 ≤ (s.group g).children_)
    (hcap : (s.group g).children_ ≤ ((s.group g).array_.length : Int)) :
    Fl_Group.handle_dispatch fuel kids s fl g event =
      Fl_Group.offer_in_order fuel kids s event (Fl_Group.cyclic_order s g) fl := by
  unfold Fl_Group.handle_dispatch
  simp only [start_index_eq]
  by_cases hz : (s.group g).children_ = 0
  · have hk : Fl_Group.kids s g = [] := by
      unfold Fl_Group.kids; rw [hz]; simp
    simp [hz, Fl_Group.cyclic_order, hk, Fl_Group.offer_in_order]
  · have hpos : 0 < (s.group g).children_ := by omega
    obtain ⟨hs0, hs1⟩ := start_index_range s g hpos
    simp only [ne_eq, hz, not_false_eq_true, if_true]
    exact dispatch_loop_forward fuel kids s g event (Fl_Group.start_index s g) h0 hcap hs0 hs1
      (s.group g).children_.toNat (Fl_Group.start_index s g) fl (le_refl _) hs1 (by omega)

/-- C18: for every event other than `FL_FOCUS` and the five pointer events, `handle()`
first offers the event (`send`) to the children in the cyclic order that starts at
`focus_` (at `0` when `focus_` is no valid index), stops with `1` at the first offer
that succeeds, and goes on to the shortcut navigation only when the whole order has
been tried.  The cyclic order lists the children from the start index to the last
and then from the first to the one before the start index: every child exactly once,
and no child at all for a group without children. -/
theorem handle_default_cyclic_order (fuel : Nat) (kids : Children) (s : Heap) (fl : Fl)
    (g : Nat) (event : Fl_Event)
    (hev : event ≠ Fl_Event.FL_FOCUS ∧ event ≠ Fl_Event.FL_PUSH ∧ event ≠ Fl_Event.FL_ENTER ∧
      event ≠ Fl_Event.FL_MOVE ∧ event ≠ Fl_Event.FL_DND_ENTER ∧
      event ≠ Fl_Event.FL_DND_DRAG)
    (h0 : 0 ≤ (s.group g).children_)
    (hcap : (s.group g).children_ ≤ ((s.group g).array_.length : Int)) :
    Fl_Group.handle fuel kids s fl g event =
      ((Fl_Group.offer_in_order fuel kids s event (Fl_Group.cyclic_order s g) fl).bind
        fun r =>
          if r.2 ≠ 0 then some (s, r.1, 1)
          else (Fl_Group.handle_shortcut fuel kids s r.1 g event).map
            fun q => (s, q.1, q.2)) ∧
    (∀ j, Fl_Group.start_index s g ≤ j → j < (s.group g).children_ →
      (Fl_Group.cyclic_order s g)[(j - Fl_Group.start_index s g).toNat]?
        = Fl_Group.child s g j) ∧
    (∀ j, 0 ≤ j → j < Fl_Group.start_index s g →
      (Fl_Group.cyclic_order s g)[((s.group g).children_ - Fl_Group.start_index s g
        + j).toNat]? = Fl_Group.child s g j) ∧
    (Fl_Group.cyclic_order s g).Perm (Fl_Group.kids s g) ∧
    ((s.group g).children_ = 0 → Fl_Group.cyclic_order s g = []) := by
  have hlen := kids_length s g h0 hcap
  have hsi : 0 ≤ Fl_Group.start_index s g ∧
      Fl_Group.start_index s g ≤ (s.group g).children_ := by
    unfold Fl_Group.start_index
    split
    · rename_i h; exact ⟨h.1, by omega⟩
    · exact ⟨le_refl _, h0⟩
  refine ⟨?_, ?_, ?_, ?_, ?_⟩
  · have hh : Fl_Group.handle fuel kids s fl g event =
        (Fl_Group.handle_rest fuel kids s fl g event).bind fun r => some (s, r.1, r.2) := by
      obtain ⟨h1, h2, h3, h4, h5, h6⟩ := hev
      cases event with
      | FL_FOCUS => exact (h1 rfl).elim
      | FL_PUSH => exact (h2 rfl).elim
      | FL_ENTER => exact (h3 rfl).elim
      | FL_MOVE => exact (h4 rfl).elim
      | FL_DND_ENTER => exact (h5 rfl).elim
      | FL_DND_DRAG => exact (h6 rfl).elim
      | _ => rfl
    rw [hh]
    unfold Fl_Group.handle_rest
    rw [handle_dispatch_eq fuel kids s fl g event h0 hcap]
    cases Fl_Group.offer_in_order fuel kids s event (Fl_Group.cyclic_order s g) fl with
    | none => rfl
    | some r =>
      simp only [Option.bind]
      by_cases hr : r.2 ≠ 0
      · simp [hr]
      · simp only [hr, if_false]
        cases Fl_Group.handle_shortcut fuel kids s r.1 g event <;> rfl
  · intro j hj0 hj1
    unfold Fl_Group.cyclic_order
    rw [List.getElem?_append_left (by rw [List.length_drop]; omega), List.getElem?_drop,
      kids_slot s g j (by omega) hj1]
    congr 1
    omega
  · intro j hj0 hj1
    unfold Fl_Group.cyclic_order
    rw [List.getElem?_append_right (by rw [List.length_drop]; omega), List.length_drop,
      List.getElem?_take, kids_slot s g j hj0 (by omega)]
    have h1 : ((s.group g).children_ - Fl_Group.start_index s g + j).toNat -
        ((Fl_Group.kids s g).length - (Fl_Group.start_index s g).toNat) = j.toNat := by omega
    rw [h1]
    have h2 : j.toNat < (Fl_Group.start_index s g).toNat := by omega
    simp [h2]
  · unfold Fl_Group.cyclic_order
    have h : ((Fl_Group.kids s g).drop (Fl_Group.start_index s g).toNat ++
          (Fl_Group.kids s g).take (Fl_Group.start_index s g).toNat).Perm
        ((Fl_Group.kids s g).take (Fl_Group.start_index s g).toNat ++
          (Fl_Group.kids s g).drop (Fl_Group.start_index s g).toNat) :=
      List.perm_append_comm
    rw [List.take_append_drop] at h
    exact h
  · intro hz
    have hk : Fl_Group.kids s g = [] := by
      unfold Fl_Group.kids; rw [hz]; simp
    simp [Fl_Group.cyclic_order, hk]

/-! ## sizes -/

theorem wr_spec {α : Type} (a : List α) (i : Int) (v : α) (h0 : 0 ≤ i)
    (h1 : i < (a.length : Int)) :
    ∃ a1, wr a i v = some a1 ∧ a1.length = a.length ∧
      ∀ t, rd a1 t = if t = i then some v else rd a t :=
  ⟨a.set i.toNat v, wr_ok a i v h0 h1, by simp, fun t => rd_wr (wr_ok a i v h0 h1) t⟩

theorem cp_spec (p : List Int) (dst src v : Int) (hsrc : rd p src = some v) (hd0 : 0 ≤ dst)
    (hd1 : dst < (p.length : Int)) :
    ∃ p1, cp p dst src = some p1 ∧ p1.length = p.length ∧
      ∀ t, rd p1 t = if t = dst then some v else rd p t := by
  have hw := wr_ok p dst v hd0 hd1
  exact ⟨_, by simp [cp, hsrc, hw], by simp, fun t => rd_wr hw t⟩

theorem cp_add_spec (p : List Int) (dst src v d : Int) (hsrc : rd p src = some v)
    (hd0 : 0 ≤ dst) (hd1 : dst < (p.length : Int)) :
    ∃ p1, cp_add p dst src d = some p1 ∧ p1.length = p.length ∧
      ∀ t, rd p1 t = if t = dst then some (v + d) else rd p t := by
  have hw := wr_ok p dst (v + d) hd0 hd1
  exact ⟨_, by simp [cp_add, hsrc, hw], by simp, fun t => rd_wr hw t⟩

theorem wr_if_spec (c : Prop) [Decidable c] (p : List Int) (i v : Int) (hi0 : 0 ≤ i)
    (hi1 : i < (p.length : Int)) :
    ∃ p1, (if c then wr p i v else some p) = some p1 ∧ p1.length = p.length ∧
      ∀ t, rd p1 t = if c ∧ t = i then some v else rd p t := by
  by_cases hc : c
  · obtain ⟨p1, hw, hl, hr⟩ := wr_spec p i v hi0 hi1
    refine ⟨p1, by simp [hc, hw], hl, ?_⟩
    intro t
    rw [hr t]
    simp [hc]
  · exact ⟨p, by simp [hc], rfl, fun t => by simp [hc]⟩

theorem sizes_group_quad_spec (G : Fl_Group) (p : List Int) (hlen : 8 ≤ (p.length : Int)) :
    ∃ q, Fl_Group.sizes_group_quad G p = some q ∧ q.length = p.length ∧
      rd q 0 = some 0 ∧ rd q 1 = some G.ow_ ∧ rd q 2 = some 0 ∧ rd q 3 = some G.oh_ ∧
      ∀ t, 4 ≤ t → rd q t = rd p t := by
  obtain ⟨p1, hw1, hl1, hr1⟩ := wr_spec p 2 (0 : Int) (by omega) (by omega)
  obtain ⟨p2, hp2, hl2, hr2⟩ := cp_spec p1 0 2 0
    (by rw [hr1]; simp) (by omega) (by omega)
  obtain ⟨p3, hp3, hl3, hr3⟩ := cp_add_spec p2 1 0 0 G.ow_
    (by rw [hr2]; simp) (by omega) (by omega)
  obtain ⟨p4, hp4, hl4, hr4⟩ := cp_add_spec p3 3 2 0 G.oh_
    (by rw [hr3, hr2, hr1]; simp) (by omega) (by omega)
  refine ⟨p4, by simp [Fl_Group.sizes_group_quad, hw1, hp2, hp3, hp4], by omega, ?_, ?_, ?_, ?_, ?_⟩
  · rw [hr4, hr3, hr2]; simp
  · rw [hr4, hr3]; simp
  · rw [hr4, hr3, hr2, hr1]; simp
  · rw [hr4]; simp
  · intro t ht
    have h3 : t ≠ 3 := by omega
    have h1 : t ≠ 1 := by omega
    have h0 : t ≠ 0 := by omega
    rw [hr4, hr3, hr2, hr1]
    by_cases h2 : t = 2
    · omega
    · simp [h3, h1, h0, h2]

theorem sizes_resizable_quad_spec (q : List Int) (v0 v1 v2 v3 : Int)
    (hlen : 8 ≤ (q.length : Int)) (h0 : rd q 0 = some v0) (h1 : rd q 1 = some v1)
    (h2 : rd q 2 = some v2) (h3 : rd q 3 = some v3) :
    ∃ q1, Fl_Group.sizes_resizable_quad q = some q1 ∧ q1.length = q.length ∧
      rd q1 0 = some v0 ∧ rd q1 1 = some v1 ∧ rd q1 2 = some v2 ∧ rd q1 3 = some v3 ∧
      rd q1 4 = some v0 ∧ rd q1 5 = some v1 ∧ rd q1 6 = some v2 ∧ rd q1 7 = some v3 ∧
      ∀ t, 8 ≤ t → rd q1 t = rd q t := by
  obtain ⟨p1, hp1, hl1, hr1⟩ := cp_spec q 4 0 v0 h0 (by omega) (by omega)
  obtain ⟨p2, hp2, hl2, hr2⟩ := cp_spec p1 5 1 v1 (by rw [hr1]; simpa using h1)
    (by omega) (by omega)
  obtain ⟨p3, hp3, hl3, hr3⟩ := cp_spec p2 6 2 v2 (by rw [hr2, hr1]; simpa using h2)
    (by omega) (by omega)
  obtain ⟨p4, hp4, hl4, hr4⟩ := cp_spec p3 7 3 v3 (by rw [hr3, hr2, hr1]; simpa using h3)
    (by omega) (by omega)
  refine ⟨p4, by simp [Fl_Group.sizes_resizable_quad, hp1, hp2, hp3, hp4], by omega,
    ?_, ?_, ?_, ?_, ?_, ?_, ?_, ?_, ?_⟩
  · rw [hr4, hr3, hr2, hr1]; simpa using h0
  · rw [hr4, hr3, hr2, hr1]; simpa using h1
  · rw [hr4, hr3, hr2, hr1]; simpa using h2
  · rw [hr4, hr3, hr2, hr1]; simpa using h3
  · rw [hr4, hr3, hr2, hr1]; simp
  · rw [hr4, hr3, hr2]; simp
  · rw [hr4, hr3]; simp
  · rw [hr4]; simp
  · intro t ht
    have e4 : t ≠ 4 := by omega
    have e5 : t ≠ 5 := by omega
    have e6 : t ≠ 6 := by omega
    have e7 : t ≠ 7 := by omega
    rw [hr4, hr3, hr2, hr1]
    simp [e4, e5, e6, e7]

theorem sizes_clip_spec (s : Heap) (g : Nat) (q : List Int) (hlen : 8 ≤ (q.length : Int))
    (h0 : rd q 0 = some 0) (h1 : rd q 1 = some (s.group g).ow_) (h2 : rd q 2 = some 0)
    (h3 : rd q 3 = some (s.group g).oh_) (h4 : rd q 4 = some 0)
    (h5 : rd q 5 = some (s.group g).ow_) (h6 : rd q 6 = some 0)
    (h7 : rd q 7 = some (s.group g).oh_) :
    ∃ q2, Fl_Group.sizes_clip s g q = some q2 ∧ q2.length = q.length ∧
      (∀ t, (t < 4 ∨ 8 ≤ t) → rd q2 t = rd q t) ∧
      (((s.group g).resizable_ = none ∨ (s.group g).resizable_ = some g) →
        rd q2 4 = some 0 ∧ rd q2 5 = some (s.group g).ow_ ∧ rd q2 6 = some 0 ∧
        rd q2 7 = some (s.group g).oh_) ∧
      (∀ r, (s.group g).resizable_ = some r → r ≠ g →
        rd q2 4 = some (max 0 (s.widget r).x_) ∧
        rd q2 5 = some (min (s.group g).ow_ ((s.widget r).x_ + (s.widget r).w_)) ∧
        rd q2 6 = some (max 0 (s.widget r).y_) ∧
        rd q2 7 = some (min (s.group g).oh_ ((s.widget r).y_ + (s.widget r).h_))) := by
  cases hres : (s.group g).resizable_ with
  | none =>
    refine ⟨q, by simp [Fl_Group.sizes_clip, hres], rfl, fun _ _ => rfl,
      fun _ => ⟨h4, h5, h6, h7⟩, ?_⟩
    intro r hr; cases hr
  | some r =>
    by_cases hrg : r = g
    · refine ⟨q, by simp [Fl_Group.sizes_clip, hres, hrg], rfl, fun _ _ => rfl,
        fun _ => ⟨h4, h5, h6, h7⟩, ?_⟩
      intro r2 hr2 hne
      cases hr2
      exact absurd hrg hne
    · obtain ⟨p1, hp1, hl1, hr1⟩ := wr_if_spec ((s.widget r).x_ > 0) q 4 (s.widget r).x_
        (by omega) (by omega)
      obtain ⟨p2, hp2, hl2, hr2⟩ := wr_if_spec
        ((s.widget r).x_ + (s.widget r).w_ < (s.group g).ow_) p1 5
        ((s.widget r).x_ + (s.widget r).w_) (by omega) (by omega)
      obtain ⟨p3, hp3, hl3, hr3⟩ := wr_if_spec ((s.widget r).y_ > 0) p2 6 (s.widget r).y_
        (by omega) (by omega)
      obtain ⟨p4, hp4, hl4, hr4⟩ := wr_if_spec
        ((s.widget r).y_ + (s.widget r).h_ < (s.group g).oh_) p3 7
        ((s.widget r).y_ + (s.widget r).h_) (by omega) (by omega)
      have e1 : rd p1 1 = some (s.group g).ow_ := by rw [hr1]; simpa using h1
      have e2 : rd p2 2 = some 0 := by rw [hr2, hr1]; simpa using h2
      have e3 : rd p3 3 = some (s.group g).oh_ := by rw [hr3, hr2, hr1]; simpa using h3
      refine ⟨p4, ?_, by omega, ?_, ?_, ?_⟩
      · simp only [Fl_Group.sizes_clip, hres, ne_eq, hrg, not_false_eq_true, if_true, h0,
          Option.bind, hp1, e1, hp2, e2, hp3, e3, hp4]
      · intro t ht
        have e4 : t ≠ 4 := by omega
        have e5 : t ≠ 5 := by omega
        have e6 : t ≠ 6 := by omega
        have e7 : t ≠ 7 := by omega
        rw [hr4, hr3, hr2, hr1]
        simp [e4, e5, e6, e7]
      · intro h
        rcases h with h | h
        · cases h
        · cases h; exact absurd rfl hrg
      · intro r2 hr2 _
        cases hr2
        refine ⟨?_, ?_, ?_, ?_⟩
        · rw [hr4, hr3, hr2, hr1, h4]
          by_cases hc : (s.widget r).x_ > 0
          · simp [hc]; omega
          · simp [hc]; omega
        · rw [hr4, hr3, hr2, hr1, h5]
          by_cases hc : (s.widget r).x_ + (s.widget r).w_ < (s.group g).ow_
          · simp [hc]; omega
          · simp [hc]; omega
        · rw [hr4, hr3, hr2, hr1, h6]
          by_cases hc : (s.widget r).y_ > 0
          · simp [hc]; omega
          · simp [hc]; omega
        · rw [hr4, hr3, hr2, hr1, h7]
          by_cases hc : (s.widget r).y_ + (s.widget r).h_ < (s.group g).oh_
          · simp [hc]; omega
          · simp [hc]; omega

theorem sizes_loop_spec (s : Heap) (arr : List Nat) (e : Int) (k : Nat) :
    ∀ (a p : Int) (buf : List Int), 0 ≤ a → (k : Int) = e - a → e ≤ (arr.length : Int) →
    0 ≤ p → p + 4 * (k : Int) ≤ (buf.length : Int) →
    ∃ buf1, Fl_Group.sizes_loop s arr e k a p buf = some buf1 ∧ buf1.length = buf.length ∧
      (∀ t, t < p → rd buf1 t = rd buf t) ∧
      (∀ j o, a ≤ j → j < e → rd arr j = some o →
        rd buf1 (p + 4 * (j - a)) = some (s.widget o).x_ ∧
        rd buf1 (p + 4 * (j - a) + 1) = some ((s.widget o).x_ + (s.widget o).w_) ∧
        rd buf1 (p + 4 * (j - a) + 2) = some (s.widget o).y_ ∧
        rd buf1 (p + 4 * (j - a) + 3) = some ((s.widget o).y_ + (s.widget o).h_)) := by
  induction k with
  | zero =>
    intro a p buf _ hk _ _ _
    have hne : ¬ (a < e) := by omega
    refine ⟨buf, by simp [Fl_Group.sizes_loop, hne], rfl, fun _ _ => rfl, ?_⟩
    intro j o h1 h2; omega
  | succ k ih =>
    intro a p buf ha hk he hp hbuf
    have hae : a < e := by omega
    obtain ⟨o, ho⟩ := rd_ok arr a ha (by omega)
    obtain ⟨b1, hw1, hx1, hr1⟩ := wr_spec buf p (s.widget o).x_ hp (by omega)
    obtain ⟨b2, hw2, hx2, hr2⟩ := wr_spec b1 (p + 1) ((s.widget o).x_ + (s.widget o).w_)
      (by omega) (by omega)
    obtain ⟨b3, hw3, hx3, hr3⟩ := wr_spec b2 (p + 2) (s.widget o).y_ (by omega) (by omega)
    obtain ⟨b4, hw4, hx4, hr4⟩ := wr_spec b3 (p + 3) ((s.widget o).y_ + (s.widget o).h_)
      (by omega) (by omega)
    obtain ⟨buf1, hb1, hl1, hlow, hhigh⟩ := ih (a + 1) (p + 4) b4 (by omega) (by omega) he
      (by omega) (by omega)
    refine ⟨buf1, ?_, by omega, ?_, ?_⟩
    · simp only [Fl_Group.sizes_loop, hae, if_true, ho, Option.bind, hw1, hw2, hw3, hw4]
      exact hb1
    · intro t ht
      rw [hlow t (by omega), hr4, hr3, hr2, hr1]
      have e0 : t ≠ p := by omega
      have e1 : t ≠ p + 1 := by omega
      have e2 : t ≠ p + 2 := by omega
      have e3 : t ≠ p + 3 := by omega
      simp [e0, e1, e2, e3]
    · intro j o2 hj1 hj2 hjo
      by_cases hja : j = a
      · subst hja
        rw [ho] at hjo
        cases hjo
        have z : p + 4 * (j - j) = p := by omega
        rw [z]
        refine ⟨?_, ?_, ?_, ?_⟩
        · rw [hlow p (by omega), hr4, hr3, hr2, hr1]
          have e1 : p ≠ p + 1 := by omega
          have e2 : p ≠ p + 2 := by omega
          have e3 : p ≠ p + 3 := by omega
          simp [e1, e2, e3]
        · rw [hlow (p + 1) (by omega), hr4, hr3, hr2]
          have e2 : p + 1 ≠ p + 2 := by omega
          have e3 : p + 1 ≠ p + 3 := by omega
          simp [e2, e3]
        · rw [hlow (p + 2) (by omega), hr4, hr3]
          have e3 : p + 2 ≠ p + 3 := by omega
          simp [e3]
        · rw [hlow (p + 3) (by omega), hr4]
          simp
      · have h := hhigh j o2 (by omega) hj2 hjo
        have z : p + 4 + 4 * (j - (a + 1)) = p + 4 * (j - a) := by omega
        rw [z] at h
        exact h

/-- The content of the array built by `sizes()`: its length, the quad of the group, the
quad of the resizable (clipped, or a copy of the quad of the group) and the quads of the
children. -/
theorem sizes_build_spec (s : Heap) (g : Nat) (h0 : 0 ≤ (s.group g).children_)
    (hcap : (s.group g).children_ ≤ ((s.group g).array_.length : Int)) :
    ∃ p, Fl_Group.sizes_build s g = some p ∧
      (p.length : Int) = 4 * ((s.group g).children_ + 2) ∧
      (rd p 0 = some 0 ∧ rd p 1 = some (s.group g).ow_ ∧ rd p 2 = some 0 ∧
        rd p 3 = some (s.group g).oh_) ∧
      (((s.group g).resizable_ = none ∨ (s.group g).resizable_ = some g) →
        rd p 4 = some 0 ∧ rd p 5 = some (s.group g).ow_ ∧ rd p 6 = some 0 ∧
        rd p 7 = some (s.group g).oh_) ∧
      (∀ r, (s.group g).resizable_ = some r → r ≠ g →
        rd p 4 = some (max 0 (s.widget r).x_) ∧
        rd p 5 = some (min (s.group g).ow_ ((s.widget r).x_ + (s.widget r).w_)) ∧
        rd p 6 = some (max 0 (s.widget r).y_) ∧
        rd p 7 = some (min (s.group g).oh_ ((s.widget r).y_ + (s.widget r).h_))) ∧
      (∀ k o, 0 ≤ k → k < (s.group g).children_ → Fl_Group.child s g k = some o →
        rd p (8 + 4 * k) = some (s.widget o).x_ ∧
        rd p (8 + 4 * k + 1) = some ((s.widget o).x_ + (s.widget o).w_) ∧
        rd p (8 + 4 * k + 2) = some (s.widget o).y_ ∧
        rd p (8 + 4 * k + 3) = some ((s.widget o).y_ + (s.widget o).h_)) := by
  have hlen0 : ((List.replicate (4 * ((s.group g).children_ + 2)).toNat (0 : Int)).length : Int)
      = 4 * ((s.group g).children_ + 2) := by
    rw [List.length_replicate]; omega
  obtain ⟨q1, hq1, hl1, a0, a1, a2, a3, _⟩ := sizes_group_quad_spec (s.group g)
    (List.replicate (4 * ((s.group g).children_ + 2)).toNat (0 : Int)) (by omega)
  obtain ⟨q2, hq2, hl2, b0, b1, b2, b3, b4, b5, b6, b7, _⟩ :=
    sizes_resizable_quad_spec q1 0 (s.group g).ow_ 0 (s.group g).oh_ (by omega) a0 a1 a2 a3
  obtain ⟨q3, hq3, hl3, hkeep, hself, hclip⟩ :=
    sizes_clip_spec s g q2 (by omega) b0 b1 b2 b3 b4 b5 b6 b7
  obtain ⟨q4, hq4, hl4, hlow, hhigh⟩ := sizes_loop_spec s (s.group g).array_
    (s.group g).children_ (s.group g).children_.toNat 0 8 q3 (by omega) (by omega) hcap
    (by omega) (by omega)
  have hneg : ¬ (4 * ((s.group g).children_ + 2) < 0) := by omega
  refine ⟨q4, ?_, by omega, ?_, ?_, ?_, ?_⟩
  · simp only [Fl_Group.sizes_build, hneg, if_false, hq1, Option.bind, hq2, hq3]
    exact hq4
  · refine ⟨?_, ?_, ?_, ?_⟩
    · rw [hlow 0 (by omega), hkeep 0 (by omega)]; exact b0
    · rw [hlow 1 (by omega), hkeep 1 (by omega)]; exact b1
    · rw [hlow 2 (by omega), hkeep 2 (by omega)]; exact b2
    · rw [hlow 3 (by omega), hkeep 3 (by omega)]; exact b3
  · intro h
    obtain ⟨c4, c5, c6, c7⟩ := hself h
    exact ⟨by rw [hlow 4 (by omega)]; exact c4, by rw [hlow 5 (by omega)]; exact c5,
      by rw [hlow 6 (by omega)]; exact c6, by rw [hlow 7 (by omega)]; exact c7⟩
  · intro r hr hne
    obtain ⟨c4, c5, c6, c7⟩ := hclip r hr hne
    exact ⟨by rw [hlow 4 (by omega)]; exact c4, by rw [hlow 5 (by omega)]; exact c5,
      by rw [hlow 6 (by omega)]; exact c6, by rw [hlow 7 (by omega)]; exact c7⟩
  · intro k o hk0 hk1 hko
    have h := hhigh k o hk0 hk1 hko
    have z : 8 + 4 * (k - 0) = 8 + 4 * k := by omega
    rw [z] at h
    exact h

theorem layout_children_total (arr : List Nat) (e : Int) (k : Nat) : ∀ (a : Int) (s : Heap),
    0 ≤ a → (k : Int) = e - a → e ≤ (arr.length : Int) →
    Fl_Group.layout_children arr e k a s = some s := by
  induction k with
  | zero =>
    intro a s _ hk _
    have hne : ¬ (a < e) := by omega
    simp [Fl_Group.layout_children, hne]
  | succ k ih =>
    intro a s ha hk he
    have hae : a < e := by omega
    obtain ⟨o, ho⟩ := rd_ok arr a ha (by omega)
    simp only [Fl_Group.layout_children, hae, if_true, ho, Option.bind, Fl_Widget.layout]
    exact ih (a + 1) s (by omega) (by omega) he

/-- The branch of `layout()` that only cascades (no resizable, or size unchanged): it
returns, and only the recorded size of the group is refreshed. -/
theorem layout_cascade (s : Heap) (g : Nat)
    (hbr : (s.group g).resizable_ = none ∨
      ((s.group g).ow_ = (s.widget g).w_ ∧ (s.group g).oh_ = (s.widget g).h_))
    (h0 : 0 ≤ (s.group g).children_)
    (hcap : (s.group g).children_ ≤ ((s.group g).array_.length : Int)) :
    Fl_Group.layout s g = some (Fl_Group.set_old_size s g) := by
  have htot := layout_children_total (s.group g).array_ (s.group g).children_
    (s.group g).children_.toNat 0 s (by omega) (by omega) hcap
  unfold Fl_Group.layout
  simp only [hbr, if_true]
  rw [htot]
  simp [Fl_Widget.layout]

/-- `layout()` right after `init_sizes()` takes the branch that only cascades: it returns,
the snapshot stays absent and the recorded size is the size of the group. -/
theorem layout_after_init_sizes (s : Heap) (g : Nat) (h0 : 0 ≤ (s.group g).children_)
    (hcap : (s.group g).children_ ≤ ((s.group g).array_.length : Int)) :
    ∃ s1, Fl_Group.layout (Fl_Group.init_sizes s g) g = some s1 ∧ s1.widget = s.widget ∧
      s1.group g = (Fl_Group.init_sizes s g).group g := by
  have hg := init_sizes_group_self s g
  have hw := init_sizes_widget s g
  refine ⟨Fl_Group.set_old_size (Fl_Group.init_sizes s g) g, ?_, ?_, ?_⟩
  · apply layout_cascade
    · right; rw [hg, hw]; exact ⟨rfl, rfl⟩
    · rw [hg]; exact h0
    · rw [hg]; exact hcap
  · simp [Fl_Group.set_old_size]
  · simp [Fl_Group.set_old_size, hg]

/-- C13: with the counters of the group in range, (1) when the snapshot is absent
`sizes()` returns a freshly built array, stored in `sizes_`, of exactly
`4 * (children_ + 2)` integers, that is `children_ + 2` quads in (left, right, top,
bottom) order: quad 0 is `(0, ow, 0, oh)`; quad 1 is a copy of quad 0 when the resizable
is null or the group itself, and otherwise the rectangle of the resizable clipped to the
group, `(max 0 rx, min ow (rx+rw), max 0 ry, min oh (ry+rh))`; quad `k+2` is
`(x_k, x_k+w_k, y_k, y_k+h_k)` for child `k`; (2) after `init_sizes()` and one `layout()`
call, `sizes()` returns `children_ + 2` quads whose quad 0 is `(0, w, 0, h)` of the
group. -/
theorem sizes_builds_quads (s : Heap) (g : Nat) (h0 : 0 ≤ (s.group g).children_)
    (hcap : (s.group g).children_ ≤ ((s.group g).array_.length : Int)) :
    ((s.group g).sizes_ = none →
      ∃ p, Fl_Group.sizes s g =
          some (s.set_group g { s.group g with sizes_ := some p }, p) ∧
        (p.length : Int) = 4 * ((s.group g).children_ + 2) ∧
        (rd p 0 = some 0 ∧ rd p 1 = some (s.group g).ow_ ∧ rd p 2 = some 0 ∧
          rd p 3 = some (s.group g).oh_) ∧
        (((s.group g).resizable_ = none ∨ (s.group g).resizable_ = some g) →
          rd p 4 = some 0 ∧ rd p 5 = some (s.group g).ow_ ∧ rd p 6 = some 0 ∧
          rd p 7 = some (s.group g).oh_) ∧
        (∀ r, (s.group g).resizable_ = some r → r ≠ g →
          rd p 4 = some (max 0 (s.widget r).x_) ∧
          rd p 5 = some (min (s.group g).ow_ ((s.widget r).x_ + (s.widget r).w_)) ∧
          rd p 6 = some (max 0 (s.widget r).y_) ∧
          rd p 7 = some (min (s.group g).oh_ ((s.widget r).y_ + (s.widget r).h_))) ∧
        (∀ k o, 0 ≤ k → k < (s.group g).children_ → Fl_Group.child s g k = some o →
          rd p (4 * (k + 2)) = some (s.widget o).x_ ∧
          rd p (4 * (k + 2) + 1) = some ((s.widget o).x_ + (s.widget o).w_) ∧
          rd p (4 * (k + 2) + 2) = some (s.widget o).y_ ∧
          rd p (4 * (k + 2) + 3) = some ((s.widget o).y_ + (s.widget o).h_))) ∧
    (∃ s1 s2 p, Fl_Group.layout (Fl_Group.init_sizes s g) g = some s1 ∧
        Fl_Group.sizes s1 g = some (s2, p) ∧
        (p.length : Int) = 4 * ((s.group g).children_ + 2) ∧
        rd p 0 = some 0 ∧ rd p 1 = some (s.widget g).w_ ∧ rd p 2 = some 0 ∧
        rd p 3 = some (s.widget g).h_) := by
  constructor
  · intro hnone
    obtain ⟨p, hp, hlen, hq0, hq1, hq1c, hkids⟩ := sizes_build_spec s g h0 hcap
    refine ⟨p, ?_, hlen, hq0, hq1, hq1c, ?_⟩
    · unfold Fl_Group.sizes
      rw [hnone]
      simp [hp]
    · intro k o hk0 hk1 hko
      have z : 4 * (k + 2) = 8 + 4 * k := by omega
      rw [z]
      exact hkids k o hk0 hk1 hko
  · obtain ⟨s1, hs1, hw1, hg1⟩ := layout_after_init_sizes s g h0 hcap
    rw [init_sizes_group_self] at hg1
    obtain ⟨p, hp, hlen, hq0, _⟩ := sizes_build_spec s1 g (by rw [hg1]; exact h0)
      (by rw [hg1]; exact hcap)
    refine ⟨s1, s1.set_group g { s1.group g with sizes_ := some p }, p, hs1, ?_, ?_, ?_⟩
    · unfold Fl_Group.sizes
      have hn : (s1.group g).sizes_ = none := by rw [hg1]
      rw [hn]
      simp [hp]
    · rw [hlen, hg1]
    · rw [hg1] at hq0
      exact hq0

/-- Witness for C13: the group of three children. -/
theorem sizes_builds_quads_witness :
    (0 ≤ (three_children.group 1).children_ ∧
      (three_children.group 1).children_ ≤ ((three_children.group 1).array_.length : Int)) ∧
    ∃ p, Fl_Group.sizes three_children 1 =
        some (three_children.set_group 1 { three_children.group 1 with sizes_ := some p }, p) ∧
      (p.length : Int) = 4 * ((three_children.group 1).children_ + 2) :=
  ⟨⟨by decide, by decide⟩,
    match (sizes_builds_quads three_children 1 (by decide) (by decide)).1 rfl with
    | ⟨p, h1, h2, _⟩ => ⟨p, h1, h2⟩⟩


/-! ## layout: the resize branch -/

/-- The coordinate map of `layout()` never divides by zero; its value is the map `f`
with the product taken in 32-bit arithmetic. -/
theorem remap_eq (c IX IR dw : Int) :
    Fl_Group.remap c IX IR dw = some (Fl_Group.remap_value c IX IR dw) := by
  unfold Fl_Group.remap Fl_Group.remap_value
  by_cases h1 : c ≥ IR
  · simp [h1]
  · by_cases h2 : c > IX
    · have h3 : ¬ (IR - IX = 0) := by omega
      have h4 : ¬ (c ≤ IX) := by omega
      simp [h1, h2, h3, h4]
    · have h4 : c ≤ IX := by omega
      simp [h1, h2, h4]

theorem layout_rect_spec (sz : List Int) (p : Int) (dw dh IX IR IY IB L R T B : Int)
    (hL : rd sz p = some L) (hR : rd sz (p + 1) = some R) (hT : rd sz (p + 2) = some T)
    (hB : rd sz (p + 3) = some B) :
    Fl_Group.layout_rect sz p dw dh IX IR IY IB =
      some (Fl_Group.remap_value L IX IR dw, Fl_Group.remap_value T IY IB dh,
        Fl_Group.remap_value R IX IR dw - Fl_Group.remap_value L IX IR dw,
        Fl_Group.remap_value B IY IB dh - Fl_Group.remap_value T IY IB dh) := by
  simp [Fl_Group.layout_rect, hL, hR, hT, hB, remap_eq]

theorem resize_widget (s : Heap) (o o2 : Nat) (X Y W H : Int) :
    (Fl_Widget.resize s o X Y W H).widget o2 =
      if o2 = o then { s.widget o with x_ := X, y_ := Y, w_ := W, h_ := H }
      else s.widget o2 := by
  by_cases h : o2 = o
  · subst h; simp [Fl_Widget.resize]
  · simp [Fl_Widget.resize, h]

/-- The loop of the resize branch of `layout()`: it returns; it changes no group part;
a widget that is not among the children visited keeps its base part; and the child at
index `j`, when the same widget is not listed again at a later index, ends with the
geometry `(f L, g T, f R - f L, g B - g T)` computed from its quad `(L, R, T, B)`. -/
theorem layout_loop_spec (arr : List Nat) (e : Int) (sz : List Int)
    (dw dh IX IR IY IB : Int) (k : Nat) :
    ∀ (a p : Int) (s : Heap), 0 ≤ a → (k : Int) = e - a → e ≤ (arr.length : Int) →
    0 ≤ p → p + 4 * (k : Int) ≤ (sz.length : Int) →
    ∃ s1, Fl_Group.layout_loop arr e sz dw dh IX IR IY IB k a p s = some s1 ∧
      s1.group = s.group ∧
      (∀ o, (∀ j, a ≤ j → j < e → rd arr j ≠ some o) → s1.widget o = s.widget o) ∧
      (∀ j o, a ≤ j → j < e → rd arr j = some o →
        (∀ j2, j < j2 → j2 < e → rd arr j2 ≠ some o) →
        ∃ L R T B, rd sz (p + 4 * (j - a)) = some L ∧ rd sz (p + 4 * (j - a) + 1) = some R ∧
          rd sz (p + 4 * (j - a) + 2) = some T ∧ rd sz (p + 4 * (j - a) + 3) = some B ∧
          (s1.widget o).x_ = Fl_Group.remap_value L IX IR dw ∧
          (s1.widget o).y_ = Fl_Group.remap_value T IY IB dh ∧
          (s1.widget o).w_ =
            Fl_Group.remap_value R IX IR dw - Fl_Group.remap_value L IX IR dw ∧
          (s1.widget o).h_ =
            Fl_Group.remap_value B IY IB dh - Fl_Group.remap_value T IY IB dh) := by
  induction k with
  | zero =>
    intro a p s _ hk _ _ _
    have hne : ¬ (a < e) := by omega
    refine ⟨s, by simp [Fl_Group.layout_loop, hne], rfl, fun _ _ => rfl, ?_⟩
    intro j o h1 h2; omega
  | succ k ih =>
    intro a p s ha hk he hp hsz
    have hae : a < e := by omega
    obtain ⟨o, ho⟩ := rd_ok arr a ha (by omega)
    obtain ⟨L, hL⟩ := rd_ok sz p hp (by omega)
    obtain ⟨R, hR⟩ := rd_ok sz (p + 1) (by omega) (by omega)
    obtain ⟨T, hT⟩ := rd_ok sz (p + 2) (by omega) (by omega)
    obtain ⟨B, hB⟩ := rd_ok sz (p + 3) (by omega) (by omega)
    have hrect := layout_rect_spec sz p dw dh IX IR IY IB L R T B hL hR hT hB
    obtain ⟨s1, hs1, hg1, hout, hin⟩ := ih (a + 1) (p + 4)
      (Fl_Widget.resize s o (Fl_Group.remap_value L IX IR dw) (Fl_Group.remap_value T IY IB dh)
        (Fl_Group.remap_value R IX IR dw - Fl_Group.remap_value L IX IR dw)
        (Fl_Group.remap_value B IY IB dh - Fl_Group.remap_value T IY IB dh))
      (by omega) (by omega) he (by omega) (by omega)
    refine ⟨s1, ?_, ?_, ?_, ?_⟩
    · simp only [Fl_Group.layout_loop, hae, if_true, ho, Option.bind, hrect, Fl_Widget.layout]
      exact hs1
    · rw [hg1]; rfl
    · intro o2 hno
      rw [hout o2 (fun j h1 h2 => hno j (by omega) h2), resize_widget]
      have hne : o2 ≠ o := by
        intro h
        subst h
        exact hno a (by omega) hae ho
      simp [hne]
    · intro j o2 hj1 hj2 hjo hlast
      by_cases hja : j = a
      · subst hja
        rw [ho] at hjo
        cases hjo
        have z : p + 4 * (j - j) = p := by omega
        rw [z]
        refine ⟨L, R, T, B, hL, hR, hT, hB, ?_⟩
        rw [hout o (fun j2 h1 h2 => hlast j2 (by omega) h2), resize_widget]
        simp
      · have h := hin j o2 (by omega) hj2 hjo hlast
        have z : p + 4 + 4 * (j - (a + 1)) = p + 4 * (j - a) := by omega
        rw [z] at h
        exact h

/-- The call `sizes()` returns when the counters are in range: it yields the cached
snapshot, or builds one; the base parts, the child array and the child count are kept,
and the snapshot holds `4 * (children_ + 2)` integers when a cached one does. -/
theorem sizes_total (s : Heap) (g : Nat) (h0 : 0 ≤ (s.group g).children_)
    (hcap : (s.group g).children_ ≤ ((s.group g).array_.length : Int))
    (hsnap : ∀ z, (s.group g).sizes_ = some z →
      (z.length : Int) = 4 * ((s.group g).children_ + 2)) :
    ∃ s0 p, Fl_Group.sizes s g = some (s0, p) ∧
      (p.length : Int) = 4 * ((s.group g).children_ + 2) ∧ s0.widget = s.widget ∧
      (s0.group g).array_ = (s.group g).array_ ∧
      (s0.group g).children_ = (s.group g).children_ ∧
      ((s.group g).sizes_ = none → Fl_Group.sizes_build s g = some p) := by
  cases hz : (s.group g).sizes_ with
  | some z =>
    refine ⟨s, z, by simp [Fl_Group.sizes, hz], hsnap z hz, rfl, rfl, rfl, ?_⟩
    intro h; cases h
  | none =>
    obtain ⟨p, hp, hlen, _⟩ := sizes_build_spec s g h0 hcap
    refine ⟨s.set_group g { s.group g with sizes_ := some p }, p, ?_, hlen, rfl, ?_, ?_,
      fun _ => hp⟩
    · simp [Fl_Group.sizes, hz, hp]
    · simp
    · simp

/-- Effect of the resize branch of `layout()`: the call returns, and with the snapshot
`p` that `sizes()` yields, `dw = w - (p[1] - p[0])`, `dh = h - (p[3] - p[2])` and
`(IX, IR, IY, IB) = p[4..7]`, the child at index `k` (when the same widget is not listed
again at a later index) ends with the geometry `(f L, g T, f R - f L, g B - g T)`, where
`(L, R, T, B) = p[4*(k+2) ..]` is its quad. -/
theorem layout_resize_effect (s : Heap) (g : Nat)
    (hres : (s.group g).resizable_ ≠ none)
    (hsize : ¬ ((s.group g).ow_ = (s.widget g).w_ ∧ (s.group g).oh_ = (s.widget g).h_))
    (hn : (s.group g).children_ ≠ 0) (h0 : 0 ≤ (s.group g).children_)
    (hcap : (s.group g).children_ ≤ ((s.group g).array_.length : Int))
    (hsnap : ∀ z, (s.group g).sizes_ = some z →
      (z.length : Int) = 4 * ((s.group g).children_ + 2)) :
    ∃ s0 p s1 p0 p1 p2 p3 IX IR IY IB,
      Fl_Group.sizes s g = some (s0, p) ∧ Fl_Group.layout s g = some s1 ∧
      rd p 0 = some p0 ∧ rd p 1 = some p1 ∧ rd p 2 = some p2 ∧ rd p 3 = some p3 ∧
      rd p 4 = some IX ∧ rd p 5 = some IR ∧ rd p 6 = some IY ∧ rd p 7 = some IB ∧
      ∀ k o, 0 ≤ k → k < (s.group g).children_ → Fl_Group.child s g k = some o →
        (∀ k2, k < k2 → k2 < (s.group g).children_ → Fl_Group.child s g k2 ≠ some o) →
        ∃ L R T B, rd p (4 * (k + 2)) = some L ∧ rd p (4 * (k + 2) + 1) = some R ∧
          rd p (4 * (k + 2) + 2) = some T ∧ rd p (4 * (k + 2) + 3) = some B ∧
          (s1.widget o).x_ = Fl_Group.remap_value L IX IR ((s.widget g).w_ - (p1 - p0)) ∧
          (s1.widget o).y_ = Fl_Group.remap_value T IY IB ((s.widget g).h_ - (p3 - p2)) ∧
          (s1.widget o).w_ =
            Fl_Group.remap_value R IX IR ((s.widget g).w_ - (p1 - p0)) -
              Fl_Group.remap_value L IX IR ((s.widget g).w_ - (p1 - p0)) ∧
          (s1.widget o).h_ =
            Fl_Group.remap_value B IY IB ((s.widget g).h_ - (p3 - p2)) -
              Fl_Group.remap_value T IY IB ((s.widget g).h_ - (p3 - p2)) := by
  obtain ⟨s0, p, hsz, hlen, hw0, harr0, hcnt0, _⟩ := sizes_total s g h0 hcap hsnap
  obtain ⟨p0, e0⟩ := rd_ok p 0 (by omega) (by omega)
  obtain ⟨p1, e1⟩ := rd_ok p 1 (by omega) (by omega)
  obtain ⟨p2, e2⟩ := rd_ok p 2 (by omega) (by omega)
  obtain ⟨p3, e3⟩ := rd_ok p 3 (by omega) (by omega)
  obtain ⟨IX, e4⟩ := rd_ok p 4 (by omega) (by omega)
  obtain ⟨IR, e5⟩ := rd_ok p 5 (by omega) (by omega)
  obtain ⟨IY, e6⟩ := rd_ok p 6 (by omega) (by omega)
  obtain ⟨IB, e7⟩ := rd_ok p 7 (by omega) (by omega)
  obtain ⟨s2, hloop, hg2, _, hin⟩ := layout_loop_spec (s0.group g).array_
    (s0.group g).children_ p ((s0.widget g).w_ - (p1 - p0)) ((s0.widget g).h_ - (p3 - p2))
    IX IR IY IB (s0.group g).children_.toNat 0 8 s0 (by omega) (by rw [hcnt0]; omega)
    (by rw [hcnt0, harr0]; exact hcap) (by omega) (by rw [hcnt0]; omega)
  have hbr : ¬ ((s.group g).resizable_ = none ∨
      ((s.group g).ow_ = (s.widget g).w_ ∧ (s.group g).oh_ = (s.widget g).h_)) := by
    intro h
    rcases h with h | h
    · exact hres h
    · exact hsize h
  refine ⟨s0, p, Fl_Group.set_old_size (Fl_Widget.layout s2 g) g, p0, p1, p2, p3, IX, IR, IY,
    IB, hsz, ?_, e0, e1, e2, e3, e4, e5, e6, e7, ?_⟩
  · unfold Fl_Group.layout
    simp only [hbr, if_false, ne_eq, hn, not_false_eq_true, if_true, hsz, Option.bind, e0, e1,
      e2, e3, e4, e5, e6, e7, hloop]
  · intro k o hk0 hk1 hko hlast
    have hko0 : rd (s0.group g).array_ k = some o := by rw [harr0]; exact hko
    obtain ⟨L, R, T, B, hL, hR, hT, hB, hx, hy, hw, hh⟩ := hin k o hk0
      (by rw [hcnt0]; exact hk1) hko0
      (fun k2 h1 h2 => by rw [harr0]; exact hlast k2 h1 (by rw [← hcnt0]; exact h2))
    have z : 8 + 4 * (k - 0) = 4 * (k + 2) := by omega
    rw [z] at hL hR hT hB
    rw [hw0] at hx hy hw hh
    exact ⟨L, R, T, B, hL, hR, hT, hB, hx, hy, hw, hh⟩

/-- Within the range of `int` the 32-bit product is the product. -/
theorem wrap32_of_in_int (z : Int) (h : in_int z) : wrap32 z = z := by
  unfold in_int at h
  unfold wrap32
  omega

/-- The 32-bit value lies in the range of `int` and differs from the exact value by a
multiple of `2^32`. -/
theorem wrap32_spec (z : Int) : in_int (wrap32 z) ∧ (4294967296 : Int) ∣ wrap32 z - z := by
  unfold in_int wrap32
  omega

/-- With the product in the range of `int`, the map of the code is the map `f` in the
words of the specification. -/
theorem remap_value_eq_spec (c IX IR dw : Int)
    (h : IX < c → c < IR → in_int (dw * (c - IX))) :
    Fl_Group.remap_value c IX IR dw = Fl_Group.remap_spec c IX IR dw := by
  unfold Fl_Group.remap_value Fl_Group.remap_spec
  by_cases h1 : c ≥ IR
  · simp [h1]
  · by_cases h2 : c ≤ IX
    · simp [h1, h2]
    · simp only [h1, h2, if_false]
      rw [wrap32_of_in_int _ (h (by omega) (by omega))]

/-- C14 (as stated, refuted): group `1` of `overflow_example` (recorded width `100000`,
resized to width `150000`, so `dw = 50000`; the resizable child `2` spans
`0 .. 100000`) is in the resize branch of `layout()`.  Child `3` has the snapshot quad
`(L, R, T, B) = (42949, 42950, 0, 50)`, both `L` and `R` inside the span.  By the
formula of the claim it is resized to `x = f L = 64423` with the width
`f R - f L = 2`; the code resizes it to `x = 64423` with the width `-42947`, because
the product `dw * (R - IX) = 2147500000` is not in the range of `int`. -/
theorem layout_scaling_product_overflow :
    ((overflow_example.group 1).resizable_ ≠ none ∧
      ¬ ((overflow_example.group 1).ow_ = (overflow_example.widget 1).w_ ∧
         (overflow_example.group 1).oh_ = (overflow_example.widget 1).h_) ∧
      (overflow_example.group 1).children_ ≠ 0) ∧
    (Fl_Group.sizes overflow_example 1).map Prod.snd =
      some [0, 100000, 0, 50, 0, 100000, 0, 50, 0, 100000, 0, 50, 42949, 42950, 0, 50] ∧
    (Fl_Group.remap_spec 42949 0 100000 (150000 - (100000 - 0)),
      Fl_Group.remap_spec 42950 0 100000 (150000 - (100000 - 0)) -
        Fl_Group.remap_spec 42949 0 100000 (150000 - (100000 - 0))) = (64423, 2) ∧
    ((Fl_Group.layout overflow_example 1).map fun s1 =>
      ((s1.widget 3).x_, (s1.widget 3).y_, (s1.widget 3).w_, (s1.widget 3).h_))
      = some (64423, 0, -42947, 50) ∧
    ((Fl_Group.layout overflow_example 1).map fun s1 => (s1.widget 3).w_) ≠
      some (Fl_Group.remap_spec 42950 0 100000 (150000 - (100000 - 0)) -
        Fl_Group.remap_spec 42949 0 100000 (150000 - (100000 - 0))) ∧
    ¬ in_int ((150000 - (100000 - 0)) * (42950 - 0)) :=
  ⟨⟨by decide, by decide, by decide⟩, rfl, by decide, rfl, by decide, by decide⟩

/-- C14 (amended): in the resize branch of `layout()` (a resizable is designated, the
size of the group differs from its recorded size, there is at least one child; counters
in range and a cached snapshot of the right length), the call returns, and with `p` the
snapshot that `sizes()` yields, `dw = w - (p[1] - p[0])`, `dh = h - (p[3] - p[2])` and
`(IX, IR, IY, IB) = p[4..7]` the quad of the resizable, each child `k` (as far as the
same widget is not listed again at a later index) is resized to
`(f L, g T, f R - f L, g B - g T)` where `(L, R, T, B)` is the quad of child `k` in the
snapshot; `f c = c + dw` if `c >= IR`, else `f c = c` if `c <= IX`, else (`IX < c < IR`)
`f c = c + P / (IR - IX)` with the division truncating toward zero, where `P` is the
product `dw * (c - IX)` as 32-bit arithmetic leaves it: a value in the range of `int`
that differs from the product by a multiple of `2^32`, hence the product itself
whenever that lies in the range of `int`; then `f c = c + (dw * (c - IX)) / (IR - IX)`,
and `f` is the map the specification states.  `g` is the same map with `dh`, `IY`,
`IB`.  No division by zero occurs. -/
theorem layout_resize_branch_map (s : Heap) (g : Nat)
    (hres : (s.group g).resizable_ ≠ none)
    (hsize : ¬ ((s.group g).ow_ = (s.widget g).w_ ∧ (s.group g).oh_ = (s.widget g).h_))
    (hn : (s.group g).children_ ≠ 0) (h0 : 0 ≤ (s.group g).children_)
    (hcap : (s.group g).children_ ≤ ((s.group g).array_.length : Int))
    (hsnap : ∀ z, (s.group g).sizes_ = some z →
      (z.length : Int) = 4 * ((s.group g).children_ + 2)) :
    (∃ s0 p s1 p0 p1 p2 p3 IX IR IY IB,
      Fl_Group.sizes s g = some (s0, p) ∧ Fl_Group.layout s g = some s1 ∧
      rd p 0 = some p0 ∧ rd p 1 = some p1 ∧ rd p 2 = some p2 ∧ rd p 3 = some p3 ∧
      rd p 4 = some IX ∧ rd p 5 = some IR ∧ rd p 6 = some IY ∧ rd p 7 = some IB ∧
      ∀ k o, 0 ≤ k → k < (s.group g).children_ → Fl_Group.child s g k = some o →
        (∀ k2, k < k2 → k2 < (s.group g).children_ → Fl_Group.child s g k2 ≠ some o) →
        ∃ L R T B, rd p (4 * (k + 2)) = some L ∧ rd p (4 * (k + 2) + 1) = some R ∧
          rd p (4 * (k + 2) + 2) = some T ∧ rd p (4 * (k + 2) + 3) = some B ∧
          (s1.widget o).x_ = Fl_Group.remap_value L IX IR ((s.widget g).w_ - (p1 - p0)) ∧
          (s1.widget o).y_ = Fl_Group.remap_value T IY IB ((s.widget g).h_ - (p3 - p2)) ∧
          (s1.widget o).w_ =
            Fl_Group.remap_value R IX IR ((s.widget g).w_ - (p1 - p0)) -
              Fl_Group.remap_value L IX IR ((s.widget g).w_ - (p1 - p0)) ∧
          (s1.widget o).h_ =
            Fl_Group.remap_value B IY IB ((s.widget g).h_ - (p3 - p2)) -
              Fl_Group.remap_value T IY IB ((s.widget g).h_ - (p3 - p2))) ∧
    (∀ c IX IR dw : Int,
      Fl_Group.remap c IX IR dw = some (Fl_Group.remap_value c IX IR dw) ∧
      (c ≥ IR → Fl_Group.remap_value c IX IR dw = c + dw) ∧
      (c < IR → c ≤ IX → Fl_Group.remap_value c IX IR dw = c) ∧
      (IX < c → c < IR →
        Fl_Group.remap_value c IX IR dw = c + Int.tdiv (wrap32 (dw * (c - IX))) (IR - IX)) ∧
      (IX < c → c < IR → in_int (dw * (c - IX)) →
        Fl_Group.remap_value c IX IR dw = c + Int.tdiv (dw * (c - IX)) (IR - IX)) ∧
      ((IX < c → c < IR → in_int (dw * (c - IX))) →
        Fl_Group.remap_value c IX IR dw = Fl_Group.remap_spec c IX IR dw)) ∧
    (∀ z : Int, in_int (wrap32 z) ∧ (4294967296 : Int) ∣ wrap32 z - z ∧
      (in_int z → wrap32 z = z)) := by
  refine ⟨layout_resize_effect s g hres hsize hn h0 hcap hsnap, ?_, ?_⟩
  · intro c IX IR dw
    refine ⟨remap_eq c IX IR dw, ?_, ?_, ?_, ?_, remap_value_eq_spec c IX IR dw⟩
    · intro h
      simp [Fl_Group.remap_value, h]
    · intro h1 h2
      have h3 : ¬ (c ≥ IR) := by omega
      simp [Fl_Group.remap_value, h3, h2]
    · intro h1 h2
      have h3 : ¬ (c ≥ IR) := by omega
      have h4 : ¬ (c ≤ IX) := by omega
      simp [Fl_Group.remap_value, h3, h4]
    · intro h1 h2 h5
      have h3 : ¬ (c ≥ IR) := by omega
      have h4 : ¬ (c ≤ IX) := by omega
      simp [Fl_Group.remap_value, h3, h4, wrap32_of_in_int _ h5]
  · intro z
    exact ⟨(wrap32_spec z).1, (wrap32_spec z).2, wrap32_of_in_int z⟩

/-- Witness for C14: the group `1` of `resize_example` is in the resize branch; the
coordinate `50` inside the span `10 .. 90` is mapped to `50 + (100 * 40) / 80 = 100`. -/
theorem layout_resize_branch_map_witness :
    ((resize_example.group 1).resizable_ ≠ none ∧
      ¬ ((resize_example.group 1).ow_ = (resize_example.widget 1).w_ ∧
         (resize_example.group 1).oh_ = (resize_example.widget 1).h_) ∧
      (resize_example.group 1).children_ ≠ 0) ∧
    (∃ s1, Fl_Group.layout resize_example 1 = some s1 ∧
      ((s1.widget 2).x_, (s1.widget 2).y_, (s1.widget 2).w_, (s1.widget 2).h_)
        = (0, 0, 10, 60) ∧
      ((s1.widget 3).x_, (s1.widget 3).y_, (s1.widget 3).w_, (s1.widget 3).h_)
        = (10, 0, 180, 60) ∧
      ((s1.widget 4).x_, (s1.widget 4).y_, (s1.widget 4).w_, (s1.widget 4).h_)
        = (190, 0, 10, 60)) ∧
    (in_int (100 * (50 - 10)) ∧
      Fl_Group.remap_value 50 10 90 100 = 50 + Int.tdiv (100 * (50 - 10)) (90 - 10) ∧
      Fl_Group.remap 50 10 90 100 = some 100) :=
  ⟨⟨by decide, by decide, by decide⟩, ⟨_, rfl, rfl, rfl, rfl⟩,
    ⟨by decide,
      ((layout_resize_branch_map resize_example 1 (by decide) (by decide) (by decide)
        (by decide) (by decide) (fun z h => by cases h)).2.1 50 10 90 100).2.2.2.2.1
        (by decide) (by decide) (by decide),
      rfl⟩⟩

theorem remap_value_left (c IX IR dw : Int) (hspan : IX < IR) (h : c ≤ IX) :
    Fl_Group.remap_value c IX IR dw = c := by
  have h1 : ¬ (c ≥ IR) := by omega
  simp [Fl_Group.remap_value, h1, h]

theorem remap_value_right (c IX IR dw : Int) (h : c ≥ IR) :
    Fl_Group.remap_value c IX IR dw = c + dw := by
  simp [Fl_Group.remap_value, h]

/-- The snapshot that `sizes()` builds and the one `sizes_build` describes are the same
array. -/
theorem sizes_fresh (s s0 : Heap) (g : Nat) (p : List Int)
    (hnone : (s.group g).sizes_ = none) (h : Fl_Group.sizes s g = some (s0, p)) :
    Fl_Group.sizes_build s g = some p := by
  unfold Fl_Group.sizes at h
  rw [hnone] at h
  obtain ⟨q, hq, h2⟩ := Option.bind_eq_some.mp h
  cases h2
  exact hq

/-- C15: fixed edges, flexible middle.  In the resize branch of `layout()` (a resizable
is designated, the size of the group differs from the recorded size, at least one
child; counters in range), with `p` the snapshot, `dw = w - (p[1] - p[0])`,
`dh = h - (p[3] - p[2])` and `(IX, IR, IY, IB) = p[4..7]`: when `IX < IR` the code maps
every coordinate `c <= IX` to `c` and every coordinate `c >= IR` to `c + dw`; hence a
child whose quad lies left of the span (`L, R <= IX`) ends at `x = L` with width
`R - L`, a child whose quad lies right of it (`L, R >= IR`) ends at `x = L + dw` with
width `R - L`, and a child whose quad is the span (`L = IX`, `R = IR`) ends at `x = L`
with width `R - L + dw`; the same holds vertically with `dh`, `IY < IB`.  When the
snapshot is built by this call, `dw = w - ow`, `dh = h - oh`, the quad of a child is
its geometry before the call, `(x, x+w, y, y+h)`, and the quad of a resizable child
that lies inside the group is its own rectangle. -/
theorem layout_fixed_edges_flexible_middle (s : Heap) (g : Nat)
    (hres : (s.group g).resizable_ ≠ none)
    (hsize : ¬ ((s.group g).ow_ = (s.widget g).w_ ∧ (s.group g).oh_ = (s.widget g).h_))
    (hn : (s.group g).children_ ≠ 0) (h0 : 0 ≤ (s.group g).children_)
    (hcap : (s.group g).children_ ≤ ((s.group g).array_.length : Int))
    (hsnap : ∀ z, (s.group g).sizes_ = some z →
      (z.length : Int) = 4 * ((s.group g).children_ + 2)) :
    ∃ s0 p s1 p0 p1 p2 p3 IX IR IY IB,
      Fl_Group.sizes s g = some (s0, p) ∧ Fl_Group.layout s g = some s1 ∧
      rd p 0 = some p0 ∧ rd p 1 = some p1 ∧ rd p 2 = some p2 ∧ rd p 3 = some p3 ∧
      rd p 4 = some IX ∧ rd p 5 = some IR ∧ rd p 6 = some IY ∧ rd p 7 = some IB ∧
      (IX < IR → ∀ c,
        (c ≤ IX → Fl_Group.remap c IX IR ((s.widget g).w_ - (p1 - p0)) = some c) ∧
        (c ≥ IR → Fl_Group.remap c IX IR ((s.widget g).w_ - (p1 - p0))
          = some (c + ((s.widget g).w_ - (p1 - p0))))) ∧
      (IY < IB → ∀ c,
        (c ≤ IY → Fl_Group.remap c IY IB ((s.widget g).h_ - (p3 - p2)) = some c) ∧
        (c ≥ IB → Fl_Group.remap c IY IB ((s.widget g).h_ - (p3 - p2))
          = some (c + ((s.widget g).h_ - (p3 - p2))))) ∧
      (∀ k o, 0 ≤ k → k < (s.group g).children_ → Fl_Group.child s g k = some o →
        (∀ k2, k < k2 → k2 < (s.group g).children_ → Fl_Group.child s g k2 ≠ some o) →
        ∃ L R T B, rd p (4 * (k + 2)) = some L ∧ rd p (4 * (k + 2) + 1) = some R ∧
          rd p (4 * (k + 2) + 2) = some T ∧ rd p (4 * (k + 2) + 3) = some B ∧
          (IX < IR →
            (L ≤ IX → R ≤ IX → (s1.widget o).x_ = L ∧ (s1.widget o).w_ = R - L) ∧
            (IR ≤ L → IR ≤ R →
              (s1.widget o).x_ = L + ((s.widget g).w_ - (p1 - p0)) ∧
              (s1.widget o).w_ = R - L) ∧
            (L = IX → R = IR →
              (s1.widget o).x_ = L ∧
              (s1.widget o).w_ = (R - L) + ((s.widget g).w_ - (p1 - p0)))) ∧
          (IY < IB →
            (T ≤ IY → B ≤ IY → (s1.widget o).y_ = T ∧ (s1.widget o).h_ = B - T) ∧
            (IB ≤ T → IB ≤ B →
              (s1.widget o).y_ = T + ((s.widget g).h_ - (p3 - p2)) ∧
              (s1.widget o).h_ = B - T) ∧
            (T = IY → B = IB →
              (s1.widget o).y_ = T ∧
              (s1.widget o).h_ = (B - T) + ((s.widget g).h_ - (p3 - p2)))) ∧
          ((s.group g).sizes_ = none →
            L = (s.widget o).x_ ∧ R = (s.widget o).x_ + (s.widget o).w_ ∧
            T = (s.widget o).y_ ∧ B = (s.widget o).y_ + (s.widget o).h_)) ∧
      ((s.group g).sizes_ = none →
        (s.widget g).w_ - (p1 - p0) = (s.widget g).w_ - (s.group g).ow_ ∧
        (s.widget g).h_ - (p3 - p2) = (s.widget g).h_ - (s.group g).oh_ ∧
        ∀ r, (s.group g).resizable_ = some r → r ≠ g →
          (0 ≤ (s.widget r).x_ → (s.widget r).x_ + (s.widget r).w_ ≤ (s.group g).ow_ →
            IX = (s.widget r).x_ ∧ IR = (s.widget r).x_ + (s.widget r).w_) ∧
          (0 ≤ (s.widget r).y_ → (s.widget r).y_ + (s.widget r).h_ ≤ (s.group g).oh_ →
            IY = (s.widget r).y_ ∧ IB = (s.widget r).y_ + (s.widget r).h_)) := by
  obtain ⟨s0, p, s1, p0, p1, p2, p3, IX, IR, IY, IB, hsz, hlay, e0, e1, e2, e3, e4, e5, e6,
    e7, hkids⟩ := layout_resize_effect s g hres hsize hn h0 hcap hsnap
  refine ⟨s0, p, s1, p0, p1, p2, p3, IX, IR, IY, IB, hsz, hlay, e0, e1, e2, e3, e4, e5, e6,
    e7, ?_, ?_, ?_, ?_⟩
  · intro hspan c
    refine ⟨fun h => ?_, fun h => ?_⟩
    · rw [remap_eq, remap_value_left c IX IR _ hspan h]
    · rw [remap_eq, remap_value_right c IX IR _ h]
  · intro hspan c
    refine ⟨fun h => ?_, fun h => ?_⟩
    · rw [remap_eq, remap_value_left c IY IB _ hspan h]
    · rw [remap_eq, remap_value_right c IY IB _ h]
  · intro k o hk0 hk1 hko hlast
    obtain ⟨L, R, T, B, hL, hR, hT, hB, hx, hy, hw, hh⟩ := hkids k o hk0 hk1 hko hlast
    refine ⟨L, R, T, B, hL, hR, hT, hB, ?_, ?_, ?_⟩
    · intro hspan
      refine ⟨?_, ?_, ?_⟩
      · intro h1 h2
        rw [hx, hw, remap_value_left L IX IR _ hspan h1, remap_value_left R IX IR _ hspan h2]
        exact ⟨rfl, rfl⟩
      · intro h1 h2
        rw [hx, hw, remap_value_right L IX IR _ h1, remap_value_right R IX IR _ h2]
        exact ⟨rfl, by omega⟩
      · intro h1 h2
        rw [hx, hw, remap_value_left L IX IR _ hspan (by omega),
          remap_value_right R IX IR _ (by omega)]
        exact ⟨rfl, by omega⟩
    · intro hspan
      refine ⟨?_, ?_, ?_⟩
      · intro h1 h2
        rw [hy, hh, remap_value_left T IY IB _ hspan h1, remap_value_left B IY IB _ hspan h2]
        exact ⟨rfl, rfl⟩
      · intro h1 h2
        rw [hy, hh, remap_value_right T IY IB _ h1, remap_value_right B IY IB _ h2]
        exact ⟨rfl, by omega⟩
      · intro h1 h2
        rw [hy, hh, remap_value_left T IY IB _ hspan (by omega),
          remap_value_right B IY IB _ (by omega)]
        exact ⟨rfl, by omega⟩
    · intro hnone
      have hb := sizes_fresh s s0 g p hnone hsz
      obtain ⟨q, hq, _, _, _, _, hq4⟩ := sizes_build_spec s g h0 hcap
      rw [hb] at hq
      cases hq
      obtain ⟨c0, c1, c2, c3⟩ := hq4 k o hk0 hk1 hko
      have z : 8 + 4 * k = 4 * (k + 2) := by omega
      rw [z] at c0 c1 c2 c3
      rw [hL] at c0
      rw [hR] at c1
      rw [hT] at c2
      rw [hB] at c3
      cases c0; cases c1; cases c2; cases c3
      exact ⟨rfl, rfl, rfl, rfl⟩
  · intro hnone
    have hb := sizes_fresh s s0 g p hnone hsz
    obtain ⟨q, hq, _, ⟨a0, a1, a2, a3⟩, _, hclip, _⟩ := sizes_build_spec s g h0 hcap
    rw [hb] at hq
    cases hq
    rw [e0] at a0
    rw [e1] at a1
    rw [e2] at a2
    rw [e3] at a3
    cases a0; cases a1; cases a2; cases a3
    refine ⟨by omega, by omega, ?_⟩
    intro r hr hne
    obtain ⟨c4, c5, c6, c7⟩ := hclip r hr hne
    rw [e4] at c4
    rw [e5] at c5
    rw [e6] at c6
    rw [e7] at c7
    cases c4; cases c5; cases c6; cases c7
    refine ⟨fun h1 h2 => ⟨by omega, by omega⟩, fun h1 h2 => ⟨by omega, by omega⟩⟩

/-- Witness for C15: group `1` of `resize_example`, recorded width `100`, resized to
width `200`: the left sibling `2` stays at `x = 0` with width `10`, the right sibling
`4` moves from `x = 90` to `x = 190` (by exactly `100`) with width `10`, and the
resizable child `3` stays at `x = 10` while its width grows from `80` to `180`. -/
theorem layout_fixed_edges_flexible_middle_witness :
    ((resize_example.group 1).resizable_ ≠ none ∧
      ¬ ((resize_example.group 1).ow_ = (resize_example.widget 1).w_ ∧
         (resize_example.group 1).oh_ = (resize_example.widget 1).h_) ∧
      (resize_example.group 1).children_ ≠ 0) ∧
    (∃ s0 p s1, Fl_Group.sizes resize_example 1 = some (s0, p) ∧
      Fl_Group.layout resize_example 1 = some s1) ∧
    (∃ s1, Fl_Group.layout resize_example 1 = some s1 ∧
      ((resize_example.widget 2).x_, (resize_example.widget 2).w_) = (0, 10) ∧
      ((s1.widget 2).x_, (s1.widget 2).w_) = (0, 10) ∧
      ((resize_example.widget 4).x_, (resize_example.widget 4).w_) = (90, 10) ∧
      ((s1.widget 4).x_, (s1.widget 4).w_) = (190, 10) ∧
      ((resize_example.widget 3).x_, (resize_example.widget 3).w_) = (10, 80) ∧
      ((s1.widget 3).x_, (s1.widget 3).w_) = (10, 180)) :=
  ⟨⟨by decide, by decide, by decide⟩,
    (match layout_fixed_edges_flexible_middle resize_example 1 (by decide) (by decide)
        (by decide) (by decide) (by decide) (fun z h => by cases h) with
      | ⟨s0, p, s1, _, _, _, _, _, _, _, _, h1, h2, _⟩ => ⟨s0, p, s1, h1, h2⟩),
    ⟨_, rfl, rfl, rfl, rfl, rfl, rfl, rfl⟩⟩


/-- Witness for C19: a press at `(15, 5)` sent to child `3` of `resize_example` (the
child declines it) returns with the position `(15, 5)` in place. -/
theorem send_restores_event_position_witness :
    ∃ fl1 r, Fl_Group.send 2 quiet_children resize_example
        { focus_on_4 with e_x := 15, e_y := 5 } Fl_Event.FL_PUSH 3 = some (fl1, r) ∧
      fl1.e_x = 15 ∧ fl1.e_y = 5 :=
  ⟨_, _, rfl, send_restores_event_position.1 2 quiet_children resize_example
    { focus_on_4 with e_x := 15, e_y := 5 } _ Fl_Event.FL_PUSH 3 _ rfl⟩

/-- Witness for C17: the group of three children, no widget holding the focus, children
that all decline. -/
theorem handle_focus_accepts_iff_witness :
    (0 ≤ (three_children.group 1).children_ ∧
      (three_children.group 1).children_ ≤ ((three_children.group 1).array_.length : Int) ∧
      Fl_Widget.contains three_children 1 5 ({ focus_on_4 with focus_ := none } : Fl).focus_
        = some false) ∧
    ∃ r, Fl_Group.handle 5 quiet_children three_children { focus_on_4 with focus_ := none } 1
        Fl_Event.FL_FOCUS = some (three_children, { focus_on_4 with focus_ := none }, r) ∧
      (r = 1 ∨ r = 0) :=
  ⟨⟨by decide, by decide, rfl⟩,
    (match handle_focus_accepts_iff 5 quiet_children three_children
        { focus_on_4 with focus_ := none } 1 (by decide) (by decide) rfl with
      | ⟨r, h1, h2, _⟩ => ⟨r, h1, h2⟩)⟩

/-- Witness for C16: a press at `(15, 5)` in group `1` of `resize_example` lies inside
child `3` alone. -/
theorem handle_pointer_hit_order_witness :
    (0 ≤ (resize_example.group 1).children_ ∧
      (resize_example.group 1).children_ ≤ ((resize_example.group 1).array_.length : Int)) ∧
    Fl_Group.hit_order resize_example 1 { focus_on_4 with e_x := 15, e_y := 5 } = [3] ∧
    Fl_Group.handle 5 quiet_children resize_example { focus_on_4 with e_x := 15, e_y := 5 } 1
        Fl_Event.FL_PUSH =
      (Fl_Group.send 5 quiet_children resize_example { focus_on_4 with e_x := 15, e_y := 5 }
        Fl_Event.FL_PUSH 3).map fun r => (resize_example, r.1, if r.2 ≠ 0 then 1 else 0) :=
  ⟨⟨by decide, by decide⟩, rfl,
    (handle_pointer_hit_order 5 quiet_children resize_example
      { focus_on_4 with e_x := 15, e_y := 5 } 1 Fl_Event.FL_PUSH (Or.inl rfl) (by decide)
      (by decide)).2.1 3 rfl⟩

/-- Witness for C18: a keyboard event in the group of three children with `focus_ = 1`:
the order of the offers is child `1`, child `2`, child `0`. -/
theorem handle_default_cyclic_order_witness :
    (0 ≤ ((three_children.set_group 1
        { three_children.group 1 with focus_ := 1 }).group 1).children_) ∧
    Fl_Group.cyclic_order (three_children.set_group 1
        { three_children.group 1 with focus_ := 1 }) 1 = [3, 4, 2] ∧
    (Fl_Group.cyclic_order (three_children.set_group 1
        { three_children.group 1 with focus_ := 1 }) 1).Perm
      (Fl_Group.kids (three_children.set_group 1
        { three_children.group 1 with focus_ := 1 }) 1) :=
  ⟨by decide, rfl,
    (handle_default_cyclic_order 5 quiet_children (three_children.set_group 1
        { three_children.group 1 with focus_ := 1 }) focus_on_4 1 Fl_Event.FL_KEYBOARD
      ⟨by decide, by decide, by decide, by decide, by decide, by decide⟩ (by decide)
      (by decide)).2.2.2.1⟩


/-! ## MenuItem flags -/

/-- C21 (code against its own documentation): the comment of `checkbox()` says it is
true when `MENU_TOGGLE` or `MENU_RADIO` is set, but the body tests `MENU_TOGGLE` only:
for an item whose flags are `MENU_RADIO`, or `MENU_RADIO | MENU_VALUE`, `checkbox()`
returns `0` although `MENU_RADIO` is set (`radio()` is not `0`); the sibling `submenu()`
does test both of its flags. -/
theorem checkbox_misses_menu_radio :
    MenuItem.checkbox { flags := MENU_RADIO } = 0 ∧
    MenuItem.radio { flags := MENU_RADIO } ≠ 0 ∧
    MenuItem.checkbox { flags := Int.lor MENU_RADIO MENU_VALUE } = 0 ∧
    MenuItem.radio { flags := Int.lor MENU_RADIO MENU_VALUE } ≠ 0 ∧
    MenuItem.checkbox { flags := MENU_TOGGLE } ≠ 0 ∧
    MenuItem.submenu { flags := SUBMENU } ≠ 0 ∧
    MenuItem.submenu { flags := SUBMENU_POINTER } ≠ 0 := by
  refine ⟨?_, ?_, ?_, ?_, ?_, ?_, ?_⟩ <;> decide

/-! ## Events that `send` does not redirect -/

theorem send_direct (fuel : Nat) (kids : Children) (s : Heap) (fl : Fl) (event : Fl_Event)
    (o : Nat)
    (hev : event = Fl_Event.FL_UNFOCUS ∨ event = Fl_Event.FL_DRAG ∨
      event = Fl_Event.FL_RELEASE ∨ event = Fl_Event.FL_LEAVE ∨
      event = Fl_Event.FL_DND_RELEASE ∨ event = Fl_Event.FL_DND_LEAVE ∨
      event = Fl_Event.FL_KEYBOARD) :
    Fl_Group.send fuel kids s fl event o = some (fl, 1) := by
  rcases hev with h | h | h | h | h | h | h <;> subst h <;> rfl

/-- C25: for `FL_UNFOCUS`, `FL_DRAG`, `FL_RELEASE`, `FL_LEAVE`, `FL_DND_RELEASE`,
`FL_DND_LEAVE` and `FL_KEYBOARD`, `send()` returns `1` with the static state unchanged,
whatever the handlers of the children are (they are not consulted); hence `handle()` of
a group with at least one child returns `1` with heap and static state unchanged: its
dispatch is the single `send` to the child at the start index (`focus_`, or `0` when
`focus_` is no valid index), and the result does not depend on the handlers. -/
theorem direct_events_return_one (fuel : Nat) (kids : Children) (s : Heap) (fl : Fl)
    (g : Nat) (event : Fl_Event)
    (hev : event = Fl_Event.FL_UNFOCUS ∨ event = Fl_Event.FL_DRAG ∨
      event = Fl_Event.FL_RELEASE ∨ event = Fl_Event.FL_LEAVE ∨
      event = Fl_Event.FL_DND_RELEASE ∨ event = Fl_Event.FL_DND_LEAVE ∨
      event = Fl_Event.FL_KEYBOARD) :
    (∀ o, Fl_Group.send fuel kids s fl event o = some (fl, 1)) ∧
    (0 < (s.group g).children_ →
      (s.group g).children_ ≤ ((s.group g).array_.length : Int) →
      Fl_Group.handle fuel kids s fl g event = some (s, fl, 1) ∧
      (∃ o, Fl_Group.child s g (Fl_Group.start_index s g) = some o ∧
        Fl_Group.handle_dispatch fuel kids s fl g event =
          (Fl_Group.send fuel kids s fl event o).map fun r => (r.1, 1)) ∧
      ∀ kids2 : Children,
        Fl_Group.handle fuel kids2 s fl g event = Fl_Group.handle fuel kids s fl g event) := by
  refine ⟨fun o => send_direct fuel kids s fl event o hev, ?_⟩
  intro hpos hcap
  obtain ⟨hs0, hs1⟩ := start_index_range s g hpos
  obtain ⟨o, ho⟩ := rd_ok (s.group g).array_ (Fl_Group.start_index s g) hs0 (by omega)
  have hne : (s.group g).children_ ≠ 0 := by omega
  have hk : ∃ k, (s.group g).children_.toNat = k + 1 :=
    ⟨(s.group g).children_.toNat - 1, by omega⟩
  obtain ⟨k, hk⟩ := hk
  have hdisp : ∀ kd : Children,
      Fl_Group.handle_dispatch fuel kd s fl g event = some (fl, 1) := by
    intro kd
    unfold Fl_Group.handle_dispatch
    simp only [start_index_eq, ne_eq, hne, not_false_eq_true, if_true, hk]
    simp [Fl_Group.dispatch_loop, Fl_Group.child, ho, send_direct fuel kd s fl event o hev]
  have hrest : ∀ kd : Children,
      Fl_Group.handle_rest fuel kd s fl g event = some (fl, 1) := by
    intro kd
    simp [Fl_Group.handle_rest, hdisp kd]
  have hh : ∀ kd : Children, Fl_Group.handle fuel kd s fl g event = some (s, fl, 1) := by
    intro kd
    rcases hev with h | h | h | h | h | h | h <;> subst h <;>
      simp [Fl_Group.handle, hrest kd]
  refine ⟨hh kids, ⟨o, ho, ?_⟩, fun kids2 => by rw [hh kids2, hh kids]⟩
  rw [hdisp kids, send_direct fuel kids s fl event o hev]
  rfl

/-- Witness for C25: a keyboard event in the group of three children. -/
theorem direct_events_return_one_witness :
    Fl_Group.send 0 quiet_children three_children focus_on_4 Fl_Event.FL_KEYBOARD 2
      = some (focus_on_4, 1) ∧
    Fl_Group.handle 0 quiet_children three_children focus_on_4 1 Fl_Event.FL_KEYBOARD
      = some (three_children, focus_on_4, 1) :=
  ⟨(direct_events_return_one 0 quiet_children three_children focus_on_4 1
      Fl_Event.FL_KEYBOARD (by decide)).1 2,
    ((direct_events_return_one 0 quiet_children three_children focus_on_4 1
      Fl_Event.FL_KEYBOARD (by decide)).2 (by decide) (by decide)).1⟩

/-! ## The resize map is total and monotone -/

/-- C27: the proportional branch of `layout()` never divides by zero.  Whenever a
coordinate `c` takes the scaling branch (`c >= IR` is false and `c > IX`), the divisor
`IR - IX` is at least `2` (and so is `IB - IY` for a vertical coordinate, which goes
through the same map), and for `IX`, `IR` in the range of `int` not even the 32-bit
value of the difference is zero; so the map of the code returns a value for all
integers `(c, IX, IR, dw)`, in the scaling branch the value `c + P / (IR - IX)` with
`P` the 32-bit product, and the four coordinates of a child whose quad can be read from
the snapshot always yield the arguments of `resize`. -/
theorem remap_never_divides_by_zero :
    (∀ c IX IR : Int, ¬ (c ≥ IR) → c > IX → 2 ≤ IR - IX) ∧
    (∀ c IX IR : Int, in_int IX → in_int IR → ¬ (c ≥ IR) → c > IX →
      wrap32 (IR - IX) ≠ 0) ∧
    (∀ c IX IR dw : Int, ∃ v, Fl_Group.remap c IX IR dw = some v) ∧
    (∀ c IX IR dw : Int, ¬ (c ≥ IR) → c > IX →
      Fl_Group.remap c IX IR dw
        = some (c + Int.tdiv (wrap32 (dw * (c - IX))) (IR - IX))) ∧
    (∀ (sz : List Int) (p dw dh IX IR IY IB : Int), 0 ≤ p → p + 4 ≤ (sz.length : Int) →
      ∃ r, Fl_Group.layout_rect sz p dw dh IX IR IY IB = some r) := by
  refine ⟨?_, ?_, ?_, ?_, ?_⟩
  · intro c IX IR h1 h2
    omega
  · intro c IX IR h1 h2 h3 h4
    unfold in_int at h1 h2
    unfold wrap32
    omega
  · intro c IX IR dw
    exact ⟨_, remap_eq c IX IR dw⟩
  · intro c IX IR dw h1 h2
    have h3 : ¬ (IR - IX = 0) := by omega
    simp [Fl_Group.remap, h1, h2, h3]
  · intro sz p dw dh IX IR IY IB hp hlen
    obtain ⟨L, hL⟩ := rd_ok sz p hp (by omega)
    obtain ⟨R, hR⟩ := rd_ok sz (p + 1) (by omega) (by omega)
    obtain ⟨T, hT⟩ := rd_ok sz (p + 2) (by omega) (by omega)
    obtain ⟨B, hB⟩ := rd_ok sz (p + 3) (by omega) (by omega)
    exact ⟨_, layout_rect_spec sz p dw dh IX IR IY IB L R T B hL hR hT hB⟩

/-- Witness for C27: a coordinate inside the span `10 < 50 < 90` is scaled, the divisor
being `80`; and the map returns a value also where the product leaves the range of
`int`. -/
theorem remap_never_divides_by_zero_witness :
    (¬ ((50 : Int) ≥ 90) ∧ (50 : Int) > 10) ∧
    Fl_Group.remap 50 10 90 100
      = some (50 + Int.tdiv (wrap32 (100 * (50 - 10))) (90 - 10)) ∧
    Fl_Group.remap 50 10 90 100 = some 100 ∧
    Fl_Group.remap 42950 0 100000 50000 = some 21476 :=
  ⟨⟨by decide, by decide⟩,
    remap_never_divides_by_zero.2.2.2.1 50 10 90 100 (by decide) (by decide), rfl, rfl⟩

/-- The scaled offset `t + (dw * t) / D` of the proportional branch grows with `t` as
long as `dw >= -D`. -/
theorem scale_mono (D dw t1 t2 : Int) (hD : 0 < D) (hdw : -D ≤ dw) (h0 : 0 ≤ t1)
    (h : t1 ≤ t2) :
    t1 + Int.tdiv (dw * t1) D ≤ t2 + Int.tdiv (dw * t2) D := by
  by_cases hs : 0 ≤ dw
  · have a1 : 0 ≤ dw * t1 := Int.mul_nonneg hs h0
    have a2 : 0 ≤ dw * t2 := Int.mul_nonneg hs (by omega)
    rw [Int.tdiv_eq_ediv a1 (by omega), Int.tdiv_eq_ediv a2 (by omega)]
    have h1 : dw * t1 ≤ dw * t2 := Int.mul_le_mul_of_nonneg_left h hs
    have h2 := Int.ediv_le_ediv hD h1
    omega
  · have e1 : dw * t1 = -((-dw) * t1) := by ring
    have e2 : dw * t2 = -((-dw) * t2) := by ring
    rw [e1, e2, Int.neg_tdiv, Int.neg_tdiv]
    have a1 : 0 ≤ (-dw) * t1 := Int.mul_nonneg (by omega) h0
    have a2 : 0 ≤ (-dw) * t2 := Int.mul_nonneg (by omega) (by omega)
    rw [Int.tdiv_eq_ediv a1 (by omega), Int.tdiv_eq_ediv a2 (by omega)]
    have hle : (-dw) * t2 ≤ (-dw) * t1 + (t2 - t1) * D := by nlinarith
    have h3 := Int.ediv_le_ediv hD hle
    rw [Int.add_mul_ediv_right _ _ (by omega)] at h3
    omega

/-- The map `f` in the words of the specification is monotone when `dw >= -(IR - IX)`
for a span of positive width, and when `dw >= 0` for an empty span. -/
theorem remap_spec_mono (IX IR dw c1 c2 : Int) (hpos : IX < IR → -(IR - IX) ≤ dw)
    (hemp : ¬ (IX < IR) → 0 ≤ dw) (h : c1 ≤ c2) :
    Fl_Group.remap_spec c1 IX IR dw ≤ Fl_Group.remap_spec c2 IX IR dw := by
  have hzero : ∀ D : Int, Int.tdiv (dw * 0) D = 0 := by intro D; simp
  have hfull : ∀ D : Int, D ≠ 0 → Int.tdiv (dw * D) D = dw :=
    fun D hD => Int.mul_tdiv_cancel dw hD
  unfold Fl_Group.remap_spec
  by_cases a1 : c1 ≥ IR
  · have a2 : c2 ≥ IR := by omega
    simp only [a1, a2, if_true]
    omega
  · by_cases a2 : c2 ≥ IR
    · by_cases b1 : c1 ≤ IX
      · simp only [a1, a2, b1, if_true, if_false]
        by_cases hsp : IX < IR
        · have := hpos hsp; omega
        · have := hemp hsp; omega
      · simp only [a1, a2, b1, if_true, if_false]
        have hsp : IX < IR := by omega
        have hm := scale_mono (IR - IX) dw (c1 - IX) (IR - IX) (by omega) (hpos hsp)
          (by omega) (by omega)
        rw [hfull (IR - IX) (by omega)] at hm
        omega
    · by_cases b1 : c1 ≤ IX
      · by_cases b2 : c2 ≤ IX
        · simp only [a1, a2, b1, b2, if_true, if_false]
          exact h
        · simp only [a1, a2, b1, b2, if_true, if_false]
          have hsp : IX < IR := by omega
          have hm := scale_mono (IR - IX) dw 0 (c2 - IX) (by omega) (hpos hsp)
            (by omega) (by omega)
          rw [hzero] at hm
          omega
      · have b2 : ¬ (c2 ≤ IX) := by omega
        simp only [a1, a2, b1, b2, if_false]
        have hsp : IX < IR := by omega
        have hm := scale_mono (IR - IX) dw (c1 - IX) (c2 - IX) (by omega) (hpos hsp)
          (by omega) (by omega)
        omega

/-- The map of the code is monotone under the same condition on `dw`, for two
coordinates whose products (formed when they are scaled) lie in the range of `int`. -/
theorem remap_value_mono (IX IR dw c1 c2 : Int) (hpos : IX < IR → -(IR - IX) ≤ dw)
    (hemp : ¬ (IX < IR) → 0 ≤ dw) (h : c1 ≤ c2)
    (h1 : IX < c1 → c1 < IR → in_int (dw * (c1 - IX)))
    (h2 : IX < c2 → c2 < IR → in_int (dw * (c2 - IX))) :
    Fl_Group.remap_value c1 IX IR dw ≤ Fl_Group.remap_value c2 IX IR dw := by
  rw [remap_value_eq_spec c1 IX IR dw h1, remap_value_eq_spec c2 IX IR dw h2]
  exact remap_spec_mono IX IR dw c1 c2 hpos hemp h

/-- C28 (as stated, refuted): with `IX = 0`, `IR = 100000` and `dw = 50000` (the group
grows, `dw >= -(IR - IX)`), the coordinates `c1 = 42949 <= c2 = 42950` are mapped by
the code to `64423` and `21476`: the order is lost, because the product
`50000 * 42950` is not in the range of `int`.  In `overflow_example` these are the left
and right edge of child `3` in the snapshot (right `>=` left), and `layout()` resizes
the child to the width `-42947`. -/
theorem layout_remap_order_lost :
    (((0 : Int) < 100000 → -(100000 - 0) ≤ (50000 : Int)) ∧ (42949 : Int) ≤ 42950) ∧
    Fl_Group.remap 42949 0 100000 50000 = some 64423 ∧
    Fl_Group.remap 42950 0 100000 50000 = some 21476 ∧
    ¬ ((64423 : Int) ≤ 21476) ∧
    ((Fl_Group.sizes overflow_example 1).map fun r =>
      (rd r.2 1, rd r.2 0, rd r.2 4, rd r.2 5, rd r.2 12, rd r.2 13))
      = some (some 100000, some 0, some 0, some 100000, some 42949, some 42950) ∧
    (overflow_example.widget 1).w_ - (100000 - 0) = 50000 ∧
    ((Fl_Group.layout overflow_example 1).map fun s1 => (s1.widget 3).w_)
      = some (-42947) ∧
    ¬ ((0 : Int) ≤ -42947) :=
  ⟨⟨fun _ => by decide, by decide⟩, rfl, rfl, by decide, rfl, rfl, rfl, by decide⟩

/-- C28 (amended): the resize map of `layout()` is monotone when the group does not
shrink below the resizable span, as long as the products of the scaling branch stay in
the range of `int`: for all integers `IX`, `IR`, every `dw >= -(IR - IX)` when
`IX < IR` and every `dw >= 0` otherwise, `c1 <= c2` implies `f c1 <= f c2` for the
value `f c` the code computes, provided that for each of `c1`, `c2` that is scaled
(`IX < c < IR`) the product `dw * (c - IX)` lies in `-2^31 .. 2^31 - 1`.  Hence, in the
resize branch of `layout()`, every child whose snapshot quad has `R >= L` and whose
edges `L`, `R` meet this proviso ends with a width `>= 0`, and under the same
conditions on `dh`, `IY`, `IB`, `T`, `B` every child with `B >= T` ends with a height
`>= 0`. -/
theorem layout_remap_monotone (s : Heap) (g : Nat)
    (hres : (s.group g).resizable_ ≠ none)
    (hsize : ¬ ((s.group g).ow_ = (s.widget g).w_ ∧ (s.group g).oh_ = (s.widget g).h_))
    (hn : (s.group g).children_ ≠ 0) (h0 : 0 ≤ (s.group g).children_)
    (hcap : (s.group g).children_ ≤ ((s.group g).array_.length : Int))
    (hsnap : ∀ z, (s.group g).sizes_ = some z →
      (z.length : Int) = 4 * ((s.group g).children_ + 2)) :
    (∀ IX IR dw c1 c2 : Int, (IX < IR → -(IR - IX) ≤ dw) → (¬ (IX < IR) → 0 ≤ dw) →
      c1 ≤ c2 →
      (IX < c1 → c1 < IR → in_int (dw * (c1 - IX))) →
      (IX < c2 → c2 < IR → in_int (dw * (c2 - IX))) →
      ∃ v1 v2, Fl_Group.remap c1 IX IR dw = some v1 ∧ Fl_Group.remap c2 IX IR dw = some v2 ∧
        v1 ≤ v2) ∧
    (∃ s0 p s1 p0 p1 p2 p3 IX IR IY IB,
      Fl_Group.sizes s g = some (s0, p) ∧ Fl_Group.layout s g = some s1 ∧
      rd p 0 = some p0 ∧ rd p 1 = some p1 ∧ rd p 2 = some p2 ∧ rd p 3 = some p3 ∧
      rd p 4 = some IX ∧ rd p 5 = some IR ∧ rd p 6 = some IY ∧ rd p 7 = some IB ∧
      ∀ k o, 0 ≤ k → k < (s.group g).children_ → Fl_Group.child s g k = some o →
        (∀ k2, k < k2 → k2 < (s.group g).children_ → Fl_Group.child s g k2 ≠ some o) →
        ∃ L R T B, rd p (4 * (k + 2)) = some L ∧ rd p (4 * (k + 2) + 1) = some R ∧
          rd p (4 * (k + 2) + 2) = some T ∧ rd p (4 * (k + 2) + 3) = some B ∧
          ((IX < IR → -(IR - IX) ≤ (s.widget g).w_ - (p1 - p0)) →
            (¬ (IX < IR) → 0 ≤ (s.widget g).w_ - (p1 - p0)) →
            (IX < L → L < IR → in_int (((s.widget g).w_ - (p1 - p0)) * (L - IX))) →
            (IX < R → R < IR → in_int (((s.widget g).w_ - (p1 - p0)) * (R - IX))) →
            L ≤ R → 0 ≤ (s1.widget o).w_) ∧
          ((IY < IB → -(IB - IY) ≤ (s.widget g).h_ - (p3 - p2)) →
            (¬ (IY < IB) → 0 ≤ (s.widget g).h_ - (p3 - p2)) →
            (IY < T → T < IB → in_int (((s.widget g).h_ - (p3 - p2)) * (T - IY))) →
            (IY < B → B < IB → in_int (((s.widget g).h_ - (p3 - p2)) * (B - IY))) →
            T ≤ B → 0 ≤ (s1.widget o).h_)) := by
  constructor
  · intro IX IR dw c1 c2 hpos hemp h h1 h2
    exact ⟨_, _, remap_eq c1 IX IR dw, remap_eq c2 IX IR dw,
      remap_value_mono IX IR dw c1 c2 hpos hemp h h1 h2⟩
  · obtain ⟨s0, p, s1, p0, p1, p2, p3, IX, IR, IY, IB, hsz, hlay, e0, e1, e2, e3, e4, e5,
      e6, e7, hkids⟩ := layout_resize_effect s g hres hsize hn h0 hcap hsnap
    refine ⟨s0, p, s1, p0, p1, p2, p3, IX, IR, IY, IB, hsz, hlay, e0, e1, e2, e3, e4, e5,
      e6, e7, ?_⟩
    intro k o hk0 hk1 hko hlast
    obtain ⟨L, R, T, B, hL, hR, hT, hB, _, _, hw, hh⟩ := hkids k o hk0 hk1 hko hlast
    refine ⟨L, R, T, B, hL, hR, hT, hB, ?_, ?_⟩
    · intro hpos hemp h1 h2 hLR
      have := remap_value_mono IX IR _ L R hpos hemp hLR h1 h2
      omega
    · intro hpos hemp h1 h2 hTB
      have := remap_value_mono IY IB _ T B hpos hemp hTB h1 h2
      omega

/-- Witness for C28: group `1` of `resize_example` grows (`dw = 100`, `dh = 10`); the
three children end with the widths `10`, `180`, `10` and the height `60`. -/
theorem layout_remap_monotone_witness :
    ((resize_example.group 1).resizable_ ≠ none ∧
      ¬ ((resize_example.group 1).ow_ = (resize_example.widget 1).w_ ∧
         (resize_example.group 1).oh_ = (resize_example.widget 1).h_) ∧
      (resize_example.group 1).children_ ≠ 0) ∧
    (in_int (100 * (20 - 10)) ∧ in_int (100 * (21 - 10))) ∧
    (∃ v1 v2, Fl_Group.remap 20 10 90 100 = some v1 ∧ Fl_Group.remap 21 10 90 100 = some v2 ∧
      v1 ≤ v2) ∧
    ((Fl_Group.layout resize_example 1).map fun s1 =>
      [((s1.widget 2).w_, (s1.widget 2).h_), ((s1.widget 3).w_, (s1.widget 3).h_),
        ((s1.widget 4).w_, (s1.widget 4).h_)]) = some [(10, 60), (180, 60), (10, 60)] :=
  ⟨⟨by decide, by decide, by decide⟩, ⟨by decide, by decide⟩,
    (layout_remap_monotone resize_example 1 (by decide) (by decide) (by decide)
      (by decide) (by decide) (fun z h => by cases h)).1 10 90 100 20 21
      (fun _ => by decide) (fun _ => by decide) (by decide) (fun _ _ => by decide)
      (fun _ _ => by decide),
    rfl⟩

/-! ## clear: the order of reset and destruction -/

/-- The destruction loop of `clear()` returns; it destroys the children of the saved
block from the last to the first; every destroyed child is found, by its destructor,
with a null parent and with the group parts the loop started from. -/
theorem clear_loop_seen (a : List Nat) (k : Nat) : ∀ (e : Int) (s : Heap)
    (seen : List (Nat × Heap)), (k : Int) = e → e ≤ (a.length : Int) →
    ∃ s1 L, Fl_Group.clear_loop a k e s seen = some (s1, seen ++ L) ∧ L.length = k ∧
      (∀ x ∈ L, x.2.group = s.group ∧ (x.2.widget x.1).parent_ = none) ∧
      (∀ j : Nat, j < k → (L[j]?).map Prod.fst = rd a (e - 1 - j)) := by
  induction k with
  | zero =>
    intro e s seen hk _
    have hne : ¬ (e > 0) := by omega
    refine ⟨s, [], by simp [Fl_Group.clear_loop, hne], rfl, ?_, ?_⟩
    · intro x hx; cases hx
    · intro j hj; omega
  | succ k ih =>
    intro e s seen hk hlen
    have hpos : e > 0 := by omega
    obtain ⟨o, ho⟩ := rd_ok a (e - 1) (by omega) (by omega)
    obtain ⟨s1, L, hr, hL, hall, hidx⟩ := ih (e - 1) (s.set_parent o none)
      (seen ++ [(o, s.set_parent o none)]) (by omega) (by omega)
    refine ⟨s1, (o, s.set_parent o none) :: L, ?_, by simp [hL], ?_, ?_⟩
    · simp only [Fl_Group.clear_loop, hpos, if_true, ho, Option.bind]
      rw [hr]
      simp
    · intro x hx
      rcases List.mem_cons.mp hx with hx | hx
      · subst hx
        exact ⟨rfl, by simp⟩
      · obtain ⟨h1, h2⟩ := hall x hx
        exact ⟨by rw [h1]; rfl, h2⟩
    · intro j hj
      cases j with
      | zero =>
        simp only [List.getElem?_cons_zero, Option.map_some']
        rw [← ho]
        congr 1
        simp
      | succ j =>
        simp only [List.getElem?_cons_succ]
        rw [hidx j (by omega)]
        congr 1
        push_cast
        omega

/-- C24: two-phase teardown.  `clear()` on a group with children returns; it destroys
every child once, from the last to the first; and at the moment each child is
destroyed (the heap its destructor finds) the group already has `children_ = 0`,
`focus_ = 0`, no snapshot, and its resizable reference already has the value it has
after `clear()` (the group itself when one was designated, null otherwise), and the
parent of that child is already null.  So code entered from the destruction of a child
finds a group that lists no child, has no parent reference to follow into `remove()`,
and a `remove(i)` on the group would at that moment do nothing for every `i >= 0`. -/
theorem clear_two_phase (s : Heap) (g : Nat) (hn : (s.group g).children_ ≠ 0)
    (h0 : 0 ≤ (s.group g).children_)
    (hcap : (s.group g).children_ ≤ ((s.group g).array_.length : Int)) :
    ∃ s1 seen, Fl_Group.clear_trace s g = some (s1, seen) ∧ Fl_Group.clear s g = some s1 ∧
      (seen.length : Int) = (s.group g).children_ ∧
      (∀ j : Nat, (j : Int) < (s.group g).children_ →
        (seen[j]?).map Prod.fst = Fl_Group.child s g ((s.group g).children_ - 1 - j)) ∧
      ∀ x ∈ seen,
        (x.2.group g).children_ = 0 ∧ (x.2.group g).focus_ = 0 ∧
        (x.2.group g).sizes_ = none ∧
        (x.2.group g).resizable_ = (s1.group g).resizable_ ∧
        ((s.group g).resizable_ ≠ none → (x.2.group g).resizable_ = some g) ∧
        ((s.group g).resizable_ = none → (x.2.group g).resizable_ = none) ∧
        Fl_Group.kids x.2 g = [] ∧
        (x.2.widget x.1).parent_ = none ∧
        (∀ i, 0 ≤ i → Fl_Group.remove x.2 g i = some x.2) := by
  have hi := init_sizes_group_self s g
  have hc : ((Fl_Group.init_sizes s g).group g).children_ ≠ 0 := by rw [hi]; exact hn
  have hcn : ((Fl_Group.init_sizes s g).group g).children_ = (s.group g).children_ := by
    rw [hi]
  have hal : ((Fl_Group.init_sizes s g).group g).array_ = (s.group g).array_ := by rw [hi]
  obtain ⟨s1, L, hr, hL, hall, hidx⟩ := clear_loop_seen
    ((Fl_Group.init_sizes s g).group g).array_
    ((Fl_Group.init_sizes s g).group g).children_.toNat
    ((Fl_Group.init_sizes s g).group g).children_
    (Fl_Group.clear_reset (Fl_Group.init_sizes s g) g) []
    (by rw [hcn]; omega) (by rw [hcn, hal]; exact hcap)
  have hg := clear_loop_group _ _ _ _ _ _ hr
  simp only [List.nil_append] at hr
  have hreset := clear_reset_group_self (Fl_Group.init_sizes s g) g
  have htrace : Fl_Group.clear_trace s g =
      some (s1.set_group g { s1.group g with array_ := [] }, L) := by
    simp [Fl_Group.clear_trace, hc, hr]
  refine ⟨s1.set_group g { s1.group g with array_ := [] }, L, htrace, ?_, ?_, ?_, ?_⟩
  · simp [Fl_Group.clear, htrace]
  · rw [hL, hcn]; omega
  · intro j hj
    rw [hidx j (by rw [hcn]; omega), hcn, hal]
    rfl
  · intro x hx
    obtain ⟨hxg, hxp⟩ := hall x hx
    have hxc : (x.2.group g).children_ = 0 := by rw [hxg]; exact hreset.1
    refine ⟨hxc, ?_, ?_, ?_, ?_, ?_, ?_, hxp, ?_⟩
    · rw [hxg]; exact hreset.2.1
    · rw [hxg, hreset.2.2, hi]
    · simp only [set_group_same]
      rw [hxg]
      show _ = (s1.group g).resizable_
      have : s1.group = (Fl_Group.clear_reset (Fl_Group.init_sizes s g) g).group := hg
      rw [this]
    · intro hres
      have hres1 : ((Fl_Group.init_sizes s g).group g).resizable_ ≠ none := by
        rw [hi]; exact hres
      rw [hxg]
      simp [Fl_Group.clear_reset, hres1]
    · intro hres
      have hres1 : ((Fl_Group.init_sizes s g).group g).resizable_ = none := by
        rw [hi]; exact hres
      rw [hxg]
      simp [Fl_Group.clear_reset, hres1]
    · unfold Fl_Group.kids
      rw [hxc]
      simp
    · intro i hi0
      have hge : i ≥ (x.2.group g).children_ := by rw [hxc]; exact hi0
      simp [Fl_Group.remove, hge]

/-- Witness for C24: `clear()` on group `1` of `three_children` destroys the widgets
`4`, `3`, `2` in this order, each of them with the group already empty. -/
theorem clear_two_phase_witness :
    ((three_children.group 1).children_ ≠ 0) ∧
    ((Fl_Group.clear_trace three_children 1).map fun r =>
      r.2.map fun x => (x.1, (x.2.group 1).children_, (x.2.widget x.1).parent_))
        = some [(4, 0, none), (3, 0, none), (2, 0, none)] ∧
    ∃ s1 seen, Fl_Group.clear_trace three_children 1 = some (s1, seen) ∧
      (seen.length : Int) = (three_children.group 1).children_ :=
  ⟨by decide, rfl,
    match clear_two_phase three_children 1 (by decide) (by decide) (by decide) with
    | ⟨s1, seen, h1, _, h2, _⟩ => ⟨s1, seen, h1, h2⟩⟩


/-! ## Capacity of the child array -/

theorem insert_loop_length (index : Int) (k : Nat) : ∀ (j : Int) (a a1 : List Nat),
    Fl_Group.insert_loop index k j a = some a1 → a1.length = a.length := by
  induction k with
  | zero =>
    intro j a a1 h
    simp only [Fl_Group.insert_loop] at h
    split at h
    · cases h
    · cases h; rfl
  | succ k ih =>
    intro j a a1 h
    simp only [Fl_Group.insert_loop] at h
    split at h
    · obtain ⟨v, _, h⟩ := Option.bind_eq_some.mp h
      obtain ⟨a2, h2, h⟩ := Option.bind_eq_some.mp h
      rw [ih _ _ _ h, wr_length h2]
    · cases h; rfl

/-- The block that `insert` leaves has the capacity the claim tracks. -/
theorem insert_place_length (G : Fl_Group) (o : Nat) (index : Int) (a : List Nat)
    (h : Fl_Group.insert_place G o index = some a) :
    a.length = Fl_Group.next_capacity G.children_ G.array_.length := by
  unfold Fl_Group.insert_place at h
  unfold Fl_Group.next_capacity
  split at h
  · rename_i hz
    rw [wr_length h]
    simp [hz, malloc]
  · rename_i hz
    simp only at h
    obtain ⟨a1, h1, h⟩ := Option.bind_eq_some.mp h
    rw [wr_length h, insert_loop_length _ _ _ _ _ h1]
    simp only [hz, if_false]
    split
    · exact realloc_length _ _
    · rfl

/-- The test `!(children_ & (children_-1))` of `insert` is the test for a power of two. -/
theorem land_pred_iff_pow_two (c : Int) (hc : 0 < c) :
    Int.land c (c - 1) = 0 ↔ ∃ k : Nat, c = ((2 ^ k : Nat) : Int) := by
  constructor
  · intro h
    have e1 : c = ((c.toNat : Nat) : Int) := by omega
    have e2 : c - 1 = ((c.toNat - 1 : Nat) : Int) := by omega
    rw [e2] at h
    rw [e1] at h
    have h2 : ((Nat.land c.toNat (c.toNat - 1) : Nat) : Int) = 0 := h
    have h3 : c.toNat &&& (c.toNat - 1) = 0 := by
      have : Nat.land c.toNat (c.toNat - 1) = 0 := by exact_mod_cast h2
      exact this
    obtain ⟨m, hm⟩ := pow_two_of_land_pred c.toNat (by omega) h3
    exact ⟨m, by rw [← hm]; exact e1⟩
  · intro ⟨k, hk⟩
    rw [hk]
    exact land_pow_two k

/-- Attaching a widget at an index `0 <= index <= children_` succeeds when the child
arrays are within their capacity, and keeps them so. -/
theorem insert_attach_cap_ok (s : Heap) (g0 o : Nat) (index : Int)
    (h : ∀ g, (s.group g).cap_ok) (h0 : 0 ≤ index) (h1 : index ≤ (s.group g0).children_) :
    ∃ s1, Fl_Group.insert_attach s g0 o index = some s1 ∧ ∀ g, (s1.group g).cap_ok := by
  obtain ⟨a, ha, hlen, hpow, _⟩ := insert_place_spec (s.group g0) o index (h g0) h0 h1
  refine ⟨_, insert_attach_eq s g0 o index a ha, ?_⟩
  intro g
  by_cases hg : g = g0
  · subst hg
    rw [init_sizes_group_self]
    simp only [set_group_same]
    refine ⟨?_, hlen, hpow⟩
    have := (h g).1
    show 0 ≤ (s.group g).children_ + 1
    omega
  · rw [init_sizes_group_other _ _ _ hg, set_group_other _ _ _ _ hg]
    exact h g

/-- The call `remove(n)` with `n >= 0` succeeds when the child arrays are within their
capacity, and keeps them so. -/
theorem remove_total_cap_ok (s : Heap) (p : Nat) (n : Int)
    (h : ∀ g, (s.group g).cap_ok) (hn : 0 ≤ n) :
    ∃ s1, Fl_Group.remove s p n = some s1 ∧ (∀ g, (s1.group g).cap_ok) ∧
      (∀ g, g ≠ p → s1.group g = s.group g) ∧
      (n ≥ (s.group p).children_ → s1 = s) ∧
      (n < (s.group p).children_ → (s1.group p).children_ = (s.group p).children_ - 1) := by
  by_cases hge : n ≥ (s.group p).children_
  · refine ⟨s, by simp [Fl_Group.remove, hge], h, fun _ _ => rfl, fun _ => rfl, ?_⟩
    intro hlt; omega
  · have hlt : n < (s.group p).children_ := by omega
    obtain ⟨s1, _, hrem, _, hcnt, _⟩ := remove_effect s p n (h p).2.1 hn hlt
    refine ⟨s1, hrem, ?_, ?_, ?_, fun _ => hcnt⟩
    · intro g
      by_cases hg : g = p
      · subst hg
        exact remove_cap_ok s s1 g n (h g) hn hlt hrem
      · rw [remove_group_other s s1 p g n hrem hg]
        exact h g
    · intro g hg
      exact remove_group_other s s1 p g n hrem hg
    · intro hge2; omega

/-- The call `insert(o, index)` with `0 <= index <= children_` succeeds when the child
arrays are within their capacity, and keeps them so; the search `o.parent()->find(o)`
ends at its first step, so any fuel `>= 1` is enough. -/
theorem insert_total_cap_ok (fuel : Nat) (s : Heap) (g0 o : Nat) (index : Int)
    (hfuel : 0 < fuel) (h : ∀ g, (s.group g).cap_ok) (h0 : 0 ≤ index)
    (h1 : index ≤ (s.group g0).children_) :
    ∃ s1, Fl_Group.insert fuel s g0 o index = some s1 ∧ ∀ g, (s1.group g).cap_ok := by
  cases hp : (s.widget o).parent_ with
  | none =>
    simp only [Fl_Group.insert, hp]
    exact insert_attach_cap_ok s g0 o index h h0 h1
  | some p =>
    obtain ⟨f, hf⟩ : ∃ f, fuel = f + 1 := ⟨fuel - 1, by omega⟩
    have hup : Fl_Group.find_up s p fuel (some o) = some (some o) := by
      rw [hf]
      simp [Fl_Group.find_up, hp]
    obtain ⟨n, hscan, hcases⟩ := find_scan_spec (s.group p).array_ o (s.group p).children_
      (s.group p).children_.toNat (s.group p).children_
      (by have := (h p).1; omega) (h p).2.1
    have hfind : Fl_Group.find fuel s p (some o) = some n := by
      simp [Fl_Group.find, hup, hscan]
    have hn0 : 0 ≤ n ∧ n ≤ (s.group p).children_ := by
      have := (h p).1
      rcases hcases with ⟨a, b, _⟩ | ⟨a, _⟩
      · omega
      · omega
    simp only [Fl_Group.insert, hp, hfind, Option.bind]
    by_cases hsame : p = g0 ∧ (if p = g0 ∧ index > n then index - 1 else index) = n
    · exact ⟨s, by rw [if_pos hsame], h⟩
    · rw [if_neg hsame]
      obtain ⟨s1, hrem, hcap1, hother, hnoop, hcnt⟩ := remove_total_cap_ok s p n h hn0.1
      rw [hrem]
      simp only
      apply insert_attach_cap_ok s1 g0 o _ hcap1
      · split
        · omega
        · exact h0
      · by_cases hpg : p = g0
        · subst hpg
          by_cases hlt : n < (s.group p).children_
          · rw [hcnt hlt]
            by_cases hin : index > n
            · simp only [hin, and_self, if_true]
              omega
            · simp only [hin, and_false, if_false]
              have : index ≠ n := by
                intro he
                apply hsame
                simp [hin, he]
              omega
          · rw [hnoop (by omega)]
            have hin : ¬ (index > n) := by omega
            simp only [hin, and_false, if_false]
            exact h1
        · rw [hother g0 (fun he => hpg he.symm)]
          simp only [hpg, false_and, if_false]
          exact h1

theorem constructed_cap_ok (s : Heap) (h : s.constructed) : ∀ g, (s.group g).cap_ok := by
  intro g
  obtain ⟨hc, _, ha, _⟩ := h g
  refine ⟨by omega, by rw [hc, ha]; simp, ?_⟩
  intro hpos; omega

theorem built_cap_ok (s : Heap) (hs : s.built) : ∀ g, (s.group g).cap_ok := by
  induction hs with
  | init s h => exact constructed_cap_ok s h
  | insert fuel s s1 g o index _ h0 h1 hr ih =>
    cases hp : (s.widget o).parent_ with
    | none =>
      simp only [Fl_Group.insert, hp] at hr
      obtain ⟨s2, h2, hcap⟩ := insert_attach_cap_ok s g o index ih h0 h1
      rw [hr] at h2
      cases h2
      exact hcap
    | some p =>
      have hfuel : 0 < fuel := by
        cases fuel with
        | zero => simp [Fl_Group.insert, hp, Fl_Group.find, Fl_Group.find_up] at hr
        | succ f => omega
      obtain ⟨s2, h2, hcap⟩ := insert_total_cap_ok fuel s g o index hfuel ih h0 h1
      rw [hr] at h2
      cases h2
      exact hcap
  | remove s s1 g index _ h0 h1 hr ih =>
    obtain ⟨s2, h2, hcap, _⟩ := remove_total_cap_ok s g index ih h0
    rw [hr] at h2
    cases h2
    exact hcap

/-- C26: the child array is always large enough.  In every heap built from freshly
constructed groups by `insert` calls with `0 <= index <= children_` and `remove` calls
with `0 <= index < children_`, every group has `0 <= children_ <= capacity` (the
capacity being the length of the allocated block); every further such `insert` and
`remove` call returns, which in this model means that no slot it reads or writes lies
outside the block, and the block `insert` leaves has room for the new count.  The
capacity after `insert` is `1` for the first child, `2 * count` when the old count
passes the test `!(count & (count-1))`, which for a positive count is the test for a
power of two, and is unchanged otherwise. -/
theorem capacity_always_sufficient :
    (∀ s : Heap, s.built → ∀ g,
      0 ≤ (s.group g).children_ ∧ (s.group g).children_ ≤ ((s.group g).array_.length : Int)) ∧
    (∀ s : Heap, s.built → ∀ (fuel g o : Nat) (index : Int), 0 < fuel → 0 ≤ index →
      index ≤ (s.group g).children_ →
      (∃ s1, Fl_Group.insert fuel s g o index = some s1 ∧ s1.built) ∧
      (∃ a, Fl_Group.insert_place (s.group g) o index = some a ∧
        (s.group g).children_ + 1 ≤ (a.length : Int))) ∧
    (∀ s : Heap, s.built → ∀ (g : Nat) (index : Int), 0 ≤ index →
      index < (s.group g).children_ →
      ∃ s1, Fl_Group.remove s g index = some s1 ∧ s1.built ∧
        (s1.group g).array_.length = (s.group g).array_.length) ∧
    (∀ (G : Fl_Group) (o : Nat) (index : Int) (a : List Nat),
      Fl_Group.insert_place G o index = some a →
      a.length = Fl_Group.next_capacity G.children_ G.array_.length) ∧
    (∀ c : Int, 0 < c →
      (Int.land c (c - 1) = 0 ↔ ∃ k : Nat, c = ((2 ^ k : Nat) : Int))) := by
  refine ⟨?_, ?_, ?_, ?_, ?_⟩
  · intro s hs g
    have h := built_cap_ok s hs g
    exact ⟨h.1, h.2.1⟩
  · intro s hs fuel g o index hfuel h0 h1
    have hcap := built_cap_ok s hs
    constructor
    · obtain ⟨s1, hins, _⟩ := insert_total_cap_ok fuel s g o index hfuel hcap h0 h1
      exact ⟨s1, hins, Heap.built.insert fuel s s1 g o index hs h0 h1 hins⟩
    · obtain ⟨a, ha, hlen, _⟩ := insert_place_spec (s.group g) o index (hcap g) h0 h1
      exact ⟨a, ha, hlen⟩
  · intro s hs g index h0 h1
    have hcap := built_cap_ok s hs
    obtain ⟨s1, _, hrem, _, _, hlen, _⟩ := remove_effect s g index (hcap g).2.1 h0 h1
    exact ⟨s1, hrem, Heap.built.remove s s1 g index hs h0 h1 hrem, hlen⟩
  · intro G o index a h
    exact insert_place_length G o index a h
  · intro c hc
    exact land_pred_iff_pow_two c hc


/-- Witness for C26: the first `insert` into the fresh group `1` returns a built heap
whose block has one slot. -/
theorem capacity_always_sufficient_witness :
    fresh_heap.built ∧
    (∃ s1, Fl_Group.insert 1 fresh_heap 1 2 0 = some s1 ∧ s1.built) ∧
    ((Fl_Group.insert 1 fresh_heap 1 2 0).map fun s1 =>
      ((s1.group 1).children_, (s1.group 1).array_.length)) = some (1, 1) :=
  ⟨Heap.built.init fresh_heap fresh_heap_constructed,
    (capacity_always_sufficient.2.1 fresh_heap
      (Heap.built.init fresh_heap fresh_heap_constructed) 1 1 2 0 (by decide) (by decide)
      (by decide)).1,
    rfl⟩

/-! ## handle: the order of the focus offers -/

theorem focus_forward_calls_result (kids : Children) (arr : List Nat) (n : Int) (k : Nat) :
    ∀ i : Int, (Fl_Group.focus_forward_calls kids arr n k i).map Prod.snd =
      Fl_Group.focus_forward kids arr n k i := by
  induction k with
  | zero =>
    intro i
    simp only [Fl_Group.focus_forward_calls, Fl_Group.focus_forward]
    split <;> rfl
  | succ k ih =>
    intro i
    simp only [Fl_Group.focus_forward_calls, Fl_Group.focus_forward]
    split
    · cases rd arr i with
      | none => rfl
      | some o =>
        simp only [Option.bind]
        split
        · rfl
        · rw [← ih (i + 1)]
          simp only [Option.map_map]
          rfl
    · rfl

theorem focus_backward_calls_result (kids : Children) (arr : List Nat) (k : Nat) :
    ∀ i : Int, (Fl_Group.focus_backward_calls kids arr k i).map Prod.snd =
      Fl_Group.focus_backward kids arr k i := by
  induction k with
  | zero =>
    intro i
    simp only [Fl_Group.focus_backward_calls, Fl_Group.focus_backward]
    split <;> rfl
  | succ k ih =>
    intro i
    simp only [Fl_Group.focus_backward_calls, Fl_Group.focus_backward]
    split
    · cases rd arr (i - 1) with
      | none => rfl
      | some o =>
        simp only [Option.bind]
        split
        · rfl
        · rw [← ih (i - 1)]
          simp only [Option.map_map]
          rfl
    · rfl

/-- The record of the calls does not change the result: dropping the record gives
`Fl_Group.handle_take_focus`. -/
theorem handle_take_focus_calls_result (kids : Children) (s : Heap) (fl : Fl) (g : Nat) :
    (Fl_Group.handle_take_focus_calls kids s fl g).map Prod.snd =
      Fl_Group.handle_take_focus kids s fl g := by
  have hf := focus_forward_calls_result kids (s.group g).array_ (s.group g).children_
    (s.group g).children_.toNat 0
  have hb := focus_backward_calls_result kids (s.group g).array_
    (s.group g).children_.toNat (s.group g).children_
  have hd : (if (s.group g).focus_ ≥ 0 ∧ (s.group g).focus_ < (s.group g).children_ then
        (Fl_Group.child s g (s.group g).focus_).bind fun o =>
          if kids.take_focus o then some ([(s.group g).focus_], (1 : Int))
          else (Fl_Group.focus_forward_calls kids (s.group g).array_ (s.group g).children_
            (s.group g).children_.toNat 0).map fun r => ((s.group g).focus_ :: r.1, r.2)
      else Fl_Group.focus_forward_calls kids (s.group g).array_ (s.group g).children_
        (s.group g).children_.toNat 0).map Prod.snd =
      ((if (s.group g).focus_ ≥ 0 ∧ (s.group g).focus_ < (s.group g).children_ then
        (Fl_Group.child s g (s.group g).focus_).bind fun o => some (kids.take_focus o)
       else some false).bind fun taken =>
        if taken then some 1
        else Fl_Group.focus_forward kids (s.group g).array_ (s.group g).children_
          (s.group g).children_.toNat 0) := by
    split
    · cases Fl_Group.child s g (s.group g).focus_ with
      | none => rfl
      | some o =>
        simp only [Option.bind]
        cases hto : kids.take_focus o with
        | true => simp
        | false =>
          simp only [Bool.false_eq_true, if_false]
          rw [← hf]
          simp only [Option.map_map]
          rfl
    · simp only [Option.bind, Bool.false_eq_true, if_false]
      exact hf
  unfold Fl_Group.handle_take_focus_calls Fl_Group.handle_take_focus
  cases Fl_Group.navigation_key fl <;> first | exact hf | exact hb | exact hd

theorem focus_forward_calls_eq (kids : Children) (s : Heap) (g : Nat) (n : Int) (k : Nat) :
    ∀ i : Int, (k : Int) = n - i →
    Fl_Group.focus_forward_calls kids (s.group g).array_ n k i =
      Fl_Group.offer_focus kids s g (up_from i k) := by
  induction k with
  | zero =>
    intro i hk
    have hne : ¬ (i < n) := by omega
    simp [Fl_Group.focus_forward_calls, hne, up_from, Fl_Group.offer_focus]
  | succ k ih =>
    intro i hk
    have hlt : i < n := by omega
    simp only [Fl_Group.focus_forward_calls, hlt, if_true, up_from, Fl_Group.offer_focus,
      Fl_Group.child]
    rw [ih (i + 1) (by omega)]

theorem focus_backward_calls_eq (kids : Children) (s : Heap) (g : Nat) (k : Nat) :
    ∀ i : Int, (k : Int) = i →
    Fl_Group.focus_backward_calls kids (s.group g).array_ k i =
      Fl_Group.offer_focus kids s g (down_from (i - 1) k) := by
  induction k with
  | zero =>
    intro i hk
    have hne : ¬ (i ≠ 0) := by omega
    simp [Fl_Group.focus_backward_calls, hne, down_from, Fl_Group.offer_focus]
  | succ k ih =>
    intro i hk
    have hlt : i ≠ 0 := by omega
    simp only [Fl_Group.focus_backward_calls, hlt, ne_eq, not_false_eq_true, if_true,
      down_from, Fl_Group.offer_focus, Fl_Group.child]
    rw [ih (i - 1) (by omega)]

/-- The focus offers of `handle(FL_FOCUS)` are the offers along `Fl_Group.focus_order`. -/
theorem handle_take_focus_calls_eq (kids : Children) (s : Heap) (fl : Fl) (g : Nat)
    (h0 : 0 ≤ (s.group g).children_) :
    Fl_Group.handle_take_focus_calls kids s fl g =
      Fl_Group.offer_focus kids s g (Fl_Group.focus_order s g fl) := by
  have hf := focus_forward_calls_eq kids s g (s.group g).children_
    (s.group g).children_.toNat 0 (by omega)
  have hb := focus_backward_calls_eq kids s g (s.group g).children_.toNat
    (s.group g).children_ (by omega)
  have hd : (if (s.group g).focus_ ≥ 0 ∧ (s.group g).focus_ < (s.group g).children_ then
        (Fl_Group.child s g (s.group g).focus_).bind fun o =>
          if kids.take_focus o then some ([(s.group g).focus_], (1 : Int))
          else (Fl_Group.focus_forward_calls kids (s.group g).array_ (s.group g).children_
            (s.group g).children_.toNat 0).map fun r => ((s.group g).focus_ :: r.1, r.2)
      else Fl_Group.focus_forward_calls kids (s.group g).array_ (s.group g).children_
        (s.group g).children_.toNat 0) =
      Fl_Group.offer_focus kids s g
        ((if 0 ≤ (s.group g).focus_ ∧ (s.group g).focus_ < (s.group g).children_ then
          [(s.group g).focus_] else []) ++ up_from 0 (s.group g).children_.toNat) := by
    by_cases hv : 0 ≤ (s.group g).focus_ ∧ (s.group g).focus_ < (s.group g).children_
    · have hv2 : (s.group g).focus_ ≥ 0 ∧ (s.group g).focus_ < (s.group g).children_ := hv
      simp only [hv, hv2, and_self, if_true, List.singleton_append, Fl_Group.offer_focus]
      rw [hf]
    · have hv2 : ¬ ((s.group g).focus_ ≥ 0 ∧ (s.group g).focus_ < (s.group g).children_) := hv
      simp only [hv, hv2, if_false, List.nil_append]
      exact hf
  unfold Fl_Group.handle_take_focus_calls Fl_Group.focus_order
  cases Fl_Group.navigation_key fl <;> first | exact hf | exact hb | exact hd

/-- What an offer of the focus along a list does: either it ends with `1` at the first
child of the list that says yes, all children before it having been asked and having
said no, and no child after it being asked; or it ends with `0`, every child of the
list having been asked and having said no. -/
theorem offer_focus_spec (kids : Children) (s : Heap) (g : Nat) :
    ∀ (l calls : List Int) (r : Int), Fl_Group.offer_focus kids s g l = some (calls, r) →
    (r = 1 ∧ ∃ pre i o rest, l = pre ++ i :: rest ∧ calls = pre ++ [i] ∧
        Fl_Group.child s g i = some o ∧ kids.take_focus o = true ∧
        ∀ j ∈ pre, ∃ oj, Fl_Group.child s g j = some oj ∧ kids.take_focus oj = false) ∨
    (r = 0 ∧ calls = l ∧
        ∀ j ∈ l, ∃ oj, Fl_Group.child s g j = some oj ∧ kids.take_focus oj = false) := by
  intro l
  induction l with
  | nil =>
    intro calls r h
    simp only [Fl_Group.offer_focus, Option.some.injEq, Prod.mk.injEq] at h
    right
    refine ⟨h.2.symm, h.1.symm, ?_⟩
    intro j hj; cases hj
  | cons i rest ih =>
    intro calls r h
    simp only [Fl_Group.offer_focus] at h
    obtain ⟨o, ho, h⟩ := Option.bind_eq_some.mp h
    cases hto : kids.take_focus o with
    | true =>
      simp only [hto, if_true, Option.some.injEq, Prod.mk.injEq] at h
      left
      refine ⟨h.2.symm, [], i, o, rest, rfl, by simp [h.1], ho, hto, ?_⟩
      intro j hj; cases hj
    | false =>
      simp only [hto, Bool.false_eq_true, if_false] at h
      obtain ⟨r1, hr1, h⟩ := Option.map_eq_some'.mp h
      cases h
      rcases ih r1.1 r1.2 hr1 with ⟨e1, pre, i2, o2, rest2, hl, hc, ho2, hto2, hpre⟩ |
        ⟨e0, hc, hall⟩
      · left
        refine ⟨e1, i :: pre, i2, o2, rest2, by simp [hl], by simp [hc], ho2, hto2, ?_⟩
        intro j hj
        rcases List.mem_cons.mp hj with hj | hj
        · subst hj; exact ⟨o, ho, hto⟩
        · exact hpre j hj
      · right
        refine ⟨e0, by simp [hc], ?_⟩
        intro j hj
        rcases List.mem_cons.mp hj with hj | hj
        · subst hj; exact ⟨o, ho, hto⟩
        · exact hall j hj

/-- C22 (as stated, refuted): in the group of three children with `focus_ = 1`, which
is a valid index, all children accepting the focus: on forward navigation (key Right,
likewise Tab) the one child asked is child `0`, and on backward navigation (key Left)
it is child `2`; the child at `focus_` is not offered the focus first.  Only for a
key that is no navigation key (here the key `0`) is child `1` asked first. -/
theorem focus_index_not_first_on_navigation :
    (three_children_focus_1.group 1).focus_ = 1 ∧
    (three_children_focus_1.group 1).children_ = 3 ∧
    Fl_Group.handle_take_focus_calls eager_children three_children_focus_1
      (key_state Fl_Key.FL_Right) 1 = some ([0], 1) ∧
    Fl_Group.handle_take_focus_calls eager_children three_children_focus_1
      (key_state Fl_Key.FL_Tab) 1 = some ([0], 1) ∧
    Fl_Group.handle_take_focus_calls eager_children three_children_focus_1
      (key_state Fl_Key.FL_Left) 1 = some ([2], 1) ∧
    Fl_Group.handle_take_focus_calls eager_children three_children_focus_1
      (key_state Fl_Key.zero) 1 = some ([1], 1) ∧
    Fl_Group.handle 1 eager_children three_children_focus_1 (key_state Fl_Key.FL_Right) 1
      Fl_Event.FL_FOCUS = some (three_children_focus_1, key_state Fl_Key.FL_Right, 1) := by
  refine ⟨rfl, rfl, rfl, rfl, rfl, rfl, rfl⟩

/-- C22 (amended): for `handle(FL_FOCUS)` while the focus widget is not inside the
group, `take_focus()` is asked of the children along `Fl_Group.focus_order`: in
ascending index order for the keys Right and Down, in descending index order for Left
and Up, and for any other key first of the child at `focus_` (when that is a valid
index) and then of all children in ascending order.  The first child that says yes
ends the offers and `handle` returns `1`; no child after it is asked; `handle`
returns `0` when every child of the order has been asked and has said no.  The heap
and the static state are unchanged. -/
theorem focus_offer_order (fuel : Nat) (kids : Children) (s : Heap) (fl : Fl) (g : Nat)
    (h0 : 0 ≤ (s.group g).children_)
    (hcap : (s.group g).children_ ≤ ((s.group g).array_.length : Int))
    (hout : Fl_Widget.contains s g fuel fl.focus_ = some false) :
    ∃ calls r, Fl_Group.handle_take_focus_calls kids s fl g = some (calls, r) ∧
      Fl_Group.handle fuel kids s fl g Fl_Event.FL_FOCUS = some (s, fl, r) ∧
      Fl_Group.offer_focus kids s g (Fl_Group.focus_order s g fl) = some (calls, r) ∧
      ((r = 1 ∧ ∃ pre i o rest, Fl_Group.focus_order s g fl = pre ++ i :: rest ∧
          calls = pre ++ [i] ∧ Fl_Group.child s g i = some o ∧ kids.take_focus o = true ∧
          ∀ j ∈ pre, ∃ oj, Fl_Group.child s g j = some oj ∧ kids.take_focus oj = false) ∨
       (r = 0 ∧ calls = Fl_Group.focus_order s g fl ∧
          ∀ j ∈ Fl_Group.focus_order s g fl,
            ∃ oj, Fl_Group.child s g j = some oj ∧ kids.take_focus oj = false)) ∧
      ((Fl_Group.navigation_key fl = Fl_Key.FL_Right ∨
          Fl_Group.navigation_key fl = Fl_Key.FL_Down) →
        Fl_Group.focus_order s g fl = up_from 0 (s.group g).children_.toNat) ∧
      ((Fl_Group.navigation_key fl = Fl_Key.FL_Left ∨
          Fl_Group.navigation_key fl = Fl_Key.FL_Up) →
        Fl_Group.focus_order s g fl =
          down_from ((s.group g).children_ - 1) (s.group g).children_.toNat) ∧
      (Fl_Group.navigation_key fl ≠ Fl_Key.FL_Right →
        Fl_Group.navigation_key fl ≠ Fl_Key.FL_Down →
        Fl_Group.navigation_key fl ≠ Fl_Key.FL_Left →
        Fl_Group.navigation_key fl ≠ Fl_Key.FL_Up →
        Fl_Group.focus_order s g fl =
          (if 0 ≤ (s.group g).focus_ ∧ (s.group g).focus_ < (s.group g).children_ then
            [(s.group g).focus_] else []) ++ up_from 0 (s.group g).children_.toNat) := by
  obtain ⟨r, hr, _, _⟩ := handle_take_focus_spec kids s fl g h0 hcap
  have hres := handle_take_focus_calls_result kids s fl g
  rw [hr] at hres
  obtain ⟨cr, hcr, hsnd⟩ := Option.map_eq_some'.mp hres
  obtain ⟨calls, r2⟩ := cr
  simp only at hsnd
  subst hsnd
  have heq := handle_take_focus_calls_eq kids s fl g h0
  rw [hcr] at heq
  refine ⟨calls, r2, hcr, by simp [Fl_Group.handle, hout, hr], heq.symm,
    offer_focus_spec kids s g _ calls r2 heq.symm, ?_, ?_, ?_⟩
  · intro hk
    unfold Fl_Group.focus_order
    rcases hk with hk | hk <;> rw [hk]
  · intro hk
    unfold Fl_Group.focus_order
    rcases hk with hk | hk <;> rw [hk]
  · intro h1 h2 h3 h4
    unfold Fl_Group.focus_order
    cases hk : Fl_Group.navigation_key fl with
    | zero => rfl
    | FL_Tab => rfl
    | FL_Left => exact absurd hk h3
    | FL_Up => exact absurd hk h4
    | FL_Right => exact absurd hk h1
    | FL_Down => exact absurd hk h2
    | other n => rfl

/-- Witness for C22: the group of three children with `focus_ = 1`, key Right, all
children accepting: the one child asked is child `0`. -/
theorem focus_offer_order_witness :
    (0 ≤ (three_children_focus_1.group 1).children_ ∧
      (three_children_focus_1.group 1).children_
        ≤ ((three_children_focus_1.group 1).array_.length : Int) ∧
      Fl_Widget.contains three_children_focus_1 1 1 (key_state Fl_Key.FL_Right).focus_
        = some false) ∧
    Fl_Group.focus_order three_children_focus_1 1 (key_state Fl_Key.FL_Right) = [0, 1, 2] ∧
    ∃ calls r, Fl_Group.handle_take_focus_calls eager_children three_children_focus_1
        (key_state Fl_Key.FL_Right) 1 = some (calls, r) ∧
      Fl_Group.offer_focus eager_children three_children_focus_1 1
        (Fl_Group.focus_order three_children_focus_1 1 (key_state Fl_Key.FL_Right))
        = some (calls, r) :=
  ⟨⟨by decide, by decide, rfl⟩, rfl,
    match focus_offer_order 1 eager_children three_children_focus_1
      (key_state Fl_Key.FL_Right) 1 (by decide) (by decide) rfl with
    | ⟨calls, r, h1, _, h2, _⟩ => ⟨calls, r, h1, h2⟩⟩


/-! ## handle: shortcut navigation -/

theorem nav_loop_calls_result (kids : Children) (s : Heap) (g : Nat) (key : Fl_Key)
    (previous old_x old_r : Int) (k : Nat) :
    ∀ i : Int, (Fl_Group.nav_loop_calls kids s g key previous old_x old_r k i).map Prod.snd =
      Fl_Group.nav_loop kids s g key previous old_x old_r k i := by
  induction k with
  | zero => intro i; rfl
  | succ k ih =>
    intro i
    simp only [Fl_Group.nav_loop_calls, Fl_Group.nav_loop]
    cases Fl_Group.nav_next s g key i with
    | none => rfl
    | some i1 =>
      simp only
      split
      · rfl
      · cases Fl_Group.child s g i1 with
        | none => rfl
        | some o =>
          simp only [Option.bind]
          split
          · rw [← ih i1]
            simp only [Option.map_map]
            rfl
          · split
            · rfl
            · rw [← ih i1]
              simp only [Option.map_map]
              rfl

/-- The record of the candidates does not change the result: dropping the record gives
`Fl_Group.handle_navigation`. -/
theorem handle_navigation_calls_result (fuel : Nat) (kids : Children) (s : Heap) (fl : Fl)
    (g : Nat) :
    (Fl_Group.handle_navigation_calls fuel kids s fl g).map Prod.snd =
      Fl_Group.handle_navigation fuel kids s fl g := by
  unfold Fl_Group.handle_navigation_calls Fl_Group.handle_navigation
  simp only
  split
  · rfl
  · cases Fl_Group.child s g (s.group g).focus_ with
    | none => rfl
    | some o =>
      simp only [Option.bind]
      exact nav_loop_calls_result kids s g _ _ _ _ fuel _

theorem skip_iff (s : Heap) (key : Fl_Key) (old_x old_r : Int) (o : Nat) :
    ((key = Fl_Key.FL_Down ∨ key = Fl_Key.FL_Up) ∧
        ((s.widget o).x_ ≥ old_r ∨ (s.widget o).x_ + (s.widget o).w_ ≤ old_x)) ↔
      (decide (key = Fl_Key.FL_Down ∨ key = Fl_Key.FL_Up) = true ∧
        Fl_Group.spans_overlap s old_x old_r o = false) := by
  unfold Fl_Group.spans_overlap
  simp only [decide_eq_true_eq, decide_eq_false_iff_not]
  constructor
  · intro ⟨a, b⟩
    exact ⟨a, by omega⟩
  · intro ⟨a, b⟩
    exact ⟨a, by omega⟩

/-- One round of the navigation loop that examines the candidate `i1`. -/
theorem nav_examine (kids : Children) (s : Heap) (g : Nat) (key : Fl_Key)
    (previous old_x old_r : Int) (k : Nat) (i i1 : Int) (rest : List Int)
    (hnext : Fl_Group.nav_next s g key i = some i1) (hne : i1 ≠ previous)
    (hrec : Fl_Group.nav_loop_calls kids s g key previous old_x old_r k i1 =
      Fl_Group.offer_walk kids s g (decide (key = Fl_Key.FL_Down ∨ key = Fl_Key.FL_Up))
        old_x old_r rest) :
    Fl_Group.nav_loop_calls kids s g key previous old_x old_r (k + 1) i =
      Fl_Group.offer_walk kids s g (decide (key = Fl_Key.FL_Down ∨ key = Fl_Key.FL_Up))
        old_x old_r (i1 :: rest) := by
  simp only [Fl_Group.nav_loop_calls, hnext, hne, if_false, Fl_Group.offer_walk]
  cases Fl_Group.child s g i1 with
  | none => rfl
  | some o =>
    simp only [Option.bind]
    by_cases hc : (key = Fl_Key.FL_Down ∨ key = Fl_Key.FL_Up) ∧
        ((s.widget o).x_ ≥ old_r ∨ (s.widget o).x_ + (s.widget o).w_ ≤ old_x)
    · rw [if_pos hc, if_pos ((skip_iff s key old_x old_r o).mp hc), hrec]
    · rw [if_neg hc, if_neg (fun h => hc ((skip_iff s key old_x old_r o).mpr h)), hrec]

/-- One round of the navigation loop that ends the walk. -/
theorem nav_stop (kids : Children) (s : Heap) (g : Nat) (key : Fl_Key)
    (previous old_x old_r : Int) (k : Nat) (i : Int)
    (hnext : Fl_Group.nav_next s g key i = none ∨
      Fl_Group.nav_next s g key i = some previous) :
    Fl_Group.nav_loop_calls kids s g key previous old_x old_r (k + 1) i = some ([], 0) := by
  rcases hnext with h | h
  · simp [Fl_Group.nav_loop_calls, h]
  · simp [Fl_Group.nav_loop_calls, h]

theorem nav_next_forward (s : Heap) (g : Nat) (key : Fl_Key) (i : Int)
    (hkey : key = Fl_Key.FL_Right ∨ key = Fl_Key.FL_Down) :
    Fl_Group.nav_next s g key i =
      if i + 1 ≥ (s.group g).children_ then
        (if (s.widget g).parent_ ≠ none then none else some 0)
      else some (i + 1) := by
  rcases hkey with h | h <;> subst h <;> rfl

theorem nav_next_backward (s : Heap) (g : Nat) (key : Fl_Key) (i : Int)
    (hkey : key = Fl_Key.FL_Left ∨ key = Fl_Key.FL_Up) :
    Fl_Group.nav_next s g key i =
      if i ≠ 0 then some (i - 1)
      else (if (s.widget g).parent_ ≠ none then none
        else some ((s.group g).children_ - 1)) := by
  rcases hkey with h | h <;> subst h <;> rfl

/-- Forward navigation after the wrap: from index `i` below `previous` the loop walks
the indices `i+1, ..., previous-1`. -/
theorem nav_forward_tail (kids : Children) (s : Heap) (g : Nat) (key : Fl_Key)
    (previous old_x old_r : Int)
    (hkey : key = Fl_Key.FL_Right ∨ key = Fl_Key.FL_Down)
    (hP : previous < (s.group g).children_) :
    ∀ (m : Nat) (i : Int) (k : Nat), (m : Int) = previous - 1 - i → 0 ≤ i → m + 1 ≤ k →
    Fl_Group.nav_loop_calls kids s g key previous old_x old_r k i =
      Fl_Group.offer_walk kids s g (decide (key = Fl_Key.FL_Down ∨ key = Fl_Key.FL_Up))
        old_x old_r (up_from (i + 1) m) := by
  intro m
  induction m with
  | zero =>
    intro i k hm hi hk
    obtain ⟨k1, hk1⟩ : ∃ k1, k = k1 + 1 := ⟨k - 1, by omega⟩
    subst hk1
    have hnext : Fl_Group.nav_next s g key i = some previous := by
      rw [nav_next_forward s g key i hkey]
      have h1 : ¬ (i + 1 ≥ (s.group g).children_) := by omega
      rw [if_neg h1]
      congr 1
      omega
    rw [nav_stop kids s g key previous old_x old_r k1 i (Or.inr hnext)]
    rfl
  | succ m ih =>
    intro i k hm hi hk
    obtain ⟨k1, hk1⟩ : ∃ k1, k = k1 + 1 := ⟨k - 1, by omega⟩
    subst hk1
    have hnext : Fl_Group.nav_next s g key i = some (i + 1) := by
      rw [nav_next_forward s g key i hkey]
      have h1 : ¬ (i + 1 ≥ (s.group g).children_) := by omega
      rw [if_neg h1]
    exact nav_examine kids s g key previous old_x old_r k1 i (i + 1) _ hnext (by omega)
      (ih (i + 1) k1 (by omega) (by omega) (by omega))

/-- Forward navigation before the wrap: from index `i` at or after `previous` the loop
walks `i+1, ..., n-1` and then, without parent, `0, ..., previous-1`. -/
theorem nav_forward (kids : Children) (s : Heap) (g : Nat) (key : Fl_Key)
    (previous old_x old_r : Int)
    (hkey : key = Fl_Key.FL_Right ∨ key = Fl_Key.FL_Down)
    (hP0 : 0 ≤ previous) (hP : previous < (s.group g).children_) :
    ∀ (m : Nat) (i : Int) (k : Nat), (m : Int) = (s.group g).children_ - 1 - i →
    previous ≤ i → (m : Int) + 1 + previous ≤ k →
    Fl_Group.nav_loop_calls kids s g key previous old_x old_r k i =
      Fl_Group.offer_walk kids s g (decide (key = Fl_Key.FL_Down ∨ key = Fl_Key.FL_Up))
        old_x old_r (up_from (i + 1) m ++
          (if (s.widget g).parent_.isSome then [] else up_from 0 previous.toNat)) := by
  intro m
  induction m with
  | zero =>
    intro i k hm hi hk
    obtain ⟨k1, hk1⟩ : ∃ k1, k = k1 + 1 := ⟨k - 1, by omega⟩
    subst hk1
    have h1 : i + 1 ≥ (s.group g).children_ := by omega
    cases hpar : (s.widget g).parent_ with
    | some p =>
      have hnext : Fl_Group.nav_next s g key i = none := by
        rw [nav_next_forward s g key i hkey, if_pos h1, hpar]
        simp
      rw [nav_stop kids s g key previous old_x old_r k1 i (Or.inl hnext)]
      rfl
    | none =>
      have hnext : Fl_Group.nav_next s g key i = some 0 := by
        rw [nav_next_forward s g key i hkey, if_pos h1, hpar]
        simp
      by_cases hz : previous = 0
      · subst hz
        rw [nav_stop kids s g key 0 old_x old_r k1 i (Or.inr hnext)]
        rfl
      · obtain ⟨q, hq⟩ : ∃ q : Nat, previous.toNat = q + 1 := ⟨previous.toNat - 1, by omega⟩
        have hlist : up_from (i + 1) 0 ++
            (if (none : Option Nat).isSome then [] else up_from 0 previous.toNat)
            = 0 :: up_from (0 + 1) q := by
          rw [hq]
          rfl
        rw [hlist]
        exact nav_examine kids s g key previous old_x old_r k1 i 0 _ hnext
          (fun h => hz h.symm)
          (nav_forward_tail kids s g key previous old_x old_r hkey hP q 0 k1 (by omega)
            (by omega) (by omega))
  | succ m ih =>
    intro i k hm hi hk
    obtain ⟨k1, hk1⟩ : ∃ k1, k = k1 + 1 := ⟨k - 1, by omega⟩
    subst hk1
    have hnext : Fl_Group.nav_next s g key i = some (i + 1) := by
      rw [nav_next_forward s g key i hkey]
      have h1 : ¬ (i + 1 ≥ (s.group g).children_) := by omega
      rw [if_neg h1]
    exact nav_examine kids s g key previous old_x old_r k1 i (i + 1) _ hnext (by omega)
      (ih (i + 1) k1 (by omega) (by omega) (by omega))

/-- Backward navigation after the wrap: from index `i` above `previous` the loop walks
the indices `i-1, ..., previous+1`. -/
theorem nav_backward_tail (kids : Children) (s : Heap) (g : Nat) (key : Fl_Key)
    (previous old_x old_r : Int)
    (hkey : key = Fl_Key.FL_Left ∨ key = Fl_Key.FL_Up) (hP0 : 0 ≤ previous) :
    ∀ (m : Nat) (i : Int) (k : Nat), (m : Int) = i - 1 - previous → m + 1 ≤ k →
    Fl_Group.nav_loop_calls kids s g key previous old_x old_r k i =
      Fl_Group.offer_walk kids s g (decide (key = Fl_Key.FL_Down ∨ key = Fl_Key.FL_Up))
        old_x old_r (down_from (i - 1) m) := by
  intro m
  induction m with
  | zero =>
    intro i k hm hk
    obtain ⟨k1, hk1⟩ : ∃ k1, k = k1 + 1 := ⟨k - 1, by omega⟩
    subst hk1
    have hnext : Fl_Group.nav_next s g key i = some previous := by
      rw [nav_next_backward s g key i hkey]
      have h1 : i ≠ 0 := by omega
      rw [if_pos h1]
      congr 1
      omega
    rw [nav_stop kids s g key previous old_x old_r k1 i (Or.inr hnext)]
    rfl
  | succ m ih =>
    intro i k hm hk
    obtain ⟨k1, hk1⟩ : ∃ k1, k = k1 + 1 := ⟨k - 1, by omega⟩
    subst hk1
    have hnext : Fl_Group.nav_next s g key i = some (i - 1) := by
      rw [nav_next_backward s g key i hkey]
      have h1 : i ≠ 0 := by omega
      rw [if_pos h1]
    exact nav_examine kids s g key previous old_x old_r k1 i (i - 1) _ hnext (by omega)
      (ih (i - 1) k1 (by omega) (by omega))

/-- Backward navigation before the wrap: from index `i` at or before `previous` the
loop walks `i-1, ..., 0` and then, without parent, `n-1, ..., previous+1`. -/
theorem nav_backward (kids : Children) (s : Heap) (g : Nat) (key : Fl_Key)
    (previous old_x old_r : Int)
    (hkey : key = Fl_Key.FL_Left ∨ key = Fl_Key.FL_Up)
    (hP0 : 0 ≤ previous) (hP : previous < (s.group g).children_) :
    ∀ (m : Nat) (i : Int) (k : Nat), (m : Int) = i → i ≤ previous →
    (m : Int) + (s.group g).children_ - previous ≤ k →
    Fl_Group.nav_loop_calls kids s g key previous old_x old_r k i =
      Fl_Group.offer_walk kids s g (decide (key = Fl_Key.FL_Down ∨ key = Fl_Key.FL_Up))
        old_x old_r (down_from (i - 1) m ++
          (if (s.widget g).parent_.isSome then []
            else down_from ((s.group g).children_ - 1)
              ((s.group g).children_ - 1 - previous).toNat)) := by
  intro m
  induction m with
  | zero =>
    intro i k hm hi hk
    obtain ⟨k1, hk1⟩ : ∃ k1, k = k1 + 1 := ⟨k - 1, by omega⟩
    subst hk1
    have h1 : ¬ (i ≠ 0) := by omega
    cases hpar : (s.widget g).parent_ with
    | some p =>
      have hnext : Fl_Group.nav_next s g key i = none := by
        rw [nav_next_backward s g key i hkey, if_neg h1, hpar]
        simp
      rw [nav_stop kids s g key previous old_x old_r k1 i (Or.inl hnext)]
      rfl
    | none =>
      have hnext : Fl_Group.nav_next s g key i = some ((s.group g).children_ - 1) := by
        rw [nav_next_backward s g key i hkey, if_neg h1, hpar]
        simp
      by_cases hz : (s.group g).children_ - 1 = previous
      · rw [hz] at hnext
        rw [nav_stop kids s g key previous old_x old_r k1 i (Or.inr hnext)]
        have hq : ((s.group g).children_ - 1 - previous).toNat = 0 := by omega
        rw [hq]
        rfl
      · obtain ⟨q, hq⟩ : ∃ q : Nat,
            ((s.group g).children_ - 1 - previous).toNat = q + 1 :=
          ⟨((s.group g).children_ - 1 - previous).toNat - 1, by omega⟩
        have hlist : down_from (i - 1) 0 ++
            (if (none : Option Nat).isSome then []
              else down_from ((s.group g).children_ - 1)
                ((s.group g).children_ - 1 - previous).toNat)
            = ((s.group g).children_ - 1) ::
                down_from ((s.group g).children_ - 1 - 1) q := by
          rw [hq]
          rfl
        rw [hlist]
        exact nav_examine kids s g key previous old_x old_r k1 i _ _ hnext hz
          (nav_backward_tail kids s g key previous old_x old_r hkey hP0 q
            ((s.group g).children_ - 1) k1 (by omega) (by omega))
  | succ m ih =>
    intro i k hm hi hk
    obtain ⟨k1, hk1⟩ : ∃ k1, k = k1 + 1 := ⟨k - 1, by omega⟩
    subst hk1
    have hnext : Fl_Group.nav_next s g key i = some (i - 1) := by
      rw [nav_next_backward s g key i hkey]
      have h1 : i ≠ 0 := by omega
      rw [if_pos h1]
    exact nav_examine kids s g key previous old_x old_r k1 i (i - 1) _ hnext (by omega)
      (ih (i - 1) k1 (by omega) (by omega) (by omega))

/-- The navigation loop, started at a valid index `previous` with a budget of at least
`children_` rounds, returns, and what it does is the walk over
`Fl_Group.nav_candidates`. -/
theorem nav_loop_calls_eq (kids : Children) (s : Heap) (g : Nat) (key : Fl_Key)
    (previous old_x old_r : Int) (k : Nat)
    (hP0 : 0 ≤ previous) (hP : previous < (s.group g).children_)
    (hk : (s.group g).children_ ≤ k) :
    Fl_Group.nav_loop_calls kids s g key previous old_x old_r k previous =
      Fl_Group.offer_walk kids s g (decide (key = Fl_Key.FL_Down ∨ key = Fl_Key.FL_Up))
        old_x old_r
        (Fl_Group.nav_candidates (s.group g).children_ previous
          (s.widget g).parent_.isSome key) := by
  have hfw : ∀ hkey : key = Fl_Key.FL_Right ∨ key = Fl_Key.FL_Down,
      Fl_Group.nav_loop_calls kids s g key previous old_x old_r k previous =
      Fl_Group.offer_walk kids s g (decide (key = Fl_Key.FL_Down ∨ key = Fl_Key.FL_Up))
        old_x old_r (up_from (previous + 1) ((s.group g).children_ - 1 - previous).toNat ++
          (if (s.widget g).parent_.isSome then [] else up_from 0 previous.toNat)) :=
    fun hkey => nav_forward kids s g key previous old_x old_r hkey hP0 hP
      ((s.group g).children_ - 1 - previous).toNat previous k (by omega) (le_refl _)
      (by omega)
  have hbw : ∀ hkey : key = Fl_Key.FL_Left ∨ key = Fl_Key.FL_Up,
      Fl_Group.nav_loop_calls kids s g key previous old_x old_r k previous =
      Fl_Group.offer_walk kids s g (decide (key = Fl_Key.FL_Down ∨ key = Fl_Key.FL_Up))
        old_x old_r (down_from (previous - 1) previous.toNat ++
          (if (s.widget g).parent_.isSome then []
            else down_from ((s.group g).children_ - 1)
              ((s.group g).children_ - 1 - previous).toNat)) :=
    fun hkey => nav_backward kids s g key previous old_x old_r hkey hP0 hP
      previous.toNat previous k (by omega) (le_refl _) (by omega)
  obtain ⟨k1, hk1⟩ : ∃ k1, k = k1 + 1 := ⟨k - 1, by omega⟩
  have hnone : Fl_Group.nav_next s g key previous = none →
      Fl_Group.nav_loop_calls kids s g key previous old_x old_r k previous = some ([], 0) := by
    intro h
    rw [hk1]
    exact nav_stop kids s g key previous old_x old_r k1 previous (Or.inl h)
  cases key with
  | zero => exact hnone rfl
  | FL_Tab => exact hnone rfl
  | FL_Left => exact hbw (Or.inl rfl)
  | FL_Up => exact hbw (Or.inr rfl)
  | FL_Right => exact hfw (Or.inl rfl)
  | FL_Down => exact hfw (Or.inr rfl)
  | other n => exact hnone rfl


theorem up_from_mem (k : Nat) : ∀ (i j : Int), j ∈ up_from i k ↔ (i ≤ j ∧ j < i + k) := by
  induction k with
  | zero => intro i j; simp [up_from]
  | succ k ih =>
    intro i j
    simp only [up_from, List.mem_cons, ih]
    push_cast
    omega

theorem down_from_mem (k : Nat) : ∀ (i j : Int), j ∈ down_from i k ↔ (i - k < j ∧ j ≤ i) := by
  induction k with
  | zero => intro i j; simp [down_from]
  | succ k ih =>
    intro i j
    simp only [down_from, List.mem_cons, ih]
    push_cast
    omega

theorem up_from_length (k : Nat) : ∀ i : Int, (up_from i k).length = k := by
  induction k with
  | zero => intro i; rfl
  | succ k ih => intro i; simp [up_from, ih]

theorem down_from_length (k : Nat) : ∀ i : Int, (down_from i k).length = k := by
  induction k with
  | zero => intro i; rfl
  | succ k ih => intro i; simp [down_from, ih]

/-- Every candidate of the navigation is a valid index other than the start index; with
a parent the walk does not wrap around. -/
theorem nav_candidates_mem (n previous : Int) (hp : Bool) (key : Fl_Key) (i : Int)
    (hP0 : 0 ≤ previous) (hP : previous < n)
    (h : i ∈ Fl_Group.nav_candidates n previous hp key) :
    0 ≤ i ∧ i < n ∧ i ≠ previous ∧
    (hp = true → (key = Fl_Key.FL_Right ∨ key = Fl_Key.FL_Down) → previous < i) ∧
    (hp = true → (key = Fl_Key.FL_Left ∨ key = Fl_Key.FL_Up) → i < previous) := by
  have hfw : i ∈ up_from (previous + 1) (n - 1 - previous).toNat ++
        (if hp = true then [] else up_from 0 previous.toNat) →
      0 ≤ i ∧ i < n ∧ i ≠ previous ∧ (hp = true → previous < i) := by
    intro h
    rcases List.mem_append.mp h with h | h
    · have := (up_from_mem _ _ _).mp h
      refine ⟨by omega, by omega, by omega, fun _ => by omega⟩
    · cases hp with
      | true => simp at h
      | false =>
        simp only [Bool.false_eq_true, if_false] at h
        have := (up_from_mem _ _ _).mp h
        refine ⟨by omega, by omega, by omega, fun hh => by cases hh⟩
  have hbw : i ∈ down_from (previous - 1) previous.toNat ++
        (if hp = true then [] else down_from (n - 1) (n - 1 - previous).toNat) →
      0 ≤ i ∧ i < n ∧ i ≠ previous ∧ (hp = true → i < previous) := by
    intro h
    rcases List.mem_append.mp h with h | h
    · have := (down_from_mem _ _ _).mp h
      refine ⟨by omega, by omega, by omega, fun _ => by omega⟩
    · cases hp with
      | true => simp at h
      | false =>
        simp only [Bool.false_eq_true, if_false] at h
        have := (down_from_mem _ _ _).mp h
        refine ⟨by omega, by omega, by omega, fun hh => by cases hh⟩
  cases key with
  | zero => cases h
  | FL_Tab => cases h
  | other n => cases h
  | FL_Right =>
    obtain ⟨a, b, c, d⟩ := hfw h
    exact ⟨a, b, c, fun h1 _ => d h1, fun _ h2 => by rcases h2 with h2 | h2 <;> cases h2⟩
  | FL_Down =>
    obtain ⟨a, b, c, d⟩ := hfw h
    exact ⟨a, b, c, fun h1 _ => d h1, fun _ h2 => by rcases h2 with h2 | h2 <;> cases h2⟩
  | FL_Left =>
    obtain ⟨a, b, c, d⟩ := hbw h
    exact ⟨a, b, c, (fun _ h2 => by rcases h2 with h2 | h2 <;> cases h2), fun h1 _ => d h1⟩
  | FL_Up =>
    obtain ⟨a, b, c, d⟩ := hbw h
    exact ⟨a, b, c, (fun _ h2 => by rcases h2 with h2 | h2 <;> cases h2), fun h1 _ => d h1⟩

/-- The navigation has at most `n - 1` candidates. -/
theorem nav_candidates_length (n previous : Int) (hp : Bool) (key : Fl_Key)
    (hP0 : 0 ≤ previous) (hP : previous < n) :
    ((Fl_Group.nav_candidates n previous hp key).length : Int) ≤ n - 1 := by
  cases key <;> cases hp <;>
    simp [Fl_Group.nav_candidates, up_from_length, down_from_length] <;> omega

/-- What a walk over a list of candidates does: either it ends with `1` at the first
candidate that is asked and says yes, or it ends with `0` after the whole list; every
candidate examined before the end was passed over (vertical navigation, no overlap) or
was asked and said no. -/
theorem offer_walk_spec (kids : Children) (s : Heap) (g : Nat) (vertical : Bool)
    (old_x old_r : Int) :
    ∀ (l : List Int) (calls : List (Int × Bool)) (r : Int),
    Fl_Group.offer_walk kids s g vertical old_x old_r l = some (calls, r) →
    (r = 1 ∧ ∃ pre i o rest, l = pre.map Prod.fst ++ i :: rest ∧
        calls = pre ++ [(i, true)] ∧ Fl_Group.child s g i = some o ∧
        kids.take_focus o = true ∧
        (vertical = true → Fl_Group.spans_overlap s old_x old_r o = true) ∧
        ∀ x ∈ pre, ∃ ox, Fl_Group.child s g x.1 = some ox ∧
          (x.2 = true → kids.take_focus ox = false) ∧
          (x.2 = false ↔ (vertical = true ∧ Fl_Group.spans_overlap s old_x old_r ox = false))) ∨
    (r = 0 ∧ calls.map Prod.fst = l ∧
        ∀ x ∈ calls, ∃ ox, Fl_Group.child s g x.1 = some ox ∧
          (x.2 = true → kids.take_focus ox = false) ∧
          (x.2 = false ↔ (vertical = true ∧ Fl_Group.spans_overlap s old_x old_r ox = false))) := by
  intro l
  induction l with
  | nil =>
    intro calls r h
    simp only [Fl_Group.offer_walk, Option.some.injEq, Prod.mk.injEq] at h
    right
    refine ⟨h.2.symm, by rw [← h.1]; rfl, ?_⟩
    intro x hx
    rw [← h.1] at hx
    cases hx
  | cons i rest ih =>
    intro calls r h
    simp only [Fl_Group.offer_walk] at h
    obtain ⟨o, ho, h⟩ := Option.bind_eq_some.mp h
    -- what the entry for candidate i says, once it is known how i was treated
    have hentry : ∀ b : Bool,
        (b = false ↔ (vertical = true ∧ Fl_Group.spans_overlap s old_x old_r o = false)) →
        (b = true → kids.take_focus o = false) →
        ∀ r1 : List (Int × Bool) × Int,
        Fl_Group.offer_walk kids s g vertical old_x old_r rest = some r1 →
        calls = (i, b) :: r1.1 → r = r1.2 →
        (r = 1 ∧ ∃ pre i2 o2 rest2, i :: rest = pre.map Prod.fst ++ i2 :: rest2 ∧
          calls = pre ++ [(i2, true)] ∧ Fl_Group.child s g i2 = some o2 ∧
          kids.take_focus o2 = true ∧
          (vertical = true → Fl_Group.spans_overlap s old_x old_r o2 = true) ∧
          ∀ x ∈ pre, ∃ ox, Fl_Group.child s g x.1 = some ox ∧
            (x.2 = true → kids.take_focus ox = false) ∧
            (x.2 = false ↔
              (vertical = true ∧ Fl_Group.spans_overlap s old_x old_r ox = false))) ∨
        (r = 0 ∧ calls.map Prod.fst = i :: rest ∧
          ∀ x ∈ calls, ∃ ox, Fl_Group.child s g x.1 = some ox ∧
            (x.2 = true → kids.take_focus ox = false) ∧
            (x.2 = false ↔
              (vertical = true ∧ Fl_Group.spans_overlap s old_x old_r ox = false))) := by
      intro b hb1 hb2 r1 hr1 hcalls hr
      rcases ih r1.1 r1.2 hr1 with ⟨e1, pre, i2, o2, rest2, hl, hc, ho2, hto2, hov2, hpre⟩ |
        ⟨e0, hc, hall⟩
      · left
        refine ⟨by rw [hr]; exact e1, (i, b) :: pre, i2, o2, rest2, by simp [hl],
          by rw [hcalls, hc]; rfl, ho2, hto2, hov2, ?_⟩
        intro x hx
        rcases List.mem_cons.mp hx with hx | hx
        · subst hx; exact ⟨o, ho, hb2, hb1⟩
        · exact hpre x hx
      · right
        refine ⟨by rw [hr]; exact e0, by rw [hcalls]; simp [hc], ?_⟩
        intro x hx
        rw [hcalls] at hx
        rcases List.mem_cons.mp hx with hx | hx
        · subst hx; exact ⟨o, ho, hb2, hb1⟩
        · exact hall x hx
    by_cases hskip : vertical = true ∧ Fl_Group.spans_overlap s old_x old_r o = false
    · rw [if_pos hskip] at h
      obtain ⟨r1, hr1, h⟩ := Option.map_eq_some'.mp h
      simp only [Prod.mk.injEq] at h
      exact hentry false ⟨fun _ => hskip, fun _ => rfl⟩ (fun hh => by cases hh) r1 hr1
        h.1.symm h.2.symm
    · rw [if_neg hskip] at h
      cases hto : kids.take_focus o with
      | true =>
        simp only [hto, if_true, Option.some.injEq, Prod.mk.injEq] at h
        left
        refine ⟨h.2.symm, [], i, o, rest, rfl, by rw [← h.1]; rfl, ho, hto, ?_, ?_⟩
        · intro hv
          cases hov : Fl_Group.spans_overlap s old_x old_r o with
          | true => rfl
          | false => exact absurd ⟨hv, hov⟩ hskip
        · intro x hx; cases hx
      | false =>
        simp only [hto, Bool.false_eq_true, if_false] at h
        obtain ⟨r1, hr1, h⟩ := Option.map_eq_some'.mp h
        simp only [Prod.mk.injEq] at h
        exact hentry true ⟨(fun hh => by cases hh), fun hh => absurd hh hskip⟩ (fun _ => hto)
          r1 hr1 h.1.symm h.2.symm

/-- A walk over candidates that are valid indices returns, and it examines at most as
many candidates as the list holds. -/
theorem offer_walk_total (kids : Children) (s : Heap) (g : Nat) (vertical : Bool)
    (old_x old_r : Int) :
    ∀ (l : List Int), (∀ i ∈ l, 0 ≤ i ∧ i < ((s.group g).array_.length : Int)) →
    ∃ calls r, Fl_Group.offer_walk kids s g vertical old_x old_r l = some (calls, r) ∧
      calls.length ≤ l.length ∧ (r = 0 ∨ r = 1) := by
  intro l
  induction l with
  | nil =>
    intro _
    exact ⟨[], 0, rfl, le_refl _, Or.inl rfl⟩
  | cons i rest ih =>
    intro hl
    obtain ⟨hi0, hi1⟩ := hl i (List.mem_cons_self _ _)
    obtain ⟨o, ho⟩ := rd_ok (s.group g).array_ i hi0 hi1
    obtain ⟨calls, r, hw, hlen, hr⟩ := ih (fun j hj => hl j (List.mem_cons_of_mem _ hj))
    have hc : Fl_Group.child s g i = some o := ho
    simp only [Fl_Group.offer_walk, hc, Option.bind, hw, Option.map]
    by_cases hskip : vertical = true ∧ Fl_Group.spans_overlap s old_x old_r o = false
    · rw [if_pos hskip]
      exact ⟨(i, false) :: calls, r, rfl, by simp; omega, hr⟩
    · rw [if_neg hskip]
      cases hto : kids.take_focus o with
      | true => exact ⟨[(i, true)], 1, by simp, by simp, Or.inr rfl⟩
      | false => exact ⟨(i, true) :: calls, r, by simp, by simp; omega, hr⟩

/-- The shortcut navigation of a group whose `focus_` is a valid index returns when its
budget is at least `children_` rounds, and what it does is the walk over
`Fl_Group.nav_candidates` from `focus_`, with the span of the child at `focus_` as the
span to overlap. -/
theorem handle_navigation_calls_eq (fuel : Nat) (kids : Children) (s : Heap) (fl : Fl)
    (g : Nat)
    (hfocus : 0 ≤ (s.group g).focus_ ∧ (s.group g).focus_ < (s.group g).children_)
    (hcap : (s.group g).children_ ≤ ((s.group g).array_.length : Int))
    (hfuel : (s.group g).children_ ≤ fuel) :
    ∃ o, Fl_Group.child s g (s.group g).focus_ = some o ∧
      Fl_Group.handle_navigation_calls fuel kids s fl g =
        Fl_Group.offer_walk kids s g
          (decide (Fl_Group.navigation_key fl = Fl_Key.FL_Down ∨
            Fl_Group.navigation_key fl = Fl_Key.FL_Up))
          (s.widget o).x_ ((s.widget o).x_ + (s.widget o).w_)
          (Fl_Group.nav_candidates (s.group g).children_ (s.group g).focus_
            (s.widget g).parent_.isSome (Fl_Group.navigation_key fl)) := by
  obtain ⟨o, ho⟩ := rd_ok (s.group g).array_ (s.group g).focus_ hfocus.1 (by omega)
  have hc : Fl_Group.child s g (s.group g).focus_ = some o := ho
  refine ⟨o, hc, ?_⟩
  unfold Fl_Group.handle_navigation_calls
  simp only
  by_cases hz : Fl_Group.navigation_key fl = Fl_Key.zero
  · rw [if_pos hz, hz]
    rfl
  · rw [if_neg hz, hc]
    simp only [Option.bind]
    exact nav_loop_calls_eq kids s g _ _ _ _ fuel hfocus.1 hfocus.2 hfuel

/-- Shortcut navigation from a valid start index.  For an `FL_SHORTCUT` that no child
used (the default dispatch ends with `0`), in a group that is not the focus widget but
contains it, whose `focus_` is a valid index: `handle()` returns, with the heap unchanged, the result of
a walk over the candidates `Fl_Group.nav_candidates`: from `focus_` in steps of `+1`
for Right and Down (and Tab without Ctrl), of `-1` for Left and Up (and Shift-Tab), up to
the end of the children, and wrapping around to the remaining indices only when the group has
no parent.  For Up and Down a candidate is asked only when its span overlaps the span
of the child at `focus_`; `handle()` returns `1` at the first candidate that is asked
and accepts, and `0` when the candidates are used up.  Every candidate is a valid index
other than `focus_`, so the originally focused child is never asked. -/
theorem shortcut_navigation_walk (fuel : Nat) (kids : Children) (s : Heap) (fl fl1 : Fl)
    (g : Nat)
    (hfocus : 0 ≤ (s.group g).focus_ ∧ (s.group g).focus_ < (s.group g).children_)
    (hcap : (s.group g).children_ ≤ ((s.group g).array_.length : Int))
    (hfuel : (s.group g).children_ ≤ fuel)
    (hdisp : Fl_Group.handle_dispatch fuel kids s fl g Fl_Event.FL_SHORTCUT = some (fl1, 0))
    (hnf : fl1.focus_ ≠ some g)
    (hin : Fl_Widget.contains s g fuel fl1.focus_ = some true) :
    ∃ o calls r, Fl_Group.child s g (s.group g).focus_ = some o ∧
      Fl_Group.handle fuel kids s fl g Fl_Event.FL_SHORTCUT = some (s, fl1, r) ∧
      Fl_Group.handle_navigation_calls fuel kids s fl1 g = some (calls, r) ∧
      Fl_Group.offer_walk kids s g
          (decide (Fl_Group.navigation_key fl1 = Fl_Key.FL_Down ∨
            Fl_Group.navigation_key fl1 = Fl_Key.FL_Up))
          (s.widget o).x_ ((s.widget o).x_ + (s.widget o).w_)
          (Fl_Group.nav_candidates (s.group g).children_ (s.group g).focus_
            (s.widget g).parent_.isSome (Fl_Group.navigation_key fl1)) = some (calls, r) ∧
      ((r = 1 ∧ ∃ pre i oi rest,
          Fl_Group.nav_candidates (s.group g).children_ (s.group g).focus_
            (s.widget g).parent_.isSome (Fl_Group.navigation_key fl1)
            = pre.map Prod.fst ++ i :: rest ∧
          calls = pre ++ [(i, true)] ∧ Fl_Group.child s g i = some oi ∧
          kids.take_focus oi = true ∧
          ((Fl_Group.navigation_key fl1 = Fl_Key.FL_Down ∨
              Fl_Group.navigation_key fl1 = Fl_Key.FL_Up) →
            Fl_Group.spans_overlap s (s.widget o).x_ ((s.widget o).x_ + (s.widget o).w_) oi
              = true) ∧
          ∀ x ∈ pre, ∃ ox, Fl_Group.child s g x.1 = some ox ∧
            (x.2 = true → kids.take_focus ox = false) ∧
            (x.2 = false ↔
              ((Fl_Group.navigation_key fl1 = Fl_Key.FL_Down ∨
                  Fl_Group.navigation_key fl1 = Fl_Key.FL_Up) ∧
                Fl_Group.spans_overlap s (s.widget o).x_
                  ((s.widget o).x_ + (s.widget o).w_) ox = false))) ∨
       (r = 0 ∧
          calls.map Prod.fst =
            Fl_Group.nav_candidates (s.group g).children_ (s.group g).focus_
              (s.widget g).parent_.isSome (Fl_Group.navigation_key fl1) ∧
          ∀ x ∈ calls, ∃ ox, Fl_Group.child s g x.1 = some ox ∧
            (x.2 = true → kids.take_focus ox = false) ∧
            (x.2 = false ↔
              ((Fl_Group.navigation_key fl1 = Fl_Key.FL_Down ∨
                  Fl_Group.navigation_key fl1 = Fl_Key.FL_Up) ∧
                Fl_Group.spans_overlap s (s.widget o).x_
                  ((s.widget o).x_ + (s.widget o).w_) ox = false)))) ∧
      (∀ i ∈ Fl_Group.nav_candidates (s.group g).children_ (s.group g).focus_
            (s.widget g).parent_.isSome (Fl_Group.navigation_key fl1),
        0 ≤ i ∧ i < (s.group g).children_ ∧ i ≠ (s.group g).focus_ ∧
        ((s.widget g).parent_ ≠ none →
          (Fl_Group.navigation_key fl1 = Fl_Key.FL_Right ∨
            Fl_Group.navigation_key fl1 = Fl_Key.FL_Down) → (s.group g).focus_ < i) ∧
        ((s.widget g).parent_ ≠ none →
          (Fl_Group.navigation_key fl1 = Fl_Key.FL_Left ∨
            Fl_Group.navigation_key fl1 = Fl_Key.FL_Up) → i < (s.group g).focus_)) ∧
      (∀ (x0 r0 : Int) (w : Nat), Fl_Group.spans_overlap s x0 r0 w = true ↔
        ((s.widget w).x_ < r0 ∧ x0 < (s.widget w).x_ + (s.widget w).w_)) ∧
      (fl1.e_keysym = Fl_Key.FL_Tab → fl1.ctrl = false →
        Fl_Group.navigation_key fl1 =
          (if fl1.shift then Fl_Key.FL_Left else Fl_Key.FL_Right)) := by
  obtain ⟨o, ho, heq⟩ := handle_navigation_calls_eq fuel kids s fl1 g hfocus hcap hfuel
  obtain ⟨calls, r, hw, _, _⟩ := offer_walk_total kids s g
    (decide (Fl_Group.navigation_key fl1 = Fl_Key.FL_Down ∨
      Fl_Group.navigation_key fl1 = Fl_Key.FL_Up))
    (s.widget o).x_ ((s.widget o).x_ + (s.widget o).w_)
    (Fl_Group.nav_candidates (s.group g).children_ (s.group g).focus_
      (s.widget g).parent_.isSome (Fl_Group.navigation_key fl1))
    (fun i hi => by
      have := nav_candidates_mem _ _ _ _ i hfocus.1 hfocus.2 hi
      omega)
  rw [hw] at heq
  have hnav : Fl_Group.handle_navigation fuel kids s fl1 g = some r := by
    rw [← handle_navigation_calls_result, heq]
    rfl
  have hspec := offer_walk_spec kids s g _ _ _ _ calls r hw
  simp only [decide_eq_true_eq] at hspec
  refine ⟨o, calls, r, ho, ?_, heq, hw, hspec, ?_, ?_, ?_⟩
  · have hsc : Fl_Group.handle_shortcut fuel kids s fl1 g Fl_Event.FL_SHORTCUT
        = some (fl1, r) := by
      unfold Fl_Group.handle_shortcut
      have hcond : Fl_Event.FL_SHORTCUT = Fl_Event.FL_SHORTCUT ∧ ¬ (fl1.focus_ = some g) :=
        ⟨rfl, hnf⟩
      rw [if_pos hcond, hin]
      simp [hnav]
    simp [Fl_Group.handle, Fl_Group.handle_rest, hdisp, hsc]
  · intro i hi
    obtain ⟨a, b, c, d, e⟩ := nav_candidates_mem _ _ _ _ i hfocus.1 hfocus.2 hi
    refine ⟨a, b, c, ?_, ?_⟩
    · intro hpar hk
      apply d _ hk
      cases hp : (s.widget g).parent_ with
      | none => exact absurd hp hpar
      | some p => rfl
    · intro hpar hk
      apply e _ hk
      cases hp : (s.widget g).parent_ with
      | none => exact absurd hp hpar
      | some p => rfl
  · intro x0 r0 w
    simp [Fl_Group.spans_overlap]
  · intro h1 h2
    simp [Fl_Group.navigation_key, h1, h2]

/-- An instance of `shortcut_navigation_walk`: the group of three children with
`focus_ = 1`, widget `3` (child `1`) holding the focus, key Right, all children accepting the focus: the candidate
asked is child `2`, and `handle()` returns `1`. -/
theorem shortcut_navigation_walk_witness :
    ((0 ≤ (three_children_focus_1.group 1).focus_ ∧
        (three_children_focus_1.group 1).focus_ < (three_children_focus_1.group 1).children_) ∧
      Fl_Group.handle_dispatch 5 eager_children three_children_focus_1
        (focus_on_3 Fl_Key.FL_Right) 1 Fl_Event.FL_SHORTCUT
        = some (focus_on_3 Fl_Key.FL_Right, 0) ∧
      Fl_Widget.contains three_children_focus_1 1 5 (focus_on_3 Fl_Key.FL_Right).focus_
        = some true) ∧
    Fl_Group.handle_navigation_calls 5 eager_children three_children_focus_1
      (focus_on_3 Fl_Key.FL_Right) 1 = some ([(2, true)], 1) ∧
    Fl_Group.handle_navigation_calls 5 quiet_children three_children_focus_1
      (focus_on_3 Fl_Key.FL_Right) 1 = some ([(2, true), (0, true)], 0) ∧
    ∃ o calls r, Fl_Group.child three_children_focus_1 1
        (three_children_focus_1.group 1).focus_ = some o ∧
      Fl_Group.handle 5 eager_children three_children_focus_1 (focus_on_3 Fl_Key.FL_Right) 1
        Fl_Event.FL_SHORTCUT = some (three_children_focus_1, focus_on_3 Fl_Key.FL_Right, r) ∧
      Fl_Group.handle_navigation_calls 5 eager_children three_children_focus_1
        (focus_on_3 Fl_Key.FL_Right) 1 = some (calls, r) :=
  ⟨⟨⟨by decide, by decide⟩, rfl, rfl⟩, rfl, rfl,
    match shortcut_navigation_walk 5 eager_children three_children_focus_1
      (focus_on_3 Fl_Key.FL_Right) (focus_on_3 Fl_Key.FL_Right) 1 ⟨by decide, by decide⟩
      (by decide) (by decide) rfl (by decide) rfl with
    | ⟨o, calls, r, h1, h2, h3, _⟩ => ⟨o, calls, r, h1, h2, h3⟩⟩

/-- From a start index beyond the child count, the walk to the right over children that
decline the focus never comes back to the start index: in group `1` of
`stale_focus_run` (two children, no parent, `previous = 2`) no budget of rounds lets
the navigation loop return. -/
theorem nav_loop_stale (x r : Int) (k : Nat) : ∀ i : Int, (i = 0 ∨ i = 1 ∨ i = 2) →
    Fl_Group.nav_loop quiet_children stale_focus_run 1 Fl_Key.FL_Right 2 x r k i = none := by
  induction k with
  | zero => intro i _; rfl
  | succ k ih =>
    intro i hi
    rcases hi with h | h | h
    · subst h
      exact ih 1 (Or.inr (Or.inl rfl))
    · subst h
      exact ih 0 (Or.inl rfl)
    · subst h
      exact ih 0 (Or.inl rfl)

/-- C23: the code at a failing input.  The heap `stale_focus_run` is reached from fresh
groups by three `add` calls, `handle(FL_FOCUS)` with the last child (widget `4`) holding
the focus, and `remove(0)`: group `1` has the two children `3`, `4`, no parent, and
`focus_` still is `2`.  Widget `4`, which the group contains, holds the focus and the
key Right is pressed; no child uses the `FL_SHORTCUT` (the default dispatch, which
range-checks `focus_`, ends with `0`).  The navigation starts from `focus_ = 2` unchecked,
the walk `0, 1, 0, 1, ...` never meets the start index, and with children that decline
the focus `handle()` returns for no fuel at all: the call does not terminate. -/
theorem shortcut_navigation_stale_focus_hangs :
    stale_focus_run.reachable ∧
    (Fl_Group.remove run_4 1 0 = some stale_focus_run ∧
      (stale_focus_run.group 1).children_ = 2 ∧ (stale_focus_run.group 1).focus_ = 2 ∧
      Fl_Group.child stale_focus_run 1 0 = some 3 ∧
      Fl_Group.child stale_focus_run 1 1 = some 4 ∧
      (stale_focus_run.widget 1).parent_ = none) ∧
    (right_key_focus_on_4.focus_ = some 4 ∧
      Fl_Widget.contains stale_focus_run 1 2 right_key_focus_on_4.focus_ = some true ∧
      Fl_Group.navigation_key right_key_focus_on_4 = Fl_Key.FL_Right) ∧
    (∀ fuel, Fl_Group.handle_dispatch fuel quiet_children stale_focus_run
      right_key_focus_on_4 1 Fl_Event.FL_SHORTCUT = some (right_key_focus_on_4, 0)) ∧
    (∀ fuel, Fl_Group.handle fuel quiet_children stale_focus_run right_key_focus_on_4 1
      Fl_Event.FL_SHORTCUT = none) := by
  refine ⟨?_, ⟨rfl, rfl, rfl, rfl, rfl, rfl⟩, ⟨rfl, rfl, rfl⟩, fun _ => rfl, ?_⟩
  · exact Heap.reachable.next run_4 stale_focus_run
      (Heap.reachable.next run_3 run_4 run_3_reachable
        (Fl_Group.step.handle 2 quiet_children run_3 run_4 focus_on_4 focus_on_4 1
          Fl_Event.FL_FOCUS 1 rfl))
      (Fl_Group.step.remove run_4 stale_focus_run 1 0 rfl)
  · intro fuel
    have hnav : Fl_Group.handle_navigation fuel quiet_children stale_focus_run
        right_key_focus_on_4 1 = none :=
      nav_loop_stale 0 0 fuel 2 (Or.inr (Or.inr rfl))
    have hd : Fl_Group.handle_dispatch fuel quiet_children stale_focus_run
        right_key_focus_on_4 1 Fl_Event.FL_SHORTCUT = some (right_key_focus_on_4, 0) := rfl
    have hs : Fl_Group.handle_shortcut fuel quiet_children stale_focus_run
        right_key_focus_on_4 1 Fl_Event.FL_SHORTCUT = none := by
      unfold Fl_Group.handle_shortcut
      rw [hnav]
      rw [if_pos ⟨rfl, by decide⟩]
      have hc : Fl_Widget.contains stale_focus_run 1 fuel right_key_focus_on_4.focus_ = none ∨
          Fl_Widget.contains stale_focus_run 1 fuel right_key_focus_on_4.focus_
            = some true := by
        match fuel with
        | 0 => exact Or.inl rfl
        | 1 => exact Or.inl rfl
        | _ + 2 => exact Or.inr rfl
      rcases hc with hc | hc <;> rw [hc] <;> rfl
    simp [Fl_Group.handle, Fl_Group.handle_rest, hd, hs]

/-- C30: the shortcut navigation terminates.  For every group with `focus_` a valid
index (so with at least one child), with or without a parent, for every key and
modifier state, every pattern of `take_focus()` answers and all geometries, the
navigation returns within `children_` rounds of its loop (every budget of at least
`children_` rounds gives the same result), having examined at most `children_ - 1`
candidates. -/
theorem shortcut_navigation_terminates (fuel : Nat) (kids : Children) (s : Heap) (fl : Fl)
    (g : Nat)
    (hfocus : 0 ≤ (s.group g).focus_ ∧ (s.group g).focus_ < (s.group g).children_)
    (hcap : (s.group g).children_ ≤ ((s.group g).array_.length : Int))
    (hfuel : (s.group g).children_ ≤ fuel) :
    ∃ calls r, Fl_Group.handle_navigation_calls fuel kids s fl g = some (calls, r) ∧
      Fl_Group.handle_navigation fuel kids s fl g = some r ∧
      Fl_Group.handle_navigation (s.group g).children_.toNat kids s fl g = some r ∧
      Fl_Group.handle_navigation_calls (s.group g).children_.toNat kids s fl g
        = some (calls, r) ∧
      (calls.length : Int) ≤ (s.group g).children_ - 1 ∧ (r = 0 ∨ r = 1) := by
  obtain ⟨o, ho, heq⟩ := handle_navigation_calls_eq fuel kids s fl g hfocus hcap hfuel
  obtain ⟨o2, ho2, heq2⟩ := handle_navigation_calls_eq (s.group g).children_.toNat kids s fl g
    hfocus hcap (by omega)
  rw [ho] at ho2
  cases ho2
  obtain ⟨calls, r, hw, hlen, hr⟩ := offer_walk_total kids s g
    (decide (Fl_Group.navigation_key fl = Fl_Key.FL_Down ∨
      Fl_Group.navigation_key fl = Fl_Key.FL_Up))
    (s.widget o).x_ ((s.widget o).x_ + (s.widget o).w_)
    (Fl_Group.nav_candidates (s.group g).children_ (s.group g).focus_
      (s.widget g).parent_.isSome (Fl_Group.navigation_key fl))
    (fun i hi => by
      have := nav_candidates_mem _ _ _ _ i hfocus.1 hfocus.2 hi
      omega)
  rw [hw] at heq heq2
  have hcl := nav_candidates_length (s.group g).children_ (s.group g).focus_
    (s.widget g).parent_.isSome (Fl_Group.navigation_key fl) hfocus.1 hfocus.2
  refine ⟨calls, r, heq, ?_, ?_, heq2, by omega, hr⟩
  · rw [← handle_navigation_calls_result, heq]
    rfl
  · rw [← handle_navigation_calls_result, heq2]
    rfl

/-- Witness for C30: the group of three children with `focus_ = 1`, no parent, key Left,
all children declining: the navigation examines the two candidates `0` and `2` and
returns `0`. -/
theorem shortcut_navigation_terminates_witness :
    (0 ≤ (three_children_focus_1.group 1).focus_ ∧
      (three_children_focus_1.group 1).focus_ < (three_children_focus_1.group 1).children_) ∧
    Fl_Group.handle_navigation_calls 3 quiet_children three_children_focus_1
      (focus_on_3 Fl_Key.FL_Left) 1 = some ([(0, true), (2, true)], 0) ∧
    ∃ calls r, Fl_Group.handle_navigation_calls 3 quiet_children three_children_focus_1
        (focus_on_3 Fl_Key.FL_Left) 1 = some (calls, r) ∧
      (calls.length : Int) ≤ (three_children_focus_1.group 1).children_ - 1 :=
  ⟨⟨by decide, by decide⟩, rfl,
    match shortcut_navigation_terminates 3 quiet_children three_children_focus_1
      (focus_on_3 Fl_Key.FL_Left) 1 ⟨by decide, by decide⟩ (by decide) (by decide) with
    | ⟨calls, r, h1, _, _, _, h2, _⟩ => ⟨calls, r, h1, h2⟩⟩


/-! ## layout: the snapshot in place decides -/

theorem set_old_size_fields (s : Heap) (g : Nat) :
    ((Fl_Group.set_old_size s g).group g).sizes_ = (s.group g).sizes_ ∧
    ((Fl_Group.set_old_size s g).group g).children_ = (s.group g).children_ ∧
    ((Fl_Group.set_old_size s g).group g).array_ = (s.group g).array_ ∧
    ((Fl_Group.set_old_size s g).group g).resizable_ = (s.group g).resizable_ ∧
    ((Fl_Group.set_old_size s g).group g).ow_ = (s.widget g).w_ ∧
    ((Fl_Group.set_old_size s g).group g).oh_ = (s.widget g).h_ ∧
    (Fl_Group.set_old_size s g).widget = s.widget := by
  simp [Fl_Group.set_old_size]

/-- The call `remove(index)` leaves `focus_` of every group as it was. -/
theorem remove_keeps_focus (s s1 : Heap) (g : Nat) (index : Int)
    (h : Fl_Group.remove s g index = some s1) (g2 : Nat) :
    (s1.group g2).focus_ = (s.group g2).focus_ := by
  unfold Fl_Group.remove at h
  split at h
  · cases h; rfl
  · obtain ⟨o, _, h⟩ := Option.bind_eq_some.mp h
    obtain ⟨a, _, h⟩ := Option.bind_eq_some.mp h
    cases h
    by_cases hg : g2 = g
    · subst hg
      simp [Fl_Group.init_sizes, Fl_Group.set_old_size, Fl_Widget.relayout, Heap.set_group,
        Heap.set_parent]
    · simp [Fl_Group.init_sizes, Fl_Group.set_old_size, Fl_Widget.relayout, Heap.set_group,
        Heap.set_parent, hg]

theorem set_parent_parent (s : Heap) (o : Nat) (p : Option Nat) (a : Nat) :
    ((s.set_parent o p).widget a).parent_ = if a = o then p else (s.widget a).parent_ := by
  by_cases h : a = o
  · subst h; simp [Heap.set_parent]
  · rw [set_parent_other _ _ _ _ h, if_neg h]

/-- The bookkeeping depends on the parent references, the child arrays and the child
counts only. -/
theorem listed_frame (s s1 : Heap) (h : s.listed)
    (hw : ∀ a, (s1.widget a).parent_ = (s.widget a).parent_)
    (hg : ∀ g, (s1.group g).array_ = (s.group g).array_ ∧
      (s1.group g).children_ = (s.group g).children_) : s1.listed := by
  constructor
  · intro g
    unfold Fl_Group.cap_ok
    rw [(hg g).1, (hg g).2]
    exact h.1 g
  · intro a g ha
    rw [hw a] at ha
    obtain ⟨j, h0, h1, h2⟩ := h.2 a g ha
    refine ⟨j, h0, by rw [(hg g).2]; exact h1, ?_⟩
    unfold Fl_Group.child
    rw [(hg g).1]
    exact h2

theorem listed_remove (s s1 : Heap) (g : Nat) (n : Int) (hJ : s.listed) (hn : 0 ≤ n)
    (h : Fl_Group.remove s g n = some s1) : s1.listed := by
  obtain ⟨s1', h1, hcap, hother, hnoop, _⟩ := remove_total_cap_ok s g n hJ.1 hn
  rw [h] at h1
  cases h1
  by_cases hlt : n < (s.group g).children_
  · refine ⟨hcap, ?_⟩
    obtain ⟨s2, o, h2, ho, hcnt, _, hlow, hhigh, _⟩ :=
      remove_effect s g n (hJ.1 g).2.1 hn hlt
    rw [h] at h2
    cases h2
    obtain ⟨o', a', ho', _, hform⟩ := remove_in_range s g n (hJ.1 g).2.1 hn hlt
    rw [h] at hform
    have ho2 : o' = o := by
      have : Fl_Group.child s g n = some o' := ho'
      rw [ho] at this
      cases this
      rfl
    subst ho2
    have hwid : ∀ a, (s1.widget a).parent_ = if a = o' then none else (s.widget a).parent_ := by
      intro a
      cases hform
      exact set_parent_parent s o' none a
    intro a g2 ha
    rw [hwid a] at ha
    by_cases hao : a = o'
    · rw [if_pos hao] at ha
      cases ha
    · rw [if_neg hao] at ha
      obtain ⟨j, j0, j1, j2⟩ := hJ.2 a g2 ha
      by_cases hg2 : g2 = g
      · subst hg2
        have hjn : j ≠ n := by
          intro he
          subst he
          rw [ho] at j2
          cases j2
          exact hao rfl
        by_cases hjl : j < n
        · refine ⟨j, j0, by rw [hcnt]; omega, ?_⟩
          rw [hlow j j0 hjl]
          exact j2
        · refine ⟨j - 1, by omega, by rw [hcnt]; omega, ?_⟩
          rw [hhigh j (by omega) j1]
          exact j2
      · refine ⟨j, j0, ?_, ?_⟩
        · rw [hother g2 hg2]; exact j1
        · unfold Fl_Group.child
          rw [hother g2 hg2]
          exact j2
  · rw [hnoop (by omega)]
    exact hJ

theorem listed_insert_attach (s s1 : Heap) (g o : Nat) (index : Int) (hJ : s.listed)
    (h0 : 0 ≤ index) (h1 : index ≤ (s.group g).children_)
    (h : Fl_Group.insert_attach s g o index = some s1) : s1.listed := by
  obtain ⟨s1', h2, hcap⟩ := insert_attach_cap_ok s g o index hJ.1 h0 h1
  rw [h] at h2
  cases h2
  refine ⟨hcap, ?_⟩
  obtain ⟨a, ha, _, _, hat, hlow, hhigh⟩ := insert_place_spec (s.group g) o index (hJ.1 g) h0 h1
  have hform := insert_attach_eq s g o index a ha
  rw [h] at hform
  cases hform
  intro w g2 hw
  have hw2 : (if w = o then some g else (s.widget w).parent_) = some g2 := by
    rw [← set_parent_parent s o (some g) w]
    exact hw
  by_cases hg2 : g2 = g
  · subst hg2
    have hgrp : ∀ j, Fl_Group.child (Fl_Group.init_sizes ((s.set_parent o (some g2)).set_group g2
        { s.group g2 with array_ := a, children_ := (s.group g2).children_ + 1 }) g2) g2 j
        = rd a j := by
      intro j
      unfold Fl_Group.child
      rw [init_sizes_group_self]
      simp
    have hcnt : ((Fl_Group.init_sizes ((s.set_parent o (some g2)).set_group g2
        { s.group g2 with array_ := a, children_ := (s.group g2).children_ + 1 }) g2).group
          g2).children_ = (s.group g2).children_ + 1 := by
      rw [init_sizes_group_self]
      simp
    by_cases hwo : w = o
    · subst hwo
      exact ⟨index, h0, by rw [hcnt]; omega, by rw [hgrp]; exact hat⟩
    · rw [if_neg hwo] at hw2
      obtain ⟨j, j0, j1, j2⟩ := hJ.2 w g2 hw2
      by_cases hjl : j < index
      · refine ⟨j, j0, by rw [hcnt]; omega, ?_⟩
        rw [hgrp, hlow j j0 hjl]
        exact j2
      · refine ⟨j + 1, by omega, by rw [hcnt]; omega, ?_⟩
        rw [hgrp, hhigh j (by omega) j1]
        exact j2
  · have hwo : w ≠ o := by
      intro he
      subst he
      rw [if_pos rfl] at hw2
      cases hw2
      exact hg2 rfl
    rw [if_neg hwo] at hw2
    obtain ⟨j, j0, j1, j2⟩ := hJ.2 w g2 hw2
    have hgg : (Fl_Group.init_sizes ((s.set_parent o (some g)).set_group g
        { s.group g with array_ := a, children_ := (s.group g).children_ + 1 }) g).group g2
        = s.group g2 := by
      rw [init_sizes_group_other _ _ _ hg2, set_group_other _ _ _ _ hg2]
      rfl
    refine ⟨j, j0, by rw [hgg]; exact j1, ?_⟩
    unfold Fl_Group.child
    rw [hgg]
    exact j2

theorem listed_insert (fuel : Nat) (s s1 : Heap) (g o : Nat) (index : Int) (hJ : s.listed)
    (h0 : 0 ≤ index) (h1 : index ≤ (s.group g).children_)
    (h : Fl_Group.insert fuel s g o index = some s1) : s1.listed := by
  cases hp : (s.widget o).parent_ with
  | none =>
    simp only [Fl_Group.insert, hp] at h
    exact listed_insert_attach s s1 g o index hJ h0 h1 h
  | some p =>
    simp only [Fl_Group.insert, hp] at h
    obtain ⟨n, hfind, h⟩ := Option.bind_eq_some.mp h
    have hn0 := find_range fuel s p (some o) n hfind (hJ.1 p).1
    by_cases hsame : p = g ∧ (if p = g ∧ index > n then index - 1 else index) = n
    · rw [if_pos hsame] at h
      cases h
      exact hJ
    · rw [if_neg hsame] at h
      obtain ⟨s0, hrem, h⟩ := Option.bind_eq_some.mp h
      obtain ⟨s0', hrem', _, hother, hnoop, hcnt⟩ := remove_total_cap_ok s p n hJ.1 hn0.1
      rw [hrem] at hrem'
      cases hrem'
      apply listed_insert_attach s0 s1 g o _ (listed_remove s s0 p n hJ hn0.1 hrem) _ _ h
      · split
        · omega
        · exact h0
      · by_cases hpg : p = g
        · subst hpg
          by_cases hlt : n < (s.group p).children_
          · rw [hcnt hlt]
            by_cases hin : index > n
            · simp only [hin, and_self, if_true]
              omega
            · simp only [hin, and_false, if_false]
              have : index ≠ n := by
                intro he
                apply hsame
                simp [hin, he]
              omega
          · rw [hnoop (by omega)]
            have hin : ¬ (index > n) := by omega
            simp only [hin, and_false, if_false]
            exact h1
        · rw [hother g (fun he => hpg he.symm)]
          simp only [hpg, false_and, if_false]
          exact h1

theorem listed_replace (fuel : Nat) (s s1 : Heap) (g : Nat) (index : Int) (o : Nat)
    (hJ : s.listed) (h0 : 0 ≤ index)
    (h : Fl_Group.replace fuel s g index o = some s1) : s1.listed := by
  unfold Fl_Group.replace at h
  split at h
  · exact listed_insert fuel s s1 g o _ hJ (hJ.1 g).1 (le_refl _) h
  · rename_i hlt
    obtain ⟨old, hold, h⟩ := Option.bind_eq_some.mp h
    obtain ⟨a, ha, h⟩ := Option.bind_eq_some.mp h
    cases h
    have hold2 : rd (s.group g).array_ index = some old := hold
    have ha2 : wr (s.group g).array_ index o = some a := ha
    have hlen := wr_length ha2
    have hrd := rd_wr ha2
    have hwid : ∀ w, ((Fl_Group.init_sizes (((s.set_parent o (some g)).set_parent old none).set_group g
        { ((s.set_parent o (some g)).set_parent old none).group g with array_ := a }) g).widget
          w).parent_ = if w = old then none else if w = o then some g else (s.widget w).parent_ := by
      intro w
      show ((((s.set_parent o (some g)).set_parent old none)).widget w).parent_ = _
      rw [set_parent_parent, set_parent_parent]
    have hcnt : ((Fl_Group.init_sizes (((s.set_parent o (some g)).set_parent old none).set_group g
        { ((s.set_parent o (some g)).set_parent old none).group g with array_ := a }) g).group
          g).children_ = (s.group g).children_ := by
      rw [init_sizes_group_self]
      simp [Heap.set_parent]
    have harr : ((Fl_Group.init_sizes (((s.set_parent o (some g)).set_parent old none).set_group g
        { ((s.set_parent o (some g)).set_parent old none).group g with array_ := a }) g).group
          g).array_ = a := by
      rw [init_sizes_group_self]
      simp
    have hoth : ∀ g2, g2 ≠ g →
        (Fl_Group.init_sizes (((s.set_parent o (some g)).set_parent old none).set_group g
        { ((s.set_parent o (some g)).set_parent old none).group g with array_ := a }) g).group g2
        = s.group g2 := by
      intro g2 hg2
      rw [init_sizes_group_other _ _ _ hg2, set_group_other _ _ _ _ hg2]
      rfl
    constructor
    · intro g2
      by_cases hg2 : g2 = g
      · subst hg2
        obtain ⟨c1, c2, c3⟩ := hJ.1 g2
        unfold Fl_Group.cap_ok
        rw [hcnt, harr, hlen]
        exact ⟨c1, c2, c3⟩
      · rw [hoth g2 hg2]
        exact hJ.1 g2
    · intro w g2 hw
      rw [hwid w] at hw
      by_cases hwold : w = old
      · rw [if_pos hwold] at hw
        cases hw
      · rw [if_neg hwold] at hw
        by_cases hg2 : g2 = g
        · subst hg2
          by_cases hwo : w = o
          · subst hwo
            refine ⟨index, h0, by rw [hcnt]; omega, ?_⟩
            unfold Fl_Group.child
            rw [harr, hrd index]
            simp
          · rw [if_neg hwo] at hw
            obtain ⟨j, j0, j1, j2⟩ := hJ.2 w g2 hw
            have hji : j ≠ index := by
              intro he
              subst he
              have : Fl_Group.child s g2 j = some old := hold2
              rw [j2] at this
              cases this
              exact hwold rfl
            refine ⟨j, j0, by rw [hcnt]; exact j1, ?_⟩
            unfold Fl_Group.child
            rw [harr, hrd j, if_neg hji]
            exact j2
        · have hwo : w ≠ o := by
            intro he
            subst he
            rw [if_pos rfl] at hw
            cases hw
            exact hg2 rfl
          rw [if_neg hwo] at hw
          obtain ⟨j, j0, j1, j2⟩ := hJ.2 w g2 hw
          refine ⟨j, j0, by rw [hoth g2 hg2]; exact j1, ?_⟩
          unfold Fl_Group.child
          rw [hoth g2 hg2]
          exact j2

theorem clear_loop_parent (a : List Nat) (k : Nat) : ∀ (e : Int) (s : Heap)
    (seen : List (Nat × Heap)) (r : Heap × List (Nat × Heap)),
    Fl_Group.clear_loop a k e s seen = some r → (k : Int) = e →
    (∀ w, (r.1.widget w).parent_ = (s.widget w).parent_ ∨ (r.1.widget w).parent_ = none) ∧
    (∀ j c, 0 ≤ j → j < e → rd a j = some c → (r.1.widget c).parent_ = none) := by
  induction k with
  | zero =>
    intro e s seen r h hk
    simp only [Fl_Group.clear_loop] at h
    split at h
    · cases h
    · cases h
      exact ⟨fun _ => Or.inl rfl, fun j c h0 h1 => by omega⟩
  | succ k ih =>
    intro e s seen r h hk
    simp only [Fl_Group.clear_loop] at h
    split at h
    · obtain ⟨o, ho, h⟩ := Option.bind_eq_some.mp h
      obtain ⟨i1, i2⟩ := ih (e - 1) (s.set_parent o none) _ r h (by omega)
      have hset := set_parent_parent s o none
      constructor
      · intro w
        rcases i1 w with hw | hw
        · rw [hw, hset w]
          by_cases hwo : w = o
          · rw [if_pos hwo]; exact Or.inr rfl
          · rw [if_neg hwo]; exact Or.inl rfl
        · exact Or.inr hw
      · intro j c h0 h1 hc
        by_cases hj : j = e - 1
        · subst hj
          have hco : o = c := Option.some.inj (ho.symm.trans hc)
          subst hco
          rcases i1 o with hw | hw
          · rw [hw, hset o, if_pos rfl]
          · exact hw
        · exact i2 j c h0 (by omega) hc
    · omega

theorem clear_reset_widget (s : Heap) (g : Nat) : (Fl_Group.clear_reset s g).widget = s.widget := by
  unfold Fl_Group.clear_reset
  simp only
  split <;> rfl

theorem listed_init_sizes (s : Heap) (g : Nat) (hJ : s.listed) :
    (Fl_Group.init_sizes s g).listed := by
  refine listed_frame s (Fl_Group.init_sizes s g) hJ (fun _ => rfl) ?_
  intro g2
  by_cases hg : g2 = g
  · subst hg
    rw [init_sizes_group_self]
    exact ⟨rfl, rfl⟩
  · rw [init_sizes_group_other _ _ _ hg]
    exact ⟨rfl, rfl⟩

theorem listed_clear (s s1 : Heap) (g : Nat) (hJ : s.listed)
    (h : Fl_Group.clear s g = some s1) : s1.listed := by
  obtain ⟨r, hr2, hr3⟩ := Option.map_eq_some'.mp h
  subst hr3
  simp only [Fl_Group.clear_trace] at hr2
  split at hr2
  · obtain ⟨r1, hloop, hr4⟩ := Option.bind_eq_some.mp hr2
    cases hr4
    have hg := clear_loop_group _ _ _ _ _ _ hloop
    have hcnt0 : ((Fl_Group.init_sizes s g).group g).children_ = (s.group g).children_ := by
      rw [init_sizes_group_self]
    have harr0 : ((Fl_Group.init_sizes s g).group g).array_ = (s.group g).array_ := by
      rw [init_sizes_group_self]
    obtain ⟨p1, p2⟩ := clear_loop_parent _ _ _ _ _ _ hloop
      (by rw [hcnt0]; have := (hJ.1 g).1; omega)
    obtain ⟨c1, _, _⟩ := clear_reset_group_self (Fl_Group.init_sizes s g) g
    have hoth : ∀ g2, g2 ≠ g → r1.1.group g2 = s.group g2 := by
      intro g2 hg2
      rw [hg, clear_reset_group_other _ _ _ hg2, init_sizes_group_other _ _ _ hg2]
    constructor
    · intro g2
      by_cases hg2 : g2 = g
      · subst hg2
        simp only [set_group_same]
        refine ⟨?_, ?_, ?_⟩
        · show 0 ≤ (r1.1.group g2).children_
          rw [hg, c1]
        · show (r1.1.group g2).children_ ≤ (([] : List Nat).length : Int)
          rw [hg, c1]
          simp
        · intro hpos
          have : (r1.1.group g2).children_ = 0 := by rw [hg, c1]
          have hpos2 : 0 < (r1.1.group g2).children_ := hpos
          omega
      · rw [set_group_other _ _ _ _ hg2, hoth g2 hg2]
        exact hJ.1 g2
    · intro w g2 hw
      have hw1 : (r1.1.widget w).parent_ = some g2 := hw
      have hw2 : (s.widget w).parent_ = some g2 := by
        rcases p1 w with e | e
        · rw [clear_reset_widget] at e
          have e2 : (r1.1.widget w).parent_ = (s.widget w).parent_ := e
          rw [← e2]; exact hw1
        · rw [e] at hw1; cases hw1
      obtain ⟨j, j0, j1, j2⟩ := hJ.2 w g2 hw2
      by_cases hg2 : g2 = g
      · subst hg2
        have := p2 j w j0 (by rw [hcnt0]; exact j1) (by rw [harr0]; exact j2)
        rw [this] at hw1
        cases hw1
      · refine ⟨j, j0, ?_, ?_⟩
        · rw [set_group_other _ _ _ _ hg2, hoth g2 hg2]; exact j1
        · unfold Fl_Group.child
          rw [set_group_other _ _ _ _ hg2, hoth g2 hg2]
          exact j2
  · cases hr2
    exact listed_init_sizes s g hJ

theorem listed_sizes (s s1 : Heap) (g : Nat) (p : List Int) (hJ : s.listed)
    (h : Fl_Group.sizes s g = some (s1, p)) : s1.listed := by
  unfold Fl_Group.sizes at h
  split at h
  · cases h; exact hJ
  · obtain ⟨q, _, h2⟩ := Option.bind_eq_some.mp h
    cases h2
    refine listed_frame s _ hJ ?_ ?_
    · intro a
      rfl
    intro g2
    by_cases hg : g2 = g
    · subst hg
      simp
    · rw [set_group_other _ _ _ _ hg]
      exact ⟨rfl, rfl⟩

theorem layout_loop_parent (arr : List Nat) (e : Int) (sz : List Int)
    (dw dh IX IR IY IB : Int) (k : Nat) : ∀ (a p : Int) (s s1 : Heap),
    Fl_Group.layout_loop arr e sz dw dh IX IR IY IB k a p s = some s1 →
    ∀ w, (s1.widget w).parent_ = (s.widget w).parent_ := by
  induction k with
  | zero =>
    intro a p s s1 h w
    simp only [Fl_Group.layout_loop] at h
    split at h
    · cases h
    · cases h; rfl
  | succ k ih =>
    intro a p s s1 h w
    simp only [Fl_Group.layout_loop] at h
    split at h
    · obtain ⟨o, _, h⟩ := Option.bind_eq_some.mp h
      obtain ⟨r, _, h⟩ := Option.bind_eq_some.mp h
      rw [ih _ _ _ _ h w]
      simp only [Fl_Widget.layout]
      rw [resize_widget]
      by_cases hw : w = o
      · subst hw; simp
      · simp [hw]
    · cases h; rfl

theorem listed_set_old_size (s : Heap) (g : Nat) (hJ : s.listed) :
    (Fl_Group.set_old_size s g).listed := by
  obtain ⟨_, q2, q3, _, _, _, q7⟩ := set_old_size_fields s g
  refine listed_frame s (Fl_Group.set_old_size s g) hJ (fun a => by rw [q7]) ?_
  intro g2
  by_cases hg : g2 = g
  · subst hg
    exact ⟨q3, q2⟩
  · have : (Fl_Group.set_old_size s g).group g2 = s.group g2 := by
      unfold Fl_Group.set_old_size
      rw [set_group_other _ _ _ _ hg]
    rw [this]
    exact ⟨rfl, rfl⟩

theorem listed_layout (s s1 : Heap) (g : Nat) (hJ : s.listed)
    (h : Fl_Group.layout s g = some s1) : s1.listed := by
  unfold Fl_Group.layout at h
  obtain ⟨s2, h2, hr2⟩ := Option.bind_eq_some.mp h
  cases hr2
  apply listed_set_old_size
  show s2.listed
  split at h2
  · split at h2
    · rw [layout_children_eq _ _ _ _ _ _ h2]; exact hJ
    · cases h2; exact hJ
  · split at h2
    · obtain ⟨sp, hsz, h2⟩ := Option.bind_eq_some.mp h2
      obtain ⟨p0, _, h2⟩ := Option.bind_eq_some.mp h2
      obtain ⟨p1, _, h2⟩ := Option.bind_eq_some.mp h2
      obtain ⟨p2, _, h2⟩ := Option.bind_eq_some.mp h2
      obtain ⟨p3, _, h2⟩ := Option.bind_eq_some.mp h2
      obtain ⟨IX, _, h2⟩ := Option.bind_eq_some.mp h2
      obtain ⟨IR, _, h2⟩ := Option.bind_eq_some.mp h2
      obtain ⟨IY, _, h2⟩ := Option.bind_eq_some.mp h2
      obtain ⟨IB, _, h2⟩ := Option.bind_eq_some.mp h2
      have hg := layout_loop_group _ _ _ _ _ _ _ _ _ _ _ _ _ _ h2
      have hw := layout_loop_parent _ _ _ _ _ _ _ _ _ _ _ _ _ _ h2
      exact listed_frame sp.1 s2 (listed_sizes s sp.1 g sp.2 hJ hsz) hw
        (fun g2 => by rw [hg]; exact ⟨rfl, rfl⟩)
    · cases h2; exact hJ

theorem listed_handle (fuel : Nat) (kids : Children) (s s1 : Heap) (fl fl1 : Fl) (g : Nat)
    (event : Fl_Event) (r : Int) (hJ : s.listed)
    (h : Fl_Group.handle fuel kids s fl g event = some (s1, fl1, r)) : s1.listed := by
  rcases handle_heap fuel kids s s1 fl fl1 g event r h with rfl | ⟨_, _, _, _, n, _, rfl⟩
  · exact hJ
  · refine listed_frame s _ hJ ?_ ?_
    · intro a
      rfl
    intro g2
    by_cases hg : g2 = g
    · subst hg
      simp
    · rw [set_group_other _ _ _ _ hg]
      exact ⟨rfl, rfl⟩

/-- In every heap in use the child arrays are within their capacity and every widget
is listed in the group its parent reference names. -/
theorem in_use_listed (s : Heap) (hs : s.in_use) : s.listed := by
  induction hs with
  | init s hc hp =>
    refine ⟨constructed_cap_ok s hc, ?_⟩
    intro a g ha
    rw [hp a] at ha
    cases ha
  | insert fuel s s1 g o index _ h0 h1 hr ih => exact listed_insert fuel s s1 g o index ih h0 h1 hr
  | add fuel s s1 g o _ hr ih =>
    exact listed_insert fuel s s1 g o _ ih (ih.1 g).1 (le_refl _) hr
  | remove s s1 g index _ h0 hr ih => exact listed_remove s s1 g index ih h0 hr
  | replace fuel s s1 g index o _ h0 hr ih => exact listed_replace fuel s s1 g index o ih h0 hr
  | clear s s1 g _ hr ih => exact listed_clear s s1 g ih hr
  | init_sizes s g _ ih => exact listed_init_sizes s g ih
  | sizes s s1 g p _ hr ih => exact listed_sizes s s1 g p ih hr
  | layout s s1 g _ hr ih => exact listed_layout s s1 g ih hr
  | handle fuel kids s s1 fl fl1 g event r _ hr ih =>
    exact listed_handle fuel kids s s1 fl fl1 g event r ih hr

/-- The heaps in use are reachable heaps. -/
theorem in_use_reachable (s : Heap) (hs : s.in_use) : s.reachable := by
  induction hs with
  | init s hc _ => exact Heap.reachable.init s hc
  | insert fuel s s1 g o index _ _ _ hr ih =>
    exact Heap.reachable.next s s1 ih (Fl_Group.step.insert fuel s s1 g o index hr)
  | add fuel s s1 g o _ hr ih =>
    exact Heap.reachable.next s s1 ih (Fl_Group.step.add fuel s s1 g o hr)
  | remove s s1 g index _ _ hr ih =>
    exact Heap.reachable.next s s1 ih (Fl_Group.step.remove s s1 g index hr)
  | replace fuel s s1 g index o _ _ hr ih =>
    exact Heap.reachable.next s s1 ih (Fl_Group.step.replace fuel s s1 g index o hr)
  | clear s s1 g _ hr ih => exact Heap.reachable.next s s1 ih (Fl_Group.step.clear s s1 g hr)
  | init_sizes s g _ ih =>
    exact Heap.reachable.next s _ ih (Fl_Group.step.init_sizes s g)
  | sizes s s1 g p _ hr ih =>
    exact Heap.reachable.next s s1 ih (Fl_Group.step.sizes s s1 g p hr)
  | layout s s1 g _ hr ih => exact Heap.reachable.next s s1 ih (Fl_Group.step.layout s s1 g hr)
  | handle fuel kids s s1 fl fl1 g event r _ hr ih =>
    exact Heap.reachable.next s s1 ih (Fl_Group.step.handle fuel kids s s1 fl fl1 g event r hr)

/-- The upward walk of `find` stops where the walk of `contains` passes: when a widget
other than the group is contained in the group, `find` reaches a widget on its parent
chain whose parent is the group. -/
theorem find_up_of_contains (s : Heap) (g : Nat) : ∀ (fuel : Nat) (w : Nat), w ≠ g →
    Fl_Widget.contains s g fuel (some w) = some true →
    ∃ a, Fl_Group.find_up s g fuel (some w) = some (some a) ∧
      (s.widget a).parent_ = some g ∧ s.on_chain w a := by
  intro fuel
  induction fuel with
  | zero =>
    intro w _ h
    simp [Fl_Widget.contains] at h
  | succ f ih =>
    intro w hw h
    simp only [Fl_Widget.contains, hw, if_false] at h
    cases hp : (s.widget w).parent_ with
    | none =>
      rw [hp] at h
      cases f with
      | zero => simp [Fl_Widget.contains] at h
      | succ f2 => simp [Fl_Widget.contains] at h
    | some p =>
      rw [hp] at h
      by_cases hpg : p = g
      · subst hpg
        exact ⟨w, by simp [Fl_Group.find_up, hp], hp, ⟨0, rfl⟩⟩
      · obtain ⟨a, ha, hpa, k, hk⟩ := ih p hpg h
        refine ⟨a, ?_, hpa, ⟨k + 1, ?_⟩⟩
        · have hne : ¬ ((s.widget w).parent_ = some g) := by
            rw [hp]
            intro he
            cases he
            exact hpg rfl
          simp only [Fl_Group.find_up, hne, if_false]
          rw [hp]
          exact ha
        · have e : s.ancestor (k + 1) (some w) = s.ancestor k (s.widget w).parent_ := rfl
          rw [e, hp]
          exact hk

/-- The event `FL_FOCUS` for a focus widget inside the group, other than the group: when
the group lists every widget that names it as parent, `handle()` returns `1` and
stores an index below the child count, at which a widget on the parent chain of the
focus widget is listed. -/
theorem focus_event_listed (kids : Children) (s : Heap) (fl : Fl) (g w : Nat) (fuel : Nat)
    (hcap : (s.group g).cap_ok)
    (hlist : ∀ a, (s.widget a).parent_ = some g →
      ∃ j, 0 ≤ j ∧ j < (s.group g).children_ ∧ Fl_Group.child s g j = some a)
    (hfocus : fl.focus_ = some w) (hne : w ≠ g)
    (hin : Fl_Widget.contains s g fuel (some w) = some true) :
    ∃ n a, 0 ≤ n ∧ n < (s.group g).children_ ∧ Fl_Group.child s g n = some a ∧
      (s.widget a).parent_ = some g ∧ s.on_chain w a ∧
      Fl_Group.handle fuel kids s fl g Fl_Event.FL_FOCUS
        = some (s.set_group g { s.group g with focus_ := n }, fl, 1) := by
  obtain ⟨a, hup, hpa, hch⟩ := find_up_of_contains s g fuel w hne hin
  obtain ⟨r, hr, hcase⟩ := find_scan_spec (s.group g).array_ a (s.group g).children_
    (s.group g).children_.toNat (s.group g).children_ (by have := hcap.1; omega) hcap.2.1
  have hfind : Fl_Group.find fuel s g (some w) = some r := by
    simp [Fl_Group.find, hup, hr]
  rcases hcase with ⟨h1, h2, h3, _⟩ | ⟨_, h2⟩
  · refine ⟨r, a, h1, h2, h3, hpa, hch, ?_⟩
    simp [Fl_Group.handle, hfocus, hin, hfind]
  · obtain ⟨j, j0, j1, j2⟩ := hlist a hpa
    exact absurd j2 (h2 j j0 j1)

theorem run_3_in_use : run_3.in_use :=
  Heap.in_use.add 1 run_2 run_3 1 4
    (Heap.in_use.add 1 run_1 run_2 1 3
      (Heap.in_use.add 1 fresh_heap run_1 1 2
        (Heap.in_use.init fresh_heap fresh_heap_constructed (fun _ => rfl)) rfl) rfl) rfl

/-- C6 (amended): what the code keeps of the focus index.  In every heap reachable from
freshly constructed groups by `insert`, `add`, `remove`, `replace`, `clear`,
`init_sizes`, `sizes`, `layout` and `handle` calls, `focus_` of every group is not
negative (and neither is the child count).  `remove(index)` leaves `focus_` as it was,
whatever the new child count.  In every heap in use (reached from freshly constructed
objects, no widget having a parent, by these calls with `0 <= index <= children_` for
`insert` and `0 <= index` for `remove` and `replace`), `handle(FL_FOCUS)` for a focus
widget that the group contains and that is not the group itself returns `1` and stores
an index below the child count, an index at which a widget is listed that has the
group as its parent and is the focus widget or one of its ancestors, changing nothing
else.  In a well-formed tree that index is the index `i` of the one child that is the
focus widget or an ancestor of it, and the call returns for every sufficient fuel. -/
theorem focus_index_nonneg_and_focus_event :
    (∀ s : Heap, s.reachable → ∀ g, 0 ≤ (s.group g).focus_ ∧ 0 ≤ (s.group g).children_) ∧
    (∀ (s s1 : Heap) (g : Nat) (index : Int), Fl_Group.remove s g index = some s1 →
      ∀ g2, (s1.group g2).focus_ = (s.group g2).focus_) ∧
    (∀ s : Heap, s.in_use → s.reachable ∧
      ∀ (kids : Children) (fl : Fl) (g w : Nat) (fuel : Nat),
        fl.focus_ = some w → w ≠ g → Fl_Widget.contains s g fuel (some w) = some true →
        ∃ n a, 0 ≤ n ∧ n < (s.group g).children_ ∧ Fl_Group.child s g n = some a ∧
          (s.widget a).parent_ = some g ∧ s.on_chain w a ∧
          Fl_Group.handle fuel kids s fl g Fl_Event.FL_FOCUS
            = some (s.set_group g { s.group g with focus_ := n }, fl, 1)) ∧
    (∀ (kids : Children) (s : Heap) (fl : Fl) (g w : Nat) (i : Int) (a : Nat),
      s.tree_ok → (s.group g).cap_ok → fl.focus_ = some w →
      0 ≤ i → i < (s.group g).children_ → Fl_Group.child s g i = some a → s.on_chain w a →
      ∃ fuel0, ∀ fuel, fuel0 ≤ fuel →
        Fl_Group.handle fuel kids s fl g Fl_Event.FL_FOCUS
          = some (s.set_group g { s.group g with focus_ := i }, fl, 1)) := by
  refine ⟨?_, ?_, ?_, ?_⟩
  · intro s hs g
    have h := inv_reachable s hs g
    exact ⟨h.2.1, h.1⟩
  · intro s s1 g index h g2
    exact remove_keeps_focus s s1 g index h g2
  · intro s hs
    refine ⟨in_use_reachable s hs, ?_⟩
    intro kids fl g w fuel hfocus hne hin
    have hl := in_use_listed s hs
    exact focus_event_listed kids s fl g w fuel (hl.1 g) (fun a ha => hl.2 a g ha) hfocus hne
      hin
  · intro kids s fl g w i a hwf hcap hfocus hi0 hi1 hia hca
    obtain ⟨f1, hf1⟩ := find_listed_ancestor s g w i a hwf hcap hi0 hi1 hia hca
    obtain ⟨ka, hka⟩ := hca
    have hg : s.ancestor (ka + 1) (some w) = some g := by
      rw [ancestor_succ, hka]
      exact hwf.listed_parent g i a hi0 hi1 hia
    refine ⟨max f1 (ka + 2), ?_⟩
    intro fuel hfuel
    have hc := contains_of_chain s g (ka + 1) (some w) hg fuel (by omega)
    have hf := hf1 fuel (by omega)
    simp [Fl_Group.handle, hfocus, hc, hf]

/-- Witness of `focus_index_nonneg_and_focus_event`: the reachable heap `run_5`; the
call `remove(2)` that leads from `run_4` to it; the `FL_FOCUS` event for widget `4` in
group `1` of the heap `run_3`, which is in use; and the `FL_FOCUS` event for widget `3`
in group `1` of `three_children`. -/
theorem focus_index_nonneg_and_focus_event_witness :
    (0 ≤ (run_5.group 1).focus_ ∧ 0 ≤ (run_5.group 1).children_) ∧
    (run_5.group 1).focus_ = (run_4.group 1).focus_ ∧
    (run_3.in_use ∧ focus_on_4.focus_ = some 4 ∧
      Fl_Widget.contains run_3 1 2 (some 4) = some true ∧
      ∃ n a, 0 ≤ n ∧ n < (run_3.group 1).children_ ∧ Fl_Group.child run_3 1 n = some a ∧
        Fl_Group.handle 2 quiet_children run_3 focus_on_4 1 Fl_Event.FL_FOCUS
          = some (run_3.set_group 1 { run_3.group 1 with focus_ := n }, focus_on_4, 1)) ∧
    (∃ fuel0, ∀ fuel, fuel0 ≤ fuel →
      Fl_Group.handle fuel quiet_children three_children
          { focus_on_4 with focus_ := some 3 } 1 Fl_Event.FL_FOCUS
        = some (three_children.set_group 1 { three_children.group 1 with focus_ := 1 },
            { focus_on_4 with focus_ := some 3 }, 1)) :=
  ⟨focus_index_nonneg_and_focus_event.1 run_5 run_5_reachable 1,
   focus_index_nonneg_and_focus_event.2.1 run_4 run_5 1 2 rfl 1,
   ⟨run_3_in_use, rfl, rfl,
    match (focus_index_nonneg_and_focus_event.2.2.1 run_3 run_3_in_use).2 quiet_children
        focus_on_4 1 4 2 rfl (by decide) rfl with
    | ⟨n, a, h1, h2, h3, _, _, h4⟩ => ⟨n, a, h1, h2, h3, h4⟩⟩,
   focus_index_nonneg_and_focus_event.2.2.2 quiet_children three_children
     { focus_on_4 with focus_ := some 3 } 1 3 1 3 three_children_tree_ok
     three_children_cap_ok rfl (by decide) (by decide) rfl ⟨0, rfl⟩⟩

end Fltk
